import Mathlib

/-! # 16-QAM receiver: symbol-to-frame pipeline

A shallow embedding of the receiver sources

* `receiver/src/decoder/phil_karn_viterbi_decoder.{h,cpp}` (namespace `Vit`),
* `receiver/src/constellation.cpp` (namespace `Constellation`),
* `receiver/src/decoder/preamble_detector.cpp` (namespace `Detector`),
* `receiver/src/frame_synchroniser.h` (namespace `Sync`),

followed by theorems about them.

Conventions of the embedding.

* A C array is a total function from the index to the element; a store is `write`.
  Memory that the program has not initialised is an arbitrary function.
* `int` arithmetic is arithmetic on `Int` (signed overflow is undefined in the source
  language and is not modelled).  Narrowing an `int` to `int16_t` or `uint8_t`, and all
  arithmetic on unsigned types, wraps modulo the width and is written out
  (`to_int16`, `to_uint8`).
* A loop `for (i = 0; i < n; i++)` over an `int` counter is a left fold over
  `List.range n`.  The demapper scans count with a `uint8_t`, which can wrap before the
  bound is reached; they are a recursion on a fuel argument and return `none` when the
  fuel runs out.
* `float` is an arbitrary linearly ordered field `F` (exact arithmetic: no rounding, no
  NaN); `INFINITY` is the `none` of `Option F`.  The functions of `<cmath>` are parameters.
  The constellation and the demapper scans are given a second time in single precision
  (the type `float`, namespace `Single`): IEEE 754 binary32 with rounding to nearest, ties
  to even, gradual underflow, infinities and NaN.
* Classes the sources use but do not contain (`PreambleFilter`, `AdditiveScrambler`,
  `ViterbiDecoder`, `CRC8_Calculator`, `ConstellationSpecification`, the table
  `QAM_Constellation`) are parameters: a structure of their operations.
-/

/-- Store `v` at index `i` of the array `a`. -/
def write {ι α : Type} [DecidableEq ι] (a : ι → α) (i : ι) (v : α) : ι → α :=
  fun k => if k = i then v else a k

/-- Conversion of an `int` to `int16_t` (two's complement wrap). -/
def to_int16 (x : Int) : Int := (x + 32768) % 65536 - 32768

/-- Conversion of a non-negative `int` to `uint8_t`. -/
def to_uint8 (x : Nat) : Nat := x % 256

namespace Vit

def CONSTRAINT_LENGTH : Nat := 3
def CODE_RATE : Nat := 2
def DECISIONTYPE_BITSIZE : Nat := 8
def METRICSHIFT : Nat := 0
def PRECISIONSHIFT : Nat := 0
def SHRT_MAX : Int := 32767
def RENORMALIZE_THRESHOLD : Int := SHRT_MAX - 3000
def INITIAL_START_ERROR : Int := 0
def INITIAL_NON_START_ERROR : Int := 0 + 3000
def K : Nat := CONSTRAINT_LENGTH
def NUMSTATES : Nat := 1 <<< (K - 1)

/-- Arithmetic right shift `x >> n` of a signed value. -/
def asr (x : Int) (n : Nat) : Int := x / 2 ^ n

/-- `CreateParityTable`: entry `i` is the XOR of the eight bits of `i`. -/
def CreateParityTable : Nat → Nat := fun i =>
  ((List.range 8).foldl
    (fun (st : Nat × Nat) _ => (to_uint8 (st.1 ^^^ (st.2 &&& 1)), st.2 >>> 1))
    (0, to_uint8 i)).1

def ParityTable : Nat → Nat := CreateParityTable

/-- `parityb(const uint8_t x)`: the argument is narrowed to eight bits. -/
def parityb (x : Nat) : Nat := ParityTable (to_uint8 x)

/-- `parity(uint32_t x)`: fold down to one byte, then look the byte up. -/
def parity (x : Nat) : Nat :=
  let x := x % 2 ^ 32
  let x := x ^^^ (x >>> 16)
  let x := x ^^^ (x >>> 8)
  parityb x

/-- The two `metric_t` buffers a `metric_t*` of the decoder can point to. -/
inductive metric_ptr where
  | metrics1
  | metrics2
  deriving DecidableEq

/-- The decoder instance `struct vitdec_t`.  `decisions t b` is `decisions[t].buf[b]`,
`BranchTable j i` is `BranchTable[j].buf[i]`. -/
structure vitdec_t where
  metrics1 : Nat → Int
  metrics2 : Nat → Int
  BranchTable : Nat → Nat → Int
  old_metrics : metric_ptr
  new_metrics : metric_ptr
  decisions : Nat → Nat → Nat
  maximum_decoded_bits : Nat
  curr_decoded_bit : Nat
  soft_decision_max_error : Int

/-- Read through a metric pointer: `p->buf`. -/
def buf (vp : vitdec_t) : metric_ptr → Nat → Int
  | .metrics1 => vp.metrics1
  | .metrics2 => vp.metrics2

/-- Store through a metric pointer: `p->buf[i] = v`. -/
def set_buf (vp : vitdec_t) (p : metric_ptr) (i : Nat) (v : Int) : vitdec_t :=
  match p with
  | .metrics1 => { vp with metrics1 := write vp.metrics1 i v }
  | .metrics2 => { vp with metrics2 := write vp.metrics2 i v }

/-- `renormalize(x, threshold)` on the array `x` of `NUMSTATES` metrics. -/
def renormalize (x : Nat → Int) (threshold : Int) : Nat → Int :=
  if x 0 > threshold then
    let min := (List.range NUMSTATES).foldl (fun min i => if min > x i then x i else min) (x 0)
    (List.range NUMSTATES).foldl (fun x i => write x i (to_int16 (x i - min))) x
  else x

/-- `init_viterbi(vp, starting_state)`.  The index `starting_state & (NUMSTATES-1)` of an
`int` in two-complement form, `NUMSTATES` being a power of two, is the non-negative remainder of
`starting_state` modulo `NUMSTATES`. -/
def init_viterbi (vp : vitdec_t) (starting_state : Int) : vitdec_t :=
  let vp := (List.range NUMSTATES).foldl
    (fun vp i => { vp with metrics1 := write vp.metrics1 i INITIAL_NON_START_ERROR }) vp
  let vp := { vp with old_metrics := .metrics1, new_metrics := .metrics2 }
  let vp := set_buf vp vp.old_metrics (starting_state % (NUMSTATES : Int)).toNat INITIAL_START_ERROR
  let N := vp.curr_decoded_bit
  let vp := { vp with decisions := fun t => if t < N then fun _ => 0 else vp.decisions t }
  { vp with curr_decoded_bit := 0 }

/-- `create_viterbi(polys, len, soft_decision_high, soft_decision_low)`; `raw` is the
freshly allocated, uninitialised instance. -/
def create_viterbi (polys : Nat → Nat) (len : Nat) (soft_decision_high soft_decision_low : Int)
    (raw : vitdec_t) : vitdec_t :=
  let vp := raw
  let nb_padding_bits := K - 1
  let nb_max_input_bits := len + nb_padding_bits
  let vp := { vp with maximum_decoded_bits := nb_max_input_bits }
  let vp := { vp with curr_decoded_bit := vp.maximum_decoded_bits }
  let vp := (List.range (NUMSTATES / 2)).foldl (fun vp state =>
    (List.range CODE_RATE).foldl (fun vp i =>
      let v := parity ((state <<< 1) &&& polys i)
      let entry := if v ≠ 0 then soft_decision_high else soft_decision_low
      { vp with BranchTable := write vp.BranchTable i (write (vp.BranchTable i) state entry) })
      vp) vp
  let vp := { vp with soft_decision_max_error := to_int16 (soft_decision_high - soft_decision_low) }
  init_viterbi vp 0

/-- `get_error_viterbi(vp, state)` for a non-negative `state`. -/
def get_error_viterbi (vp : vitdec_t) (state : Nat) : Int :=
  buf vp vp.old_metrics (state % NUMSTATES)

/-- One iteration of the traceback loop of `chainback_viterbi`, for bit index `i`; the loop
state is the output array and `curr_state`, and `d` is the offset of the pointer `d` into
`vp->decisions`. -/
def chainback_step (vp : vitdec_t) (d : Nat) (st : (Nat → Nat) × Nat) (i : Nat) :
    (Nat → Nat) × Nat :=
  let data := st.1
  let curr_state := st.2
  let input := to_uint8 ((vp.decisions (d + i) 0 >>> curr_state) &&& 1)
  let curr_state := (curr_state >>> 1) ||| (input <<< (K - 2))
  (write data (i / 8) (to_uint8 (data (i / 8) ||| (input <<< (7 - i % 8)))), curr_state)

/-- `chainback_viterbi(vp, data, nbits, endstate)`; returns the output array `data`.  The
loop `for (int i = nbits-1; i >= 0; i--)` is a fold over the reversed range. -/
def chainback_viterbi (vp : vitdec_t) (data : Nat → Nat) (nbits : Nat) (endstate : Nat) :
    Nat → Nat :=
  let d := K - 1
  let nbytes := nbits / 8
  let data := (List.range nbytes).foldl (fun data i => write data i 0x00) data
  let curr_state := endstate % NUMSTATES
  ((List.range nbits).reverse.foldl (chainback_step vp d) (data, curr_state)).1

/-- The branch metric of `BFLY`: the loop over the `CODE_RATE` soft values of symbol `s`
that accumulates the local `metric`, and the final `metric >> PRECISIONSHIFT`. -/
def BFLY_metric (i s : Nat) (syms : Nat → Int) (vp : vitdec_t) : Int :=
  let metric := (List.range CODE_RATE).foldl (fun metric j =>
      let sym := syms (s * CODE_RATE + j)
      let error := to_int16 (vp.BranchTable j i - sym)
      let error := to_int16 (if error > 0 then error else -error)
      to_int16 (metric + asr error METRICSHIFT)) 0
  to_int16 (asr metric PRECISIONSHIFT)

/-- The local `max` of `BFLY`. -/
def BFLY_max (vp : vitdec_t) : Int :=
  to_int16 (asr (CODE_RATE * asr vp.soft_decision_max_error METRICSHIFT) PRECISIONSHIFT)

/-- The C-language butterfly `BFLY(i, s, syms, vp, d)`; `d` is the index of the decision
slot the pointer `d` refers to. -/
def BFLY (i s : Nat) (syms : Nat → Int) (vp : vitdec_t) (d : Nat) : vitdec_t :=
  let metric := BFLY_metric i s syms vp
  let max := BFLY_max vp
  let m0 := to_int16 (buf vp vp.old_metrics i + metric)
  let m1 := to_int16 (buf vp vp.old_metrics (i + NUMSTATES / 2) + (max - metric))
  let m2 := to_int16 (buf vp vp.old_metrics i + (max - metric))
  let m3 := to_int16 (buf vp vp.old_metrics (i + NUMSTATES / 2) + metric)
  let decision0 : Nat := if m0 - m1 > 0 then 1 else 0
  let decision1 : Nat := if m2 - m3 > 0 then 1 else 0
  let vp := set_buf vp vp.new_metrics (2 * i) (if decision0 ≠ 0 then m1 else m0)
  let vp := set_buf vp vp.new_metrics (2 * i + 1) (if decision1 ≠ 0 then m3 else m2)
  let decisions := to_uint8 (decision0 ||| (decision1 <<< 1))
  let nb_decision_bits := 2
  let buf_type_bits := DECISIONTYPE_BITSIZE
  let curr_bit := nb_decision_bits * i
  let curr_buf_index := curr_bit / buf_type_bits
  let curr_buf_bit := curr_bit % buf_type_bits
  let slot := to_uint8 (vp.decisions d curr_buf_index ||| (decisions <<< curr_buf_bit))
  { vp with decisions := write vp.decisions d (write (vp.decisions d) curr_buf_index slot) }

/-- One iteration of the symbol loop of `update_viterbi_blk_scalar`: the loop state is the
decoder and the decision pointer `d`. -/
def update_step (syms : Nat → Int) (st : vitdec_t × Nat) (s : Nat) : vitdec_t × Nat :=
  let vp := st.1
  let d := st.2
  let vp := (List.range (NUMSTATES / 2)).foldl (fun vp i => BFLY i s syms vp d) vp
  let vp := match vp.new_metrics with
    | .metrics1 => { vp with metrics1 := renormalize vp.metrics1 RENORMALIZE_THRESHOLD }
    | .metrics2 => { vp with metrics2 := renormalize vp.metrics2 RENORMALIZE_THRESHOLD }
  let d := d + 1
  let vp := { vp with curr_decoded_bit := vp.curr_decoded_bit + 1 }
  let tmp := vp.old_metrics
  let vp := { vp with old_metrics := vp.new_metrics }
  let vp := { vp with new_metrics := tmp }
  (vp, d)

/-- `update_viterbi_blk_scalar(vp, syms, nbits)`. -/
def update_viterbi_blk_scalar (vp : vitdec_t) (syms : Nat → Int) (nbits : Int) : vitdec_t :=
  ((List.range nbits.toNat).foldl (update_step syms) (vp, vp.curr_decoded_bit)).1

/-- Modelled from the spec: the transmitter's convolutional encoder, which is not among
the sources.  Rate 1/`CODE_RATE`, constraint length `K`: each data bit is shifted into a
`K`-bit register `sr` and output `j` is the parity of `sr & polys[j]`. -/
def conv_encode (polys : Nat → Nat) : Nat → List Bool → List Bool
  | _, [] => []
  | sr, b :: bs =>
    let sr := ((sr <<< 1) ||| b.toNat) % 2 ^ K
    (List.range CODE_RATE).map (fun j => parity (sr &&& polys j) == 1) ++ conv_encode polys sr bs

/-- The noise-free soft symbol of an encoder output bit. -/
def soft_symbol (soft_low soft_high : Int) (b : Bool) : Int :=
  if b then soft_high else soft_low

/-- The symbol array handed to the decoder for a list of encoder output bits. -/
def soft_symbols (soft_low soft_high : Int) (bits : List Bool) : Nat → Int :=
  fun k => soft_symbol soft_low soft_high (bits.getD k false)

/-- Byte `k` of a bit list packed most significant bit first. -/
def pack_msb (B : List Bool) (k : Nat) : Nat :=
  (List.range 8).foldl (fun acc j => 2 * acc + (B.getD (8 * k + j) false).toNat) 0

/-- An arbitrary content of uninitialised decoder memory. -/
def raw_example : vitdec_t :=
  { metrics1 := fun k => 17 * k, metrics2 := fun k => 5 - k, BranchTable := fun _ _ => 99,
    old_metrics := .metrics2, new_metrics := .metrics2, decisions := fun t b => (t + b + 1) % 256,
    maximum_decoded_bits := 7, curr_decoded_bit := 3, soft_decision_max_error := -4 }

/-- Absolute value as the butterfly computes it. -/
def iabs (x : Int) : Int := if x > 0 then x else -x

/-- A decision bit of the butterfly: 1 when the first candidate is strictly larger. -/
def dec_bits (x y : Int) : Nat := if x - y > 0 then 1 else 0

/-- The survivor of two candidate metrics: the second one only when strictly smaller. -/
def sel (x y : Int) : Int := if x - y > 0 then y else x

/-- Encoder shift register after the first `t` bits of `bits`, starting from `sr`. -/
def sr_at : Nat → List Bool → Nat → Nat
  | sr, _, 0 => sr
  | sr, [], _ + 1 => sr
  | sr, b :: bs, t + 1 => sr_at (((sr <<< 1) ||| b.toNat) % 2 ^ K) bs t

/-- Encoder output for tap bit `a`, decoder state `s` and data bit `b`, when bits 0 and
`K - 1` of the polynomial are set. -/
def enc_out (a : Bool) (s : Nat) (b : Bool) : Bool :=
  xor (xor b (a && s % 2 == 1)) (decide (2 ≤ s))

/-- What the decoder knows while it tracks a noise-free frame whose encoder is in state `s`
after `t` symbols. -/
structure TrackInv (lo hi : Int) (a0 a1 : Bool) (vp : vitdec_t) (s t : Nat) : Prop where
  ptr : vp.old_metrics ≠ vp.new_metrics
  bt0 : vp.BranchTable 0 0 = lo ∧ vp.BranchTable 1 0 = lo
  bt1 : vp.BranchTable 0 1 = (if a0 then hi else lo) ∧ vp.BranchTable 1 1 = (if a1 then hi else lo)
  sdme : vp.soft_decision_max_error = hi - lo
  zero : buf vp vp.old_metrics s = 0
  rng : ∀ n < 4, 0 ≤ buf vp vp.old_metrics n ∧ buf vp vp.old_metrics n ≤ 3510
  close : ∀ n < 4, n / 2 = s / 2 → buf vp vp.old_metrics n ≤ 3000
  cur : vp.curr_decoded_bit = t
  clean : ∀ k, t ≤ k → k < vp.maximum_decoded_bits → vp.decisions k 0 = 0

/-- Decoder state of the encoder after `t` bits of `bits`, from register 0. -/
def st_at (bits : List Bool) (t : Nat) : Nat := sr_at 0 bits t % 4

end Vit

/-! ## Complex samples and the demapper scan -/

/-- The type `std::complex<float>`. -/
structure complex (F : Type) where
  re : F
  im : F

namespace complex

variable {F : Type} [LinearOrderedField F]

/-- Complex subtraction `a - b`. -/
def sub (a b : complex F) : complex F := ⟨a.re - b.re, a.im - b.im⟩

/-- Complex product `a * b`. -/
def mul (a b : complex F) : complex F :=
  ⟨a.re * b.re - a.im * b.im, a.re * b.im + a.im * b.re⟩

/-- Product `a * s` of a complex number and a `float`. -/
def scale (a : complex F) (s : F) : complex F := ⟨a.re * s, a.im * s⟩

/-- The magnitude `std::abs(a)`, with the square root `sqrtf` of `<cmath>`. -/
def abs (sqrtf : F → F) (a : complex F) : F := sqrtf (a.re * a.re + a.im * a.im)

end complex

/-- The comparison `err < min_err` of a finite `err` with a `min_err` that is `INFINITY`
(`none`) or finite, in exact arithmetic.  The comparison of two values of type `float`, which
can be infinite or NaN, is `float.lt`, and the scan on them is `nearest_scan_float`. -/
def lt_min_err {F : Type} [LinearOrderedField F] (err : F) : Option F → Bool
  | none => true
  | some m => decide (err < m)

/-- The scan `for (uint8_t i = 0; i < N; i++) { err = ...; if (err < min_err) { best_match = i;
min_err = err; } } return best_match;` shared by `SquareConstellation::GetNearestSymbol` and
`FrameSynchroniser::symbol_to_bits`.  `err i` is the distance computed for point `i`; the
arguments after the fuel are the loop state `i`, `best_match`, `min_err`. -/
def nearest_scan {F : Type} [LinearOrderedField F] (N : Int) (err : Nat → F) :
    Nat → Nat → Nat → Option F → Option Nat
  | 0, _, _, _ => none
  | fuel + 1, i, best_match, min_err =>
    if (i : Int) < N then
      if lt_min_err (err i) min_err then
        nearest_scan N err fuel (to_uint8 (i + 1)) i (some (err i))
      else
        nearest_scan N err fuel (to_uint8 (i + 1)) best_match min_err
    else some best_match

/-- `r` is the lowest index below `n` at which `err` is minimal. -/
def IsNearest {F : Type} [LinearOrderedField F] (err : Nat → F) (n r : Nat) : Prop :=
  r < n ∧ (∀ k < n, err r ≤ err k) ∧ ∀ k < r, err r < err k

namespace Constellation

variable {F : Type} [LinearOrderedField F]

/-- The members of `class SquareConstellation`. -/
structure SquareConstellation (F : Type) where
  L : Int
  N : Int
  C : Nat → complex F
  m_avg_power : F

/-- `SquareConstellation::CalculateAveragePower(C, N)`. -/
def CalculateAveragePower (C : Nat → complex F) (N : Int) : F :=
  let avg_power := (List.range N.toNat).foldl (fun avg_power i =>
    let x := C i
    let I := x.re
    let Q := x.im
    avg_power + (I * I + Q * Q)) 0
  avg_power / (N : F)

/-- The constructor `SquareConstellation::SquareConstellation(_L)`; `raw` is the content of
the freshly allocated array `C`. -/
def SquareConstellation.create (sqrtf : F → F) (_L : Int) (raw : Nat → complex F) :
    SquareConstellation F :=
  let L := _L
  let N := _L * _L
  let offset : F := ((L - 1 : Int) : F) / 2
  let scale : F := 1 / sqrtf 2 * 1 / offset * (1 / 2)
  let C := (List.range L.toNat).foldl (fun (C : Nat → complex F) (i : Nat) =>
    let I : F := 2 * ((i : F) - offset)
    (List.range L.toNat).foldl (fun (C : Nat → complex F) (j : Nat) =>
      let Q : F := 2 * ((j : F) - offset)
      let idx := (i : Int) * L + j
      let sym : complex F := ⟨I, Q⟩
      write C idx.toNat (sym.scale scale)) C) raw
  { L := L, N := N, C := C, m_avg_power := CalculateAveragePower C N }

/-- Point `(i, j)` of the grid of side `L`, as the constructor computes it. -/
def grid_point (sqrtf : F → F) (L : Int) (i j : Nat) : complex F :=
  let offset : F := ((L - 1 : Int) : F) / 2
  let scale : F := 1 / sqrtf 2 * 1 / offset * (1 / 2)
  (⟨2 * ((i : F) - offset), 2 * ((j : F) - offset)⟩ : complex F).scale scale

/-- `SquareConstellation::GetNearestSymbol(x)` in exact arithmetic, with fuel for the scan;
`Single.GetNearestSymbol` is the function in single precision. -/
def GetNearestSymbol (sqrtf : F → F) (c : SquareConstellation F) (x : complex F) (fuel : Nat) :
    Option Nat :=
  nearest_scan c.N (fun i => ((c.C i).sub x).abs sqrtf) fuel 0 0 none

end Constellation

/-! ## Interfaces of the classes that are not among the sources -/

/-- The operations of `PreambleFilter` (`preamble_filter.h`) on a filter state `PF`:
the constructor `VariablePreambleFilter<uint32_t>(_preamble)`, `process(sym, bits_per_symbol)`
and `get_length()`. -/
structure PreambleFilter (PF : Type) where
  create : Nat → PF
  process : PF → Nat → Int → PF × Bool
  get_length : PF → Int

/-- The abstract class `ConstellationSpecification` (`constellation.h`). -/
structure ConstellationSpecification (F : Type) where
  GetBitsPerSymbol : Int
  GetNearestSymbol : complex F → Nat

/-- The operations of `AdditiveScrambler` (`additive_scrambler.h`) on its state `SC`. -/
structure AdditiveScrambler (SC : Type) where
  create : Nat → SC
  process : SC → Nat → SC × Nat
  reset : SC → SC

/-- The operations of `ViterbiDecoder<encoder_decoder_type>` (`encoding.h`) on its state
`VD`.  `process self encoded enc_offset n_encoded decoded dec_offset n_decoded terminated`
stands for `process(&encoded[enc_offset], n_encoded, &decoded[dec_offset], n_decoded,
terminated)` and returns the decoder, the array `decoded` after the call and the returned
number of decoded bytes. -/
structure ViterbiDecoder (VD : Type) where
  create : Int → VD
  process : VD → (Int → Nat) → Int → Int → (Int → Nat) → Int → Int → Bool →
    VD × (Int → Nat) × Int
  get_curr_error : VD → Int
  reset : VD → VD

/-- The operations of `CRC8_Calculator` (`crc8.h`) on its state `CR`;
`process self buf offset n` stands for `process(&buf[offset], n)`. -/
structure CRC8_Calculator (CR : Type) where
  create : Nat → CR
  process : CR → (Int → Nat) → Int → Int → Nat

namespace Detector

variable {F PF : Type} [LinearOrderedField F]

/-- The members of `class PreambleDetector` that `Process` uses. -/
structure PreambleDetector (F PF : Type) where
  total_phases : Int
  preamble_filters : Nat → PF
  preamble_phases : Nat → complex F
  bits_since_preamble : Int
  selected_phase : Int
  phase_conflict : Bool
  desync_bitcount : Int

/-- One iteration of the phase loop of `PreambleDetector::Process`; the loop state is the
detector and `total_preambles_found`. -/
def Process_phase (pf : PreambleFilter PF) (IQ : complex F)
    (constellation : ConstellationSpecification F) (bits_per_symbol : Int)
    (st : PreambleDetector F PF × Int) (i : Nat) : PreambleDetector F PF × Int :=
  let d := st.1
  let total_preambles_found := st.2
  let IQ_phi := IQ.mul (d.preamble_phases i)
  let sym := constellation.GetNearestSymbol IQ_phi
  let r := pf.process (d.preamble_filters i) sym bits_per_symbol
  let d := { d with preamble_filters := write d.preamble_filters i r.1 }
  let res := r.2
  if !res then (d, total_preambles_found)
  else
    let d := { d with selected_phase := i }
    let total_preambles_found := total_preambles_found + 1
    let d := { d with
      desync_bitcount := d.bits_since_preamble - pf.get_length (d.preamble_filters i) }
    (d, total_preambles_found)

/-- `PreambleDetector::Process(IQ, constellation)`. -/
def Process (pf : PreambleFilter PF) (d : PreambleDetector F PF) (IQ : complex F)
    (constellation : ConstellationSpecification F) : PreambleDetector F PF × Bool :=
  let bits_per_symbol := constellation.GetBitsPerSymbol
  let d := { d with bits_since_preamble := d.bits_since_preamble + bits_per_symbol }
  let total_preambles_found : Int := 0
  let st := (List.range d.total_phases.toNat).foldl
    (Process_phase pf IQ constellation bits_per_symbol) (d, total_preambles_found)
  let d := st.1
  let total_preambles_found := st.2
  if total_preambles_found > 0 then
    let d := { d with phase_conflict := decide (total_preambles_found > 1) }
    let d := { d with bits_since_preamble := 0 }
    (d, true)
  else (d, false)

end Detector

namespace Sync

/-- `enum ProcessResult`. -/
inductive ProcessResult where
  | NONE
  | PREAMBLE_FOUND
  | BLOCK_SIZE_OK
  | BLOCK_SIZE_ERR
  | PAYLOAD_OK
  | PAYLOAD_ERR
  deriving DecidableEq

/-- `struct Payload`; `buf` is `none` for `NULL` and `some k` for `&decoded_buffer[k]`. -/
structure Payload where
  length : Nat
  buf : Option Int
  crc8_received : Nat
  crc8_calculated : Nat
  crc8_mismatch : Bool
  decoded_error : Int
  deriving DecidableEq

/-- `Payload::reset()`. -/
def Payload.reset (_p : Payload) : Payload :=
  { length := 0, buf := none, crc8_received := 0, crc8_calculated := 0,
    crc8_mismatch := false, decoded_error := -1 }

/-- `struct PreambleState`. -/
structure PreambleState where
  selected_phase : Int
  phase_conflict : Bool
  desync_bitcount : Int
  deriving DecidableEq

/-- `enum State`. -/
inductive State where
  | WAIT_PREAMBLE
  | WAIT_BLOCK_SIZE
  | WAIT_PAYLOAD
  deriving DecidableEq

/-- What `frame_synchroniser.h` takes from its includes: the classes of the members, the
functions of `<cmath>` and the table `QAM_Constellation` with its size. -/
structure Externals (F PF SC VD CR : Type) where
  filter : PreambleFilter PF
  scrambler : AdditiveScrambler SC
  viterbi : ViterbiDecoder VD
  crc8 : CRC8_Calculator CR
  cosf : F → F
  sinf : F → F
  sqrtf : F → F
  QAM_Constellation : Nat → complex F
  QAM_Constellation_Size : Int

/-- The data members of `class FrameSynchroniser`.  The constant member
`nb_bytes_for_block_size` is the definition below. -/
structure FrameSynchroniser (F PF SC VD CR : Type) where
  preamble_filters : Int → PF
  preamble_mixers : Int → complex F
  descrambler : SC
  vitdec : VD
  crc8_calc : CR
  nb_buffer : Int
  descramble_buffer : Int → Nat
  encoded_buffer : Int → Nat
  decoded_buffer : Int → Nat
  encoded_bits : Int
  encoded_bytes : Int
  decoded_bytes : Int
  decoded_block_size : Int
  encoded_block_size : Int
  state : State
  bits_since_preamble : Int
  payload : Payload
  preamble_state : PreambleState

/-- The member `const int nb_bytes_for_block_size = 16`. -/
def nb_bytes_for_block_size : Int := 16

variable {F PF SC VD CR : Type} [LinearOrderedField F]

/-- The constructor `FrameSynchroniser(_preamble, _scrambler_code, _crc8_poly, _buffer_size)`;
`raw` gives what the constructor leaves uninitialised (the three buffers and `payload`).
The three buffers are `new uint8_t[nb_buffer]`: arrays of `nb_buffer` elements for
`_buffer_size ≥ 0` (none for 0), which is the domain of this definition; for a negative size
the allocation throws.  The buffers are total functions here, and an index is inside a
buffer when it is at least 0 and below `nb_buffer`. -/
def FrameSynchroniser.create (E : Externals F PF SC VD CR) (_preamble _scrambler_code
    _crc8_poly : Nat) (_buffer_size : Int) (raw : FrameSynchroniser F PF SC VD CR) :
    FrameSynchroniser F PF SC VD CR :=
  let fs : FrameSynchroniser F PF SC VD CR :=
    { raw with
      descrambler := E.scrambler.create _scrambler_code
      vitdec := E.viterbi.create 25
      crc8_calc := E.crc8.create _crc8_poly
      nb_buffer := _buffer_size
      encoded_bits := 0
      encoded_bytes := 0
      decoded_bytes := 0
      decoded_block_size := 0
      encoded_block_size := 0
      bits_since_preamble := 0 }
  let total_phases : Nat := 4
  let PI_2 : F := (31415 / 10000) / 2
  let fs := (List.range total_phases).foldl (fun (fs : FrameSynchroniser F PF SC VD CR)
      (i : Nat) =>
    let fs := { fs with
      preamble_filters := write fs.preamble_filters (i : Int) (E.filter.create _preamble) }
    let mixer : complex F := ⟨E.cosf ((i : F) * PI_2), E.sinf ((i : F) * PI_2)⟩
    { fs with preamble_mixers := write fs.preamble_mixers (i : Int) mixer }) fs
  let fs := { fs with state := State.WAIT_PREAMBLE }
  let fs := { fs with preamble_state := { fs.preamble_state with desync_bitcount := 0 } }
  let fs := { fs with preamble_state := { fs.preamble_state with phase_conflict := false } }
  { fs with preamble_state := { fs.preamble_state with selected_phase := 0 } }

/-- `symbol_to_bits(IQ)` in exact arithmetic, with fuel for the scan over
`QAM_Constellation`; `Single.symbol_to_bits` is the function in single precision. -/
def symbol_to_bits (E : Externals F PF SC VD CR) (fuel : Nat) (IQ : complex F) : Option Nat :=
  nearest_scan E.QAM_Constellation_Size
    (fun i => ((E.QAM_Constellation i).sub IQ).abs E.sqrtf) fuel 0 0 none

/-- `reset_decoders()`. -/
def reset_decoders (E : Externals F PF SC VD CR) (fs : FrameSynchroniser F PF SC VD CR) :
    FrameSynchroniser F PF SC VD CR :=
  let fs := (List.range fs.decoded_bytes.toNat).foldl
    (fun (fs : FrameSynchroniser F PF SC VD CR) (i : Nat) =>
      { fs with decoded_buffer := write fs.decoded_buffer (i : Int) 0 }) fs
  let fs := { fs with encoded_bits := 0 }
  let fs := { fs with encoded_bytes := 0 }
  let fs := { fs with decoded_bytes := 0 }
  let fs := { fs with decoded_block_size := 0 }
  let fs := { fs with encoded_block_size := 0 }
  let fs := { fs with descrambler := E.scrambler.reset fs.descrambler }
  { fs with vitdec := E.viterbi.reset fs.vitdec }

/-- `process_decoder_symbol(IQ)`. -/
def process_decoder_symbol (E : Externals F PF SC VD CR) (fuel : Nat)
    (fs : FrameSynchroniser F PF SC VD CR) (IQ : complex F) :
    Option (FrameSynchroniser F PF SC VD CR) :=
  let IQ_phi := IQ.mul (fs.preamble_mixers fs.preamble_state.selected_phase)
  match symbol_to_bits E fuel IQ_phi with
  | none => none
  | some sym =>
    let fs := if fs.encoded_bits = 0 then
        { fs with descramble_buffer := write fs.descramble_buffer fs.encoded_bytes 0 }
      else fs
    let total_bits_per_symbol : Int := 4
    let packed := to_uint8 (fs.descramble_buffer fs.encoded_bytes |||
      (sym <<< (4 - fs.encoded_bits).toNat))
    let fs := { fs with descramble_buffer := write fs.descramble_buffer fs.encoded_bytes packed }
    let fs := { fs with encoded_bits := fs.encoded_bits + total_bits_per_symbol }
    if fs.encoded_bits = 8 then
      let fs := { fs with encoded_bits := 0 }
      let r := E.scrambler.process fs.descrambler (fs.descramble_buffer fs.encoded_bytes)
      let fs := { fs with descrambler := r.1 }
      let fs := { fs with encoded_buffer := write fs.encoded_buffer fs.encoded_bytes (to_uint8 r.2) }
      some { fs with encoded_bytes := fs.encoded_bytes + 1 }
    else some fs

/-- One iteration of the phase loop of `process_await_preamble`; the loop state is the
synchroniser and `total_preambles_found`. -/
def process_await_preamble_phase (E : Externals F PF SC VD CR) (fuel : Nat) (IQ : complex F)
    (bits_per_symbol : Int) (st : FrameSynchroniser F PF SC VD CR × Int) (i : Nat) :
    Option (FrameSynchroniser F PF SC VD CR × Int) :=
  let fs := st.1
  let total_preambles_found := st.2
  let IQ_phi := IQ.mul (fs.preamble_mixers (i : Int))
  match symbol_to_bits E fuel IQ_phi with
  | none => none
  | some sym =>
    let r := E.filter.process (fs.preamble_filters (i : Int)) sym bits_per_symbol
    let fs := { fs with preamble_filters := write fs.preamble_filters (i : Int) r.1 }
    let res := r.2
    if !res then some (fs, total_preambles_found)
    else
      let fs := { fs with preamble_state := { fs.preamble_state with selected_phase := i } }
      let total_preambles_found := total_preambles_found + 1
      let desync := fs.bits_since_preamble - E.filter.get_length (fs.preamble_filters (i : Int))
      let fs := { fs with preamble_state := { fs.preamble_state with desync_bitcount := desync } }
      some (fs, total_preambles_found)

/-- `process_await_preamble(IQ)`. -/
def process_await_preamble (E : Externals F PF SC VD CR) (fuel : Nat)
    (fs : FrameSynchroniser F PF SC VD CR) (IQ : complex F) :
    Option (FrameSynchroniser F PF SC VD CR × ProcessResult) :=
  let total_preambles_found : Int := 0
  let bits_per_symbol : Int := 4
  let total_phases : Nat := 4
  let fs := { fs with bits_since_preamble := fs.bits_since_preamble + bits_per_symbol }
  match (List.range total_phases).foldlM
      (process_await_preamble_phase E fuel IQ bits_per_symbol) (fs, total_preambles_found) with
  | none => none
  | some (fs, total_preambles_found) =>
    if total_preambles_found > 0 then
      let conflict := decide (total_preambles_found > 1)
      let fs := { fs with preamble_state := { fs.preamble_state with phase_conflict := conflict } }
      let fs := { fs with state := State.WAIT_BLOCK_SIZE }
      let fs := reset_decoders E fs
      let fs := { fs with payload := fs.payload.reset }
      some (fs, ProcessResult.PREAMBLE_FOUND)
    else some (fs, ProcessResult.NONE)

/-- The `uint16_t` read by `*reinterpret_cast<uint16_t*>(&buf[k])` (little endian). -/
def read_uint16 (buf : Int → Nat) (k : Int) : Nat :=
  to_uint8 (buf k) + 256 * to_uint8 (buf (k + 1))

/-- `process_await_block_size(IQ)`. -/
def process_await_block_size (E : Externals F PF SC VD CR) (fuel : Nat)
    (fs : FrameSynchroniser F PF SC VD CR) (IQ : complex F) :
    Option (FrameSynchroniser F PF SC VD CR × ProcessResult) :=
  match process_decoder_symbol E fuel fs IQ with
  | none => none
  | some fs =>
    let is_done := decide (fs.encoded_bytes ≥ nb_bytes_for_block_size) &&
      decide (fs.encoded_bits = 0)
    if !is_done then some (fs, ProcessResult.NONE)
    else
      let r := E.viterbi.process fs.vitdec fs.encoded_buffer 0 nb_bytes_for_block_size
        fs.decoded_buffer 0 (fs.nb_buffer - fs.decoded_bytes) false
      let fs := { fs with vitdec := r.1, decoded_buffer := r.2.1 }
      let fs := { fs with decoded_bytes := fs.decoded_bytes + r.2.2 }
      let rx_block_size : Nat := read_uint16 fs.decoded_buffer 0
      let fs := { fs with payload := { fs.payload with length := rx_block_size } }
      let frame_overhead : Int := 2 + 1 + 1
      let min_block_size : Int := nb_bytes_for_block_size.tdiv 2 - 3
      if (rx_block_size : Int) > fs.nb_buffer.tdiv 2 - frame_overhead ∨
          (rx_block_size : Int) < min_block_size then
        let fs := { fs with payload := { fs.payload with buf := none } }
        let fs := { fs with bits_since_preamble := 0 }
        let fs := { fs with state := State.WAIT_PREAMBLE }
        some (fs, ProcessResult.BLOCK_SIZE_ERR)
      else
        let fs := { fs with payload := { fs.payload with buf := none } }
        let fs := { fs with decoded_block_size := rx_block_size }
        let fs := { fs with encoded_block_size := 2 * (fs.decoded_block_size + frame_overhead) }
        let fs := { fs with state := State.WAIT_PAYLOAD }
        some (fs, ProcessResult.BLOCK_SIZE_OK)

/-- `process_await_payload(IQ)`. -/
def process_await_payload (E : Externals F PF SC VD CR) (fuel : Nat)
    (fs : FrameSynchroniser F PF SC VD CR) (IQ : complex F) :
    Option (FrameSynchroniser F PF SC VD CR × ProcessResult) :=
  match process_decoder_symbol E fuel fs IQ with
  | none => none
  | some fs =>
    let is_done := decide (fs.encoded_bytes ≥ fs.encoded_block_size) &&
      decide (fs.encoded_bits = 0)
    if !is_done then some (fs, ProcessResult.NONE)
    else
      let r := E.viterbi.process fs.vitdec fs.encoded_buffer nb_bytes_for_block_size
        (fs.encoded_block_size - nb_bytes_for_block_size)
        fs.decoded_buffer fs.decoded_bytes (fs.nb_buffer - fs.decoded_bytes) true
      let fs := { fs with vitdec := r.1, decoded_buffer := r.2.1 }
      let fs := { fs with decoded_bytes := fs.decoded_bytes + r.2.2 }
      let frame_length_field_size : Int := 2
      let crc8_length : Int := 1
      let trellis_terminator_length : Int := 1
      let payload_buf : Int := frame_length_field_size
      let crc8_true : Nat := to_uint8
        (fs.decoded_buffer (fs.decoded_bytes - (crc8_length + trellis_terminator_length)))
      let crc8_pred : Nat := to_uint8
        (E.crc8.process fs.crc8_calc fs.decoded_buffer payload_buf fs.decoded_block_size)
      let dist_err := E.viterbi.get_curr_error fs.vitdec
      let crc8_mismatch : Bool := decide (crc8_true ≠ crc8_pred)
      let fs := { fs with state := State.WAIT_PREAMBLE }
      let fs := { fs with bits_since_preamble := 0 }
      let fs := { fs with payload := { fs.payload with buf := some payload_buf } }
      let fs := { fs with payload := { fs.payload with crc8_calculated := crc8_pred } }
      let fs := { fs with payload := { fs.payload with crc8_received := crc8_true } }
      let fs := { fs with payload := { fs.payload with crc8_mismatch := crc8_mismatch } }
      let fs := { fs with payload := { fs.payload with decoded_error := dist_err } }
      if crc8_mismatch then some (fs, ProcessResult.PAYLOAD_ERR)
      else some (fs, ProcessResult.PAYLOAD_OK)

/-- `process(IQ)`: the synchroniser after the call and the returned result, or `none` when
the fuel of a demapper scan runs out. -/
def process (E : Externals F PF SC VD CR) (fuel : Nat) (fs : FrameSynchroniser F PF SC VD CR)
    (IQ : complex F) : Option (FrameSynchroniser F PF SC VD CR × ProcessResult) :=
  match fs.state with
  | State.WAIT_PREAMBLE => process_await_preamble E fuel fs IQ
  | State.WAIT_BLOCK_SIZE => process_await_block_size E fuel fs IQ
  | State.WAIT_PAYLOAD => process_await_payload E fuel fs IQ

/-- `get_state()`. -/
def get_state (fs : FrameSynchroniser F PF SC VD CR) : State := fs.state

/-- The first `n` calls `process(input[0])`, ..., `process(input[n-1])`: the synchroniser
after the last of them and, for every call in order, the result it returned and the state
it left the synchroniser in. -/
def trace (E : Externals F PF SC VD CR) (fuel : Nat) (fs : FrameSynchroniser F PF SC VD CR)
    (input : Nat → complex F) :
    Nat → Option (FrameSynchroniser F PF SC VD CR × List (ProcessResult × State))
  | 0 => some (fs, [])
  | n + 1 =>
    match trace E fuel fs input n with
    | none => none
    | some (fs, T) =>
      match process E fuel fs (input n) with
      | none => none
      | some (fs, r) => some (fs, T ++ [(r, fs.state)])

/-- The calls `process(IQ)` for the samples of the list `input`, in order. -/
def run (E : Externals F PF SC VD CR) (fuel : Nat) (fs : FrameSynchroniser F PF SC VD CR)
    (input : List (complex F)) :
    Option (FrameSynchroniser F PF SC VD CR × List (ProcessResult × State)) :=
  trace E fuel fs (fun k => input.getD k ⟨0, 0⟩) input.length

/-- The results other than `NONE` of a trace, in order. -/
def events (T : List (ProcessResult × State)) : List ProcessResult :=
  (T.map Prod.fst).filter (fun r => r ≠ ProcessResult.NONE)

/-- The language `PREAMBLE_FOUND (BLOCK_SIZE_ERR | BLOCK_SIZE_OK (PAYLOAD_OK | PAYLOAD_ERR))`
of the events of one frame. -/
def frame_language : Language ProcessResult :=
  {[ProcessResult.PREAMBLE_FOUND]} * ({[ProcessResult.BLOCK_SIZE_ERR]} +
    {[ProcessResult.BLOCK_SIZE_OK]} *
      ({[ProcessResult.PAYLOAD_OK]} + {[ProcessResult.PAYLOAD_ERR]}))

/-- The state before call `k` of a trace that starts in `WAIT_PREAMBLE`. -/
def state_before (T : List (ProcessResult × State)) : Nat → State
  | 0 => State.WAIT_PREAMBLE
  | k + 1 => (T.getD k (ProcessResult.NONE, State.WAIT_PREAMBLE)).2

/-- Calls `a < b` of the trace `T` open a frame that is still in `WAIT_PAYLOAD` before
call `n`: call `a` is made in `WAIT_PREAMBLE` and returns `PREAMBLE_FOUND`, the calls
between `a` and `b` return `NONE` in `WAIT_BLOCK_SIZE`, call `b` returns `BLOCK_SIZE_OK`,
and the calls between `b` and `n` return `NONE` in `WAIT_PAYLOAD`. -/
@[reducible]
def FrameAt (T : List (ProcessResult × State)) (a b n : Nat) : Prop :=
  a < b ∧ b < n ∧ state_before T a = State.WAIT_PREAMBLE ∧
  T[a]? = some (ProcessResult.PREAMBLE_FOUND, State.WAIT_BLOCK_SIZE) ∧
  (∀ k, a < k → k < b → T[k]? = some (ProcessResult.NONE, State.WAIT_BLOCK_SIZE)) ∧
  T[b]? = some (ProcessResult.BLOCK_SIZE_OK, State.WAIT_PAYLOAD) ∧
  ∀ k, b < k → k < n → T[k]? = some (ProcessResult.NONE, State.WAIT_PAYLOAD)

/-- Call `a` of the trace `T` opens a frame that is still in `WAIT_BLOCK_SIZE` before
call `n`. -/
@[reducible]
def PrefixAt (T : List (ProcessResult × State)) (a n : Nat) : Prop :=
  a < n ∧ state_before T a = State.WAIT_PREAMBLE ∧
  T[a]? = some (ProcessResult.PREAMBLE_FOUND, State.WAIT_BLOCK_SIZE) ∧
  ∀ k, a < k → k < n → T[k]? = some (ProcessResult.NONE, State.WAIT_BLOCK_SIZE)

/-- The events of the frame a synchroniser in the given state is in the middle of. -/
@[reducible]
def pending : State → List ProcessResult
  | State.WAIT_PREAMBLE => []
  | State.WAIT_BLOCK_SIZE => [ProcessResult.PREAMBLE_FOUND]
  | State.WAIT_PAYLOAD => [ProcessResult.PREAMBLE_FOUND, ProcessResult.BLOCK_SIZE_OK]

/-- A way to complete the frame a synchroniser in the given state is in the middle of. -/
@[reducible]
def completion : State → List ProcessResult
  | State.WAIT_PREAMBLE => []
  | State.WAIT_BLOCK_SIZE => [ProcessResult.BLOCK_SIZE_ERR]
  | State.WAIT_PAYLOAD => [ProcessResult.PAYLOAD_OK]

/-- The open frame of a trace that ends in the given state. -/
@[reducible]
def OpenFrame (T : List (ProcessResult × State)) : State → Prop
  | State.WAIT_PREAMBLE => True
  | State.WAIT_BLOCK_SIZE => ∃ a, PrefixAt T a T.length
  | State.WAIT_PAYLOAD => ∃ a b, FrameAt T a b T.length

end Sync

/-! ## Stand-ins for the missing classes

Concrete operations to instantiate the parameters with: the statements proved below hold
for every choice of the parameters, and these are the ones at which they are evaluated. -/

namespace Standin

/-- A filter that shifts the symbols into a 32-bit register and compares it with the
preamble; the state is the preamble and the register. -/
def filter : PreambleFilter (Nat × Nat) where
  create := fun preamble => (preamble % 2 ^ 32, 0)
  process := fun st sym bits_per_symbol =>
    let reg := ((st.2 <<< bits_per_symbol.toNat) ||| sym) % 2 ^ 32
    ((st.1, reg), reg == st.1)
  get_length := fun _ => 32

/-- A scrambler that XORs every byte with the low byte of its code. -/
def scrambler : AdditiveScrambler Nat where
  create := fun code => code
  process := fun code b => (code, (b ^^^ code) % 256)
  reset := fun code => code

/-- A rate 1/2 decoder that keeps every second encoded byte and reports no error. -/
def viterbi : ViterbiDecoder Unit where
  create := fun _ => ()
  process := fun _ encoded enc_offset n_encoded decoded dec_offset _ _ =>
    ((), fun k => if dec_offset ≤ k ∧ k < dec_offset + n_encoded / 2
      then encoded (enc_offset + 2 * (k - dec_offset)) else decoded k, n_encoded / 2)
  get_curr_error := fun _ => 0
  reset := fun _ => ()

/-- A checksum: the sum of the bytes modulo 256. -/
def crc8 : CRC8_Calculator Nat where
  create := fun poly => poly
  process := fun _ buf offset n =>
    ((List.range n.toNat).foldl (fun acc (k : Nat) => acc + buf (offset + k)) 0) % 256

/-- The 16 points of a 4 by 4 grid, not normalised. -/
def QAM (i : Nat) : complex ℚ := ⟨2 * ((i / 4 : Nat) : ℚ) - 3, 2 * ((i % 4 : Nat) : ℚ) - 3⟩

/-- The externals over the rationals.  `sqrtf` is the identity, which orders the distances
like their squares; `cosf` and `sinf` are exact at the multiples of `PI_2` the constructor
uses. -/
def externals : Sync.Externals ℚ (Nat × Nat) Nat Unit Nat where
  filter := filter
  scrambler := scrambler
  viterbi := viterbi
  crc8 := crc8
  cosf := fun x => if x = 0 then 1 else if x = 2 * (31415 / 10000 / 2) then -1 else 0
  sinf := fun x => if x = 31415 / 10000 / 2 then 1 else if x = 3 * (31415 / 10000 / 2) then -1
    else 0
  sqrtf := fun x => x
  QAM_Constellation := QAM
  QAM_Constellation_Size := 16

/-- The uninitialised members of a synchroniser. -/
def raw : Sync.FrameSynchroniser ℚ (Nat × Nat) Nat Unit Nat where
  preamble_filters := fun _ => (0, 0)
  preamble_mixers := fun _ => ⟨0, 0⟩
  descrambler := 0
  vitdec := ()
  crc8_calc := 0
  nb_buffer := 0
  descramble_buffer := fun _ => 170
  encoded_buffer := fun _ => 170
  decoded_buffer := fun _ => 170
  encoded_bits := 0
  encoded_bytes := 0
  decoded_bytes := 0
  decoded_block_size := 0
  encoded_block_size := 0
  state := Sync.State.WAIT_PAYLOAD
  bits_since_preamble := 0
  payload := ⟨9, some 1, 1, 2, true, 7⟩
  preamble_state := ⟨3, true, 5⟩

/-- A freshly constructed synchroniser with a buffer of 1024 bytes. -/
def fresh : Sync.FrameSynchroniser ℚ (Nat × Nat) Nat Unit Nat :=
  Sync.FrameSynchroniser.create externals 0xF9AFCD6D 0x8559 0xD5 1024 raw

/-- The constellation point of symbol `s`, as a received sample. -/
def sample (s : Nat) : complex ℚ := QAM s

end Standin

namespace Standin

/-- The samples of a frame: the preamble, then the two symbols of every scrambled encoded
byte, where the encoded bytes are the decoded bytes interleaved with zeros. -/
def frame_samples (decoded : List Nat) : List (complex ℚ) :=
  ([15, 9, 10, 15, 12, 13, 6, 13] ++
    (decoded.flatMap (fun b => [b, 0])).flatMap (fun e =>
      let s := (e ^^^ 0x8559) % 256
      [s / 16, s % 16])).map sample

end Standin

namespace Sync

variable {F PF SC VD CR : Type} [LinearOrderedField F]

/-- The results `process` may return in a state. -/
@[reducible]
def result_allowed : State → ProcessResult → Prop
  | State.WAIT_PREAMBLE, r => r = ProcessResult.NONE ∨ r = ProcessResult.PREAMBLE_FOUND
  | State.WAIT_BLOCK_SIZE, r => r = ProcessResult.NONE ∨ r = ProcessResult.BLOCK_SIZE_OK ∨
      r = ProcessResult.BLOCK_SIZE_ERR
  | State.WAIT_PAYLOAD, r => r = ProcessResult.NONE ∨ r = ProcessResult.PAYLOAD_OK ∨
      r = ProcessResult.PAYLOAD_ERR

/-- The state a result leads to. -/
@[reducible]
def next_state : State → ProcessResult → State
  | s, ProcessResult.NONE => s
  | _, ProcessResult.PREAMBLE_FOUND => State.WAIT_BLOCK_SIZE
  | _, ProcessResult.BLOCK_SIZE_OK => State.WAIT_PAYLOAD
  | _, ProcessResult.BLOCK_SIZE_ERR => State.WAIT_PREAMBLE
  | _, ProcessResult.PAYLOAD_OK => State.WAIT_PREAMBLE
  | _, ProcessResult.PAYLOAD_ERR => State.WAIT_PREAMBLE

/-- The call `process(IQ)` completes the encoded prefix: after its symbol,
`encoded_bytes >= nb_bytes_for_block_size` at a byte boundary. -/
def completes_prefix (E : Externals F PF SC VD CR) (fuel : Nat)
    (fs : FrameSynchroniser F PF SC VD CR) (IQ : complex F) : Bool :=
  match process_decoder_symbol E fuel fs IQ with
  | none => false
  | some fs => decide (fs.encoded_bytes ≥ nb_bytes_for_block_size) && decide (fs.encoded_bits = 0)

/-- The call `process(IQ)` completes the frame: after its symbol,
`encoded_bytes >= encoded_block_size` at a byte boundary. -/
def completes_frame (E : Externals F PF SC VD CR) (fuel : Nat)
    (fs : FrameSynchroniser F PF SC VD CR) (IQ : complex F) : Bool :=
  match process_decoder_symbol E fuel fs IQ with
  | none => false
  | some fs => decide (fs.encoded_bytes ≥ fs.encoded_block_size) && decide (fs.encoded_bits = 0)

end Sync

namespace Standin

/-- The synchroniser after `fresh` has processed `samples`. -/
def after (samples : List (complex ℚ)) : Sync.FrameSynchroniser ℚ (Nat × Nat) Nat Unit Nat :=
  match Sync.run externals 17 fresh samples with
  | some o => o.1
  | none => fresh

end Standin

namespace Standin

/-- The samples of a frame whose length field is 4 (payload 1, 2, 3, 4, checksum 10). -/
def frame4 : List (complex ℚ) := frame_samples [4, 0, 1, 2, 3, 4, 10, 0]

/-- The samples of a frame whose length field is 5 (payload 1, 2, 3, 4, 5, checksum 15). -/
def frame5 : List (complex ℚ) := frame_samples [5, 0, 1, 2, 3, 4, 5, 15, 0]

end Standin

namespace Detector

variable {F PF : Type} [LinearOrderedField F]

/-- The symbol phase `k` demaps the sample to: `GetNearestSymbol(IQ * preamble_phases[k])`. -/
def phase_symbol (d : PreambleDetector F PF) (IQ : complex F)
    (constellation : ConstellationSpecification F) (k : Nat) : Nat :=
  constellation.GetNearestSymbol (IQ.mul (d.preamble_phases k))

/-- What the filter of phase `k` returns when it is fed its symbol of this sample: the
filter after the call and whether it reports a match. -/
def phase_filter (pf : PreambleFilter PF) (d : PreambleDetector F PF) (IQ : complex F)
    (constellation : ConstellationSpecification F) (k : Nat) : PF × Bool :=
  pf.process (d.preamble_filters k) (phase_symbol d IQ constellation k)
    constellation.GetBitsPerSymbol

/-- The set of the phases below `n` whose filter reports a match on this sample. -/
def matching (pf : PreambleFilter PF) (d : PreambleDetector F PF) (IQ : complex F)
    (constellation : ConstellationSpecification F) (n : Nat) : Finset Nat :=
  (Finset.range n).filter (fun k => (phase_filter pf d IQ constellation k).2 = true)

/-- The calls `Process(IQ, constellation)` for the samples of a list, in order: the detector
after the last call and the values returned. -/
def Process_list (pf : PreambleFilter PF) (constellation : ConstellationSpecification F) :
    PreambleDetector F PF → List (complex F) → PreambleDetector F PF × List Bool
  | d, [] => (d, [])
  | d, IQ :: rest =>
    let r := Process pf d IQ constellation
    let rs := Process_list pf constellation r.1 rest
    (rs.1, r.2 :: rs.2)

end Detector

namespace Sync

variable {F PF SC VD CR : Type} [LinearOrderedField F]

/-- What the filter of phase `k` returns in `process_await_preamble(IQ)` when it is fed
`symbol_to_bits(IQ * preamble_mixers[k])`: the filter after the call and whether it reports a
match. -/
def mixer_filter (E : Externals F PF SC VD CR) (fuel : Nat)
    (fs : FrameSynchroniser F PF SC VD CR) (IQ : complex F) (k : Nat) : PF × Bool :=
  E.filter.process (fs.preamble_filters (k : Int))
    ((symbol_to_bits E fuel (IQ.mul (fs.preamble_mixers (k : Int)))).getD 0) 4

/-- The set of the phases below `n` whose filter reports a match on this sample. -/
def matching_mixers (E : Externals F PF SC VD CR) (fuel : Nat)
    (fs : FrameSynchroniser F PF SC VD CR) (IQ : complex F) (n : Nat) : Finset Nat :=
  (Finset.range n).filter (fun k => (mixer_filter E fuel fs IQ k).2 = true)

end Sync

namespace Standin

/-- A constellation specification over the sixteen stand-in points. -/
def spec16 : ConstellationSpecification ℚ where
  GetBitsPerSymbol := 4
  GetNearestSymbol := fun z =>
    (nearest_scan 16 (fun i => ((externals.QAM_Constellation i).sub z).abs id) 17 0 0 none).getD 0

/-- A detector with four phases, all of them the identity rotation, and fresh filters. -/
def detector : Detector.PreambleDetector ℚ (Nat × Nat) where
  total_phases := 4
  preamble_filters := fun _ => filter.create 0xF9AFCD6D
  preamble_phases := fun _ => ⟨1, 0⟩
  bits_since_preamble := 0
  selected_phase := 0
  phase_conflict := false
  desync_bitcount := 0

end Standin

namespace Standin

/-- The detector after `detector` has processed `samples`. -/
def detector_after (samples : List (complex ℚ)) : Detector.PreambleDetector ℚ (Nat × Nat) :=
  (Detector.Process_list filter spec16 detector samples).1

end Standin

namespace Vit

/-- The XOR of the 32 bits of `x`. -/
def xor_bits (x : Nat) : Bool :=
  (List.range 32).foldl (fun p k => xor p (x.testBit k)) false

end Vit

namespace Vit

/-- The four candidate metrics `m0 .. m3` of `BFLY(i, s, syms, vp, d)` as the sums of
`int`s they are before the assignment narrows them to `COMPUTETYPE`. -/
def BFLY_candidates (i s : Nat) (syms : Nat → Int) (vp : vitdec_t) : List Int :=
  let metric := BFLY_metric i s syms vp
  let max := BFLY_max vp
  [buf vp vp.old_metrics i + metric,
   buf vp vp.old_metrics (i + NUMSTATES / 2) + (max - metric),
   buf vp vp.old_metrics i + (max - metric),
   buf vp vp.old_metrics (i + NUMSTATES / 2) + metric]

/-- No `int16` wraparound while `update_viterbi_blk_scalar(vp, syms, nbits)` runs with the
soft levels `soft_decision_low ≤ soft_decision_high`: the local `max` of the butterfly,
`CODE_RATE * (soft_decision_high - soft_decision_low)`, fits `COMPUTETYPE`, and so does
every candidate metric of every butterfly of every symbol `t < nbits` (the decoder before
symbol `t` is the decoder after the first `t` symbols). -/
def no_wraparound (vp : vitdec_t) (syms : Nat → Int) (nbits : Nat)
    (soft_decision_high soft_decision_low : Int) : Prop :=
  (CODE_RATE : Int) * (soft_decision_high - soft_decision_low) ≤ SHRT_MAX ∧
  ∀ t < nbits, ∀ i < NUMSTATES / 2,
    ∀ c ∈ BFLY_candidates i t syms (update_viterbi_blk_scalar vp syms t), c ≤ SHRT_MAX

end Vit

namespace Vit

/-- The traceback as the specification words it, reading decision slot `off + i` for bit
`i`: `back_state vp off nbits endstate j` is `curr_state` after the `j` bits
`nbits - 1, ..., nbits - j` have been traced, from `endstate mod NUMSTATES`; each step takes
`input = (decisions[off + i] >> curr_state) & 1` and moves to
`(curr_state >> 1) | (input << (K - 2))`. -/
def back_state (vp : vitdec_t) (off nbits endstate : Nat) : Nat → Nat
  | 0 => endstate % NUMSTATES
  | j + 1 =>
    let curr_state := back_state vp off nbits endstate j
    let input := (vp.decisions (off + (nbits - 1 - j)) 0 >>> curr_state) &&& 1
    (curr_state >>> 1) ||| (input <<< (K - 2))

/-- The `input` of bit `i` in that traceback: bit number `curr_state` of decision slot
`off + i`, with `curr_state` the state after the bits above `i`. -/
def back_input (vp : vitdec_t) (off nbits endstate i : Nat) : Nat :=
  (vp.decisions (off + i) 0 >>> back_state vp off nbits endstate (nbits - 1 - i)) &&& 1

/-- The loop of `chainback_viterbi(vp, data, nbits)` (the overload without end state) that
picks the state to start from: the first index at which `vp->new_metrics->buf` is least. -/
def chainback_start (vp : vitdec_t) : Nat :=
  let min_err := buf vp vp.new_metrics 0
  let curr_state := 0
  ((List.range (NUMSTATES - 1)).foldl (fun (st : Int × Nat) k =>
    let i := k + 1
    let err := buf vp vp.new_metrics i
    if err < st.1 then (err, i) else st) (min_err, curr_state)).2

/-- `chainback_viterbi(vp, data, nbits)`, the overload without end state. -/
def chainback_viterbi_best (vp : vitdec_t) (data : Nat → Nat) (nbits : Nat) : Nat → Nat :=
  chainback_viterbi vp data nbits (chainback_start vp)

end Vit

namespace Vit

/-- A decoder at the end of a frame: the byte `0xB2`, most significant bit first, encoded
with the polynomials 7 and 5 from state 0, followed by `K - 1` zero tail bits, sent
noise-free at the soft levels -127 and 127, after `create_viterbi` and
`update_viterbi_blk_scalar` over all `8 + (K - 1)` symbols. -/
def frame_example : vitdec_t :=
  update_viterbi_blk_scalar
    (create_viterbi (fun j => if j = 0 then 7 else 5) 8 127 (-127) raw_example)
    (soft_symbols (-127) 127
      (conv_encode (fun j => if j = 0 then 7 else 5) 0
        ([true, false, true, true, false, false, true, false] ++ List.replicate (K - 1) false)))
    ((8 + (K - 1) : Nat) : Int)

end Vit

namespace Vit

/-- Eight received symbols of an unterminated frame: the byte `0x04`, most significant bit
first, encoded with the polynomials 7 and 5 from state 0 and sent at the soft levels -127
and 127, with the very last soft value erased (received as 0 instead of 127). -/
def erased_example : Nat → Int := fun k =>
  if k = 15 then 0 else
    soft_symbols (-127) 127
      (conv_encode (fun j => if j = 0 then 7 else 5) 0
        [false, false, false, false, false, true, false, false]) k

end Vit

namespace Vit

/-- The decoder states that can be reached from `create_viterbi` through calls of
`init_viterbi` and `update_viterbi_blk_scalar`, no call of the latter running past the
`maximum_decoded_bits` decision slots that `create_viterbi` allocated. -/
inductive Reachable (polys : Nat → Nat) (len : Nat) (soft_decision_high soft_decision_low : Int)
    (raw : vitdec_t) : vitdec_t → Prop where
  | create : Reachable polys len soft_decision_high soft_decision_low raw
      (create_viterbi polys len soft_decision_high soft_decision_low raw)
  | init (vp : vitdec_t) (starting_state : Int) :
      Reachable polys len soft_decision_high soft_decision_low raw vp →
      Reachable polys len soft_decision_high soft_decision_low raw (init_viterbi vp starting_state)
  | update (vp : vitdec_t) (syms : Nat → Int) (nbits : Int) :
      Reachable polys len soft_decision_high soft_decision_low raw vp →
      vp.curr_decoded_bit + nbits.toNat ≤ vp.maximum_decoded_bits →
      Reachable polys len soft_decision_high soft_decision_low raw
        (update_viterbi_blk_scalar vp syms nbits)

end Vit

namespace Vit

/-- What the four state metrics `x` satisfy after `init_viterbi` and after every symbol,
when `M` is the largest branch metric `CODE_RATE * (soft_decision_high - soft_decision_low)`:
none is negative and state 0 is at most the ceiling; and either all are at most the initial
error, or the two metrics written by one butterfly are within `M` of each other and the
metrics of states 2 and 3 are at most `2 * M` above state 0 (or at most the initial error
plus `M`). -/
def CeilingInv (M : Int) (x : Nat → Int) : Prop :=
  (0 ≤ x 0 ∧ 0 ≤ x 1 ∧ 0 ≤ x 2 ∧ 0 ≤ x 3) ∧ x 0 ≤ RENORMALIZE_THRESHOLD ∧
  ((x 0 ≤ INITIAL_NON_START_ERROR ∧ x 1 ≤ INITIAL_NON_START_ERROR ∧
      x 2 ≤ INITIAL_NON_START_ERROR ∧ x 3 ≤ INITIAL_NON_START_ERROR) ∨
    (x 0 - x 1 ≤ M ∧ x 1 - x 0 ≤ M ∧ x 2 - x 3 ≤ M ∧ x 3 - x 2 ≤ M ∧
      (x 2 ≤ x 0 + 2 * M ∨ x 2 ≤ INITIAL_NON_START_ERROR + M) ∧
      (x 3 ≤ x 0 + 2 * M ∨ x 3 ≤ INITIAL_NON_START_ERROR + M)))

end Vit

/-- The scan of `nearest_scan` with a record of the loop: the last argument lists, in
order, the indices `i` for which the loop body has run; it is returned with `best_match`. -/
def nearest_scan_visits {F : Type} [LinearOrderedField F] (N : Int) (err : Nat → F) :
    Nat → Nat → Nat → Option F → List Nat → Option (Nat × List Nat)
  | 0, _, _, _, _ => none
  | fuel + 1, i, best_match, min_err, visited =>
    if (i : Int) < N then
      if lt_min_err (err i) min_err then
        nearest_scan_visits N err fuel (to_uint8 (i + 1)) i (some (err i)) (visited ++ [i])
      else
        nearest_scan_visits N err fuel (to_uint8 (i + 1)) best_match min_err (visited ++ [i])
    else some (best_match, visited)

namespace Constellation

variable {F : Type} [LinearOrderedField F]

/-- `SquareConstellation::GetNearestSymbol(x)` with the record of the points its loop
visits. -/
def GetNearestSymbol_visits (sqrtf : F → F) (c : SquareConstellation F) (x : complex F)
    (fuel : Nat) : Option (Nat × List Nat) :=
  nearest_scan_visits c.N (fun i => ((c.C i).sub x).abs sqrtf) fuel 0 0 none []

end Constellation

namespace Vit

/-- The butterflies of symbol `s` in `update_viterbi_blk_scalar`: the inner loop over `i`,
in which `d` points to decision slot `curr_decoded_bit`. -/
def butterflies (s : Nat) (syms : Nat → Int) (vp : vitdec_t) : vitdec_t :=
  (List.range (NUMSTATES / 2)).foldl (fun v i => BFLY i s syms v vp.curr_decoded_bit) vp

/-- No `renormalize` subtraction while `update_viterbi_blk_scalar(vp, syms, nbits)` runs:
after the butterflies of every symbol `t < nbits` the new metric of state 0 is not above
the threshold. -/
def no_renormalization (vp : vitdec_t) (syms : Nat → Int) (nbits : Nat) : Prop :=
  ∀ t < nbits,
    ¬ (buf (butterflies t syms (update_viterbi_blk_scalar vp syms t))
        (butterflies t syms (update_viterbi_blk_scalar vp syms t)).new_metrics 0 >
      RENORMALIZE_THRESHOLD)

/-- Every candidate metric `m0 .. m3` of every butterfly of every symbol `t < nbits` of
`update_viterbi_blk_scalar(vp, syms, nbits)` fits `COMPUTETYPE`. -/
def candidates_fit (vp : vitdec_t) (syms : Nat → Int) (nbits : Nat) : Prop :=
  ∀ t < nbits, ∀ i < NUMSTATES / 2,
    ∀ c ∈ BFLY_candidates i t syms (update_viterbi_blk_scalar vp syms t),
      -SHRT_MAX - 1 ≤ c ∧ c ≤ SHRT_MAX

/-- The state of a trellis path after `k` steps: the path starts in `p0` and step `j` takes
state `p` to `((2p) mod 2^(K-1)) + bits j`. -/
def path_state (p0 : Nat) (bits : Nat → Nat) : Nat → Nat
  | 0 => p0
  | k + 1 => (2 * path_state p0 bits k) % 2 ^ (K - 1) + bits k

/-- The cost of a step from state `p` with bit `b`, given the branch metrics `metric i` of
the symbol and `max_metric`: `metric i` if `(p < 2^(K-2)) == (b == 0)` and
`max_metric - metric i` otherwise, with `i = p mod 2^(K-2)`. -/
def step_cost (metric : Nat → Int) (max_metric : Int) (p b : Nat) : Int :=
  if decide (p < 2 ^ (K - 2)) = decide (b = 0) then metric (p % 2 ^ (K - 2))
  else max_metric - metric (p % 2 ^ (K - 2))

/-- The cost of the first `t` steps of a trellis path: the initial metric of its first
state plus the costs `cost k p b` of its steps (symbol `k`, from state `p`, with bit `b`). -/
def path_cost (init : Nat → Int) (cost : Nat → Nat → Nat → Int) (p0 : Nat) (bits : Nat → Nat)
    (t : Nat) : Int :=
  init p0 + ((List.range t).map (fun k => cost k (path_state p0 bits k) (bits k))).sum

/-- The other soft level: `soft_decision_low` and `soft_decision_high` swapped. -/
def complement (soft_decision_low soft_decision_high x : Int) : Int :=
  if x = soft_decision_low then soft_decision_high
  else if x = soft_decision_high then soft_decision_low else x

end Vit

/-! ## Single-precision arithmetic -/

/-- A value of the type `float` (IEEE 754 binary32): a finite number, given by its sign and
the exact magnitude (a zero has a sign), an infinity, or a NaN. -/
inductive float where
  | finite (negative : Bool) (magnitude : ℚ)
  | inf (negative : Bool)
  | nan
  deriving DecidableEq

namespace float

/-- The power `2^e` of two as a rational number. -/
def pow2 (e : Int) : ℚ :=
  if 0 ≤ e then ((2 ^ e.toNat : Nat) : ℚ) else 1 / ((2 ^ (-e).toNat : Nat) : ℚ)

/-- The loop of `ilog2`: halve `n` until it is below 2, at most `fuel` times. -/
def ilog2_loop : Nat → Nat → Nat
  | 0, _ => 0
  | fuel + 1, n => if n < 2 then 0 else ilog2_loop fuel (n / 2) + 1

/-- The exponent `⌊log₂ n⌋` of a positive integer `n` (0 for `n = 0`). -/
def ilog2 (n : Nat) : Nat := ilog2_loop n n

/-- The exponent `e` with `2^e ≤ x < 2^(e+1)` of a positive rational `x`. -/
def ilogb (x : ℚ) : Int :=
  let e : Int := (ilog2 x.num.natAbs : Int) - (ilog2 x.den : Int)
  if pow2 e ≤ x then e else e - 1

/-- The integer nearest to `x ≥ 0`, the even one of the two when `x` is half-way. -/
def round_even (x : ℚ) : Int :=
  let f := Rat.floor x
  let r := x - (f : ℚ)
  if r < 1 / 2 then f else if 1 / 2 < r then f + 1 else if f % 2 = 0 then f else f + 1

/-- Rounding of an exact magnitude `x ≥ 0` to binary32, to nearest and ties to even: 24
significant bits, least exponent -126 (gradual underflow), `none` on overflow, which is a
rounded magnitude of `2^128` or more. -/
def round_magnitude (x : ℚ) : Option ℚ :=
  if x = 0 then some 0
  else
    let e := max (ilogb x) (-126)
    let ulp := pow2 (e - 23)
    let y := (round_even (x / ulp) : ℚ) * ulp
    if y < pow2 128 then some y else none

/-- The float of sign `s` nearest to the exact magnitude `x`. -/
def signed (s : Bool) (x : ℚ) : float :=
  match round_magnitude x with
  | some m => finite s m
  | none => inf s

/-- The float nearest to the exact value `x`: the value of a literal or of a conversion. -/
def round (x : ℚ) : float := signed (decide (x < 0)) (if x < 0 then -x else x)

/-- The exact value of a finite float. -/
def val (s : Bool) (x : ℚ) : ℚ := if s then -x else x

/-- The exact value of a float that is finite (0 for the others). -/
def toRat : float → ℚ
  | finite s x => val s x
  | _ => 0

/-- The constant `INFINITY`. -/
def INFINITY : float := inf false

/-- The negation `-a`. -/
def neg : float → float
  | finite s x => finite (!s) x
  | inf s => inf (!s)
  | nan => nan

/-- The sum `a + b`.  An exact sum of zero is `+0`, unless both operands are `-0`. -/
def add : float → float → float
  | finite s x, finite t y =>
    if val s x + val t y = 0 then finite (s && t) 0 else round (val s x + val t y)
  | finite _ _, inf t => inf t
  | inf s, finite _ _ => inf s
  | inf s, inf t => if s = t then inf s else nan
  | _, _ => nan

/-- The difference `a - b`. -/
def sub (a b : float) : float := add a (neg b)

/-- The product `a * b`. -/
def mul : float → float → float
  | finite s x, finite t y => signed (xor s t) (x * y)
  | finite s x, inf t => if x = 0 then nan else inf (xor s t)
  | inf s, finite t y => if y = 0 then nan else inf (xor s t)
  | inf s, inf t => inf (xor s t)
  | _, _ => nan

/-- The quotient `a / b`. -/
def div : float → float → float
  | finite s x, finite t y =>
    if y = 0 then (if x = 0 then nan else inf (xor s t)) else signed (xor s t) (x / y)
  | finite s _, inf t => finite (xor s t) 0
  | inf s, finite t _ => inf (xor s t)
  | _, _ => nan

/-- The comparison `a < b`: false when an operand is a NaN; the two zeros are equal. -/
def lt : float → float → Bool
  | finite s x, finite t y => decide (val s x < val t y)
  | finite _ _, inf t => !t
  | inf s, finite _ _ => s
  | inf s, inf t => s && !t
  | _, _ => false

/-- The conversion `(float)n` of an `int`. -/
def ofInt (n : Int) : float := round (n : ℚ)

/-- One pass of the bitwise integer square root: the bits `b - 1, ..., 0` of the root are
decided from the top, `r` holds the bits decided so far. -/
def isqrt_loop (n : Nat) : Nat → Nat → Nat
  | 0, r => r
  | b + 1, r => isqrt_loop n b (if (r + 2 ^ b) * (r + 2 ^ b) ≤ n then r + 2 ^ b else r)

/-- The integer square root `⌊√n⌋`. -/
def isqrt (n : Nat) : Nat := isqrt_loop n (ilog2 n / 2 + 1) 0

/-- The binary32 magnitude nearest to `√x` for an exact `x ≥ 0`.  With `k` such that
`x * 4^k ≥ 2^54`, the root lies at `f / 2^k` or strictly between `f / 2^k` and
`(f + 1) / 2^k` for the integer `f = ⌊√(x * 4^k)⌋ ≥ 2^27`; no binary32 number and no middle
of two neighbouring ones lies strictly between these, so the root rounds like `f / 2^k`,
respectively like `(f + 1/2) / 2^k`. -/
def round_sqrt (x : ℚ) : Option ℚ :=
  if x = 0 then some 0
  else
    let k : Int := 27 - ilogb x / 2
    let f := isqrt (Rat.floor (x * pow2 (2 * k))).toNat
    if ((f * f : Nat) : ℚ) = x * pow2 (2 * k) then round_magnitude ((f : ℚ) * pow2 (-k))
    else round_magnitude (((f : ℚ) + 1 / 2) * pow2 (-k))

/-- The function `std::sqrtf` of an IEEE 754 implementation: the correctly rounded root. -/
def sqrtf : float → float
  | finite s x =>
    if x = 0 then finite s 0
    else if s then nan
    else match round_sqrt x with
      | some m => finite false m
      | none => inf false
  | inf s => if s then nan else inf false
  | nan => nan

end float

/-- The magnitude `std::abs(a)` of a `std::complex<float>`, which is `hypotf(re, im)`, for a
C library whose `hypotf` is correctly rounded: the float nearest to `√(re² + im²)`, infinite
when a part is infinite or the rounded root overflows. -/
def float.hypotf (a : complex float) : float :=
  match a.re, a.im with
  | float.inf _, _ => float.inf false
  | _, float.inf _ => float.inf false
  | float.finite _ x, float.finite _ y =>
    match float.round_sqrt (x * x + y * y) with
    | some m => float.finite false m
    | none => float.inf false
  | _, _ => float.nan

/-- The scan of `GetNearestSymbol` and `symbol_to_bits` on values of type `float`:
`min_err` starts at `INFINITY` and the test is the comparison `err < min_err` of two floats.
`err i` is the distance computed for point `i`; the arguments after the fuel are the loop
state `i`, `best_match`, `min_err`. -/
def nearest_scan_float (N : Int) (err : Nat → float) : Nat → Nat → Nat → float → Option Nat
  | 0, _, _, _ => none
  | fuel + 1, i, best_match, min_err =>
    if (i : Int) < N then
      if (err i).lt min_err then
        nearest_scan_float N err fuel (to_uint8 (i + 1)) i (err i)
      else
        nearest_scan_float N err fuel (to_uint8 (i + 1)) best_match min_err
    else some best_match

/-- The index `r` a scan over the computed distances `err 0, ..., err (n - 1)` singles out:
the lowest index at which the computed distance is least, if a computed distance is below
`INFINITY`, and 0 if none is. -/
def IsLeastComputed (err : Nat → float) (n r : Nat) : Prop :=
  (r < n ∧ (err r).lt float.INFINITY = true ∧ (∀ k < n, (err k).lt (err r) = false) ∧
    ∀ k < r, (err r).lt (err k) = true ∨ err k = float.nan) ∨
  (r = 0 ∧ ∀ k < n, (err k).lt float.INFINITY = false)

/-! ## The constellation in single precision -/

namespace Single

/-- The members of `class SquareConstellation`, with `float` in single precision. -/
structure SquareConstellation where
  L : Int
  N : Int
  C : Nat → complex float
  m_avg_power : float

/-- `SquareConstellation::CalculateAveragePower(C, N)`. -/
def CalculateAveragePower (C : Nat → complex float) (N : Int) : float :=
  let avg_power := (List.range N.toNat).foldl (fun (avg_power : float) i =>
    let x := C i
    let I := x.re
    let Q := x.im
    avg_power.add ((I.mul I).add (Q.mul Q))) (float.round 0)
  avg_power.div (float.ofInt N)

/-- The constructor `SquareConstellation::SquareConstellation(_L)`, every operation rounded
to `float`; `raw` is the content of the freshly allocated array `C`. -/
def SquareConstellation.create (sqrtf : float → float) (_L : Int) (raw : Nat → complex float) :
    SquareConstellation :=
  let L := _L
  let N := _L * _L
  let offset : float := (float.ofInt (L - 1)).div (float.round 2)
  let scale : float :=
    ((((float.round 1).div (sqrtf (float.round 2))).mul (float.round 1)).div offset).mul
      (float.round (1 / 2))
  let C := (List.range L.toNat).foldl (fun (C : Nat → complex float) (i : Nat) =>
    let I : float := (float.round 2).mul ((float.ofInt i).sub offset)
    (List.range L.toNat).foldl (fun (C : Nat → complex float) (j : Nat) =>
      let Q : float := (float.round 2).mul ((float.ofInt j).sub offset)
      let idx := (i : Int) * L + j
      let sym : complex float := ⟨I, Q⟩
      write C idx.toNat ⟨sym.re.mul scale, sym.im.mul scale⟩) C) raw
  { L := L, N := N, C := C, m_avg_power := CalculateAveragePower C N }

/-- The difference `a - b` of two `std::complex<float>`. -/
def csub (a b : complex float) : complex float := ⟨a.re.sub b.re, a.im.sub b.im⟩

/-- `SquareConstellation::GetNearestSymbol(x)` in single precision, with fuel for the scan;
`cabs` is `std::abs` on `std::complex<float>`. -/
def GetNearestSymbol (cabs : complex float → float) (c : SquareConstellation)
    (x : complex float) (fuel : Nat) : Option Nat :=
  nearest_scan_float c.N (fun i => cabs (csub (c.C i) x)) fuel 0 0 float.INFINITY

/-- `FrameSynchroniser::symbol_to_bits(IQ)` in single precision, with fuel for the scan over
the table `QAM_Constellation` of `QAM_Constellation_Size` points. -/
def symbol_to_bits (cabs : complex float → float) (QAM_Constellation : Nat → complex float)
    (QAM_Constellation_Size : Int) (fuel : Nat) (IQ : complex float) : Option Nat :=
  nearest_scan_float QAM_Constellation_Size (fun i => cabs (csub (QAM_Constellation i) IQ))
    fuel 0 0 float.INFINITY

/-- The exact square `|a - b|²` of the distance of two points with finite parts. -/
def exact_dist2 (a b : complex float) : ℚ :=
  (a.re.toRat - b.re.toRat) ^ 2 + (a.im.toRat - b.im.toRat) ^ 2

end Single

/-! # Theorems -/

/-! ## Viterbi decoder: lemmas -/

namespace Vit

theorem to_int16_of_range {x : Int} (h1 : -32768 ≤ x) (h2 : x ≤ 32767) : to_int16 x = x := by
  unfold to_int16; omega

theorem range_two : List.range 2 = [0, 1] := rfl
theorem range_four : List.range 4 = [0, 1, 2, 3] := rfl
theorem NUMSTATES_eq : NUMSTATES = 4 := rfl
theorem CODE_RATE_eq : CODE_RATE = 2 := rfl
theorem half_states : NUMSTATES / 2 = 2 := rfl

theorem BFLY_metric_nowrap (i s : Nat) (syms : Nat → Int) (vp : vitdec_t)
    (h0 : -255 ≤ vp.BranchTable 0 i - syms (s * 2) ∧ vp.BranchTable 0 i - syms (s * 2) ≤ 255)
    (h1 : -255 ≤ vp.BranchTable 1 i - syms (s * 2 + 1) ∧
      vp.BranchTable 1 i - syms (s * 2 + 1) ≤ 255) :
    BFLY_metric i s syms vp =
      iabs (vp.BranchTable 0 i - syms (s * 2)) + iabs (vp.BranchTable 1 i - syms (s * 2 + 1)) := by
  simp only [BFLY_metric, CODE_RATE_eq, range_two, List.foldl_cons, List.foldl_nil, asr,
    METRICSHIFT, PRECISIONSHIFT, pow_zero, Int.ediv_one, zero_add, add_zero, iabs]
  generalize vp.BranchTable 0 i - syms (s * 2) = e0 at *
  generalize vp.BranchTable 1 i - syms (s * 2 + 1) = e1 at *
  rw [to_int16_of_range (x := e0) (by omega) (by omega),
    to_int16_of_range (x := e1) (by omega) (by omega)]
  split_ifs <;> (unfold to_int16; omega)

theorem BFLY_max_nowrap (vp : vitdec_t) (h : -255 ≤ vp.soft_decision_max_error ∧ vp.soft_decision_max_error ≤ 255) :
    BFLY_max vp = 2 * vp.soft_decision_max_error := by
  simp only [BFLY_max, CODE_RATE_eq, asr, METRICSHIFT, PRECISIONSHIFT, pow_zero, Int.ediv_one]
  rw [to_int16_of_range] <;> push_cast <;> omega

theorem BFLY_eval (i s d : Nat) (syms : Nat → Int) (vp : vitdec_t) (c mx A B : Int)
    (hne : vp.old_metrics ≠ vp.new_metrics)
    (hc : BFLY_metric i s syms vp = c) (hmx : BFLY_max vp = mx)
    (hA : buf vp vp.old_metrics i = A) (hB : buf vp vp.old_metrics (i + 2) = B)
    (r0 : -32768 ≤ A + c ∧ A + c ≤ 32767) (r1 : -32768 ≤ B + (mx - c) ∧ B + (mx - c) ≤ 32767)
    (r2 : -32768 ≤ A + (mx - c) ∧ A + (mx - c) ≤ 32767) (r3 : -32768 ≤ B + c ∧ B + c ≤ 32767) :
    (BFLY i s syms vp d).old_metrics = vp.old_metrics ∧
    (BFLY i s syms vp d).new_metrics = vp.new_metrics ∧
    (BFLY i s syms vp d).BranchTable = vp.BranchTable ∧
    (BFLY i s syms vp d).soft_decision_max_error = vp.soft_decision_max_error ∧
    (BFLY i s syms vp d).curr_decoded_bit = vp.curr_decoded_bit ∧
    (BFLY i s syms vp d).maximum_decoded_bits = vp.maximum_decoded_bits ∧
    buf (BFLY i s syms vp d) vp.old_metrics = buf vp vp.old_metrics ∧
    buf (BFLY i s syms vp d) vp.new_metrics =
      write (write (buf vp vp.new_metrics) (2 * i)
        (if A + c - (B + (mx - c)) > 0 then B + (mx - c) else A + c)) (2 * i + 1)
        (if A + (mx - c) - (B + c) > 0 then B + c else A + (mx - c)) ∧
    (BFLY i s syms vp d).decisions = write vp.decisions d (write (vp.decisions d) (2 * i / 8)
      (to_uint8 (vp.decisions d (2 * i / 8) |||
        (to_uint8 (dec_bits (A + c) (B + (mx - c)) ||| (dec_bits (A + (mx - c)) (B + c) <<< 1))
          <<< (2 * i % 8))))) := by
  have e0 := to_int16_of_range r0.1 r0.2
  have e1 := to_int16_of_range r1.1 r1.2
  have e2 := to_int16_of_range r2.1 r2.2
  have e3 := to_int16_of_range r3.1 r3.2
  have hB' : buf vp vp.old_metrics (i + NUMSTATES / 2) = B := hB
  simp only [BFLY, hc, hmx, hA, hB', e0, e1, e2, e3, DECISIONTYPE_BITSIZE, dec_bits]
  cases ho : vp.old_metrics <;> cases hn : vp.new_metrics <;>
    simp_all [buf, set_buf]

theorem BFLY_metric_congr (i s : Nat) (syms : Nat → Int) (vp vq : vitdec_t)
    (h : vq.BranchTable = vp.BranchTable) : BFLY_metric i s syms vq = BFLY_metric i s syms vp := by
  simp only [BFLY_metric, h]

theorem BFLY_max_congr (vp vq : vitdec_t)
    (h : vq.soft_decision_max_error = vp.soft_decision_max_error) : BFLY_max vq = BFLY_max vp := by
  simp only [BFLY_max, h]

theorem renormalize_noop (x : Nat → Int) (t : Int) (h : x 0 ≤ t) : renormalize x t = x := by
  unfold renormalize
  rw [if_neg (by omega)]

theorem update_step_eval (s d : Nat) (syms : Nat → Int) (vp : vitdec_t) (c0 c1 mx : Int)
    (hne : vp.old_metrics ≠ vp.new_metrics)
    (hc0 : BFLY_metric 0 s syms vp = c0) (hc1 : BFLY_metric 1 s syms vp = c1)
    (hmx : BFLY_max vp = mx) (hmx0 : 0 ≤ mx) (hmx1 : mx ≤ 510)
    (hc0r : 0 ≤ c0 ∧ c0 ≤ mx) (hc1r : 0 ≤ c1 ∧ c1 ≤ mx)
    (hM : ∀ n < 4, 0 ≤ buf vp vp.old_metrics n ∧ buf vp vp.old_metrics n ≤ 3510) :
    (update_step syms (vp, d) s).2 = d + 1 ∧
    (update_step syms (vp, d) s).1.old_metrics = vp.new_metrics ∧
    (update_step syms (vp, d) s).1.new_metrics = vp.old_metrics ∧
    (update_step syms (vp, d) s).1.BranchTable = vp.BranchTable ∧
    (update_step syms (vp, d) s).1.soft_decision_max_error = vp.soft_decision_max_error ∧
    (update_step syms (vp, d) s).1.curr_decoded_bit = vp.curr_decoded_bit + 1 ∧
    (update_step syms (vp, d) s).1.maximum_decoded_bits = vp.maximum_decoded_bits ∧
    buf (update_step syms (vp, d) s).1 vp.new_metrics 0 =
      sel (buf vp vp.old_metrics 0 + c0) (buf vp vp.old_metrics 2 + (mx - c0)) ∧
    buf (update_step syms (vp, d) s).1 vp.new_metrics 1 =
      sel (buf vp vp.old_metrics 0 + (mx - c0)) (buf vp vp.old_metrics 2 + c0) ∧
    buf (update_step syms (vp, d) s).1 vp.new_metrics 2 =
      sel (buf vp vp.old_metrics 1 + c1) (buf vp vp.old_metrics 3 + (mx - c1)) ∧
    buf (update_step syms (vp, d) s).1 vp.new_metrics 3 =
      sel (buf vp vp.old_metrics 1 + (mx - c1)) (buf vp vp.old_metrics 3 + c1) ∧
    (∀ k, k ≠ d → (update_step syms (vp, d) s).1.decisions k = vp.decisions k) ∧
    (update_step syms (vp, d) s).1.decisions d 0 =
      to_uint8 (to_uint8 (vp.decisions d 0 |||
        (to_uint8 (dec_bits (buf vp vp.old_metrics 0 + c0) (buf vp vp.old_metrics 2 + (mx - c0)) |||
          (dec_bits (buf vp vp.old_metrics 0 + (mx - c0)) (buf vp vp.old_metrics 2 + c0) <<< 1))
          <<< 0)) |||
        (to_uint8 (dec_bits (buf vp vp.old_metrics 1 + c1) (buf vp vp.old_metrics 3 + (mx - c1)) |||
          (dec_bits (buf vp vp.old_metrics 1 + (mx - c1)) (buf vp vp.old_metrics 3 + c1) <<< 1))
          <<< 2)) := by
  have h0 := hM 0 (by omega)
  have h1 := hM 1 (by omega)
  have h2 := hM 2 (by omega)
  have h3 := hM 3 (by omega)
  obtain ⟨a1, a2, a3, a4, a5, a6, a7, a8, a9⟩ :=
    BFLY_eval 0 s d syms vp c0 mx (buf vp vp.old_metrics 0) (buf vp vp.old_metrics 2)
      hne hc0 hmx rfl rfl (by omega) (by omega) (by omega) (by omega)
  generalize hv1 : BFLY 0 s syms vp d = vp1 at *
  have hne1 : vp1.old_metrics ≠ vp1.new_metrics := by rw [a1, a2]; exact hne
  have hc1' : BFLY_metric 1 s syms vp1 = c1 := by rw [BFLY_metric_congr _ _ _ _ _ a3, hc1]
  have hmx' : BFLY_max vp1 = mx := by rw [BFLY_max_congr _ _ a4, hmx]
  have hA1 : buf vp1 vp1.old_metrics 1 = buf vp vp.old_metrics 1 := by rw [a1, a7]
  have hB1 : buf vp1 vp1.old_metrics (1 + 2) = buf vp vp.old_metrics 3 := by rw [a1, a7]
  obtain ⟨b1, b2, b3, b4, b5, b6, b7, b8, b9⟩ :=
    BFLY_eval 1 s d syms vp1 c1 mx _ _ hne1 hc1' hmx' hA1 hB1
      (by omega) (by omega) (by omega) (by omega)
  generalize hv2 : BFLY 1 s syms vp1 d = vp2 at *
  have hfold : (List.range (NUMSTATES / 2)).foldl (fun vp i => BFLY i s syms vp d) vp = vp2 := by
    simp only [half_states, range_two, List.foldl_cons, List.foldl_nil, hv1, hv2]
  have n2 : vp2.new_metrics = vp.new_metrics := by rw [b2, a2]
  have o2 : vp2.old_metrics = vp.old_metrics := by rw [b1, a1]
  have hnew : buf vp2 vp.new_metrics = write (write (write (write (buf vp vp.new_metrics) 0
      (sel (buf vp vp.old_metrics 0 + c0) (buf vp vp.old_metrics 2 + (mx - c0)))) 1
      (sel (buf vp vp.old_metrics 0 + (mx - c0)) (buf vp vp.old_metrics 2 + c0))) 2
      (sel (buf vp vp.old_metrics 1 + c1) (buf vp vp.old_metrics 3 + (mx - c1)))) 3
      (sel (buf vp vp.old_metrics 1 + (mx - c1)) (buf vp vp.old_metrics 3 + c1)) := by
    rw [← a2, b8, a2, a8]; rfl
  have hsel0 : buf vp2 vp.new_metrics 0 ≤ RENORMALIZE_THRESHOLD := by
    rw [hnew]
    simp only [write, sel, RENORMALIZE_THRESHOLD, SHRT_MAX]
    norm_num
    split_ifs <;> omega
  have hdec : vp2.decisions = write vp.decisions d (write (write (vp.decisions d) 0
      (to_uint8 (vp.decisions d 0 |||
        (to_uint8 (dec_bits (buf vp vp.old_metrics 0 + c0) (buf vp vp.old_metrics 2 + (mx - c0)) |||
          (dec_bits (buf vp vp.old_metrics 0 + (mx - c0)) (buf vp vp.old_metrics 2 + c0) <<< 1))
          <<< 0)))) 0
      (to_uint8 (to_uint8 (vp.decisions d 0 |||
        (to_uint8 (dec_bits (buf vp vp.old_metrics 0 + c0) (buf vp vp.old_metrics 2 + (mx - c0)) |||
          (dec_bits (buf vp vp.old_metrics 0 + (mx - c0)) (buf vp vp.old_metrics 2 + c0) <<< 1))
          <<< 0)) |||
        (to_uint8 (dec_bits (buf vp vp.old_metrics 1 + c1) (buf vp vp.old_metrics 3 + (mx - c1)) |||
          (dec_bits (buf vp vp.old_metrics 1 + (mx - c1)) (buf vp vp.old_metrics 3 + c1) <<< 1))
          <<< 2)))) := by
    rw [b9, a9]
    funext k b
    by_cases hk : k = d <;> by_cases hb : b = 0 <;> simp [write, hk, hb]
  have hren : (match vp2.new_metrics with
      | .metrics1 => { vp2 with metrics1 := renormalize vp2.metrics1 RENORMALIZE_THRESHOLD }
      | .metrics2 => { vp2 with metrics2 := renormalize vp2.metrics2 RENORMALIZE_THRESHOLD }) = vp2 := by
    rw [← n2] at hsel0
    cases hn2 : vp2.new_metrics <;> rw [hn2] at hsel0 <;> simp only
    · have h := renormalize_noop vp2.metrics1 _ hsel0
      rw [h]
      cases vp2
      simp_all
    · have h := renormalize_noop vp2.metrics2 _ hsel0
      rw [h]
      cases vp2
      simp_all
  have hbuf : ∀ p, buf (update_step syms (vp, d) s).1 p = buf vp2 p := by
    intro p
    simp only [update_step, hfold, hren]
    cases p <;> rfl
  refine ⟨rfl, ?_, ?_, ?_, ?_, ?_, ?_, ?_, ?_, ?_, ?_, ?_, ?_⟩
  · simp only [update_step, hfold, hren]; exact n2
  · simp only [update_step, hfold, hren]; exact o2
  · simp only [update_step, hfold, hren]; rw [b3, a3]
  · simp only [update_step, hfold, hren]; rw [b4, a4]
  · simp only [update_step, hfold, hren]; rw [b5, a5]
  · simp only [update_step, hfold, hren]; rw [b6, a6]
  · rw [hbuf, hnew]; rfl
  · rw [hbuf, hnew]; rfl
  · rw [hbuf, hnew]; rfl
  · rw [hbuf, hnew]; rfl
  · intro k hk
    simp only [update_step, hfold, hren]
    rw [hdec]
    simp [write, hk]
  · simp only [update_step, hfold, hren]
    rw [hdec]
    simp [write]

theorem metric_facts (lo hi : Int) (a0 a1 : Bool) (vp : vitdec_t) (s t : Nat) (b : Bool)
    (syms : Nat → Int) (hD : 0 < hi - lo ∧ hi - lo ≤ 255) (hs : s < 4)
    (bt0 : vp.BranchTable 0 0 = lo ∧ vp.BranchTable 1 0 = lo)
    (bt1 : vp.BranchTable 0 1 = (if a0 then hi else lo) ∧
      vp.BranchTable 1 1 = (if a1 then hi else lo))
    (hsym : syms (t * 2) = soft_symbol lo hi (enc_out a0 s b) ∧
      syms (t * 2 + 1) = soft_symbol lo hi (enc_out a1 s b)) (i : Nat) (hi2 : i < 2) :
    0 ≤ BFLY_metric i t syms vp ∧ BFLY_metric i t syms vp ≤ 2 * (hi - lo) ∧
    (i = s % 2 → BFLY_metric i t syms vp = if s / 2 = b.toNat then 0 else 2 * (hi - lo)) := by
  have key : BFLY_metric i t syms vp =
      iabs (vp.BranchTable 0 i - syms (t * 2)) + iabs (vp.BranchTable 1 i - syms (t * 2 + 1)) := by
    apply BFLY_metric_nowrap
    · rw [hsym.1]
      interval_cases i
      · rw [bt0.1]; unfold soft_symbol; split_ifs <;> omega
      · rw [bt1.1]; unfold soft_symbol; split_ifs <;> omega
    · rw [hsym.2]
      interval_cases i
      · rw [bt0.2]; unfold soft_symbol; split_ifs <;> omega
      · rw [bt1.2]; unfold soft_symbol; split_ifs <;> omega
  rw [key, hsym.1, hsym.2]
  interval_cases i
  · rw [bt0.1, bt0.2]
    interval_cases s <;> cases b <;> cases a0 <;> cases a1 <;>
      simp [iabs, soft_symbol, enc_out] <;> (try split_ifs) <;> omega
  · rw [bt1.1, bt1.2]
    interval_cases s <;> cases b <;> cases a0 <;> cases a1 <;>
      simp [iabs, soft_symbol, enc_out] <;> (try split_ifs) <;> omega

theorem K_eq : K = 3 := rfl

theorem and_mod8 (x p : Nat) (hx : x < 8) : x &&& p = x &&& (p % 8) := by
  apply Nat.eq_of_testBit_eq
  intro i
  have h8 : p % 8 = p % 2 ^ 3 := rfl
  rw [Nat.testBit_and, Nat.testBit_and, h8, Nat.testBit_mod_two_pow]
  by_cases h : i < 3
  · simp [h]
  · have hlt : x < 2 ^ i := lt_of_lt_of_le hx (by
      have : 2 ^ 3 ≤ 2 ^ i := Nat.pow_le_pow_right (by omega) (by omega)
      omega)
    simp [Nat.testBit_lt_two_pow hlt]

theorem poly_mod8 (p : Nat) (h0 : p.testBit 0 = true) (h2 : p.testBit 2 = true) :
    (p % 8 = 5 ∧ p.testBit 1 = false) ∨ (p % 8 = 7 ∧ p.testBit 1 = true) := by
  rw [Nat.testBit_to_div_mod] at h0 h2
  have h1 : p.testBit 1 = decide (p / 2 ^ 1 % 2 = 1) := Nat.testBit_to_div_mod
  simp only [decide_eq_true_eq] at h0 h2
  norm_num at h0 h2 h1
  by_cases h : p / 2 % 2 = 1
  · right; simp [h1, h]; omega
  · left; simp [h1, h]; omega

theorem parity_enc (p sr : Nat) (b : Bool) (h0 : p.testBit 0 = true) (h2 : p.testBit 2 = true)
    (hsr : sr < 8) :
    (parity ((((sr <<< 1) ||| b.toNat) % 2 ^ K) &&& p) == 1) =
      enc_out (p.testBit 1) (sr % 4) b := by
  rw [and_mod8 _ p (by rw [K_eq]; exact Nat.mod_lt _ (by norm_num))]
  rcases poly_mod8 p h0 h2 with ⟨h, h1⟩ | ⟨h, h1⟩ <;> rw [h, h1] <;>
    interval_cases sr <;> cases b <;> decide

theorem parity_branch (p : Nat) :
    parity ((0 <<< 1) &&& p) = 0 ∧ (parity ((1 <<< 1) &&& p) ≠ 0 ↔ p.testBit 1 = true) := by
  constructor
  · simp only [Nat.zero_shiftLeft, Nat.zero_and]; decide
  · have h1 : p.testBit 1 = (p % 2 ^ 3).testBit 1 := by
      rw [Nat.testBit_mod_two_pow]; simp
    rw [and_mod8 _ p (by decide), h1]
    have : p % 8 < 8 := Nat.mod_lt _ (by norm_num)
    have e : p % 2 ^ 3 = p % 8 := rfl
    rw [e]
    generalize p % 8 = r at *
    interval_cases r <;> decide

theorem sr_at_lt : ∀ (bits : List Bool) (sr t : Nat), sr < 8 → sr_at sr bits t < 8
  | [], sr, 0, h => by simpa [sr_at] using h
  | [], sr, t + 1, h => by simpa [sr_at] using h
  | _ :: _, sr, 0, h => by simpa [sr_at] using h
  | b :: bs, sr, t + 1, _ => by
    rw [sr_at]
    exact sr_at_lt bs _ t (by rw [K_eq]; exact Nat.mod_lt _ (by norm_num))

theorem sr_at_succ : ∀ (bits : List Bool) (sr t : Nat), t < bits.length →
    sr_at sr bits (t + 1) = ((sr_at sr bits t <<< 1) ||| (bits.getD t false).toNat) % 2 ^ K
  | [], _, _, h => by simp at h
  | b :: bs, sr, 0, _ => by simp [sr_at]
  | b :: bs, sr, t + 1, h => by
    have := sr_at_succ bs (((sr <<< 1) ||| b.toNat) % 2 ^ K) t (by simpa using h)
    simp only [sr_at, List.getD_cons_succ] at this ⊢
    exact this

theorem conv_encode_getD (polys : Nat → Nat) : ∀ (bits : List Bool) (sr t j : Nat),
    t < bits.length → j < 2 →
    (conv_encode polys sr bits).getD (t * 2 + j) false =
      (parity (sr_at sr bits (t + 1) &&& polys j) == 1)
  | [], _, _, _, h, _ => by simp at h
  | b :: bs, sr, 0, j, _, hj => by
    interval_cases j <;> simp [conv_encode, sr_at, CODE_RATE_eq, range_two]
  | b :: bs, sr, t + 1, j, h, hj => by
    have ih := conv_encode_getD polys bs (((sr <<< 1) ||| b.toNat) % 2 ^ K) t j
      (by simpa using h) hj
    have e : (t + 1) * 2 + j = (t * 2 + j) + 1 + 1 := by ring
    rw [e]
    simp only [conv_encode, CODE_RATE_eq, range_two, List.map_cons, List.map_nil,
      List.cons_append, List.nil_append, List.getD_cons_succ, sr_at]
    exact ih

theorem st_at_lt (bits : List Bool) (t : Nat) : st_at bits t < 4 := Nat.mod_lt _ (by norm_num)

theorem st_at_succ (bits : List Bool) (t : Nat) (h : t < bits.length) :
    st_at bits (t + 1) = (2 * st_at bits t + (bits.getD t false).toNat) % 4 := by
  unfold st_at
  rw [sr_at_succ bits 0 t h, K_eq]
  have := sr_at_lt bits 0 t (by norm_num)
  generalize sr_at 0 bits t = x at *
  generalize bits.getD t false = b
  interval_cases x <;> cases b <;> decide

theorem syms_at (lo hi : Int) (polys : Nat → Nat) (bits : List Bool) (t j : Nat)
    (h0 : (polys j).testBit 0 = true) (h2 : (polys j).testBit 2 = true)
    (ht : t < bits.length) (hj : j < 2) :
    soft_symbols lo hi (conv_encode polys 0 bits) (t * 2 + j) =
      soft_symbol lo hi (enc_out ((polys j).testBit 1) (st_at bits t) (bits.getD t false)) := by
  unfold soft_symbols st_at
  rw [conv_encode_getD polys bits 0 t j ht hj, sr_at_succ bits 0 t ht,
    parity_enc _ _ _ h0 h2 (sr_at_lt bits 0 t (by norm_num))]

theorem dec_bits_le (x y : Int) : dec_bits x y ≤ 1 := by
  unfold dec_bits; split_ifs <;> omega

theorem slot_bits (d00 d01 d10 d11 : Nat) (h1 : d00 ≤ 1) (h2 : d01 ≤ 1) (h3 : d10 ≤ 1)
    (h4 : d11 ≤ 1) :
    (to_uint8 (to_uint8 (0 ||| (to_uint8 (d00 ||| (d01 <<< 1)) <<< 0)) |||
      (to_uint8 (d10 ||| (d11 <<< 1)) <<< 2)) >>> 0) &&& 1 = d00 ∧
    (to_uint8 (to_uint8 (0 ||| (to_uint8 (d00 ||| (d01 <<< 1)) <<< 0)) |||
      (to_uint8 (d10 ||| (d11 <<< 1)) <<< 2)) >>> 1) &&& 1 = d01 ∧
    (to_uint8 (to_uint8 (0 ||| (to_uint8 (d00 ||| (d01 <<< 1)) <<< 0)) |||
      (to_uint8 (d10 ||| (d11 <<< 1)) <<< 2)) >>> 2) &&& 1 = d10 ∧
    (to_uint8 (to_uint8 (0 ||| (to_uint8 (d00 ||| (d01 <<< 1)) <<< 0)) |||
      (to_uint8 (d10 ||| (d11 <<< 1)) <<< 2)) >>> 3) &&& 1 = d11 := by
  interval_cases d00 <;> interval_cases d01 <;> interval_cases d10 <;> interval_cases d11 <;>
    decide

theorem track_step (lo hi : Int) (a0 a1 : Bool) (vp : vitdec_t) (s t : Nat) (b : Bool)
    (syms : Nat → Int) (hD : 0 < hi - lo ∧ hi - lo ≤ 255) (hs : s < 4)
    (hinv : TrackInv lo hi a0 a1 vp s t)
    (hsym : syms (t * 2) = soft_symbol lo hi (enc_out a0 s b) ∧
      syms (t * 2 + 1) = soft_symbol lo hi (enc_out a1 s b)) :
    (update_step syms (vp, t) t).2 = t + 1 ∧
    TrackInv lo hi a0 a1 (update_step syms (vp, t) t).1 ((2 * s + b.toNat) % 4) (t + 1) ∧
    (update_step syms (vp, t) t).1.maximum_decoded_bits = vp.maximum_decoded_bits ∧
    (∀ k, k ≠ t → (update_step syms (vp, t) t).1.decisions k = vp.decisions k) ∧
    (t < vp.maximum_decoded_bits →
      ((update_step syms (vp, t) t).1.decisions t 0 >>> ((2 * s + b.toNat) % 4)) &&& 1 = s / 2) := by
  obtain ⟨f0a, f0b, f0c⟩ := metric_facts lo hi a0 a1 vp s t b syms hD hs hinv.bt0 hinv.bt1 hsym 0
    (by omega)
  obtain ⟨f1a, f1b, f1c⟩ := metric_facts lo hi a0 a1 vp s t b syms hD hs hinv.bt0 hinv.bt1 hsym 1
    (by omega)
  have hmx : BFLY_max vp = 2 * (hi - lo) := by
    rw [BFLY_max_nowrap vp (by rw [hinv.sdme]; omega), hinv.sdme]
  obtain ⟨e1, e2, e3, e4, e5, e6, e7, e8, e9, e10, e11, e12, e13⟩ :=
    update_step_eval t t syms vp _ _ _ hinv.ptr rfl rfl hmx (by omega) (by omega)
      ⟨f0a, f0b⟩ ⟨f1a, f1b⟩ hinv.rng
  have r0 := hinv.rng 0 (by omega)
  have r1 := hinv.rng 1 (by omega)
  have r2 := hinv.rng 2 (by omega)
  have r3 := hinv.rng 3 (by omega)
  have k0 := hinv.close 0 (by omega)
  have k1 := hinv.close 1 (by omega)
  have k2 := hinv.close 2 (by omega)
  have k3 := hinv.close 3 (by omega)
  have z := hinv.zero
  have q00 := dec_bits_le (buf vp vp.old_metrics 0 + BFLY_metric 0 t syms vp)
    (buf vp vp.old_metrics 2 + (2 * (hi - lo) - BFLY_metric 0 t syms vp))
  have q01 := dec_bits_le (buf vp vp.old_metrics 0 + (2 * (hi - lo) - BFLY_metric 0 t syms vp))
    (buf vp vp.old_metrics 2 + BFLY_metric 0 t syms vp)
  have q10 := dec_bits_le (buf vp vp.old_metrics 1 + BFLY_metric 1 t syms vp)
    (buf vp vp.old_metrics 3 + (2 * (hi - lo) - BFLY_metric 1 t syms vp))
  have q11 := dec_bits_le (buf vp vp.old_metrics 1 + (2 * (hi - lo) - BFLY_metric 1 t syms vp))
    (buf vp vp.old_metrics 3 + BFLY_metric 1 t syms vp)
  generalize update_step syms (vp, t) t = r at *
  generalize BFLY_metric 0 t syms vp = c0 at *
  generalize BFLY_metric 1 t syms vp = c1 at *
  generalize hM0 : buf vp vp.old_metrics 0 = M0 at *
  generalize hM1 : buf vp vp.old_metrics 1 = M1 at *
  generalize hM2 : buf vp vp.old_metrics 2 = M2 at *
  generalize hM3 : buf vp vp.old_metrics 3 = M3 at *
  refine ⟨e1, ⟨?_, ?_, ?_, ?_, ?_, ?_, ?_, ?_, ?_⟩, e7, e12, ?_⟩
  · rw [e2, e3]; exact fun h => hinv.ptr h.symm
  · rw [e4]; exact hinv.bt0
  · rw [e4]; exact hinv.bt1
  · rw [e5]; exact hinv.sdme
  · rw [e2]
    interval_cases s <;> cases b <;>
      simp only [Bool.toNat_true, Bool.toNat_false, hM0, hM1, hM2, hM3] at z f0c f1c k0 k1 k2 k3 ⊢ <;>
      norm_num at z f0c f1c k0 k1 k2 k3 ⊢ <;>
      simp only [e8, e9, e10, e11, sel] <;>
      (try subst z) <;> (try subst f0c) <;> (try subst f1c) <;>
      split_ifs <;> omega
  · intro n hn
    rw [e2]
    interval_cases n <;> interval_cases s <;> cases b <;>
      simp only [Bool.toNat_true, Bool.toNat_false, hM0, hM1, hM2, hM3] at z f0c f1c k0 k1 k2 k3 ⊢ <;>
      norm_num at z f0c f1c k0 k1 k2 k3 ⊢ <;>
      simp only [e8, e9, e10, e11, sel] <;>
      (try subst z) <;> (try subst f0c) <;> (try subst f1c) <;>
      split_ifs <;> omega
  · intro n hn hcl
    rw [e2]
    interval_cases n <;> interval_cases s <;> cases b <;>
      simp only [Bool.toNat_true, Bool.toNat_false, hM0, hM1, hM2, hM3] at z f0c f1c k0 k1 k2 k3 hcl ⊢ <;>
      norm_num at z f0c f1c k0 k1 k2 k3 hcl ⊢ <;>
      simp only [e8, e9, e10, e11, sel] <;>
      (try subst z) <;> (try subst f0c) <;> (try subst f1c) <;>
      split_ifs <;> omega
  · rw [e6, hinv.cur]
  · intro k hk1 hk2
    rw [e12 k (by omega), hinv.clean k (by omega) (by rw [e7] at hk2; exact hk2)]
  · intro htm
    rw [e13, hinv.clean t (le_refl _) htm]
    obtain ⟨sb0, sb1, sb2, sb3⟩ := slot_bits _ _ _ _ q00 q01 q10 q11
    interval_cases s <;> cases b <;>
      simp only [Bool.toNat_true, Bool.toNat_false, hM0, hM1, hM2, hM3] at z f0c f1c ⊢ <;>
      norm_num at z f0c f1c <;>
      (first | refine sb0.trans ?_ | refine sb1.trans ?_ | refine sb2.trans ?_ |
        refine sb3.trans ?_) <;>
      unfold dec_bits <;> split_ifs <;> omega

theorem create_viterbi_fields (polys : Nat → Nat) (len : Nat) (hi lo : Int) (raw : vitdec_t) :
    (create_viterbi polys len hi lo raw).old_metrics = .metrics1 ∧
    (create_viterbi polys len hi lo raw).new_metrics = .metrics2 ∧
    (create_viterbi polys len hi lo raw).soft_decision_max_error = to_int16 (hi - lo) ∧
    (create_viterbi polys len hi lo raw).maximum_decoded_bits = len + 2 ∧
    (create_viterbi polys len hi lo raw).curr_decoded_bit = 0 ∧
    (create_viterbi polys len hi lo raw).decisions =
      (fun t => if t < len + 2 then fun _ => 0 else raw.decisions t) ∧
    (create_viterbi polys len hi lo raw).metrics1 0 = 0 ∧
    (create_viterbi polys len hi lo raw).metrics1 1 = 3000 ∧
    (create_viterbi polys len hi lo raw).metrics1 2 = 3000 ∧
    (create_viterbi polys len hi lo raw).metrics1 3 = 3000 ∧
    (create_viterbi polys len hi lo raw).BranchTable 0 0 =
      (if parity ((0 <<< 1) &&& polys 0) ≠ 0 then hi else lo) ∧
    (create_viterbi polys len hi lo raw).BranchTable 1 0 =
      (if parity ((0 <<< 1) &&& polys 1) ≠ 0 then hi else lo) ∧
    (create_viterbi polys len hi lo raw).BranchTable 0 1 =
      (if parity ((1 <<< 1) &&& polys 0) ≠ 0 then hi else lo) ∧
    (create_viterbi polys len hi lo raw).BranchTable 1 1 =
      (if parity ((1 <<< 1) &&& polys 1) ≠ 0 then hi else lo) :=
  ⟨rfl, rfl, rfl, rfl, rfl, rfl, rfl, rfl, rfl, rfl, rfl, rfl, rfl, rfl⟩

theorem create_viterbi_inv (polys : Nat → Nat) (len : Nat) (hi lo : Int) (raw : vitdec_t)
    (hD : 0 < hi - lo ∧ hi - lo ≤ 255) :
    TrackInv lo hi ((polys 0).testBit 1) ((polys 1).testBit 1)
      (create_viterbi polys len hi lo raw) 0 0 ∧
    (create_viterbi polys len hi lo raw).maximum_decoded_bits = len + 2 := by
  obtain ⟨p00, p01⟩ := parity_branch (polys 0)
  obtain ⟨p10, p11⟩ := parity_branch (polys 1)
  have hsd : to_int16 (hi - lo) = hi - lo := to_int16_of_range (by omega) (by omega)
  obtain ⟨c1, c2, c3, c4, c5, c6, m0, m1, m2, m3, b00, b10, b01, b11⟩ :=
    create_viterbi_fields polys len hi lo raw
  generalize create_viterbi polys len hi lo raw = vp at *
  have hb : ∀ n, buf vp vp.old_metrics n = vp.metrics1 n := by intro n; rw [c1]; rfl
  refine ⟨⟨?_, ?_, ?_, ?_, ?_, ?_, ?_, ?_, ?_⟩, c4⟩
  · rw [c1, c2]; decide
  · rw [b00, b10, if_neg (not_not.mpr p00), if_neg (not_not.mpr p10)]
    exact ⟨rfl, rfl⟩
  · rw [b01, b11]
    constructor
    · by_cases h : (polys 0).testBit 1 = true
      · rw [if_pos (p01.2 h), if_pos h]
      · rw [if_neg (fun h' => h (p01.1 h')), if_neg h]
    · by_cases h : (polys 1).testBit 1 = true
      · rw [if_pos (p11.2 h), if_pos h]
      · rw [if_neg (fun h' => h (p11.1 h')), if_neg h]
  · rw [c3, hsd]
  · rw [hb, m0]
  · intro n hn
    rw [hb]
    interval_cases n <;> simp [m0, m1, m2, m3]
  · intro n hn _
    rw [hb]
    interval_cases n <;> simp [m0, m1, m2, m3]
  · exact c5
  · intro k _ hk
    rw [c6]
    rw [c4] at hk
    simp [hk]

theorem track_run (lo hi : Int) (polys : Nat → Nat) (bits : List Bool) (vp0 : vitdec_t)
    (hD : 0 < hi - lo ∧ hi - lo ≤ 255)
    (hp : ∀ j < 2, (polys j).testBit 0 = true ∧ (polys j).testBit 2 = true)
    (h0 : TrackInv lo hi ((polys 0).testBit 1) ((polys 1).testBit 1) vp0 0 0)
    (hmax : bits.length ≤ vp0.maximum_decoded_bits) (n : Nat) (hn : n ≤ bits.length) :
    ((List.range n).foldl
      (update_step (soft_symbols lo hi (conv_encode polys 0 bits))) (vp0, 0)).2 = n ∧
    TrackInv lo hi ((polys 0).testBit 1) ((polys 1).testBit 1)
      ((List.range n).foldl
        (update_step (soft_symbols lo hi (conv_encode polys 0 bits))) (vp0, 0)).1
      (st_at bits n) n ∧
    ((List.range n).foldl
      (update_step (soft_symbols lo hi (conv_encode polys 0 bits))) (vp0, 0)).1.maximum_decoded_bits
      = vp0.maximum_decoded_bits ∧
    ∀ k < n, (((List.range n).foldl
      (update_step (soft_symbols lo hi (conv_encode polys 0 bits))) (vp0, 0)).1.decisions k 0
        >>> st_at bits (k + 1)) &&& 1 = st_at bits k / 2 := by
  induction n with
  | zero =>
    refine ⟨rfl, ?_, rfl, fun k hk => absurd hk (Nat.not_lt_zero k)⟩
    simpa [st_at, sr_at] using h0
  | succ n ih =>
    obtain ⟨i1, i2, i3, i4⟩ := ih (by omega)
    rw [List.range_succ, List.foldl_append, List.foldl_cons, List.foldl_nil]
    generalize (List.range n).foldl
      (update_step (soft_symbols lo hi (conv_encode polys 0 bits))) (vp0, 0) = st at *
    obtain ⟨vp, d⟩ := st
    simp only at i1 i2 i3 i4
    subst i1
    have hsym := syms_at lo hi polys bits d
    obtain ⟨s1, s2, s3, s4, s5⟩ := track_step lo hi _ _ vp (st_at bits d) d (bits.getD d false)
      (soft_symbols lo hi (conv_encode polys 0 bits)) hD (st_at_lt _ _) i2
      ⟨hsym 0 (hp 0 (by omega)).1 (hp 0 (by omega)).2 (by omega) (by omega),
       hsym 1 (hp 1 (by omega)).1 (hp 1 (by omega)).2 (by omega) (by omega)⟩
    rw [← st_at_succ bits d (by omega)] at s2 s5
    refine ⟨s1, s2, by rw [s3, i3], ?_⟩
    intro k hk
    by_cases hkd : k = d
    · subst hkd
      exact s5 (by omega)
    · rw [s4 k hkd]
      exact i4 k (by omega)

theorem range_eight : List.range 8 = [0, 1, 2, 3, 4, 5, 6, 7] := rfl

set_option maxRecDepth 100000 in
theorem byte_eq_fold : ∀ x < 256, x = (List.range 8).foldl
    (fun acc j => 2 * acc + (x.testBit (7 - j)).toNat) 0 := by
  decide

theorem byte_of_bits (x : Nat) (c : Nat → Bool) (hx : x < 256)
    (h : ∀ j < 8, x.testBit j = c (7 - j)) :
    x = (List.range 8).foldl (fun acc j => 2 * acc + (c j).toNat) 0 := by
  have e := byte_eq_fold x hx
  simp only [range_eight, List.foldl_cons, List.foldl_nil] at e ⊢
  rw [h 7 (by omega), h 6 (by omega), h 5 (by omega), h 4 (by omega), h 3 (by omega),
    h 2 (by omega), h 1 (by omega), h 0 (by omega)] at e
  exact e

theorem zero_fill (N : Nat) (data : Nat → Nat) (k : Nat) (hk : k < N) :
    ((List.range N).foldl (fun data i => write data i 0x00) data) k = 0 := by
  induction N with
  | zero => omega
  | succ N ih =>
    rw [List.range_succ, List.foldl_append, List.foldl_cons, List.foldl_nil]
    unfold write
    by_cases h : k = N
    · simp [h]
    · simp only [h, if_false]
      exact ih (by omega)

theorem st_top_bit (bits : List Bool) (i : Nat) (h : i + 1 < bits.length) :
    st_at bits (i + 2) / 2 = (bits.getD i false).toNat := by
  have h1 := st_at_succ bits i (by omega)
  have h2 := st_at_succ bits (i + 1) h
  have := st_at_lt bits i
  rw [h1] at h2
  rw [h2]
  generalize st_at bits i = s at *
  generalize bits.getD i false = b
  generalize bits.getD (i + 1) false = c
  interval_cases s <;> cases b <;> cases c <;> decide

theorem st_back (bits : List Bool) (i : Nat) (h : i + 2 < bits.length) :
    (st_at bits (i + 3) >>> 1) ||| ((st_at bits (i + 2) / 2) <<< (K - 2)) = st_at bits (i + 2) := by
  have h2 := st_at_succ bits (i + 2) h
  have := st_at_lt bits (i + 2)
  rw [h2]
  generalize st_at bits (i + 2) = s at *
  generalize bits.getD (i + 2) false = c
  interval_cases s <;> cases c <;> decide

theorem chain_loop (vp : vitdec_t) (bits : List Bool) (N : Nat)
    (hist : ∀ k < bits.length,
      (vp.decisions k 0 >>> st_at bits (k + 1)) &&& 1 = st_at bits k / 2) :
    ∀ m, m + 2 ≤ bits.length → m ≤ 8 * N → ∀ data : Nat → Nat, (∀ k < N, data k < 256) →
      ∀ k < N, ((List.range m).reverse.foldl (chainback_step vp (K - 1))
          (data, st_at bits (m + 2))).1 k < 256 ∧
        ∀ j < 8, (((List.range m).reverse.foldl (chainback_step vp (K - 1))
          (data, st_at bits (m + 2))).1 k).testBit j =
          ((data k).testBit j || (decide (8 * k + (7 - j) < m) && bits.getD (8 * k + (7 - j)) false)) := by
  intro m
  induction m with
  | zero =>
    intro _ _ data hd k hk
    exact ⟨hd k hk, fun j _ => by simp⟩
  | succ m ih =>
    intro hm hN data hd k hk
    rw [List.range_succ, List.reverse_append, List.reverse_singleton, List.singleton_append,
      List.foldl_cons]
    have hin : (vp.decisions (K - 1 + m) 0 >>> st_at bits (m + 1 + 2)) &&& 1 =
        (bits.getD m false).toNat := by
      have := hist (m + 2) (by omega)
      rw [show K - 1 + m = m + 2 by rw [K_eq]; omega, show m + 1 + 2 = m + 2 + 1 by omega, this]
      exact st_top_bit bits m (by omega)
    have hstep : chainback_step vp (K - 1) (data, st_at bits (m + 1 + 2)) m =
        (write data (m / 8) (to_uint8 (data (m / 8) |||
          ((bits.getD m false).toNat <<< (7 - m % 8)))), st_at bits (m + 2)) := by
      have hb : to_uint8 (bits.getD m false).toNat = (bits.getD m false).toNat := by
        cases bits.getD m false <;> rfl
      simp only [chainback_step, hin, hb]
      congr 1
      rw [← st_top_bit bits m (by omega)]
      exact st_back bits m (by omega)
    rw [hstep]
    have hd1 : ∀ k < N, write data (m / 8) (to_uint8 (data (m / 8) |||
          ((bits.getD m false).toNat <<< (7 - m % 8)))) k < 256 := by
      intro k hk
      unfold write
      split_ifs
      · exact Nat.mod_lt _ (by norm_num)
      · exact hd k hk
    obtain ⟨r1, r2⟩ := ih (by omega) (by omega) _ hd1 k hk
    refine ⟨r1, fun j hj => ?_⟩
    rw [r2 j hj]
    have h256 : ∀ x : Nat, (to_uint8 x).testBit j = x.testBit j := by
      intro x
      unfold to_uint8
      rw [show (256 : Nat) = 2 ^ 8 from rfl, Nat.testBit_mod_two_pow]
      simp [hj]
    have hbit : ∀ (c : Bool) (q : Nat), (c.toNat <<< q).testBit j = (decide (j = q) && c) := by
      intro c q
      rw [Nat.testBit_shiftLeft, Nat.testBit_bool_to_nat]
      by_cases h1 : j = q
      · subst h1; simp
      · by_cases h2 : j ≥ q
        · have : ¬ (j - q = 0) := by omega
          simp [h1, this]
        · simp [h1, h2]
    unfold write
    by_cases hkm : 8 * k + (7 - j) = m
    · have e1 : k = m / 8 := by omega
      have e2 : j = 7 - m % 8 := by omega
      rw [if_pos e1, h256, Nat.testBit_or, hbit, ← e1, hkm]
      simp [e2]
    · have e3 : decide (8 * k + (7 - j) < m + 1) = decide (8 * k + (7 - j) < m) := by
        apply decide_eq_decide.mpr
        omega
      rw [e3]
      by_cases e1 : k = m / 8
      · have e2 : ¬ (j = 7 - m % 8) := by omega
        rw [if_pos e1, h256, Nat.testBit_or, hbit, ← e1]
        simp [e2]
      · rw [if_neg e1]

theorem tail_getD (B : List Bool) (i : Nat) (h : B.length ≤ i) :
    (B ++ List.replicate (K - 1) false).getD i false = false := by
  rw [List.getD_eq_getElem?_getD, List.getElem?_append_right h]
  rw [K_eq]
  generalize i - B.length = q
  rcases q with _ | _ | q <;> simp [List.replicate]

theorem head_getD (B : List Bool) (i : Nat) (h : i < B.length) :
    (B ++ List.replicate (K - 1) false).getD i false = B.getD i false := by
  rw [List.getD_eq_getElem?_getD, List.getD_eq_getElem?_getD, List.getElem?_append_left h]

theorem st_at_end (B : List Bool) :
    st_at (B ++ List.replicate (K - 1) false) (B.length + 2) = 0 := by
  have hl : (B ++ List.replicate (K - 1) false).length = B.length + 2 := by simp [K_eq]
  have h1 := st_at_succ (B ++ List.replicate (K - 1) false) B.length (by omega)
  have h2 := st_at_succ (B ++ List.replicate (K - 1) false) (B.length + 1) (by omega)
  rw [tail_getD B _ (by omega)] at h1 h2
  rw [h2, h1]
  simp only [Bool.toNat_false]
  omega

end Vit

open Vit in
/-- C1: the noise-free Viterbi round trip.  A bit sequence `B` whose length is a multiple of 8
and at most `len`, encoded at rate 1/2 with `K = 3` from encoder state 0 by generator
polynomials whose bits 0 and `K - 1` are set, followed by `K - 1` zero tail bits, every
encoder output bit sent as exactly `soft_low` or `soft_high` (with
`soft_low < soft_high`, `soft_high - soft_low ≤ 255`): after `create_viterbi`,
`update_viterbi_blk_scalar` over all `nbits + K - 1` symbols and
`chainback_viterbi (nbits, endstate 0)`, the output bytes are `B` packed most significant
bit first, and `get_error_viterbi 0` is 0.  It holds whatever the uninitialised decoder
memory `raw` and the output buffer `data` held before. -/
theorem viterbi_noise_free_round_trip (polys : Nat → Nat) (len : Nat)
    (soft_high soft_low : Int) (raw : vitdec_t) (data : Nat → Nat) (B : List Bool)
    (hpoly : ∀ j < CODE_RATE, (polys j).testBit 0 = true ∧ (polys j).testBit (K - 1) = true)
    (hlt : soft_low < soft_high) (hrange : soft_high - soft_low ≤ 255)
    (h8 : 8 ∣ B.length) (hlen : B.length ≤ len) :
    (∀ k < B.length / 8,
      chainback_viterbi
        (update_viterbi_blk_scalar (create_viterbi polys len soft_high soft_low raw)
          (soft_symbols soft_low soft_high
            (conv_encode polys 0 (B ++ List.replicate (K - 1) false)))
          ((B.length + (K - 1) : Nat) : Int))
        data B.length 0 k = pack_msb B k) ∧
    get_error_viterbi
      (update_viterbi_blk_scalar (create_viterbi polys len soft_high soft_low raw)
        (soft_symbols soft_low soft_high
          (conv_encode polys 0 (B ++ List.replicate (K - 1) false)))
        ((B.length + (K - 1) : Nat) : Int)) 0 = 0 := by
  have hD : 0 < soft_high - soft_low ∧ soft_high - soft_low ≤ 255 := ⟨by omega, hrange⟩
  have hl : (B ++ List.replicate (K - 1) false).length = B.length + 2 := by simp [K_eq]
  obtain ⟨hinv0, hmax0⟩ := create_viterbi_inv polys len soft_high soft_low raw hD
  obtain ⟨_, t2, _, t4⟩ := track_run soft_low soft_high polys
    (B ++ List.replicate (K - 1) false) _ hD hpoly hinv0 (by rw [hmax0, hl]; omega)
    (B.length + 2) (by rw [hl])
  have hrun : update_viterbi_blk_scalar (create_viterbi polys len soft_high soft_low raw)
      (soft_symbols soft_low soft_high (conv_encode polys 0 (B ++ List.replicate (K - 1) false)))
      ((B.length + (K - 1) : Nat) : Int) =
      ((List.range (B.length + 2)).foldl (update_step (soft_symbols soft_low soft_high
        (conv_encode polys 0 (B ++ List.replicate (K - 1) false))))
        (create_viterbi polys len soft_high soft_low raw, 0)).1 := by
    unfold update_viterbi_blk_scalar
    rw [Int.toNat_ofNat, hinv0.cur, K_eq]
  rw [hrun]
  generalize ((List.range (B.length + 2)).foldl (update_step (soft_symbols soft_low soft_high
        (conv_encode polys 0 (B ++ List.replicate (K - 1) false))))
        (create_viterbi polys len soft_high soft_low raw, 0)).1 = vp at *
  rw [st_at_end] at t2
  constructor
  · intro k hk
    unfold chainback_viterbi
    have hz : ∀ k < B.length / 8,
        ((List.range (B.length / 8)).foldl (fun data i => write data i 0x00) data) k = 0 :=
      fun k hk => zero_fill _ _ k hk
    generalize (List.range (B.length / 8)).foldl (fun data i => write data i 0x00) data = dz at *
    have hcs : 0 % NUMSTATES = st_at (B ++ List.replicate (K - 1) false) (B.length + 2) := by
      rw [st_at_end]; rfl
    rw [hcs]
    obtain ⟨c1, c2⟩ := chain_loop vp (B ++ List.replicate (K - 1) false) (B.length / 8)
      (by rw [hl]; exact t4) B.length (by rw [hl]) (by omega) dz
      (fun k hk => by rw [hz k hk]; norm_num) k hk
    unfold pack_msb
    apply byte_of_bits _ _ c1
    intro j hj
    rw [c2 j hj, hz k hk, head_getD B _ (by omega)]
    have : 8 * k + (7 - j) < B.length := by omega
    simp [this]
  · unfold get_error_viterbi
    exact t2.zero

open Vit in
/-- C1 at a concrete input: two bytes, the polynomials 7 and 5, soft levels -127 and 127. -/
theorem viterbi_noise_free_round_trip_witness :
    (∀ k < [true, false, true, true, false, false, true, false,
        false, true, true, true, false, true, false, true].length / 8,
      chainback_viterbi
        (update_viterbi_blk_scalar
          (create_viterbi (fun j => if j = 0 then 7 else 5) 16 127 (-127) raw_example)
          (soft_symbols (-127) 127
            (conv_encode (fun j => if j = 0 then 7 else 5) 0
              ([true, false, true, true, false, false, true, false,
                false, true, true, true, false, true, false, true] ++
                List.replicate (K - 1) false)))
          (([true, false, true, true, false, false, true, false,
            false, true, true, true, false, true, false, true].length + (K - 1) : Nat) : Int))
        (fun _ => 255) [true, false, true, true, false, false, true, false,
          false, true, true, true, false, true, false, true].length 0 k =
        pack_msb [true, false, true, true, false, false, true, false,
          false, true, true, true, false, true, false, true] k) ∧
    get_error_viterbi
      (update_viterbi_blk_scalar
        (create_viterbi (fun j => if j = 0 then 7 else 5) 16 127 (-127) raw_example)
        (soft_symbols (-127) 127
          (conv_encode (fun j => if j = 0 then 7 else 5) 0
            ([true, false, true, true, false, false, true, false,
              false, true, true, true, false, true, false, true] ++
              List.replicate (K - 1) false)))
        (([true, false, true, true, false, false, true, false,
          false, true, true, true, false, true, false, true].length + (K - 1) : Nat) : Int))
      0 = 0 :=
  viterbi_noise_free_round_trip (fun j => if j = 0 then 7 else 5) 16 127 (-127) raw_example
    (fun _ => 255) [true, false, true, true, false, false, true, false,
      false, true, true, true, false, true, false, true]
    (by decide) (by decide) (by decide) (by decide) (by decide)

/-! ## The demapper scan -/

section Scan

variable {F : Type} [LinearOrderedField F]

theorem nearest_scan_inv (N : Int) (err : Nat → F) (n : Nat) (hN : N = n) (hn : n ≤ 255) :
    ∀ (fuel i best : Nat) (min_err : Option F), i ≤ n → n - i < fuel →
      ((i = 0 ∧ best = 0 ∧ min_err = none) ∨
        (min_err = some (err best) ∧ IsNearest err i best)) →
      ∃ r, nearest_scan N err fuel i best min_err = some r ∧
        ((n = 0 ∧ r = 0) ∨ IsNearest err n r) := by
  intro fuel
  induction fuel with
  | zero => intro i best min_err _ h; omega
  | succ fuel ih =>
    intro i best min_err hi hf hinv
    unfold nearest_scan
    by_cases hlt : (i : Int) < N
    · have hin : i < n := by rw [hN] at hlt; exact_mod_cast hlt
      have hu : to_uint8 (i + 1) = i + 1 := by unfold to_uint8; omega
      rw [if_pos hlt, hu]
      rcases hinv with ⟨h0, hb, hm⟩ | ⟨hm, hb, hle, hlow⟩
      · subst h0 hb hm
        have : lt_min_err (err 0) (none : Option F) = true := rfl
        rw [if_pos this]
        apply ih _ _ _ (by omega) (by omega)
        right
        refine ⟨rfl, by omega, ?_, ?_⟩
        · intro k hk
          have : k = 0 := by omega
          subst this
          exact le_refl _
        · intro k hk
          omega
      · subst hm
        by_cases hc : err i < err best
        · have : lt_min_err (err i) (some (err best)) = true := by simp [lt_min_err, hc]
          rw [if_pos this]
          apply ih _ _ _ (by omega) (by omega)
          right
          refine ⟨rfl, by omega, ?_, ?_⟩
          · intro k hk
            rcases Nat.lt_succ_iff_lt_or_eq.mp hk with h | h
            · exact le_trans (le_of_lt hc) (hle k h)
            · subst h; exact le_refl _
          · intro k hk
            exact lt_of_lt_of_le hc (hle k hk)
        · have : ¬ (lt_min_err (err i) (some (err best)) = true) := by simp [lt_min_err, hc]
          rw [if_neg this]
          apply ih _ _ _ (by omega) (by omega)
          right
          refine ⟨rfl, by omega, ?_, hlow⟩
          intro k hk
          rcases Nat.lt_succ_iff_lt_or_eq.mp hk with h | h
          · exact hle k h
          · subst h; exact not_lt.mp hc
    · have hin : i = n := by
        rw [hN] at hlt
        have : ¬ (i < n) := by exact_mod_cast hlt
        omega
      rw [if_neg hlt]
      refine ⟨best, rfl, ?_⟩
      rcases hinv with ⟨h0, hb, _⟩ | ⟨_, h⟩
      · left; omega
      · right; rw [← hin]; exact h

/-- The scan over at most 255 points returns with enough fuel, and returns the lowest
index of minimal distance (index 0 when there is no point). -/
theorem nearest_scan_spec (N : Int) (err : Nat → F) (fuel : Nat) (hN : N ≤ 255)
    (hf : N.toNat < fuel) :
    ∃ r, nearest_scan N err fuel 0 0 none = some r ∧
      ((N ≤ 0 ∧ r = 0) ∨ IsNearest err N.toNat r) := by
  by_cases h0 : N ≤ 0
  · obtain ⟨fuel, rfl⟩ : ∃ f, fuel = f + 1 := ⟨fuel - 1, by omega⟩
    refine ⟨0, ?_, Or.inl ⟨h0, rfl⟩⟩
    unfold nearest_scan
    rw [if_neg (by push_cast; omega)]
  · obtain ⟨r, h1, h2⟩ := nearest_scan_inv N err N.toNat (by omega) (by omega) fuel 0 0 none
      (by omega) (by omega) (Or.inl ⟨rfl, rfl, rfl⟩)
    refine ⟨r, h1, ?_⟩
    rcases h2 with ⟨h, _⟩ | h
    · omega
    · exact Or.inr h

/-- With 256 points or more the 8-bit counter never reaches the bound: the scan does not
return, whatever the fuel. -/
theorem nearest_scan_diverges (N : Int) (err : Nat → F) (hN : 256 ≤ N) :
    ∀ (fuel i best : Nat) (min_err : Option F), i < 256 →
      nearest_scan N err fuel i best min_err = none := by
  intro fuel
  induction fuel with
  | zero => intro i best min_err _; rfl
  | succ fuel ih =>
    intro i best min_err hi
    unfold nearest_scan
    have h8 : to_uint8 (i + 1) < 256 := Nat.mod_lt _ (by norm_num)
    rw [if_pos (by omega)]
    split_ifs
    · exact ih _ _ _ h8
    · exact ih _ _ _ h8

end Scan

/-! ## Square constellation -/

namespace Constellation

variable {F : Type} [LinearOrderedField F]

theorem write_apply {ι α : Type} [DecidableEq ι] (a : ι → α) (i : ι) (v : α) (k : ι) :
    write a i v k = if k = i then v else a k := rfl

theorem abs_sub_comm (sqrtf : F → F) (a b : complex F) :
    (a.sub b).abs sqrtf = (b.sub a).abs sqrtf := by
  unfold complex.abs complex.sub
  congr 1
  ring

omit [LinearOrderedField F] in
theorem row_fold (pt : Nat → complex F) (l i : Nat) : ∀ (m : Nat) (C : Nat → complex F)
    (idx : Nat),
    ((List.range m).foldl (fun (C : Nat → complex F) (j : Nat) =>
      write C ((i : Int) * (l : Int) + (j : Int)).toNat (pt j)) C) idx =
      if i * l ≤ idx ∧ idx < i * l + m then pt (idx - i * l) else C idx := by
  intro m
  induction m with
  | zero =>
    intro C idx
    rw [if_neg (by omega)]
    rfl
  | succ m ih =>
    intro C idx
    rw [List.range_succ, List.foldl_append, List.foldl_cons, List.foldl_nil]
    have e : ((i : Int) * (l : Int) + (m : Int)).toNat = i * l + m := by
      have : ((i : Int) * (l : Int) + (m : Int)) = ((i * l + m : Nat) : Int) := by push_cast; ring
      rw [this, Int.toNat_ofNat]
    rw [write_apply, e, ih]
    by_cases h1 : idx = i * l + m
    · subst h1
      simp
    · rw [if_neg h1]
      by_cases h2 : i * l ≤ idx ∧ idx < i * l + m
      · rw [if_pos h2, if_pos ⟨h2.1, by omega⟩]
      · rw [if_neg h2, if_neg (by omega)]

omit [LinearOrderedField F] in
theorem grid_fold (pt : Nat → Nat → complex F) (l : Nat) : ∀ (n : Nat) (C : Nat → complex F)
    (idx : Nat),
    ((List.range n).foldl (fun (C : Nat → complex F) (i : Nat) =>
      (List.range l).foldl (fun (C : Nat → complex F) (j : Nat) =>
        write C ((i : Int) * (l : Int) + (j : Int)).toNat (pt i j)) C) C) idx =
      if idx < n * l then pt (idx / l) (idx % l) else C idx := by
  intro n
  induction n with
  | zero =>
    intro C idx
    rw [if_neg (by omega)]
    rfl
  | succ n ih =>
    intro C idx
    rw [List.range_succ, List.foldl_append, List.foldl_cons, List.foldl_nil]
    rw [row_fold (pt n) l n l, ih]
    have hsucc : (n + 1) * l = n * l + l := by ring
    by_cases h1 : n * l ≤ idx ∧ idx < n * l + l
    · rw [if_pos h1, if_pos (by omega)]
      have hl : 0 < l := by omega
      have hd : idx / l = n := by
        apply Nat.div_eq_of_lt_le
        · exact h1.1
        · rw [hsucc]
          exact h1.2
      have hm : idx % l = idx - n * l := by
        have := Nat.div_add_mod idx l
        rw [hd, Nat.mul_comm] at this
        omega
      rw [hd, hm]
    · rw [if_neg h1]
      by_cases h2 : idx < n * l
      · rw [if_pos h2, if_pos (by omega)]
      · rw [if_neg h2, if_neg (by omega)]

theorem create_C (sqrtf : F → F) (l : Nat) (raw : Nat → complex F) (idx : Nat)
    (h : idx < l * l) :
    (SquareConstellation.create sqrtf (l : Int) raw).C idx =
      grid_point sqrtf (l : Int) (idx / l) (idx % l) := by
  have := grid_fold (fun i j => grid_point sqrtf (l : Int) i j) l l raw idx
  rw [if_pos h] at this
  rw [← this]
  simp only [SquareConstellation.create, Int.toNat_ofNat, grid_point]

theorem create_N (sqrtf : F → F) (L : Int) (raw : Nat → complex F) :
    (SquareConstellation.create sqrtf L raw).N = L * L := rfl

theorem grid_point_inj (sqrtf : F → F) (l : Nat) (hl : 2 ≤ l) (hs : 0 < sqrtf 2)
    (i j i' j' : Nat) (h : grid_point sqrtf (l : Int) i j = grid_point sqrtf (l : Int) i' j') :
    i = i' ∧ j = j' := by
  unfold grid_point complex.scale at h
  simp only [complex.mk.injEq] at h
  have hoff : (0 : F) < (((l : Int) - 1 : Int) : F) / 2 := by
    have : (((l : Int) - 1 : Int) : F) = (l : F) - 1 := by push_cast; ring
    rw [this]
    have h2 : (2 : F) ≤ (l : F) := by exact_mod_cast hl
    have : (0 : F) < (l : F) - 1 := by linarith
    positivity
  have hsc : 1 / sqrtf 2 * 1 / ((((l : Int) - 1 : Int) : F) / 2) * (1 / 2) ≠ 0 := by
    generalize (((l : Int) - 1 : Int) : F) / 2 = off at hoff
    have h1 : (0 : F) < 1 / sqrtf 2 := one_div_pos.mpr hs
    have h2 : (0 : F) < 1 / sqrtf 2 * 1 / off := div_pos (by linarith) hoff
    have h3 : (0 : F) < 1 / sqrtf 2 * 1 / off * (1 / 2) := mul_pos h2 (by norm_num)
    exact ne_of_gt h3
  obtain ⟨h1, h2⟩ := h
  have e1 := mul_right_cancel₀ hsc h1
  have e2 := mul_right_cancel₀ hsc h2
  constructor
  · have : (i : F) = (i' : F) := by linarith
    exact_mod_cast this
  · have : (j : F) = (j' : F) := by linarith
    exact_mod_cast this

end Constellation

namespace Constellation

variable {F : Type} [LinearOrderedField F]

theorem abs_pos_of_ne (sqrtf : F → F) (hs : ∀ x, 0 < x → 0 < sqrtf x) (a b : complex F)
    (h : a ≠ b) : 0 < (a.sub b).abs sqrtf := by
  unfold complex.abs complex.sub
  apply hs
  show 0 < (a.re - b.re) * (a.re - b.re) + (a.im - b.im) * (a.im - b.im)
  have hne : a.re - b.re ≠ 0 ∨ a.im - b.im ≠ 0 := by
    by_contra hcon
    push_neg at hcon
    apply h
    cases a
    cases b
    simp only [complex.mk.injEq]
    simp only at hcon
    exact ⟨by linarith [hcon.1], by linarith [hcon.2]⟩
  rcases hne with h1 | h1
  · have := mul_self_pos.mpr h1
    have := mul_self_nonneg (a.im - b.im)
    linarith
  · have := mul_self_pos.mpr h1
    have := mul_self_nonneg (a.re - b.re)
    linarith

theorem abs_self (sqrtf : F → F) (hs0 : sqrtf 0 = 0) (a : complex F) :
    (a.sub a).abs sqrtf = 0 := by
  unfold complex.abs complex.sub
  simp [hs0]

theorem create_C_inj (sqrtf : F → F) (l : Nat) (raw : Nat → complex F) (hl : 2 ≤ l)
    (hs : 0 < sqrtf 2) (i k : Nat) (hi : i < l * l) (hk : k < l * l)
    (h : (SquareConstellation.create sqrtf (l : Int) raw).C k =
      (SquareConstellation.create sqrtf (l : Int) raw).C i) : k = i := by
  rw [create_C sqrtf l raw k hk, create_C sqrtf l raw i hi] at h
  obtain ⟨h1, h2⟩ := grid_point_inj sqrtf l hl hs _ _ _ _ h
  have e1 := Nat.div_add_mod k l
  have e2 := Nat.div_add_mod i l
  rw [h1, h2] at e1
  omega

end Constellation

open Constellation Sync in
/-- Nearest-point demapping in exact arithmetic (no rounding, no overflow, no NaN).  For
every complex `z` and every constellation with at least one and at most 255 points,
`GetNearestSymbol(z)` returns (given fuel for the scan) an index `i < N` with
`|z - C[i]| ≤ |z - C[k]|` for every `k < N` and `|z - C[i]| < |z - C[k]|` for every `k < i`,
which is what `IsNearest` says: `i` is the lowest index at which the distance is minimal.
The scan of `symbol_to_bits` obeys the same rule over `QAM_Constellation`. -/
theorem nearest_point_exact {F PF SC VD CR : Type} [LinearOrderedField F]
    (sqrtf : F → F) (c : SquareConstellation F) (E : Externals F PF SC VD CR) (z : complex F)
    (fuel : Nat) (hc0 : 0 < c.N) (hc : c.N ≤ 255) (hcf : c.N.toNat < fuel)
    (hE0 : 0 < E.QAM_Constellation_Size) (hE : E.QAM_Constellation_Size ≤ 255)
    (hEf : E.QAM_Constellation_Size.toNat < fuel) :
    (∃ i, GetNearestSymbol sqrtf c z fuel = some i ∧
      IsNearest (fun k => (z.sub (c.C k)).abs sqrtf) c.N.toNat i) ∧
    ∃ i, symbol_to_bits E fuel z = some i ∧
      IsNearest (fun k => (z.sub (E.QAM_Constellation k)).abs E.sqrtf)
        E.QAM_Constellation_Size.toNat i := by
  constructor
  · have he : (fun k => (z.sub (c.C k)).abs sqrtf) = fun k => ((c.C k).sub z).abs sqrtf :=
      funext fun k => Constellation.abs_sub_comm sqrtf z (c.C k)
    obtain ⟨r, h, hr⟩ := nearest_scan_spec c.N (fun k => ((c.C k).sub z).abs sqrtf) fuel hc hcf
    rcases hr with ⟨h0, _⟩ | hr
    · omega
    · exact ⟨r, h, by rw [he]; exact hr⟩
  · have he : (fun k => (z.sub (E.QAM_Constellation k)).abs E.sqrtf) =
        fun k => ((E.QAM_Constellation k).sub z).abs E.sqrtf :=
      funext fun k => Constellation.abs_sub_comm E.sqrtf z (E.QAM_Constellation k)
    obtain ⟨r, h, hr⟩ := nearest_scan_spec E.QAM_Constellation_Size
      (fun k => ((E.QAM_Constellation k).sub z).abs E.sqrtf) fuel hE hEf
    rcases hr with ⟨h0, _⟩ | hr
    · omega
    · exact ⟨r, h, by rw [he]; exact hr⟩

/-! ## The demapper scan in single precision -/

namespace float

theorem lt_irrefl (a : float) : lt a a = false := by
  cases a <;> simp [lt]

theorem lt_trans (a b c : float) (h1 : lt a b = true) (h2 : lt b c = true) :
    lt a c = true := by
  cases a <;> cases b <;> cases c <;> simp_all [lt]
  exact h1.trans h2

/-- A value that is not below `b`, where some value is below `b`, is above that value or is
a NaN. -/
theorem lt_of_lt_of_not_lt (a b c : float) (h1 : lt a b = true) (h2 : lt c b = false) :
    lt a c = true ∨ c = nan := by
  cases a <;> cases b <;> cases c <;> simp_all [lt]
  exact lt_of_lt_of_le h1 h2

theorem lt_INFINITY_of_lt (a b : float) (h : lt a b = true) : lt a INFINITY = true := by
  cases a <;> cases b <;> simp_all [lt, INFINITY]

theorem not_lt_INFINITY (a : float) (h : lt a INFINITY = false) : a = inf false ∨ a = nan := by
  cases a <;> simp_all [lt, INFINITY]

theorem INFINITY_not_lt (a : float) : lt INFINITY a = false := by
  cases a <;> simp [lt, INFINITY]

end float

theorem nearest_scan_float_inv (N : Int) (err : Nat → float) (n : Nat) (hN : N = n)
    (hn : n ≤ 255) :
    ∀ (fuel i best : Nat) (min_err : float), i ≤ n → n - i < fuel →
      ((best = 0 ∧ min_err = float.INFINITY ∧ ∀ k < i, (err k).lt float.INFINITY = false) ∨
        (min_err = err best ∧ best < i ∧ (err best).lt float.INFINITY = true ∧
          (∀ k < i, (err k).lt (err best) = false) ∧
          ∀ k < best, (err best).lt (err k) = true ∨ err k = float.nan)) →
      ∃ r, nearest_scan_float N err fuel i best min_err = some r ∧ IsLeastComputed err n r := by
  intro fuel
  induction fuel with
  | zero => intro i best min_err _ h; omega
  | succ fuel ih =>
    intro i best min_err hi hf hinv
    unfold nearest_scan_float
    by_cases hlt : (i : Int) < N
    · have hin : i < n := by rw [hN] at hlt; exact_mod_cast hlt
      have hu : to_uint8 (i + 1) = i + 1 := by unfold to_uint8; omega
      rw [if_pos hlt, hu]
      rcases hinv with ⟨hb, hm, hall⟩ | ⟨hm, hb, hfin, hle, hlow⟩
      · subst hb hm
        by_cases hc : (err i).lt float.INFINITY = true
        · rw [if_pos hc]
          apply ih _ _ _ (by omega) (by omega)
          right
          refine ⟨rfl, by omega, hc, ?_, ?_⟩
          · intro k hk
            rcases Nat.lt_succ_iff_lt_or_eq.mp hk with h | h
            · rcases float.not_lt_INFINITY _ (hall k h) with e | e
              · rw [e]; exact float.INFINITY_not_lt _
              · rw [e]; rfl
            · subst h; exact float.lt_irrefl _
          · intro k hk
            rcases float.not_lt_INFINITY _ (hall k hk) with e | e
            · left; rw [e]; exact hc
            · right; exact e
        · rw [if_neg hc]
          apply ih _ _ _ (by omega) (by omega)
          left
          refine ⟨rfl, rfl, ?_⟩
          intro k hk
          rcases Nat.lt_succ_iff_lt_or_eq.mp hk with h | h
          · exact hall k h
          · subst h; simpa using hc
      · subst hm
        by_cases hc : (err i).lt (err best) = true
        · rw [if_pos hc]
          apply ih _ _ _ (by omega) (by omega)
          right
          refine ⟨rfl, by omega, float.lt_INFINITY_of_lt _ _ hc, ?_, ?_⟩
          · intro k hk
            rcases Nat.lt_succ_iff_lt_or_eq.mp hk with h | h
            · by_contra hk2
              have hk3 : (err k).lt (err i) = true := by simpa using hk2
              have := float.lt_trans _ _ _ hk3 hc
              rw [hle k h] at this
              cases this
            · subst h; exact float.lt_irrefl _
          · intro k hk
            exact float.lt_of_lt_of_not_lt _ _ _ hc (hle k hk)
        · rw [if_neg hc]
          apply ih _ _ _ (by omega) (by omega)
          right
          refine ⟨rfl, by omega, hfin, ?_, hlow⟩
          intro k hk
          rcases Nat.lt_succ_iff_lt_or_eq.mp hk with h | h
          · exact hle k h
          · subst h; simpa using hc
    · have hin : i = n := by
        rw [hN] at hlt
        have : ¬ (i < n) := by exact_mod_cast hlt
        omega
      rw [if_neg hlt]
      refine ⟨best, rfl, ?_⟩
      subst hin
      rcases hinv with ⟨hb, _, hall⟩ | ⟨_, h⟩
      · exact Or.inr ⟨hb, hall⟩
      · exact Or.inl h

/-- The scan over at most 255 points returns with enough fuel, and returns the lowest index
at which the computed distance is least (index 0 when no computed distance is below
`INFINITY`). -/
theorem nearest_scan_float_spec (N : Int) (err : Nat → float) (fuel : Nat) (hN : N ≤ 255)
    (hf : N.toNat < fuel) :
    ∃ r, nearest_scan_float N err fuel 0 0 float.INFINITY = some r ∧
      IsLeastComputed err N.toNat r := by
  by_cases h0 : N ≤ 0
  · obtain ⟨fuel, rfl⟩ : ∃ f, fuel = f + 1 := ⟨fuel - 1, by omega⟩
    refine ⟨0, ?_, Or.inr ⟨rfl, fun k hk => ?_⟩⟩
    · unfold nearest_scan_float
      rw [if_neg (by push_cast; omega)]
    · omega
  · exact nearest_scan_float_inv N err N.toNat (by omega) (by omega) fuel 0 0 float.INFINITY
      (by omega) (by omega) (Or.inl ⟨rfl, rfl, fun k hk => by omega⟩)

/-- C10 (as amended): nearest-point demapping on the distances as computed.  For every
sample `z` (a pair of floats) and every constellation with at most 255 points,
`GetNearestSymbol(z)` returns (given fuel for the scan) the index `IsLeastComputed` singles
out among the distances `err(k) = std::abs(C[k] - z)` as computed in single precision: an
index `i < N` with `err(i) < INFINITY`, with no `err(k)`, `k < N`, below `err(i)`, and with
`err(i) < err(k)` for every `k < i` whose `err(k)` is not a NaN, which is the lowest index at
which the computed distance is least; or 0 when no computed distance is below `INFINITY`.
The scan of `symbol_to_bits` obeys the same rule over `QAM_Constellation`. -/
theorem nearest_point_demapping (cabs : complex float → float) (c : Single.SquareConstellation)
    (QAM_Constellation : Nat → complex float) (QAM_Constellation_Size : Int)
    (z : complex float) (fuel : Nat) (hc : c.N ≤ 255) (hcf : c.N.toNat < fuel)
    (hE : QAM_Constellation_Size ≤ 255) (hEf : QAM_Constellation_Size.toNat < fuel) :
    (∃ i, Single.GetNearestSymbol cabs c z fuel = some i ∧
      IsLeastComputed (fun k => cabs (Single.csub (c.C k) z)) c.N.toNat i) ∧
    ∃ i, Single.symbol_to_bits cabs QAM_Constellation QAM_Constellation_Size fuel z = some i ∧
      IsLeastComputed (fun k => cabs (Single.csub (QAM_Constellation k) z))
        QAM_Constellation_Size.toNat i :=
  ⟨nearest_scan_float_spec c.N _ fuel hc hcf,
    nearest_scan_float_spec QAM_Constellation_Size _ fuel hE hEf⟩

/-- C10 at a concrete input: the sample `(1/2, 1/3)` rounded to `float`, the square
constellation of side 4 as the constructor computes it in single precision, and the same
sixteen points as the table of `symbol_to_bits`; `std::sqrtf` and `std::abs` are the
correctly rounded ones. -/
theorem nearest_point_demapping_witness :
    (∃ i, Single.GetNearestSymbol float.hypotf
        (Single.SquareConstellation.create float.sqrtf 4 (fun _ => ⟨float.nan, float.nan⟩))
        ⟨float.round (1 / 2), float.round (1 / 3)⟩ 17 = some i ∧
      IsLeastComputed (fun k => float.hypotf (Single.csub
          ((Single.SquareConstellation.create float.sqrtf 4
            (fun _ => ⟨float.nan, float.nan⟩)).C k)
          ⟨float.round (1 / 2), float.round (1 / 3)⟩))
        (Single.SquareConstellation.create float.sqrtf 4
          (fun _ => ⟨float.nan, float.nan⟩)).N.toNat i) ∧
    ∃ i, Single.symbol_to_bits float.hypotf
        (Single.SquareConstellation.create float.sqrtf 4 (fun _ => ⟨float.nan, float.nan⟩)).C
        16 17 ⟨float.round (1 / 2), float.round (1 / 3)⟩ = some i ∧
      IsLeastComputed (fun k => float.hypotf (Single.csub
          ((Single.SquareConstellation.create float.sqrtf 4
            (fun _ => ⟨float.nan, float.nan⟩)).C k)
          ⟨float.round (1 / 2), float.round (1 / 3)⟩))
        (16 : Int).toNat i :=
  nearest_point_demapping float.hypotf
    (Single.SquareConstellation.create float.sqrtf 4 (fun _ => ⟨float.nan, float.nan⟩))
    (Single.SquareConstellation.create float.sqrtf 4 (fun _ => ⟨float.nan, float.nan⟩)).C
    16 ⟨float.round (1 / 2), float.round (1 / 3)⟩ 17
    (by decide) (by decide) (by decide) (by decide)

/-- C10 as stated fails on the code, which computes the distances in single precision.
For the constellation of side 4 (16 points, with the coordinates `±15817711/2^26` and
`±11863283/2^24`):

* the sample `z = (2^-30, 0)` has point 9 as its nearest point of lowest index and is
  strictly nearer to it than to point 5; but `C[k].re - 2^-30` rounds to `C[k].re`, the
  computed distances of the points 5 and 9 are the same float and `GetNearestSymbol(z)`
  returns 5;
* the sample `z = (3 * 2^126, 3 * 2^126)` has point 15 as its nearest point; but every
  computed distance overflows to `INFINITY`, no test `err < min_err` succeeds and
  `GetNearestSymbol(z)` returns its initial `best_match = 0`. -/
theorem nearest_point_fails_rounding :
    (Single.SquareConstellation.create float.sqrtf 4 (fun _ => ⟨float.nan, float.nan⟩)).N = 16 ∧
    (Single.GetNearestSymbol float.hypotf
        (Single.SquareConstellation.create float.sqrtf 4 (fun _ => ⟨float.nan, float.nan⟩))
        ⟨float.round (1 / 2 ^ 30), float.round 0⟩ 17 = some 5 ∧
      (∀ k < 16, Single.exact_dist2 ⟨float.round (1 / 2 ^ 30), float.round 0⟩
          ((Single.SquareConstellation.create float.sqrtf 4
            (fun _ => ⟨float.nan, float.nan⟩)).C 9) ≤
        Single.exact_dist2 ⟨float.round (1 / 2 ^ 30), float.round 0⟩
          ((Single.SquareConstellation.create float.sqrtf 4
            (fun _ => ⟨float.nan, float.nan⟩)).C k)) ∧
      Single.exact_dist2 ⟨float.round (1 / 2 ^ 30), float.round 0⟩
          ((Single.SquareConstellation.create float.sqrtf 4
            (fun _ => ⟨float.nan, float.nan⟩)).C 9) <
        Single.exact_dist2 ⟨float.round (1 / 2 ^ 30), float.round 0⟩
          ((Single.SquareConstellation.create float.sqrtf 4
            (fun _ => ⟨float.nan, float.nan⟩)).C 5) ∧
      float.hypotf (Single.csub
          ((Single.SquareConstellation.create float.sqrtf 4
            (fun _ => ⟨float.nan, float.nan⟩)).C 9)
          ⟨float.round (1 / 2 ^ 30), float.round 0⟩) =
        float.hypotf (Single.csub
          ((Single.SquareConstellation.create float.sqrtf 4
            (fun _ => ⟨float.nan, float.nan⟩)).C 5)
          ⟨float.round (1 / 2 ^ 30), float.round 0⟩)) ∧
    (Single.GetNearestSymbol float.hypotf
        (Single.SquareConstellation.create float.sqrtf 4 (fun _ => ⟨float.nan, float.nan⟩))
        ⟨float.round (3 * 2 ^ 126), float.round (3 * 2 ^ 126)⟩ 17 = some 0 ∧
      (∀ k < 16, Single.exact_dist2 ⟨float.round (3 * 2 ^ 126), float.round (3 * 2 ^ 126)⟩
          ((Single.SquareConstellation.create float.sqrtf 4
            (fun _ => ⟨float.nan, float.nan⟩)).C 15) ≤
        Single.exact_dist2 ⟨float.round (3 * 2 ^ 126), float.round (3 * 2 ^ 126)⟩
          ((Single.SquareConstellation.create float.sqrtf 4
            (fun _ => ⟨float.nan, float.nan⟩)).C k)) ∧
      Single.exact_dist2 ⟨float.round (3 * 2 ^ 126), float.round (3 * 2 ^ 126)⟩
          ((Single.SquareConstellation.create float.sqrtf 4
            (fun _ => ⟨float.nan, float.nan⟩)).C 15) <
        Single.exact_dist2 ⟨float.round (3 * 2 ^ 126), float.round (3 * 2 ^ 126)⟩
          ((Single.SquareConstellation.create float.sqrtf 4
            (fun _ => ⟨float.nan, float.nan⟩)).C 0) ∧
      ∀ k < 16, float.hypotf (Single.csub
          ((Single.SquareConstellation.create float.sqrtf 4
            (fun _ => ⟨float.nan, float.nan⟩)).C k)
          ⟨float.round (3 * 2 ^ 126), float.round (3 * 2 ^ 126)⟩) = float.INFINITY) := by
  decide!

/-! ## Frame synchroniser -/

namespace Sync

variable {F PF SC VD CR : Type} [LinearOrderedField F]

theorem symbol_to_bits_some (E : Externals F PF SC VD CR) (fuel : Nat) (IQ : complex F)
    (hN : E.QAM_Constellation_Size ≤ 255) (hf : E.QAM_Constellation_Size.toNat < fuel) :
    ∃ sym, symbol_to_bits E fuel IQ = some sym := by
  obtain ⟨r, h, _⟩ := nearest_scan_spec E.QAM_Constellation_Size
    (fun i => ((E.QAM_Constellation i).sub IQ).abs E.sqrtf) fuel hN hf
  exact ⟨r, h⟩

/-- What `process_decoder_symbol` leaves untouched. -/
theorem process_decoder_symbol_frame (E : Externals F PF SC VD CR) (fuel : Nat)
    (fs fs' : FrameSynchroniser F PF SC VD CR) (IQ : complex F)
    (h : process_decoder_symbol E fuel fs IQ = some fs') :
    fs'.state = fs.state ∧ fs'.payload = fs.payload ∧ fs'.preamble_state = fs.preamble_state ∧
    fs'.nb_buffer = fs.nb_buffer ∧ fs'.decoded_bytes = fs.decoded_bytes ∧
    fs'.decoded_block_size = fs.decoded_block_size ∧
    fs'.encoded_block_size = fs.encoded_block_size ∧
    fs'.decoded_buffer = fs.decoded_buffer ∧ fs'.vitdec = fs.vitdec ∧
    fs'.crc8_calc = fs.crc8_calc ∧ fs'.preamble_filters = fs.preamble_filters ∧
    fs'.preamble_mixers = fs.preamble_mixers ∧
    fs'.bits_since_preamble = fs.bits_since_preamble := by
  unfold process_decoder_symbol at h
  cases hs : symbol_to_bits E fuel
      (IQ.mul (fs.preamble_mixers fs.preamble_state.selected_phase)) with
  | none => simp [hs] at h
  | some sym =>
    simp only [hs] at h
    split_ifs at h <;> cases h <;> simp

theorem process_decoder_symbol_some (E : Externals F PF SC VD CR) (fuel : Nat)
    (fs : FrameSynchroniser F PF SC VD CR) (IQ : complex F)
    (hN : E.QAM_Constellation_Size ≤ 255) (hf : E.QAM_Constellation_Size.toNat < fuel) :
    ∃ fs', process_decoder_symbol E fuel fs IQ = some fs' := by
  obtain ⟨sym, hs⟩ := symbol_to_bits_some E fuel
    (IQ.mul (fs.preamble_mixers fs.preamble_state.selected_phase)) hN hf
  simp only [process_decoder_symbol, hs]
  split_ifs <;> exact ⟨_, rfl⟩

end Sync

namespace Sync

variable {F PF SC VD CR : Type} [LinearOrderedField F]

omit [LinearOrderedField F] in
theorem reset_fold_frame : ∀ (l : List Nat) (fs : FrameSynchroniser F PF SC VD CR),
    ∃ b, l.foldl (fun (fs : FrameSynchroniser F PF SC VD CR) (i : Nat) =>
      { fs with decoded_buffer := write fs.decoded_buffer (i : Int) 0 }) fs =
      { fs with decoded_buffer := b }
  | [], fs => ⟨fs.decoded_buffer, rfl⟩
  | i :: l, fs => by
    obtain ⟨b, hb⟩ := reset_fold_frame l
      { fs with decoded_buffer := write fs.decoded_buffer (i : Int) 0 }
    exact ⟨b, by rw [List.foldl_cons, hb]⟩

omit [LinearOrderedField F] in
/-- What `reset_decoders` leaves untouched, and what it sets. -/
theorem reset_decoders_frame (E : Externals F PF SC VD CR)
    (fs : FrameSynchroniser F PF SC VD CR) :
    (reset_decoders E fs).state = fs.state ∧ (reset_decoders E fs).payload = fs.payload ∧
    (reset_decoders E fs).preamble_state = fs.preamble_state ∧
    (reset_decoders E fs).preamble_filters = fs.preamble_filters ∧
    (reset_decoders E fs).preamble_mixers = fs.preamble_mixers ∧
    (reset_decoders E fs).nb_buffer = fs.nb_buffer ∧
    (reset_decoders E fs).bits_since_preamble = fs.bits_since_preamble ∧
    (reset_decoders E fs).encoded_bits = 0 ∧ (reset_decoders E fs).encoded_bytes = 0 ∧
    (reset_decoders E fs).decoded_bytes = 0 ∧ (reset_decoders E fs).decoded_block_size = 0 ∧
    (reset_decoders E fs).encoded_block_size = 0 := by
  unfold reset_decoders
  obtain ⟨b, hb⟩ := reset_fold_frame (List.range fs.decoded_bytes.toNat) fs
  simp [hb]

/-- What one phase of `process_await_preamble` leaves untouched. -/
theorem preamble_phase_frame (E : Externals F PF SC VD CR) (fuel : Nat) (IQ : complex F)
    (bps : Int) (st st' : FrameSynchroniser F PF SC VD CR × Int) (i : Nat)
    (h : process_await_preamble_phase E fuel IQ bps st i = some st') :
    st'.1.state = st.1.state ∧ st'.1.payload = st.1.payload ∧
    st'.1.preamble_mixers = st.1.preamble_mixers ∧ st'.1.nb_buffer = st.1.nb_buffer ∧
    st'.1.bits_since_preamble = st.1.bits_since_preamble := by
  unfold process_await_preamble_phase at h
  cases hs : symbol_to_bits E fuel (IQ.mul (st.1.preamble_mixers (i : Int))) with
  | none => simp [hs] at h
  | some sym =>
    simp only [hs] at h
    split_ifs at h <;> cases h <;> simp

theorem preamble_phase_some (E : Externals F PF SC VD CR) (fuel : Nat) (IQ : complex F)
    (bps : Int) (st : FrameSynchroniser F PF SC VD CR × Int) (i : Nat)
    (hN : E.QAM_Constellation_Size ≤ 255) (hf : E.QAM_Constellation_Size.toNat < fuel) :
    ∃ st', process_await_preamble_phase E fuel IQ bps st i = some st' := by
  obtain ⟨sym, hs⟩ := symbol_to_bits_some E fuel (IQ.mul (st.1.preamble_mixers (i : Int))) hN hf
  simp only [process_await_preamble_phase, hs]
  split_ifs <;> exact ⟨_, rfl⟩

theorem foldlM_option_inv {σ : Type} (f : σ → Nat → Option σ) (P : σ → Prop)
    (hf : ∀ s i s', P s → f s i = some s' → P s') :
    ∀ (l : List Nat) (s s' : σ), P s → l.foldlM f s = some s' → P s'
  | [], s, s', hP, h => by
    simp only [List.foldlM_nil] at h
    cases h
    exact hP
  | i :: l, s, s', hP, h => by
    rw [List.foldlM_cons] at h
    cases h1 : f s i with
    | none => simp [h1] at h
    | some s1 =>
      simp only [h1, Option.some_bind] at h
      exact foldlM_option_inv f P hf l s1 s' (hf s i s1 hP h1) h

theorem foldlM_option_some {σ : Type} (f : σ → Nat → Option σ)
    (hf : ∀ s i, ∃ s', f s i = some s') :
    ∀ (l : List Nat) (s : σ), ∃ s', l.foldlM f s = some s'
  | [], s => ⟨s, rfl⟩
  | i :: l, s => by
    obtain ⟨s1, h1⟩ := hf s i
    obtain ⟨s2, h2⟩ := foldlM_option_some f hf l s1
    exact ⟨s2, by rw [List.foldlM_cons, h1]; exact h2⟩

/-- The result and the next state of `process_await_preamble`. -/
theorem process_await_preamble_step (E : Externals F PF SC VD CR) (fuel : Nat)
    (fs fs' : FrameSynchroniser F PF SC VD CR) (IQ : complex F) (r : ProcessResult)
    (h : process_await_preamble E fuel fs IQ = some (fs', r)) :
    (r = ProcessResult.NONE ∧ fs'.state = fs.state) ∨
    (r = ProcessResult.PREAMBLE_FOUND ∧ fs'.state = State.WAIT_BLOCK_SIZE) := by
  unfold process_await_preamble at h
  simp only at h
  cases h1 : (List.range 4).foldlM (process_await_preamble_phase E fuel IQ 4)
      ({ fs with bits_since_preamble := fs.bits_since_preamble + 4 }, 0) with
  | none => simp [h1] at h
  | some st =>
    have hst := foldlM_option_inv (process_await_preamble_phase E fuel IQ 4)
      (fun s => s.1.state = fs.state)
      (fun s i s' hP hs => (preamble_phase_frame E fuel IQ 4 s s' i hs).1.trans hP)
      _ _ st rfl h1
    obtain ⟨fs2, total⟩ := st
    simp only [h1] at h
    split_ifs at h
    · cases h
      right
      refine ⟨rfl, ?_⟩
      simp only
      rw [(reset_decoders_frame E _).1]
    · cases h
      left
      exact ⟨rfl, hst⟩

theorem process_await_preamble_some (E : Externals F PF SC VD CR) (fuel : Nat)
    (fs : FrameSynchroniser F PF SC VD CR) (IQ : complex F)
    (hN : E.QAM_Constellation_Size ≤ 255) (hf : E.QAM_Constellation_Size.toNat < fuel) :
    ∃ out, process_await_preamble E fuel fs IQ = some out := by
  unfold process_await_preamble
  simp only
  obtain ⟨st, h1⟩ := foldlM_option_some (process_await_preamble_phase E fuel IQ 4)
    (fun s i => preamble_phase_some E fuel IQ 4 s i hN hf) (List.range 4)
    ({ fs with bits_since_preamble := fs.bits_since_preamble + 4 }, 0)
  obtain ⟨fs2, total⟩ := st
  simp only [h1]
  split_ifs <;> exact ⟨_, rfl⟩

/-- The result and the next state of `process_await_block_size`. -/
theorem process_await_block_size_step (E : Externals F PF SC VD CR) (fuel : Nat)
    (fs fs' : FrameSynchroniser F PF SC VD CR) (IQ : complex F) (r : ProcessResult)
    (h : process_await_block_size E fuel fs IQ = some (fs', r)) :
    (r = ProcessResult.NONE ∧ fs'.state = fs.state) ∨
    (r = ProcessResult.BLOCK_SIZE_OK ∧ fs'.state = State.WAIT_PAYLOAD) ∨
    (r = ProcessResult.BLOCK_SIZE_ERR ∧ fs'.state = State.WAIT_PREAMBLE) := by
  unfold process_await_block_size at h
  cases h1 : process_decoder_symbol E fuel fs IQ with
  | none => simp [h1] at h
  | some fs1 =>
    have hfr := (process_decoder_symbol_frame E fuel fs fs1 IQ h1).1
    simp only [h1] at h
    split_ifs at h
    · cases h
      exact Or.inl ⟨rfl, hfr⟩
    · cases h
      exact Or.inr (Or.inr ⟨rfl, rfl⟩)
    · cases h
      exact Or.inr (Or.inl ⟨rfl, rfl⟩)

/-- The result and the next state of `process_await_payload`. -/
theorem process_await_payload_step (E : Externals F PF SC VD CR) (fuel : Nat)
    (fs fs' : FrameSynchroniser F PF SC VD CR) (IQ : complex F) (r : ProcessResult)
    (h : process_await_payload E fuel fs IQ = some (fs', r)) :
    (r = ProcessResult.NONE ∧ fs'.state = fs.state) ∨
    ((r = ProcessResult.PAYLOAD_OK ∨ r = ProcessResult.PAYLOAD_ERR) ∧
      fs'.state = State.WAIT_PREAMBLE ∧
      (r = ProcessResult.PAYLOAD_OK ↔
        fs'.payload.crc8_received = fs'.payload.crc8_calculated) ∧
      fs'.payload.crc8_mismatch =
        decide (fs'.payload.crc8_received ≠ fs'.payload.crc8_calculated)) := by
  unfold process_await_payload at h
  cases h1 : process_decoder_symbol E fuel fs IQ with
  | none => simp [h1] at h
  | some fs1 =>
    have hfr := (process_decoder_symbol_frame E fuel fs fs1 IQ h1).1
    simp only [h1] at h
    split_ifs at h with hd hc
    · cases h
      exact Or.inl ⟨rfl, hfr⟩
    · cases h
      refine Or.inr ⟨Or.inr rfl, rfl, ?_, rfl⟩
      simp only [decide_eq_true_eq] at hc
      simp only [reduceCtorEq, false_iff]
      exact hc
    · cases h
      refine Or.inr ⟨Or.inl rfl, rfl, ?_, rfl⟩
      simp only [decide_eq_true_eq, not_not] at hc
      simp only [true_iff]
      exact hc

theorem process_some (E : Externals F PF SC VD CR) (fuel : Nat)
    (fs : FrameSynchroniser F PF SC VD CR) (IQ : complex F)
    (hN : E.QAM_Constellation_Size ≤ 255) (hf : E.QAM_Constellation_Size.toNat < fuel) :
    ∃ out, process E fuel fs IQ = some out := by
  unfold process
  cases fs.state with
  | WAIT_PREAMBLE => exact process_await_preamble_some E fuel fs IQ hN hf
  | WAIT_BLOCK_SIZE =>
    obtain ⟨fs1, h1⟩ := process_decoder_symbol_some E fuel fs IQ hN hf
    simp only [process_await_block_size, h1]
    split_ifs <;> exact ⟨_, rfl⟩
  | WAIT_PAYLOAD =>
    obtain ⟨fs1, h1⟩ := process_decoder_symbol_some E fuel fs IQ hN hf
    simp only [process_await_payload, h1]
    split_ifs <;> exact ⟨_, rfl⟩

/-- The step relation of `process`: the result is one the state allows, and it determines
the next state. -/
theorem process_step (E : Externals F PF SC VD CR) (fuel : Nat)
    (fs fs' : FrameSynchroniser F PF SC VD CR) (IQ : complex F) (r : ProcessResult)
    (h : process E fuel fs IQ = some (fs', r)) :
    result_allowed fs.state r ∧ fs'.state = next_state fs.state r := by
  unfold process at h
  cases hs : fs.state with
  | WAIT_PREAMBLE =>
    rw [hs] at h
    rcases process_await_preamble_step E fuel fs fs' IQ r h with ⟨h1, h2⟩ | ⟨h1, h2⟩
    · subst h1; exact ⟨Or.inl rfl, by rw [h2, hs]⟩
    · subst h1; exact ⟨Or.inr rfl, by rw [h2]⟩
  | WAIT_BLOCK_SIZE =>
    rw [hs] at h
    rcases process_await_block_size_step E fuel fs fs' IQ r h with
      ⟨h1, h2⟩ | ⟨h1, h2⟩ | ⟨h1, h2⟩
    · subst h1; exact ⟨Or.inl rfl, by rw [h2, hs]⟩
    · subst h1; exact ⟨Or.inr (Or.inl rfl), by rw [h2]⟩
    · subst h1; exact ⟨Or.inr (Or.inr rfl), by rw [h2]⟩
  | WAIT_PAYLOAD =>
    rw [hs] at h
    rcases process_await_payload_step E fuel fs fs' IQ r h with ⟨h1, h2⟩ | ⟨h1, h2, _⟩
    · subst h1; exact ⟨Or.inl rfl, by rw [h2, hs]⟩
    · rcases h1 with h1 | h1
      · subst h1; exact ⟨Or.inr (Or.inl rfl), by rw [h2]⟩
      · subst h1; exact ⟨Or.inr (Or.inr rfl), by rw [h2]⟩

theorem create_fold_state : ∀ (l : List Nat) (E : Externals F PF SC VD CR) (p : Nat) (q : F)
    (fs : FrameSynchroniser F PF SC VD CR),
    (l.foldl (fun (fs : FrameSynchroniser F PF SC VD CR) (i : Nat) =>
      let fs := { fs with
        preamble_filters := write fs.preamble_filters (i : Int) (E.filter.create p) }
      let mixer : complex F := ⟨E.cosf ((i : F) * q), E.sinf ((i : F) * q)⟩
      { fs with preamble_mixers := write fs.preamble_mixers (i : Int) mixer }) fs).state = fs.state
  | [], _, _, _, _ => rfl
  | _ :: l, E, p, q, fs => by
    rw [List.foldl_cons, create_fold_state l E p q]

end Sync

namespace Sync

variable {F PF SC VD CR : Type} [LinearOrderedField F]

/-- The call of `process` that completes the encoded prefix. -/
theorem await_block_size_done (E : Externals F PF SC VD CR) (fuel : Nat)
    (fs : FrameSynchroniser F PF SC VD CR) (IQ : complex F)
    (hs : fs.state = State.WAIT_BLOCK_SIZE) (hdone : completes_prefix E fuel fs IQ = true) :
    ∃ fs' r, process E fuel fs IQ = some (fs', r) ∧
      fs'.payload.length = read_uint16 fs'.decoded_buffer 0 ∧
      (r = ProcessResult.BLOCK_SIZE_OK ↔
        5 ≤ (fs'.payload.length : Int) ∧ (fs'.payload.length : Int) ≤ fs.nb_buffer.tdiv 2 - 4) ∧
      (r = ProcessResult.BLOCK_SIZE_ERR ↔
        ¬ (5 ≤ (fs'.payload.length : Int) ∧
          (fs'.payload.length : Int) ≤ fs.nb_buffer.tdiv 2 - 4)) ∧
      (r = ProcessResult.BLOCK_SIZE_OK →
        fs'.decoded_block_size = fs'.payload.length ∧
        fs'.encoded_block_size = 2 * ((fs'.payload.length : Int) + 4)) ∧
      (r = ProcessResult.BLOCK_SIZE_OK ∨ r = ProcessResult.BLOCK_SIZE_ERR) ∧
      fs'.state = next_state fs.state r ∧ fs'.payload.buf = none := by
  unfold completes_prefix at hdone
  unfold process
  rw [hs]
  simp only
  unfold process_await_block_size
  cases h1 : process_decoder_symbol E fuel fs IQ with
  | none => simp [h1] at hdone
  | some fs1 =>
    obtain ⟨_, _, _, hnb, _⟩ := process_decoder_symbol_frame E fuel fs fs1 IQ h1
    simp only [h1] at hdone ⊢
    simp only [hdone, Bool.not_true, Bool.false_eq_true, if_false]
    have h16 : nb_bytes_for_block_size.tdiv 2 - 3 = 5 := by decide
    have h4 : (2 + 1 + 1 : Int) = 4 := by norm_num
    rw [h16, h4, hnb]
    split_ifs with hc
    · refine ⟨_, _, rfl, rfl, ?_, ?_, ?_, Or.inr rfl, rfl, rfl⟩
      · simp only [false_iff, reduceCtorEq]
        intro h
        omega
      · simp only [true_iff]
        intro h
        omega
      · intro h
        cases h
    · refine ⟨_, _, rfl, rfl, ?_, ?_, ?_, Or.inl rfl, rfl, rfl⟩
      · simp only [true_iff]
        omega
      · simp only [false_iff, reduceCtorEq, not_not]
        omega
      · intro _
        exact ⟨rfl, rfl⟩

/-- The call of `process` that completes the frame. -/
theorem await_payload_done (E : Externals F PF SC VD CR) (fuel : Nat)
    (fs : FrameSynchroniser F PF SC VD CR) (IQ : complex F)
    (hs : fs.state = State.WAIT_PAYLOAD) (hdone : completes_frame E fuel fs IQ = true) :
    ∃ fs' r, process E fuel fs IQ = some (fs', r) ∧
      (r = ProcessResult.PAYLOAD_OK ∨ r = ProcessResult.PAYLOAD_ERR) ∧
      (r = ProcessResult.PAYLOAD_OK ↔
        fs'.payload.crc8_received = fs'.payload.crc8_calculated) ∧
      fs'.payload.crc8_mismatch =
        decide (fs'.payload.crc8_received ≠ fs'.payload.crc8_calculated) := by
  unfold completes_frame at hdone
  cases h1 : process_decoder_symbol E fuel fs IQ with
  | none => simp [h1] at hdone
  | some fs1 =>
    simp only [h1] at hdone
    have hp : ∃ out, process E fuel fs IQ = some out := by
      unfold process
      rw [hs]
      simp only [process_await_payload, h1, hdone, Bool.not_true, Bool.false_eq_true, if_false]
      split_ifs <;> exact ⟨_, rfl⟩
    obtain ⟨⟨fs', r⟩, hp⟩ := hp
    have hp' : process_await_payload E fuel fs IQ = some (fs', r) := by
      unfold process at hp
      rw [hs] at hp
      exact hp
    refine ⟨fs', r, hp, ?_⟩
    rcases process_await_payload_step E fuel fs fs' IQ r hp' with ⟨h2, _⟩ | ⟨h2, _, h3, h4⟩
    · exfalso
      subst h2
      unfold process_await_payload at hp'
      simp only [h1, hdone, Bool.not_true, Bool.false_eq_true, if_false] at hp'
      split_ifs at hp' <;> cases hp'
    · exact ⟨h2, h3, h4⟩

end Sync

open Sync in
/-- C2: length validation in `process_await_block_size`.  On the call that completes the
16-byte encoded prefix, with `N` the `uint16` length field read from decoded offsets 0..1
(which is what `payload.length` holds), `process` returns `BLOCK_SIZE_OK` iff
`5 ≤ N ≤ nb_buffer / 2 - 4` (integer division) and `BLOCK_SIZE_ERR` otherwise; on acceptance
`decoded_block_size = N` and `encoded_block_size = 2 * (N + 4)`. -/
theorem block_size_validation {F PF SC VD CR : Type} [LinearOrderedField F]
    (E : Externals F PF SC VD CR) (fuel : Nat)
    (fs : FrameSynchroniser F PF SC VD CR) (IQ : complex F)
    (hs : fs.state = State.WAIT_BLOCK_SIZE) (hdone : completes_prefix E fuel fs IQ = true) :
    ∃ fs' r, process E fuel fs IQ = some (fs', r) ∧
      fs'.payload.length = read_uint16 fs'.decoded_buffer 0 ∧
      (r = ProcessResult.BLOCK_SIZE_OK ↔
        5 ≤ (fs'.payload.length : Int) ∧ (fs'.payload.length : Int) ≤ fs.nb_buffer.tdiv 2 - 4) ∧
      (r = ProcessResult.BLOCK_SIZE_ERR ↔
        ¬ (5 ≤ (fs'.payload.length : Int) ∧
          (fs'.payload.length : Int) ≤ fs.nb_buffer.tdiv 2 - 4)) ∧
      (r = ProcessResult.BLOCK_SIZE_OK →
        fs'.decoded_block_size = fs'.payload.length ∧
        fs'.encoded_block_size = 2 * ((fs'.payload.length : Int) + 4)) := by
  obtain ⟨fs', r, h1, h2, h3, h4, h5, _⟩ := await_block_size_done E fuel fs IQ hs hdone
  exact ⟨fs', r, h1, h2, h3, h4, h5⟩

open Sync Standin in
/-- C2 at a concrete input: the 32nd symbol after the preamble of a frame of length 5. -/
theorem block_size_validation_witness :
    ∃ fs' r, process externals 17 (after (frame5.take 39)) (frame5.getD 39 (sample 0)) =
        some (fs', r) ∧
      fs'.payload.length = read_uint16 fs'.decoded_buffer 0 ∧
      (r = ProcessResult.BLOCK_SIZE_OK ↔
        5 ≤ (fs'.payload.length : Int) ∧
          (fs'.payload.length : Int) ≤ (after (frame5.take 39)).nb_buffer.tdiv 2 - 4) ∧
      (r = ProcessResult.BLOCK_SIZE_ERR ↔
        ¬ (5 ≤ (fs'.payload.length : Int) ∧
          (fs'.payload.length : Int) ≤ (after (frame5.take 39)).nb_buffer.tdiv 2 - 4)) ∧
      (r = ProcessResult.BLOCK_SIZE_OK →
        fs'.decoded_block_size = fs'.payload.length ∧
        fs'.encoded_block_size = 2 * ((fs'.payload.length : Int) + 4)) :=
  block_size_validation externals 17 (after (frame5.take 39)) (frame5.getD 39 (sample 0))
    (by decide!) (by decide!)

open Sync in
/-- C3: the step relation of `process`.  A constructed synchroniser is in `WAIT_PREAMBLE`;
every call returns a result (given fuel for the demapper scan over at most 255 points);
the result is one of those the current state allows (`result_allowed`), and it determines
the next state (`next_state`: `NONE` keeps the state, `PREAMBLE_FOUND` gives
`WAIT_BLOCK_SIZE`, `BLOCK_SIZE_OK` gives `WAIT_PAYLOAD`, the other three give
`WAIT_PREAMBLE`). -/
theorem process_step_relation {F PF SC VD CR : Type} [LinearOrderedField F]
    (E : Externals F PF SC VD CR) (fuel : Nat) (_preamble _scrambler_code _crc8_poly : Nat)
    (_buffer_size : Int) (raw fs : FrameSynchroniser F PF SC VD CR) (IQ : complex F) :
    (FrameSynchroniser.create E _preamble _scrambler_code _crc8_poly _buffer_size raw).state =
      State.WAIT_PREAMBLE ∧
    (E.QAM_Constellation_Size ≤ 255 → E.QAM_Constellation_Size.toNat < fuel →
      ∃ fs' r, process E fuel fs IQ = some (fs', r)) ∧
    (∀ fs' r, process E fuel fs IQ = some (fs', r) →
      result_allowed fs.state r ∧ fs'.state = next_state fs.state r) := by
  refine ⟨rfl, ?_, ?_⟩
  · intro hN hf
    obtain ⟨⟨fs', r⟩, h⟩ := process_some E fuel fs IQ hN hf
    exact ⟨fs', r, h⟩
  · intro fs' r h
    exact process_step E fuel fs fs' IQ r h

open Sync Standin in
/-- C3 at a concrete input: the last symbol of the preamble, fed to the synchroniser that
has seen the first seven. -/
theorem process_step_relation_witness :
    ∃ fs' r, process externals 17 (after (frame5.take 7)) (frame5.getD 7 (sample 0)) =
        some (fs', r) ∧
      result_allowed (after (frame5.take 7)).state r ∧
      fs'.state = next_state (after (frame5.take 7)).state r := by
  obtain ⟨_, h2, h3⟩ := process_step_relation externals 17 0 0 0 0 raw (after (frame5.take 7))
    (frame5.getD 7 (sample 0))
  obtain ⟨fs', r, h⟩ := h2 (by decide) (by decide)
  exact ⟨fs', r, h, h3 fs' r h⟩

open Sync in
/-- C5: the CRC decision in `process_await_payload`.  On the call that completes a frame the
result is `PAYLOAD_OK` iff `payload.crc8_received == payload.crc8_calculated` and
`PAYLOAD_ERR` iff they differ, and `payload.crc8_mismatch` is
`crc8_received != crc8_calculated`.  Hence whenever a call returns `PAYLOAD_OK`, in any
state, the two CRCs are equal. -/
theorem crc_decision {F PF SC VD CR : Type} [LinearOrderedField F]
    (E : Externals F PF SC VD CR) (fuel : Nat)
    (fs : FrameSynchroniser F PF SC VD CR) (IQ : complex F)
    (hs : fs.state = State.WAIT_PAYLOAD) (hdone : completes_frame E fuel fs IQ = true) :
    (∃ fs' r, process E fuel fs IQ = some (fs', r) ∧
      (r = ProcessResult.PAYLOAD_OK ↔
        fs'.payload.crc8_received = fs'.payload.crc8_calculated) ∧
      (r = ProcessResult.PAYLOAD_ERR ↔
        fs'.payload.crc8_received ≠ fs'.payload.crc8_calculated) ∧
      fs'.payload.crc8_mismatch =
        decide (fs'.payload.crc8_received ≠ fs'.payload.crc8_calculated)) ∧
    ∀ (gs gs' : FrameSynchroniser F PF SC VD CR) (z : complex F),
      process E fuel gs z = some (gs', ProcessResult.PAYLOAD_OK) →
      gs'.payload.crc8_received = gs'.payload.crc8_calculated := by
  constructor
  · obtain ⟨fs', r, h1, h2, h3, h4⟩ := await_payload_done E fuel fs IQ hs hdone
    refine ⟨fs', r, h1, h3, ?_, h4⟩
    rcases h2 with h2 | h2
    · subst h2
      simp only [reduceCtorEq, false_iff, not_not]
      exact h3.mp rfl
    · subst h2
      simp only [true_iff]
      intro hc
      have := h3.mpr hc
      cases this
  · intro gs gs' z h
    have hst := (process_step E fuel gs gs' z _ h).1
    unfold process at h
    cases hg : gs.state with
    | WAIT_PREAMBLE =>
      rw [hg] at hst
      rcases hst with h' | h' <;> cases h'
    | WAIT_BLOCK_SIZE =>
      rw [hg] at hst
      rcases hst with h' | h' | h' <;> cases h'
    | WAIT_PAYLOAD =>
      rw [hg] at h
      rcases process_await_payload_step E fuel gs gs' z _ h with ⟨h2, _⟩ | ⟨_, _, h3, _⟩
      · cases h2
      · exact h3.mp rfl

open Sync Standin in
/-- C5 at a concrete input: the last symbol of a frame of length 5. -/
theorem crc_decision_witness :
    (∃ fs' r, process externals 17 (after (frame5.take 43)) (frame5.getD 43 (sample 0)) =
        some (fs', r) ∧
      (r = ProcessResult.PAYLOAD_OK ↔
        fs'.payload.crc8_received = fs'.payload.crc8_calculated) ∧
      (r = ProcessResult.PAYLOAD_ERR ↔
        fs'.payload.crc8_received ≠ fs'.payload.crc8_calculated) ∧
      fs'.payload.crc8_mismatch =
        decide (fs'.payload.crc8_received ≠ fs'.payload.crc8_calculated)) ∧
    ∀ (gs gs' : FrameSynchroniser ℚ (Nat × Nat) Nat Unit Nat) (z : complex ℚ),
      process externals 17 gs z = some (gs', ProcessResult.PAYLOAD_OK) →
      gs'.payload.crc8_received = gs'.payload.crc8_calculated :=
  crc_decision externals 17 (after (frame5.take 43)) (frame5.getD 43 (sample 0))
    (by decide!) (by decide!)

open Sync in
/-- C8 (as amended): a frame whose length field decodes to `N = 4` is rejected, whatever the
buffer size.  On the call that completes the 16-byte prefix, `payload.length` holds the
decoded length field; when that is 4 the call returns `BLOCK_SIZE_ERR` and the
synchroniser goes back to `WAIT_PREAMBLE`. -/
theorem length_four_is_rejected {F PF SC VD CR : Type} [LinearOrderedField F]
    (E : Externals F PF SC VD CR) (fuel : Nat)
    (fs : FrameSynchroniser F PF SC VD CR) (IQ : complex F)
    (hs : fs.state = State.WAIT_BLOCK_SIZE) (hdone : completes_prefix E fuel fs IQ = true) :
    ∃ fs' r, process E fuel fs IQ = some (fs', r) ∧
      fs'.payload.length = read_uint16 fs'.decoded_buffer 0 ∧
      (fs'.payload.length = 4 →
        r = ProcessResult.BLOCK_SIZE_ERR ∧ fs'.state = State.WAIT_PREAMBLE) := by
  obtain ⟨fs', r, h1, h2, _, h4, _, _, h7, _⟩ := await_block_size_done E fuel fs IQ hs hdone
  refine ⟨fs', r, h1, h2, ?_⟩
  intro h
  have hr : r = ProcessResult.BLOCK_SIZE_ERR := h4.mpr (by rw [h]; omega)
  subst hr
  exact ⟨rfl, h7⟩

open Sync Standin in
/-- C8 (as amended) at a concrete input: the 32nd symbol after the preamble of a frame
whose length field is 4. -/
theorem length_four_is_rejected_witness :
    ∃ fs' r, process externals 17 (after (frame4.take 39)) (frame4.getD 39 (sample 0)) =
        some (fs', r) ∧
      fs'.payload.length = read_uint16 fs'.decoded_buffer 0 ∧
      (fs'.payload.length = 4 →
        r = ProcessResult.BLOCK_SIZE_ERR ∧ fs'.state = State.WAIT_PREAMBLE) :=
  length_four_is_rejected externals 17 (after (frame4.take 39)) (frame4.getD 39 (sample 0))
    (by decide!) (by decide!)

open Sync Standin in
/-- C8 fails on the code: a fresh synchroniser with a buffer of 1024 bytes, fed the preamble
and then the 16 encoded bytes of a frame whose length field decodes to 4, reports
`PREAMBLE_FOUND` and then `BLOCK_SIZE_ERR`; `payload.length` is 4 and the synchroniser is
back in `WAIT_PREAMBLE`. -/
theorem length_four_rejected :
    (run externals 17 fresh frame4).map
      (fun o => (events o.2, o.1.payload.length, o.1.state, o.1.nb_buffer)) =
      some ([ProcessResult.PREAMBLE_FOUND, ProcessResult.BLOCK_SIZE_ERR], 4,
        State.WAIT_PREAMBLE, 1024) := by
  decide!

namespace Sync

variable {F PF SC VD CR : Type} [LinearOrderedField F]

theorem frame_language_mem :
    [ProcessResult.PREAMBLE_FOUND, ProcessResult.BLOCK_SIZE_ERR] ∈ frame_language ∧
    [ProcessResult.PREAMBLE_FOUND, ProcessResult.BLOCK_SIZE_OK, ProcessResult.PAYLOAD_OK] ∈
      frame_language ∧
    [ProcessResult.PREAMBLE_FOUND, ProcessResult.BLOCK_SIZE_OK, ProcessResult.PAYLOAD_ERR] ∈
      frame_language := by
  unfold frame_language
  refine ⟨?_, ?_, ?_⟩
  · rw [Language.mem_mul]
    exact ⟨[ProcessResult.PREAMBLE_FOUND], rfl, [ProcessResult.BLOCK_SIZE_ERR],
      (Language.mem_add _ _ _).mpr (Or.inl rfl), rfl⟩
  · rw [Language.mem_mul]
    refine ⟨[ProcessResult.PREAMBLE_FOUND], rfl,
      [ProcessResult.BLOCK_SIZE_OK, ProcessResult.PAYLOAD_OK],
      (Language.mem_add _ _ _).mpr (Or.inr ?_), rfl⟩
    rw [Language.mem_mul]
    exact ⟨[ProcessResult.BLOCK_SIZE_OK], rfl, [ProcessResult.PAYLOAD_OK],
      (Language.mem_add _ _ _).mpr (Or.inl rfl), rfl⟩
  · rw [Language.mem_mul]
    refine ⟨[ProcessResult.PREAMBLE_FOUND], rfl,
      [ProcessResult.BLOCK_SIZE_OK, ProcessResult.PAYLOAD_ERR],
      (Language.mem_add _ _ _).mpr (Or.inr ?_), rfl⟩
    rw [Language.mem_mul]
    exact ⟨[ProcessResult.BLOCK_SIZE_OK], rfl, [ProcessResult.PAYLOAD_ERR],
      (Language.mem_add _ _ _).mpr (Or.inr rfl), rfl⟩

theorem kstar_append_frame (w x : List ProcessResult)
    (hw : w ∈ KStar.kstar frame_language) (hx : x ∈ frame_language) :
    w ++ x ∈ KStar.kstar frame_language := by
  rw [Language.mem_kstar] at hw ⊢
  obtain ⟨S, rfl, hS⟩ := hw
  refine ⟨S ++ [x], by simp, ?_⟩
  intro y hy
  rcases List.mem_append.mp hy with h | h
  · exact hS y h
  · rw [List.mem_singleton.mp h]
    exact hx

theorem events_snoc (T : List (ProcessResult × State)) (r : ProcessResult) (s : State) :
    events (T ++ [(r, s)]) = if r = ProcessResult.NONE then events T else events T ++ [r] := by
  unfold events
  rw [List.map_append, List.filter_append]
  split_ifs with h
  · simp [h]
  · simp [h]

theorem state_before_snoc (T : List (ProcessResult × State)) (x : ProcessResult × State)
    (k : Nat) (hk : k ≤ T.length) : state_before (T ++ [x]) k = state_before T k := by
  cases k with
  | zero => rfl
  | succ k =>
    show ((T ++ [x]).getD k _).2 = (T.getD k _).2
    rw [List.getD_append _ _ _ _ (by omega)]

theorem state_before_last (T : List (ProcessResult × State)) (x : ProcessResult × State) :
    state_before (T ++ [x]) (T.length + 1) = x.2 := by
  show ((T ++ [x]).getD T.length _).2 = x.2
  rw [List.getD_append_right _ _ _ _ (le_refl _)]
  simp

theorem FrameAt_snoc (T : List (ProcessResult × State)) (x : ProcessResult × State)
    (a b n : Nat) (hn : n ≤ T.length) (h : FrameAt T a b n) : FrameAt (T ++ [x]) a b n := by
  obtain ⟨h1, h2, h3, h4, h5, h6, h7⟩ := h
  refine ⟨h1, h2, ?_, ?_, ?_, ?_, ?_⟩
  · rw [state_before_snoc _ _ _ (by omega)]; exact h3
  · rw [List.getElem?_append_left (by omega)]; exact h4
  · intro k hk1 hk2
    rw [List.getElem?_append_left (by omega)]; exact h5 k hk1 hk2
  · rw [List.getElem?_append_left (by omega)]; exact h6
  · intro k hk1 hk2
    rw [List.getElem?_append_left (by omega)]; exact h7 k hk1 hk2

/-- What holds of the trace of a synchroniser started in `WAIT_PREAMBLE`. -/
theorem trace_inv (E : Externals F PF SC VD CR) (fuel : Nat)
    (fs : FrameSynchroniser F PF SC VD CR) (input : Nat → complex F)
    (h0 : fs.state = State.WAIT_PREAMBLE) :
    ∀ (n : Nat) (fs' : FrameSynchroniser F PF SC VD CR) (T : List (ProcessResult × State)),
      trace E fuel fs input n = some (fs', T) →
      T.length = n ∧ state_before T n = fs'.state ∧
      (∃ w, w ∈ KStar.kstar frame_language ∧ events T = w ++ pending fs'.state) ∧
      OpenFrame T fs'.state ∧
      ∀ m s, T[m]? = some (ProcessResult.PAYLOAD_OK, s) →
        s = State.WAIT_PREAMBLE ∧ ∃ a b, FrameAt T a b m := by
  intro n
  induction n with
  | zero =>
    intro fs' T h
    simp only [trace, Option.some.injEq, Prod.mk.injEq] at h
    obtain ⟨rfl, rfl⟩ := h
    refine ⟨rfl, h0.symm, ⟨[], ?_, ?_⟩, ?_, ?_⟩
    · rw [Language.mem_kstar]
      exact ⟨[], rfl, fun y hy => by cases hy⟩
    · rw [h0]; rfl
    · rw [h0]; trivial
    · intro m s hm
      simp at hm
  | succ n ih =>
    intro fs' T' h
    unfold trace at h
    cases h1 : trace E fuel fs input n with
    | none => simp [h1] at h
    | some o =>
      obtain ⟨fs1, T⟩ := o
      simp only [h1] at h
      cases h2 : process E fuel fs1 (input n) with
      | none => simp [h2] at h
      | some o2 =>
        obtain ⟨fs2, r⟩ := o2
        simp only [h2, Option.some.injEq, Prod.mk.injEq] at h
        obtain ⟨rfl, rfl⟩ := h
        obtain ⟨i1, i2, ⟨w, hw, hev⟩, i4, i5⟩ := ih fs1 T h1
        obtain ⟨hal, hnx⟩ := process_step E fuel fs1 fs2 (input n) r h2
        generalize fs2.state = s2 at hnx ⊢
        have hlast : (T ++ [(r, s2)])[n]? = some (r, s2) := by
          rw [← i1]; exact List.getElem?_concat_length _ _
        have hlen : (T ++ [(r, s2)]).length = n + 1 := by simp [i1]
        have hold : ∀ k, k < n → (T ++ [(r, s2)])[k]? = T[k]? := fun k hk =>
          List.getElem?_append_left (by omega)
        refine ⟨hlen, ?_, ?_, ?_, ?_⟩
        · rw [← i1]; exact state_before_last T _
        · rw [events_snoc, hev]
          cases hs : fs1.state <;> rw [hs] at hal hnx
          · rcases hal with rfl | rfl <;> subst hnx
            · exact ⟨w, hw, by simp [pending, next_state]⟩
            · exact ⟨w, hw, by simp [pending, next_state]⟩
          · rcases hal with rfl | rfl | rfl <;> subst hnx
            · exact ⟨w, hw, by simp [pending, next_state]⟩
            · exact ⟨w, hw, by simp [pending, next_state]⟩
            · exact ⟨w ++ [ProcessResult.PREAMBLE_FOUND, ProcessResult.BLOCK_SIZE_ERR],
                kstar_append_frame _ _ hw frame_language_mem.1,
                by simp [pending, next_state]⟩
          · rcases hal with rfl | rfl | rfl <;> subst hnx
            · exact ⟨w, hw, by simp [pending, next_state]⟩
            · exact ⟨w ++ [ProcessResult.PREAMBLE_FOUND, ProcessResult.BLOCK_SIZE_OK,
                  ProcessResult.PAYLOAD_OK],
                kstar_append_frame _ _ hw frame_language_mem.2.1,
                by simp [pending, next_state]⟩
            · exact ⟨w ++ [ProcessResult.PREAMBLE_FOUND, ProcessResult.BLOCK_SIZE_OK,
                  ProcessResult.PAYLOAD_ERR],
                kstar_append_frame _ _ hw frame_language_mem.2.2,
                by simp [pending, next_state]⟩
        · cases hs : fs1.state <;> rw [hs] at hal i4 i2 hnx
          · rcases hal with rfl | rfl <;> subst hnx
            · exact True.intro
            · refine ⟨n, ?_, ?_, hlast, ?_⟩
              · rw [hlen]; omega
              · rw [state_before_snoc _ _ _ (by omega)]; exact i2
              · intro k hk1 hk2
                rw [hlen] at hk2
                omega
          · obtain ⟨a, p1, p2, p3, p4⟩ := i4
            rw [i1] at p1 p4
            rcases hal with rfl | rfl | rfl <;> subst hnx
            · refine ⟨a, by rw [hlen]; omega, ?_, ?_, ?_⟩
              · rw [state_before_snoc _ _ _ (by omega)]; exact p2
              · rw [hold a p1]; exact p3
              · intro k hk1 hk2
                rw [hlen] at hk2
                by_cases hkn : k = n
                · subst hkn; exact hlast
                · rw [hold k (by omega)]; exact p4 k hk1 (by omega)
            · refine ⟨a, n, p1, by rw [hlen]; omega, ?_, ?_, ?_, hlast, ?_⟩
              · rw [state_before_snoc _ _ _ (by omega)]; exact p2
              · rw [hold a p1]; exact p3
              · intro k hk1 hk2
                rw [hold k hk2]; exact p4 k hk1 hk2
              · intro k hk1 hk2
                rw [hlen] at hk2
                omega
            · exact True.intro
          · obtain ⟨a, b, hf⟩ := i4
            rw [i1] at hf
            rcases hal with rfl | rfl | rfl <;> subst hnx
            · have hf' := FrameAt_snoc T (ProcessResult.NONE,
                next_state State.WAIT_PAYLOAD ProcessResult.NONE) a b n (by omega) hf
              obtain ⟨q1, q2, q3, q4, q5, q6, q7⟩ := hf'
              refine ⟨a, b, q1, by rw [hlen]; omega, q3, q4, q5, q6, ?_⟩
              intro k hk1 hk2
              rw [hlen] at hk2
              by_cases hkn : k = n
              · subst hkn
                exact hlast
              · exact q7 k hk1 (by omega)
            · exact True.intro
            · exact True.intro
        · intro m s hm
          by_cases hmn : m < n
          · rw [hold m hmn] at hm
            obtain ⟨e1, a, b, hf⟩ := i5 m s hm
            exact ⟨e1, a, b, FrameAt_snoc T _ a b m (by omega) hf⟩
          · by_cases hmn' : m = n
            · subst hmn'
              rw [hlast] at hm
              simp only [Option.some.injEq, Prod.mk.injEq] at hm
              obtain ⟨rfl, rfl⟩ := hm
              cases hs : fs1.state <;> rw [hs] at hal i4 hnx
              · rcases hal with h' | h' <;> cases h'
              · rcases hal with h' | h' | h' <;> cases h'
              · obtain ⟨a, b, hf⟩ := i4
                rw [i1] at hf
                exact ⟨hnx, a, b, FrameAt_snoc T _ a b m (by omega) hf⟩
            · rw [List.getElem?_eq_none (by rw [hlen]; omega)] at hm
              cases hm

end Sync

namespace Sync

variable {F PF SC VD CR : Type} [LinearOrderedField F]

/-- With fuel for the demapper scan, every call of a trace returns. -/
theorem trace_some (E : Externals F PF SC VD CR) (fuel : Nat)
    (fs : FrameSynchroniser F PF SC VD CR) (input : Nat → complex F)
    (hN : E.QAM_Constellation_Size ≤ 255) (hf : E.QAM_Constellation_Size.toNat < fuel) :
    ∀ n, ∃ fs' T, trace E fuel fs input n = some (fs', T)
  | 0 => ⟨fs, [], rfl⟩
  | n + 1 => by
    obtain ⟨fs1, T1, h1⟩ := trace_some E fuel fs input hN hf n
    obtain ⟨⟨fs2, r⟩, h2⟩ := process_some E fuel fs1 (input n) hN hf
    exact ⟨fs2, T1 ++ [(r, fs2.state)], by simp only [trace, h1, h2]⟩

end Sync

open Sync in
/-- C4: event ordering.  For every input sequence fed to a freshly constructed
`FrameSynchroniser` (with fuel for the demapper scan over at most 255 points, so that every
call returns), the subsequence of the results other than `NONE` is a prefix of a word of the
language `(PREAMBLE_FOUND (BLOCK_SIZE_ERR | BLOCK_SIZE_OK (PAYLOAD_OK | PAYLOAD_ERR)))*`.
Every call `m` that returns `PAYLOAD_OK` leaves the synchroniser in `WAIT_PREAMBLE` and
closes a frame `FrameAt T a b m`: call `a` is made in `WAIT_PREAMBLE` and returns
`PREAMBLE_FOUND`, the calls between `a` and `b` return `NONE` in `WAIT_BLOCK_SIZE`, call
`b` returns `BLOCK_SIZE_OK`, and the calls between `b` and `m` return `NONE` in
`WAIT_PAYLOAD`; so the states visited are `WAIT_PREAMBLE`, `WAIT_BLOCK_SIZE`,
`WAIT_PAYLOAD`, `WAIT_PREAMBLE`, with no second `PREAMBLE_FOUND` inside the frame. -/
theorem event_ordering {F PF SC VD CR : Type} [LinearOrderedField F]
    (E : Externals F PF SC VD CR) (fuel : Nat) (_preamble _scrambler_code _crc8_poly : Nat)
    (_buffer_size : Int) (raw : FrameSynchroniser F PF SC VD CR) (input : List (complex F))
    (hN : E.QAM_Constellation_Size ≤ 255) (hf : E.QAM_Constellation_Size.toNat < fuel) :
    ∃ fs' T, run E fuel
        (FrameSynchroniser.create E _preamble _scrambler_code _crc8_poly _buffer_size raw)
        input = some (fs', T) ∧
      T.length = input.length ∧
      (∃ suffix, events T ++ suffix ∈ KStar.kstar frame_language) ∧
      ∀ m s, T[m]? = some (ProcessResult.PAYLOAD_OK, s) →
        s = State.WAIT_PREAMBLE ∧ ∃ a b, FrameAt T a b m := by
  obtain ⟨fs', T, h⟩ := trace_some E fuel
    (FrameSynchroniser.create E _preamble _scrambler_code _crc8_poly _buffer_size raw)
    (fun k => input.getD k ⟨0, 0⟩) hN hf input.length
  obtain ⟨hlen, _, ⟨w, hw, hev⟩, _, hok⟩ := trace_inv E fuel
    (FrameSynchroniser.create E _preamble _scrambler_code _crc8_poly _buffer_size raw)
    (fun k => input.getD k ⟨0, 0⟩) rfl input.length fs' T h
  refine ⟨fs', T, h, hlen, ⟨completion fs'.state, ?_⟩, hok⟩
  rw [hev, List.append_assoc]
  cases fs'.state with
  | WAIT_PREAMBLE =>
    show w ++ [] ∈ KStar.kstar frame_language
    rw [List.append_nil]
    exact hw
  | WAIT_BLOCK_SIZE => exact kstar_append_frame w _ hw frame_language_mem.1
  | WAIT_PAYLOAD => exact kstar_append_frame w _ hw frame_language_mem.2.1

open Sync Standin in
/-- C4 at a concrete input: the 44 samples of a frame of length 5, fed to a synchroniser
with a buffer of 1024 bytes. -/
theorem event_ordering_witness :
    ∃ fs' T, run externals 17 fresh frame5 = some (fs', T) ∧
      T.length = frame5.length ∧
      (∃ suffix, events T ++ suffix ∈ KStar.kstar frame_language) ∧
      ∀ m s, T[m]? = some (ProcessResult.PAYLOAD_OK, s) →
        s = State.WAIT_PREAMBLE ∧ ∃ a b, FrameAt T a b m :=
  event_ordering externals 17 0xF9AFCD6D 0x8559 0xD5 1024 raw frame5 (by decide) (by decide)

/-! ## Preamble detector -/

namespace Detector

variable {F PF : Type} [LinearOrderedField F]

theorem matching_succ (pf : PreambleFilter PF) (d : PreambleDetector F PF) (IQ : complex F)
    (c : ConstellationSpecification F) (n : Nat) :
    matching pf d IQ c (n + 1) =
      if (phase_filter pf d IQ c n).2 = true then insert n (matching pf d IQ c n)
      else matching pf d IQ c n := by
  unfold matching
  rw [Finset.range_succ, Finset.filter_insert]

theorem matching_lt (pf : PreambleFilter PF) (d : PreambleDetector F PF) (IQ : complex F)
    (c : ConstellationSpecification F) (n k : Nat) (h : k ∈ matching pf d IQ c n) : k < n := by
  unfold matching at h
  exact Finset.mem_range.mp (Finset.mem_filter.mp h).1

/-- The phase loop of `Process` after `n` iterations. -/
theorem Process_loop (pf : PreambleFilter PF) (d : PreambleDetector F PF) (IQ : complex F)
    (c : ConstellationSpecification F) (bits : Int) (hb : d.bits_since_preamble = bits) :
    ∀ n, ((List.range n).foldl (Process_phase pf IQ c c.GetBitsPerSymbol) (d, 0)).1.preamble_phases
        = d.preamble_phases ∧
      ((List.range n).foldl (Process_phase pf IQ c c.GetBitsPerSymbol)
        (d, 0)).1.bits_since_preamble = bits ∧
      ((List.range n).foldl (Process_phase pf IQ c c.GetBitsPerSymbol) (d, 0)).1.total_phases
        = d.total_phases ∧
      (∀ k, ((List.range n).foldl (Process_phase pf IQ c c.GetBitsPerSymbol)
        (d, 0)).1.preamble_filters k =
          if k < n then (phase_filter pf d IQ c k).1 else d.preamble_filters k) ∧
      ((List.range n).foldl (Process_phase pf IQ c c.GetBitsPerSymbol) (d, 0)).2 =
        ((matching pf d IQ c n).card : Int) ∧
      ((matching pf d IQ c n).Nonempty →
        ∃ m ∈ matching pf d IQ c n, (∀ k ∈ matching pf d IQ c n, k ≤ m) ∧
          ((List.range n).foldl (Process_phase pf IQ c c.GetBitsPerSymbol)
            (d, 0)).1.selected_phase = (m : Int) ∧
          ((List.range n).foldl (Process_phase pf IQ c c.GetBitsPerSymbol)
            (d, 0)).1.desync_bitcount = bits - pf.get_length (phase_filter pf d IQ c m).1) := by
  intro n
  induction n with
  | zero =>
    refine ⟨rfl, hb, rfl, fun k => by simp, by simp [matching], ?_⟩
    intro h
    simp [matching] at h
  | succ n ih =>
    obtain ⟨i1, i2, i3, i4, i5, i6⟩ := ih
    rw [List.range_succ, List.foldl_append, List.foldl_cons, List.foldl_nil]
    generalize (List.range n).foldl (Process_phase pf IQ c c.GetBitsPerSymbol) (d, 0) = st at *
    obtain ⟨dn, tot⟩ := st
    simp only at i1 i2 i3 i4 i5 i6
    have hfn : pf.process (dn.preamble_filters n)
        (c.GetNearestSymbol (IQ.mul (dn.preamble_phases n))) c.GetBitsPerSymbol =
        phase_filter pf d IQ c n := by
      unfold phase_filter phase_symbol
      rw [i4 n, if_neg (by omega), i1]
    have hfil : ∀ k, write dn.preamble_filters n (phase_filter pf d IQ c n).1 k =
        if k < n + 1 then (phase_filter pf d IQ c k).1 else d.preamble_filters k := by
      intro k
      unfold write
      by_cases hk : k = n
      · subst hk; simp
      · rw [if_neg hk, i4 k]
        by_cases hk2 : k < n
        · rw [if_pos hk2, if_pos (by omega)]
        · rw [if_neg hk2, if_neg (by omega)]
    rw [matching_succ]
    unfold Process_phase
    simp only [hfn]
    by_cases hres : (phase_filter pf d IQ c n).2 = true
    · have hnm : n ∉ matching pf d IQ c n := fun h => by
        have := matching_lt pf d IQ c n n h
        omega
      simp only [hres, Bool.not_true, Bool.false_eq_true, if_false, if_true]
      refine ⟨i1, i2, i3, hfil, ?_, ?_⟩
      · rw [Finset.card_insert_of_not_mem hnm, i5]
        push_cast
        ring
      · intro _
        refine ⟨n, Finset.mem_insert_self _ _, ?_, rfl, ?_⟩
        · intro k hk
          rcases Finset.mem_insert.mp hk with h | h
          · omega
          · have := matching_lt pf d IQ c n k h
            omega
        · simp only [write, if_true, i2]
    · simp only [hres, Bool.not_false, if_true, if_false]
      simp only [Bool.not_eq_true] at hres
      simp only [hres, Bool.not_false, if_true, Bool.false_eq_true, if_false]
      exact ⟨i1, i2, i3, hfil, i5, i6⟩

end Detector

namespace Sync

variable {F PF SC VD CR : Type} [LinearOrderedField F]

theorem matching_mixers_succ (E : Externals F PF SC VD CR) (fuel : Nat)
    (fs : FrameSynchroniser F PF SC VD CR) (IQ : complex F) (n : Nat) :
    matching_mixers E fuel fs IQ (n + 1) =
      if (mixer_filter E fuel fs IQ n).2 = true then insert n (matching_mixers E fuel fs IQ n)
      else matching_mixers E fuel fs IQ n := by
  unfold matching_mixers
  rw [Finset.range_succ, Finset.filter_insert]

theorem matching_mixers_lt (E : Externals F PF SC VD CR) (fuel : Nat)
    (fs : FrameSynchroniser F PF SC VD CR) (IQ : complex F) (n k : Nat)
    (h : k ∈ matching_mixers E fuel fs IQ n) : k < n := by
  unfold matching_mixers at h
  exact Finset.mem_range.mp (Finset.mem_filter.mp h).1

/-- The phase loop of `process_await_preamble` after `n` iterations. -/
theorem preamble_loop (E : Externals F PF SC VD CR) (fuel : Nat)
    (fs : FrameSynchroniser F PF SC VD CR) (IQ : complex F)
    (hN : E.QAM_Constellation_Size ≤ 255) (hf : E.QAM_Constellation_Size.toNat < fuel) :
    ∀ n, ∃ st, (List.range n).foldlM (process_await_preamble_phase E fuel IQ 4)
        ({ fs with bits_since_preamble := fs.bits_since_preamble + 4 }, 0) = some st ∧
      st.1.preamble_mixers = fs.preamble_mixers ∧
      st.1.bits_since_preamble = fs.bits_since_preamble + 4 ∧
      (∀ k : Nat, st.1.preamble_filters (k : Int) =
        if k < n then (mixer_filter E fuel fs IQ k).1 else fs.preamble_filters (k : Int)) ∧
      st.2 = ((matching_mixers E fuel fs IQ n).card : Int) ∧
      ((matching_mixers E fuel fs IQ n).Nonempty →
        ∃ m ∈ matching_mixers E fuel fs IQ n, (∀ k ∈ matching_mixers E fuel fs IQ n, k ≤ m) ∧
          st.1.preamble_state.selected_phase = (m : Int) ∧
          st.1.preamble_state.desync_bitcount =
            fs.bits_since_preamble + 4 - E.filter.get_length (mixer_filter E fuel fs IQ m).1) := by
  intro n
  induction n with
  | zero =>
    refine ⟨_, rfl, rfl, rfl, fun k => by simp, by simp [matching_mixers], ?_⟩
    intro h
    simp [matching_mixers] at h
  | succ n ih =>
    obtain ⟨st, i0, i1, i2, i4, i5, i6⟩ := ih
    rw [List.range_succ, List.foldlM_append, i0]
    simp only [Option.bind_eq_bind, Option.some_bind, List.foldlM_cons, List.foldlM_nil]
    obtain ⟨dn, tot⟩ := st
    simp only at i1 i2 i4 i5 i6
    obtain ⟨sym, hs⟩ := symbol_to_bits_some E fuel (IQ.mul (fs.preamble_mixers (n : Int))) hN hf
    have hfn : E.filter.process (dn.preamble_filters (n : Int)) sym 4 =
        mixer_filter E fuel fs IQ n := by
      unfold mixer_filter
      rw [i4 n, if_neg (by omega), hs]
      rfl
    have hfil : ∀ k : Nat, write dn.preamble_filters (n : Int) (mixer_filter E fuel fs IQ n).1
        (k : Int) =
        if k < n + 1 then (mixer_filter E fuel fs IQ k).1 else fs.preamble_filters (k : Int) := by
      intro k
      unfold write
      by_cases hk : k = n
      · subst hk; simp
      · rw [if_neg (by omega), i4 k]
        by_cases hk2 : k < n
        · rw [if_pos hk2, if_pos (by omega)]
        · rw [if_neg hk2, if_neg (by omega)]
    rw [matching_mixers_succ]
    unfold process_await_preamble_phase
    simp only [i1, hs, hfn]
    by_cases hres : (mixer_filter E fuel fs IQ n).2 = true
    · have hnm : n ∉ matching_mixers E fuel fs IQ n := fun h => by
        have := matching_mixers_lt E fuel fs IQ n n h
        omega
      simp only [hres, Bool.not_true, Bool.false_eq_true, if_false, if_true]
      refine ⟨_, rfl, rfl, i2, hfil, ?_, ?_⟩
      · rw [Finset.card_insert_of_not_mem hnm, i5]
        push_cast
        ring
      · intro _
        refine ⟨n, Finset.mem_insert_self _ _, ?_, rfl, ?_⟩
        · intro k hk
          rcases Finset.mem_insert.mp hk with h | h
          · omega
          · have := matching_mixers_lt E fuel fs IQ n k h
            omega
        · simp only [write, if_true, i2]
    · simp only [Bool.not_eq_true] at hres
      simp only [hres, Bool.not_false, if_true, Bool.false_eq_true, if_false]
      exact ⟨_, rfl, rfl, i2, hfil, i5, i6⟩

/-- What `process_await_preamble` returns and leaves, in terms of the matching phases. -/
theorem process_await_preamble_spec (E : Externals F PF SC VD CR) (fuel : Nat)
    (fs : FrameSynchroniser F PF SC VD CR) (IQ : complex F)
    (hN : E.QAM_Constellation_Size ≤ 255) (hf : E.QAM_Constellation_Size.toNat < fuel) :
    ∃ fs' r, process_await_preamble E fuel fs IQ = some (fs', r) ∧
      (r = ProcessResult.PREAMBLE_FOUND ↔ (matching_mixers E fuel fs IQ 4).Nonempty) ∧
      (r = ProcessResult.NONE ↔ ¬ (matching_mixers E fuel fs IQ 4).Nonempty) ∧
      ((matching_mixers E fuel fs IQ 4).Nonempty →
        ∃ m ∈ matching_mixers E fuel fs IQ 4, (∀ k ∈ matching_mixers E fuel fs IQ 4, k ≤ m) ∧
          fs'.preamble_state.selected_phase = (m : Int) ∧
          fs'.preamble_state.phase_conflict = decide (1 < (matching_mixers E fuel fs IQ 4).card)) ∧
      (∀ k : Nat, fs'.preamble_filters (k : Int) =
        if k < 4 then (mixer_filter E fuel fs IQ k).1 else fs.preamble_filters (k : Int)) := by
  obtain ⟨st, i0, _, _, i4, i5, i6⟩ := preamble_loop E fuel fs IQ hN hf 4
  obtain ⟨dn, tot⟩ := st
  simp only at i4 i5 i6
  unfold process_await_preamble
  simp only [i0]
  have hrf := fun (x : FrameSynchroniser F PF SC VD CR) => (reset_decoders_frame E x).2.2
  by_cases hpos : tot > 0
  · have hne : (matching_mixers E fuel fs IQ 4).Nonempty := by
      rw [← Finset.card_pos]
      omega
    rw [if_pos hpos]
    refine ⟨_, _, rfl, by simp [hne], by simp [hne], ?_, ?_⟩
    · intro _
      obtain ⟨m, hm, hmax, hsel, _⟩ := i6 hne
      refine ⟨m, hm, hmax, ?_, ?_⟩
      · show (reset_decoders E _).preamble_state.selected_phase = _
        rw [(hrf _).1]
        exact hsel
      · show (reset_decoders E _).preamble_state.phase_conflict = _
        rw [(hrf _).1]
        show decide (tot > 1) = _
        rw [i5]
        simp
    · intro k
      show (reset_decoders E _).preamble_filters (k : Int) = _
      rw [(hrf _).2.1]
      exact i4 k
  · have hne : ¬ (matching_mixers E fuel fs IQ 4).Nonempty := by
      rw [← Finset.card_pos]
      omega
    rw [if_neg hpos]
    exact ⟨_, _, rfl, by simp [hne], by simp [hne], fun h => absurd h hne, i4⟩

end Sync

namespace Detector

variable {F PF : Type} [LinearOrderedField F]

/-- What `Process` returns and leaves, in terms of the matching phases. -/
theorem Process_spec (pf : PreambleFilter PF) (d : PreambleDetector F PF) (IQ : complex F)
    (c : ConstellationSpecification F) :
    ((Process pf d IQ c).2 = true ↔ (matching pf d IQ c d.total_phases.toNat).Nonempty) ∧
    ((matching pf d IQ c d.total_phases.toNat).Nonempty →
      ∃ m ∈ matching pf d IQ c d.total_phases.toNat,
        (∀ k ∈ matching pf d IQ c d.total_phases.toNat, k ≤ m) ∧
        (Process pf d IQ c).1.selected_phase = (m : Int) ∧
        (Process pf d IQ c).1.phase_conflict =
          decide (1 < (matching pf d IQ c d.total_phases.toNat).card) ∧
        (Process pf d IQ c).1.bits_since_preamble = 0 ∧
        (Process pf d IQ c).1.desync_bitcount = d.bits_since_preamble + c.GetBitsPerSymbol -
          pf.get_length ((Process pf d IQ c).1.preamble_filters m)) ∧
    (¬ (matching pf d IQ c d.total_phases.toNat).Nonempty →
      (Process pf d IQ c).1.bits_since_preamble = d.bits_since_preamble + c.GetBitsPerSymbol) ∧
    (∀ k, (Process pf d IQ c).1.preamble_filters k =
      if k < d.total_phases.toNat then (phase_filter pf d IQ c k).1 else d.preamble_filters k) ∧
    (Process pf d IQ c).1.total_phases = d.total_phases ∧
    (Process pf d IQ c).1.preamble_phases = d.preamble_phases := by
  obtain ⟨i1, i2, i3, i4, i5, i6⟩ := Process_loop pf
    { d with bits_since_preamble := d.bits_since_preamble + c.GetBitsPerSymbol } IQ c
    (d.bits_since_preamble + c.GetBitsPerSymbol) rfl d.total_phases.toNat
  have hph : ∀ k, phase_filter pf
      { d with bits_since_preamble := d.bits_since_preamble + c.GetBitsPerSymbol } IQ c k =
      phase_filter pf d IQ c k := fun _ => rfl
  have hma : ∀ n, matching pf
      { d with bits_since_preamble := d.bits_since_preamble + c.GetBitsPerSymbol } IQ c n =
      matching pf d IQ c n := fun _ => rfl
  simp only [hph, hma] at i1 i2 i3 i4 i5 i6
  unfold Process
  simp only
  generalize (List.range d.total_phases.toNat).foldl
    (Process_phase pf IQ c c.GetBitsPerSymbol)
    ({ d with bits_since_preamble := d.bits_since_preamble + c.GetBitsPerSymbol }, 0) = st at *
  obtain ⟨dn, tot⟩ := st
  simp only at i1 i2 i3 i4 i5 i6
  by_cases hpos : tot > 0
  · have hne : (matching pf d IQ c d.total_phases.toNat).Nonempty := by
      rw [← Finset.card_pos]
      omega
    rw [if_pos hpos]
    refine ⟨by simp [hne], ?_, fun h => absurd hne h, i4, i3, i1⟩
    intro _
    obtain ⟨m, hm, hmax, hsel, hde⟩ := i6 hne
    refine ⟨m, hm, hmax, hsel, ?_, rfl, ?_⟩
    · show decide (tot > 1) = _
      rw [i5]
      simp
    · show dn.desync_bitcount = _ - pf.get_length (dn.preamble_filters m)
      rw [hde, i4 m, if_pos (matching_lt pf d IQ c _ m hm)]
  · have hne : ¬ (matching pf d IQ c d.total_phases.toNat).Nonempty := by
      rw [← Finset.card_pos]
      omega
    rw [if_neg hpos]
    exact ⟨by simp [hne], fun h => absurd h hne, fun _ => i2, i4, i3, i1⟩

end Detector

namespace Detector

variable {F PF : Type} [LinearOrderedField F]

/-- While no call reports a preamble, every call adds `bits_per_symbol` to the counter. -/
theorem Process_list_false (pf : PreambleFilter PF) (c : ConstellationSpecification F) :
    ∀ (zs : List (complex F)) (d : PreambleDetector F PF),
      (Process_list pf c d zs).2 = List.replicate zs.length false →
      (Process_list pf c d zs).1.bits_since_preamble =
        d.bits_since_preamble + (zs.length : Int) * c.GetBitsPerSymbol
  | [], d, _ => by simp [Process_list]
  | z :: rest, d, h => by
    simp only [Process_list, List.length_cons, List.replicate_succ, List.cons.injEq] at h
    have ih := Process_list_false pf c rest (Process pf d z c).1 h.2
    obtain ⟨h1, _, h3, _⟩ := Process_spec pf d z c
    have hne : ¬ (matching pf d z c d.total_phases.toNat).Nonempty := fun hn => by
      have := h1.mpr hn
      rw [h.1] at this
      cases this
    simp only [Process_list, List.length_cons]
    rw [ih, h3 hne]
    push_cast
    ring

end Detector

/-- C6: the preamble match rule of `PreambleDetector::Process` and of
`FrameSynchroniser::process_await_preamble`.  With `matching` the set of the phase indices
whose filter reports a match on this sample: a preamble is reported (`Process` returns true,
`process_await_preamble` returns `PREAMBLE_FOUND`, which it does given fuel for the demapper
scan) iff `matching` is non-empty; when it is, `selected_phase` is the greatest element of
`matching` and `phase_conflict` is `|matching| > 1`.  After the call every filter below the
number of phases is the result of feeding it its one symbol of this call, whether or not
another filter matched. -/
theorem preamble_match_rule {F PF SC VD CR : Type} [LinearOrderedField F]
    (pf : PreambleFilter PF) (d : Detector.PreambleDetector F PF)
    (c : ConstellationSpecification F) (E : Sync.Externals F PF SC VD CR) (fuel : Nat)
    (fs : Sync.FrameSynchroniser F PF SC VD CR) (IQ : complex F)
    (hN : E.QAM_Constellation_Size ≤ 255) (hf : E.QAM_Constellation_Size.toNat < fuel) :
    (((Detector.Process pf d IQ c).2 = true ↔
        (Detector.matching pf d IQ c d.total_phases.toNat).Nonempty) ∧
      ((Detector.matching pf d IQ c d.total_phases.toNat).Nonempty →
        ∃ m ∈ Detector.matching pf d IQ c d.total_phases.toNat,
          (∀ k ∈ Detector.matching pf d IQ c d.total_phases.toNat, k ≤ m) ∧
          (Detector.Process pf d IQ c).1.selected_phase = (m : Int) ∧
          (Detector.Process pf d IQ c).1.phase_conflict =
            decide (1 < (Detector.matching pf d IQ c d.total_phases.toNat).card)) ∧
      (∀ k, (Detector.Process pf d IQ c).1.preamble_filters k =
        if k < d.total_phases.toNat then (Detector.phase_filter pf d IQ c k).1
        else d.preamble_filters k)) ∧
    ∃ fs' r, Sync.process_await_preamble E fuel fs IQ = some (fs', r) ∧
      (r = Sync.ProcessResult.PREAMBLE_FOUND ↔ (Sync.matching_mixers E fuel fs IQ 4).Nonempty) ∧
      (r = Sync.ProcessResult.NONE ↔ ¬ (Sync.matching_mixers E fuel fs IQ 4).Nonempty) ∧
      ((Sync.matching_mixers E fuel fs IQ 4).Nonempty →
        ∃ m ∈ Sync.matching_mixers E fuel fs IQ 4, (∀ k ∈ Sync.matching_mixers E fuel fs IQ 4, k ≤ m) ∧
          fs'.preamble_state.selected_phase = (m : Int) ∧
          fs'.preamble_state.phase_conflict =
            decide (1 < (Sync.matching_mixers E fuel fs IQ 4).card)) ∧
      (∀ k : Nat, fs'.preamble_filters (k : Int) =
        if k < 4 then (Sync.mixer_filter E fuel fs IQ k).1 else fs.preamble_filters (k : Int)) := by
  refine ⟨?_, Sync.process_await_preamble_spec E fuel fs IQ hN hf⟩
  obtain ⟨h1, h2, _, h4, _⟩ := Detector.Process_spec pf d IQ c
  refine ⟨h1, ?_, h4⟩
  intro hne
  obtain ⟨m, hm, hmax, hsel, hc, _⟩ := h2 hne
  exact ⟨m, hm, hmax, hsel, hc⟩

open Standin in
/-- C6 at a concrete input: the last symbol of the preamble, fed to a detector and to a
synchroniser that have seen the first seven. -/
theorem preamble_match_rule_witness :
    (((Detector.Process filter (detector_after (frame5.take 7)) (frame5.getD 7 (sample 0))
          spec16).2 = true ↔
        (Detector.matching filter (detector_after (frame5.take 7)) (frame5.getD 7 (sample 0))
          spec16 (detector_after (frame5.take 7)).total_phases.toNat).Nonempty) ∧
      ((Detector.matching filter (detector_after (frame5.take 7)) (frame5.getD 7 (sample 0))
          spec16 (detector_after (frame5.take 7)).total_phases.toNat).Nonempty →
        ∃ m ∈ Detector.matching filter (detector_after (frame5.take 7))
            (frame5.getD 7 (sample 0)) spec16 (detector_after (frame5.take 7)).total_phases.toNat,
          (∀ k ∈ Detector.matching filter (detector_after (frame5.take 7))
            (frame5.getD 7 (sample 0)) spec16
            (detector_after (frame5.take 7)).total_phases.toNat, k ≤ m) ∧
          (Detector.Process filter (detector_after (frame5.take 7)) (frame5.getD 7 (sample 0))
            spec16).1.selected_phase = (m : Int) ∧
          (Detector.Process filter (detector_after (frame5.take 7)) (frame5.getD 7 (sample 0))
            spec16).1.phase_conflict =
            decide (1 < (Detector.matching filter (detector_after (frame5.take 7))
              (frame5.getD 7 (sample 0)) spec16
              (detector_after (frame5.take 7)).total_phases.toNat).card)) ∧
      (∀ k, (Detector.Process filter (detector_after (frame5.take 7))
          (frame5.getD 7 (sample 0)) spec16).1.preamble_filters k =
        if k < (detector_after (frame5.take 7)).total_phases.toNat
        then (Detector.phase_filter filter (detector_after (frame5.take 7))
          (frame5.getD 7 (sample 0)) spec16 k).1
        else (detector_after (frame5.take 7)).preamble_filters k)) ∧
    ∃ fs' r, Sync.process_await_preamble externals 17 (after (frame5.take 7))
        (frame5.getD 7 (sample 0)) = some (fs', r) ∧
      (r = Sync.ProcessResult.PREAMBLE_FOUND ↔
        (Sync.matching_mixers externals 17 (after (frame5.take 7))
          (frame5.getD 7 (sample 0)) 4).Nonempty) ∧
      (r = Sync.ProcessResult.NONE ↔
        ¬ (Sync.matching_mixers externals 17 (after (frame5.take 7))
          (frame5.getD 7 (sample 0)) 4).Nonempty) ∧
      ((Sync.matching_mixers externals 17 (after (frame5.take 7))
          (frame5.getD 7 (sample 0)) 4).Nonempty →
        ∃ m ∈ Sync.matching_mixers externals 17 (after (frame5.take 7)) (frame5.getD 7 (sample 0)) 4,
          (∀ k ∈ Sync.matching_mixers externals 17 (after (frame5.take 7))
            (frame5.getD 7 (sample 0)) 4, k ≤ m) ∧
          fs'.preamble_state.selected_phase = (m : Int) ∧
          fs'.preamble_state.phase_conflict =
            decide (1 < (Sync.matching_mixers externals 17 (after (frame5.take 7))
              (frame5.getD 7 (sample 0)) 4).card)) ∧
      (∀ k : Nat, fs'.preamble_filters (k : Int) =
        if k < 4 then (Sync.mixer_filter externals 17 (after (frame5.take 7))
          (frame5.getD 7 (sample 0)) k).1
        else (after (frame5.take 7)).preamble_filters (k : Int)) :=
  preamble_match_rule filter (detector_after (frame5.take 7)) spec16 externals 17
    (after (frame5.take 7)) (frame5.getD 7 (sample 0)) (by decide) (by decide)

open Detector in
/-- C7: the bit counter of `PreambleDetector::Process`.  A call that reports a match sets
`desync_bitcount` to the old `bits_since_preamble` plus `bits_per_symbol`, minus the preamble
length `get_length()` of the selected filter, and leaves `bits_since_preamble` at 0; a call
that reports none leaves `bits_since_preamble` at the old value plus `bits_per_symbol`.  So
when a call reports a preamble, the next `zs.length` calls report none and the call after
them reports one, `n = zs.length + 1` symbols were processed after the first preamble and
`desync_bitcount` of the second is `n * bits_per_symbol - W`. -/
theorem bit_counter {F PF : Type} [LinearOrderedField F]
    (pf : PreambleFilter PF) (c : ConstellationSpecification F)
    (d0 : PreambleDetector F PF) (z0 : complex F) (zs : List (complex F)) (z : complex F)
    (h0 : (Process pf d0 z0 c).2 = true)
    (hmid : (Process_list pf c (Process pf d0 z0 c).1 zs).2 = List.replicate zs.length false)
    (hlast : (Process pf (Process_list pf c (Process pf d0 z0 c).1 zs).1 z c).2 = true) :
    (∀ (d : PreambleDetector F PF) (IQ : complex F),
      ((Process pf d IQ c).2 = true →
        (Process pf d IQ c).1.desync_bitcount =
          d.bits_since_preamble + c.GetBitsPerSymbol -
            pf.get_length ((Process pf d IQ c).1.preamble_filters
              (Process pf d IQ c).1.selected_phase.toNat) ∧
        (Process pf d IQ c).1.bits_since_preamble = 0) ∧
      ((Process pf d IQ c).2 = false →
        (Process pf d IQ c).1.bits_since_preamble =
          d.bits_since_preamble + c.GetBitsPerSymbol)) ∧
    (Process pf (Process_list pf c (Process pf d0 z0 c).1 zs).1 z c).1.desync_bitcount =
      ((zs.length + 1 : Nat) : Int) * c.GetBitsPerSymbol -
        pf.get_length ((Process pf (Process_list pf c (Process pf d0 z0 c).1 zs).1 z
          c).1.preamble_filters
          (Process pf (Process_list pf c (Process pf d0 z0 c).1 zs).1 z c).1.selected_phase.toNat) := by
  have single : ∀ (d : PreambleDetector F PF) (IQ : complex F),
      ((Process pf d IQ c).2 = true →
        (Process pf d IQ c).1.desync_bitcount =
          d.bits_since_preamble + c.GetBitsPerSymbol -
            pf.get_length ((Process pf d IQ c).1.preamble_filters
              (Process pf d IQ c).1.selected_phase.toNat) ∧
        (Process pf d IQ c).1.bits_since_preamble = 0) ∧
      ((Process pf d IQ c).2 = false →
        (Process pf d IQ c).1.bits_since_preamble =
          d.bits_since_preamble + c.GetBitsPerSymbol) := by
    intro d IQ
    obtain ⟨h1, h2, h3, _⟩ := Process_spec pf d IQ c
    constructor
    · intro ht
      obtain ⟨m, _, _, hsel, _, hb, hde⟩ := h2 (h1.mp ht)
      rw [hsel, Int.toNat_ofNat]
      exact ⟨hde, hb⟩
    · intro hf
      apply h3
      intro hn
      rw [h1.mpr hn] at hf
      cases hf
  refine ⟨single, ?_⟩
  rw [((single _ z).1 hlast).1, Process_list_false pf c zs _ hmid, ((single d0 z0).1 h0).2]
  push_cast
  ring

open Detector Standin in
/-- C7 at a concrete input: a preamble that follows a preamble directly, 8 symbols of 4 bits
for a preamble of 32 bits. -/
theorem bit_counter_witness :
    (∀ (d : PreambleDetector ℚ (Nat × Nat)) (IQ : complex ℚ),
      ((Process filter d IQ spec16).2 = true →
        (Process filter d IQ spec16).1.desync_bitcount =
          d.bits_since_preamble + spec16.GetBitsPerSymbol -
            filter.get_length ((Process filter d IQ spec16).1.preamble_filters
              (Process filter d IQ spec16).1.selected_phase.toNat) ∧
        (Process filter d IQ spec16).1.bits_since_preamble = 0) ∧
      ((Process filter d IQ spec16).2 = false →
        (Process filter d IQ spec16).1.bits_since_preamble =
          d.bits_since_preamble + spec16.GetBitsPerSymbol)) ∧
    (Process filter (Process_list filter spec16
        (Process filter (detector_after (frame5.take 7)) (frame5.getD 7 (sample 0)) spec16).1
        (frame5.take 7)).1 (frame5.getD 7 (sample 0)) spec16).1.desync_bitcount =
      (((frame5.take 7).length + 1 : Nat) : Int) * spec16.GetBitsPerSymbol -
        filter.get_length ((Process filter (Process_list filter spec16
          (Process filter (detector_after (frame5.take 7)) (frame5.getD 7 (sample 0)) spec16).1
          (frame5.take 7)).1 (frame5.getD 7 (sample 0)) spec16).1.preamble_filters
          (Process filter (Process_list filter spec16
            (Process filter (detector_after (frame5.take 7)) (frame5.getD 7 (sample 0))
              spec16).1
            (frame5.take 7)).1 (frame5.getD 7 (sample 0)) spec16).1.selected_phase.toNat) :=
  bit_counter filter spec16 (detector_after (frame5.take 7)) (frame5.getD 7 (sample 0))
    (frame5.take 7) (frame5.getD 7 (sample 0)) (by decide!) (by decide!) (by decide!)

namespace Constellation

/-- The coordinates of a grid point in exact real arithmetic. -/
theorem grid_point_real (l i j : Nat) (hl : 2 ≤ l) :
    grid_point Real.sqrt (l : Int) i j =
      ⟨(2 * (i : ℝ) - ((l : ℝ) - 1)) * (1 / (Real.sqrt 2 * ((l : ℝ) - 1))),
        (2 * (j : ℝ) - ((l : ℝ) - 1)) * (1 / (Real.sqrt 2 * ((l : ℝ) - 1)))⟩ := by
  have h2 : (2 : ℝ) ≤ (l : ℝ) := by exact_mod_cast hl
  have hl1 : ((l : ℝ) - 1) ≠ 0 := by linarith
  have hs : Real.sqrt 2 ≠ 0 := by positivity
  have hsq2 : Real.sqrt 2 ^ 2 = 2 := Real.sq_sqrt (by norm_num)
  unfold grid_point complex.scale
  simp only [complex.mk.injEq]
  push_cast
  constructor
  · field_simp
    linear_combination (2 * (i : ℝ) * l - 2 * i + 2 * l - (l : ℝ) ^ 2 - 1) * hsq2
  · field_simp
    linear_combination (2 * (j : ℝ) * l - 2 * j + 2 * l - (l : ℝ) ^ 2 - 1) * hsq2

/-- The squared magnitude of a grid point is at most 1, and it is 1 at the corners. -/
theorem grid_point_norm (l i j : Nat) (hl : 2 ≤ l) (hi : i < l) (hj : j < l) :
    (grid_point Real.sqrt (l : Int) i j).abs Real.sqrt ≤ 1 ∧
    ((i = 0 ∨ i + 1 = l) → (j = 0 ∨ j + 1 = l) →
      (grid_point Real.sqrt (l : Int) i j).abs Real.sqrt = 1) := by
  have h2 : (2 : ℝ) ≤ (l : ℝ) := by exact_mod_cast hl
  have hl1 : (0 : ℝ) < (l : ℝ) - 1 := by linarith
  have hs : (0 : ℝ) < Real.sqrt 2 := by positivity
  have hss : Real.sqrt 2 * Real.sqrt 2 = 2 := Real.mul_self_sqrt (by norm_num)
  have hi' : (i : ℝ) ≤ (l : ℝ) - 1 := by
    have : (i : ℝ) + 1 ≤ (l : ℝ) := by exact_mod_cast hi
    linarith
  have hj' : (j : ℝ) ≤ (l : ℝ) - 1 := by
    have : (j : ℝ) + 1 ≤ (l : ℝ) := by exact_mod_cast hj
    linarith
  have hi0 : (0 : ℝ) ≤ (i : ℝ) := Nat.cast_nonneg i
  have hj0 : (0 : ℝ) ≤ (j : ℝ) := Nat.cast_nonneg j
  have key : ∀ a b : ℝ,
      a * (1 / (Real.sqrt 2 * ((l : ℝ) - 1))) * (a * (1 / (Real.sqrt 2 * ((l : ℝ) - 1)))) +
        b * (1 / (Real.sqrt 2 * ((l : ℝ) - 1))) * (b * (1 / (Real.sqrt 2 * ((l : ℝ) - 1)))) =
      (a * a + b * b) / (2 * (((l : ℝ) - 1) * ((l : ℝ) - 1))) := by
    intro a b
    have : Real.sqrt 2 * ((l : ℝ) - 1) * (Real.sqrt 2 * ((l : ℝ) - 1)) =
        2 * (((l : ℝ) - 1) * ((l : ℝ) - 1)) := by
      calc Real.sqrt 2 * ((l : ℝ) - 1) * (Real.sqrt 2 * ((l : ℝ) - 1))
          = (Real.sqrt 2 * Real.sqrt 2) * (((l : ℝ) - 1) * ((l : ℝ) - 1)) := by ring
        _ = 2 * (((l : ℝ) - 1) * ((l : ℝ) - 1)) := by rw [hss]
    rw [← this]
    field_simp
  have hsq : ∀ a : ℝ, -((l : ℝ) - 1) ≤ a → a ≤ (l : ℝ) - 1 →
      a * a ≤ ((l : ℝ) - 1) * ((l : ℝ) - 1) := by
    intro a h1 h2
    nlinarith
  have hd : (0 : ℝ) < 2 * (((l : ℝ) - 1) * ((l : ℝ) - 1)) := by positivity
  rw [grid_point_real l i j hl]
  unfold complex.abs
  simp only [key]
  constructor
  · refine le_trans (Real.sqrt_le_sqrt (?_ : _ ≤ (1 : ℝ))) (le_of_eq Real.sqrt_one)
    rw [div_le_one hd]
    have := hsq (2 * (i : ℝ) - ((l : ℝ) - 1)) (by linarith) (by linarith)
    have := hsq (2 * (j : ℝ) - ((l : ℝ) - 1)) (by linarith) (by linarith)
    linarith
  · intro hci hcj
    have ei : (2 * (i : ℝ) - ((l : ℝ) - 1)) * (2 * (i : ℝ) - ((l : ℝ) - 1)) =
        ((l : ℝ) - 1) * ((l : ℝ) - 1) := by
      rcases hci with h | h
      · subst h; push_cast; ring
      · have : (i : ℝ) + 1 = (l : ℝ) := by exact_mod_cast h
        rw [← this]; ring
    have ej : (2 * (j : ℝ) - ((l : ℝ) - 1)) * (2 * (j : ℝ) - ((l : ℝ) - 1)) =
        ((l : ℝ) - 1) * ((l : ℝ) - 1) := by
      rcases hcj with h | h
      · subst h; push_cast; ring
      · have : (j : ℝ) + 1 = (l : ℝ) := by exact_mod_cast h
        rw [← this]; ring
    rw [ei, ej]
    have : (((l : ℝ) - 1) * ((l : ℝ) - 1) + ((l : ℝ) - 1) * ((l : ℝ) - 1)) /
        (2 * (((l : ℝ) - 1) * ((l : ℝ) - 1))) = 1 := by
      field_simp
      ring
    rw [this, Real.sqrt_one]

end Constellation

open Constellation in
/-- C11: constellation geometry in exact real arithmetic.  For every `L ≥ 2` and
`i, j < L`, the constructor leaves at `C[i*L + j]` the point
`((2i - (L-1)) * s, (2j - (L-1)) * s)` with `s = 1 / (sqrt 2 * (L-1))`; its magnitude is at
most 1, and it is exactly 1 at the four corners (`i` and `j` each `0` or `L - 1`). -/
theorem constellation_geometry (L : Int) (raw : Nat → complex ℝ) (i j : Nat) (hL : 2 ≤ L)
    (hi : (i : Int) < L) (hj : (j : Int) < L) :
    (SquareConstellation.create Real.sqrt L raw).C (i * L.toNat + j) =
      ⟨(2 * (i : ℝ) - ((L : ℝ) - 1)) * (1 / (Real.sqrt 2 * ((L : ℝ) - 1))),
        (2 * (j : ℝ) - ((L : ℝ) - 1)) * (1 / (Real.sqrt 2 * ((L : ℝ) - 1)))⟩ ∧
    ((SquareConstellation.create Real.sqrt L raw).C (i * L.toNat + j)).abs Real.sqrt ≤ 1 ∧
    ((i = 0 ∨ (i : Int) = L - 1) → (j = 0 ∨ (j : Int) = L - 1) →
      ((SquareConstellation.create Real.sqrt L raw).C (i * L.toNat + j)).abs Real.sqrt = 1) := by
  obtain ⟨l, rfl⟩ : ∃ l : Nat, L = l := ⟨L.toNat, by omega⟩
  have hl : 2 ≤ l := by exact_mod_cast hL
  have hi' : i < l := by exact_mod_cast hi
  have hj' : j < l := by exact_mod_cast hj
  have hidx : i * l + j < l * l := by
    calc i * l + j < i * l + l := by omega
      _ = (i + 1) * l := by ring
      _ ≤ l * l := Nat.mul_le_mul_right l hi'
  have hdiv : (i * l + j) / l = i := by
    rw [Nat.mul_comm, Nat.mul_add_div (by omega), Nat.div_eq_of_lt hj', Nat.add_zero]
  have hmod : (i * l + j) % l = j := by
    rw [Nat.mul_comm, Nat.mul_add_mod, Nat.mod_eq_of_lt hj']
  rw [Int.toNat_ofNat, create_C Real.sqrt l raw _ hidx, hdiv, hmod]
  obtain ⟨n1, n2⟩ := grid_point_norm l i j hl hi' hj'
  refine ⟨?_, n1, ?_⟩
  · have := grid_point_real l i j hl
    simpa using this
  · intro hci hcj
    apply n2
    · rcases hci with h | h
      · exact Or.inl h
      · right; omega
    · rcases hcj with h | h
      · exact Or.inl h
      · right; omega

open Constellation in
/-- C11 at a concrete input: the corner point `i = 3`, `j = 0` of the constellation of
side 4. -/
theorem constellation_geometry_witness :
    (SquareConstellation.create Real.sqrt 4 (fun _ => ⟨0, 0⟩)).C (3 * (4 : Int).toNat + 0) =
      ⟨(2 * ((3 : Nat) : ℝ) - (((4 : Int) : ℝ) - 1)) *
          (1 / (Real.sqrt 2 * (((4 : Int) : ℝ) - 1))),
        (2 * ((0 : Nat) : ℝ) - (((4 : Int) : ℝ) - 1)) *
          (1 / (Real.sqrt 2 * (((4 : Int) : ℝ) - 1)))⟩ ∧
    ((SquareConstellation.create Real.sqrt 4 (fun _ => ⟨0, 0⟩)).C
      (3 * (4 : Int).toNat + 0)).abs Real.sqrt ≤ 1 ∧
    ((3 = 0 ∨ ((3 : Nat) : Int) = 4 - 1) → (0 = 0 ∨ ((0 : Nat) : Int) = 4 - 1) →
      ((SquareConstellation.create Real.sqrt 4 (fun _ => ⟨0, 0⟩)).C
        (3 * (4 : Int).toNat + 0)).abs Real.sqrt = 1) :=
  constellation_geometry 4 (fun _ => ⟨0, 0⟩) 3 0 (by decide) (by decide) (by decide)

namespace Vit

/-- The XOR of `f 0, ..., f (n - 1)`. -/
theorem xor_fold_succ (f : Nat → Bool) (n : Nat) :
    (List.range (n + 1)).foldl (fun p k => xor p (f k)) false =
      xor ((List.range n).foldl (fun p k => xor p (f k)) false) (f n) := by
  rw [List.range_succ, List.foldl_append, List.foldl_cons, List.foldl_nil]

theorem xor_fold_congr (f g : Nat → Bool) : ∀ n, (∀ k < n, f k = g k) →
    (List.range n).foldl (fun p k => xor p (f k)) false =
      (List.range n).foldl (fun p k => xor p (g k)) false
  | 0, _ => rfl
  | n + 1, h => by
    rw [xor_fold_succ, xor_fold_succ, xor_fold_congr f g n (fun k hk => h k (by omega)),
      h n (by omega)]

theorem xor_fold_xor (f g : Nat → Bool) : ∀ n,
    (List.range n).foldl (fun p k => xor p (xor (f k) (g k))) false =
      xor ((List.range n).foldl (fun p k => xor p (f k)) false)
        ((List.range n).foldl (fun p k => xor p (g k)) false)
  | 0 => rfl
  | n + 1 => by
    rw [xor_fold_succ, xor_fold_succ, xor_fold_succ, xor_fold_xor f g n]
    generalize (List.range n).foldl (fun p k => xor p (f k)) false = a
    generalize (List.range n).foldl (fun p k => xor p (g k)) false = b
    cases a <;> cases b <;> cases f n <;> cases g n <;> rfl

theorem xor_fold_add (f : Nat → Bool) (n : Nat) : ∀ m,
    (List.range (n + m)).foldl (fun p k => xor p (f k)) false =
      xor ((List.range n).foldl (fun p k => xor p (f k)) false)
        ((List.range m).foldl (fun p k => xor p (f (n + k))) false)
  | 0 => by simp
  | m + 1 => by
    rw [← Nat.add_assoc, xor_fold_succ, xor_fold_succ (fun k => f (n + k)), xor_fold_add f n m]
    generalize (List.range n).foldl (fun p k => xor p (f k)) false = a
    generalize (List.range m).foldl (fun p k => xor p (f (n + k))) false = b
    cases a <;> cases b <;> cases f (n + m) <;> rfl

/-- Folding the upper half onto the lower half keeps the XOR of the bits. -/
theorem xor_fold_halve (x n : Nat) :
    (List.range (n + n)).foldl (fun p k => xor p (x.testBit k)) false =
      (List.range n).foldl (fun p k => xor p ((x ^^^ (x >>> n)).testBit k)) false := by
  rw [xor_fold_add, ← xor_fold_xor]
  apply xor_fold_congr
  intro k _
  rw [Nat.testBit_xor, Nat.testBit_shiftRight]

set_option maxRecDepth 100000 in
theorem ParityTable_byte : ∀ b < 256, ParityTable b =
    ((List.range 8).foldl (fun p k => xor p (b.testBit k)) false).toNat := by
  decide

/-- The helper `parity` returns the XOR of the 32 bits of its argument. -/
theorem parity_xor_bits (x : Nat) (hx : x < 2 ^ 32) : parity x = (xor_bits x).toNat := by
  unfold parity parityb xor_bits
  simp only [Nat.mod_eq_of_lt hx]
  rw [ParityTable_byte _ (show to_uint8 _ < 256 from Nat.mod_lt _ (by norm_num)),
    xor_fold_halve x 16, xor_fold_halve (x ^^^ (x >>> 16)) 8]
  congr 1
  apply xor_fold_congr
  intro k hk
  unfold to_uint8
  have e : (256 : Nat) = 2 ^ 8 := rfl
  rw [e, Nat.testBit_mod_two_pow]
  simp [hk]

end Vit

open Vit in
/-- C20: the branch table built by `create_viterbi`.  For every state
`s < NUMSTATES / 2 = 2^(K-2)` and every output `j < CODE_RATE`, `BranchTable[j][s]` is
`soft_decision_high` if the XOR of all bits of `(2s) & polys[j]` is 1 and
`soft_decision_low` otherwise; and `parity(x)` is the XOR of all 32 bits of `x` for every
`uint32_t` value `x`. -/
theorem branch_table (polys : Nat → Nat) (len : Nat) (soft_decision_high soft_decision_low : Int)
    (raw : vitdec_t) :
    NUMSTATES / 2 = 2 ^ (K - 2) ∧
    (∀ s < 2 ^ (K - 2), ∀ j < CODE_RATE,
      (create_viterbi polys len soft_decision_high soft_decision_low raw).BranchTable j s =
        if xor_bits ((2 * s) &&& polys j) = true then soft_decision_high
        else soft_decision_low) ∧
    ∀ x < 2 ^ 32, parity x = (xor_bits x).toNat := by
  refine ⟨rfl, ?_, parity_xor_bits⟩
  intro s hs j hj
  obtain ⟨_, _, _, _, _, _, _, _, _, _, b00, b10, b01, b11⟩ :=
    create_viterbi_fields polys len soft_decision_high soft_decision_low raw
  have hp : ∀ y, y ≤ 2 → (parity (y &&& polys j) ≠ 0 ↔ xor_bits (y &&& polys j) = true) := by
    intro y hy
    have hlt : y &&& polys j < 2 ^ 32 :=
      lt_of_le_of_lt Nat.and_le_left (by omega)
    rw [parity_xor_bits _ hlt]
    cases xor_bits (y &&& polys j) <;> simp
  have hs2 : s < 2 := hs
  have hj2 : j < 2 := hj
  interval_cases s <;> interval_cases j
  · rw [b00]; exact if_congr (hp _ (by decide)) rfl rfl
  · rw [b10]; exact if_congr (hp _ (by decide)) rfl rfl
  · rw [b01]; exact if_congr (hp _ (by decide)) rfl rfl
  · rw [b11]; exact if_congr (hp _ (by decide)) rfl rfl

namespace Sync

variable {F PF SC VD CR : Type} [LinearOrderedField F]

theorem pack_first (s1 : Nat) (h1 : s1 < 16) : to_uint8 (0 ||| (s1 <<< 4)) = s1 <<< 4 := by
  interval_cases s1 <;> rfl

theorem pack_second (s1 s2 : Nat) (h1 : s1 < 16) (h2 : s2 < 16) :
    to_uint8 ((s1 <<< 4) ||| (s2 <<< 0)) = (s1 <<< 4) ||| s2 := by
  interval_cases s1 <;> interval_cases s2 <;> rfl

/-- The first symbol of a byte: `process_decoder_symbol` at a byte boundary. -/
theorem decoder_symbol_first (E : Externals F PF SC VD CR) (fuel : Nat)
    (fs : FrameSynchroniser F PF SC VD CR) (IQ : complex F) (sym : Nat)
    (hb : fs.encoded_bits = 0)
    (hs : symbol_to_bits E fuel (IQ.mul (fs.preamble_mixers fs.preamble_state.selected_phase)) =
      some sym) :
    process_decoder_symbol E fuel fs IQ =
      some { fs with
        descramble_buffer := write (write fs.descramble_buffer fs.encoded_bytes 0)
          fs.encoded_bytes (to_uint8 (0 ||| (sym <<< 4)))
        encoded_bits := 4 } := by
  unfold process_decoder_symbol
  simp only [hs, hb, if_true]
  rw [if_neg (by decide)]
  simp [write]

/-- The second symbol of a byte: `process_decoder_symbol` in the middle of a byte. -/
theorem decoder_symbol_second (E : Externals F PF SC VD CR) (fuel : Nat)
    (fs : FrameSynchroniser F PF SC VD CR) (IQ : complex F) (sym : Nat)
    (hb : fs.encoded_bits = 4)
    (hs : symbol_to_bits E fuel (IQ.mul (fs.preamble_mixers fs.preamble_state.selected_phase)) =
      some sym) :
    process_decoder_symbol E fuel fs IQ =
      some { fs with
        descramble_buffer := write fs.descramble_buffer fs.encoded_bytes
          (to_uint8 (fs.descramble_buffer fs.encoded_bytes ||| (sym <<< 0)))
        encoded_bits := 0
        descrambler := (E.scrambler.process fs.descrambler
          (to_uint8 (fs.descramble_buffer fs.encoded_bytes ||| (sym <<< 0)))).1
        encoded_buffer := write fs.encoded_buffer fs.encoded_bytes
          (to_uint8 (E.scrambler.process fs.descrambler
            (to_uint8 (fs.descramble_buffer fs.encoded_bytes ||| (sym <<< 0)))).2)
        encoded_bytes := fs.encoded_bytes + 1 } := by
  unfold process_decoder_symbol
  have h40 : ¬ ((4 : Int) = 0) := by decide
  have h48 : (4 : Int) + 4 = 8 := by decide
  simp only [hs, hb, h40, h48, if_false, if_true]
  simp [write]

end Sync

namespace Sync

variable {F PF SC VD CR : Type} [LinearOrderedField F]

omit [LinearOrderedField F] in
/-- `reset_decoders` resets the descrambler and the Viterbi decoder. -/
theorem reset_decoders_devices (E : Externals F PF SC VD CR)
    (fs : FrameSynchroniser F PF SC VD CR) :
    (reset_decoders E fs).descrambler = E.scrambler.reset fs.descrambler ∧
    (reset_decoders E fs).vitdec = E.viterbi.reset fs.vitdec := by
  unfold reset_decoders
  obtain ⟨b, hb⟩ := reset_fold_frame (List.range fs.decoded_bytes.toNat) fs
  simp [hb]

/-- What one phase of `process_await_preamble` keeps: the decoders, and `preamble_state`
as long as no filter has matched. -/
theorem preamble_phase_keeps (E : Externals F PF SC VD CR) (fuel : Nat) (IQ : complex F)
    (bps : Int) (st st' : FrameSynchroniser F PF SC VD CR × Int) (i : Nat)
    (h : process_await_preamble_phase E fuel IQ bps st i = some st') :
    st'.1.descrambler = st.1.descrambler ∧ st'.1.vitdec = st.1.vitdec ∧
    st.2 ≤ st'.2 ∧ (st'.2 = st.2 → st'.1.preamble_state = st.1.preamble_state) := by
  unfold process_await_preamble_phase at h
  cases hs : symbol_to_bits E fuel (IQ.mul (st.1.preamble_mixers (i : Int))) with
  | none => simp [hs] at h
  | some sym =>
    simp only [hs] at h
    split_ifs at h <;> cases h <;> simp

/-- A call of `process_await_preamble` that returns `NONE` keeps `preamble_state`. -/
theorem preamble_none_keeps (E : Externals F PF SC VD CR) (fuel : Nat)
    (fs fs' : FrameSynchroniser F PF SC VD CR) (IQ : complex F)
    (h : process_await_preamble E fuel fs IQ = some (fs', ProcessResult.NONE)) :
    fs'.preamble_state = fs.preamble_state := by
  unfold process_await_preamble at h
  simp only at h
  cases h1 : (List.range 4).foldlM (process_await_preamble_phase E fuel IQ 4)
      ({ fs with bits_since_preamble := fs.bits_since_preamble + 4 }, 0) with
  | none => simp [h1] at h
  | some st =>
    have hst := foldlM_option_inv (process_await_preamble_phase E fuel IQ 4)
      (fun s => 0 ≤ s.2 ∧ (s.2 = 0 → s.1.preamble_state = fs.preamble_state))
      (fun s i s' hP hs => by
        obtain ⟨_, _, k3, k4⟩ := preamble_phase_keeps E fuel IQ 4 s s' i hs
        refine ⟨le_trans hP.1 k3, fun h0 => ?_⟩
        have e : s.2 = 0 := le_antisymm (by omega) hP.1
        rw [k4 (by omega), hP.2 e])
      _ _ st ⟨le_refl _, fun _ => rfl⟩ h1
    obtain ⟨fs2, total⟩ := st
    simp only [h1] at h
    split_ifs at h with hpos
    · cases h
    · cases h
      exact hst.2 (by simp only at hst; omega)

/-- A call of `process_await_preamble` that returns `PREAMBLE_FOUND` resets the counters,
the decoders and the payload record. -/
theorem preamble_found_reset (E : Externals F PF SC VD CR) (fuel : Nat)
    (fs fs' : FrameSynchroniser F PF SC VD CR) (IQ : complex F)
    (h : process_await_preamble E fuel fs IQ = some (fs', ProcessResult.PREAMBLE_FOUND)) :
    fs'.encoded_bits = 0 ∧ fs'.encoded_bytes = 0 ∧ fs'.decoded_bytes = 0 ∧
    fs'.decoded_block_size = 0 ∧ fs'.encoded_block_size = 0 ∧
    fs'.descrambler = E.scrambler.reset fs.descrambler ∧
    fs'.vitdec = E.viterbi.reset fs.vitdec ∧
    fs'.payload = (⟨0, none, 0, 0, false, -1⟩ : Payload) ∧
    fs'.state = State.WAIT_BLOCK_SIZE := by
  unfold process_await_preamble at h
  simp only at h
  cases h1 : (List.range 4).foldlM (process_await_preamble_phase E fuel IQ 4)
      ({ fs with bits_since_preamble := fs.bits_since_preamble + 4 }, 0) with
  | none => simp [h1] at h
  | some st =>
    have hst := foldlM_option_inv (process_await_preamble_phase E fuel IQ 4)
      (fun s => s.1.descrambler = fs.descrambler ∧ s.1.vitdec = fs.vitdec)
      (fun s i s' hP hs => by
        obtain ⟨k1, k2, _, _⟩ := preamble_phase_keeps E fuel IQ 4 s s' i hs
        exact ⟨k1.trans hP.1, k2.trans hP.2⟩)
      _ _ st ⟨rfl, rfl⟩ h1
    obtain ⟨fs2, total⟩ := st
    simp only [h1] at h
    split_ifs at h with hpos
    · cases h
      have hr := fun (x : FrameSynchroniser F PF SC VD CR) => reset_decoders_frame E x
      have hd := fun (x : FrameSynchroniser F PF SC VD CR) => reset_decoders_devices E x
      refine ⟨?_, ?_, ?_, ?_, ?_, ?_, ?_, rfl, ?_⟩
      · dsimp only
        exact (hr _).2.2.2.2.2.2.2.1
      · dsimp only
        exact (hr _).2.2.2.2.2.2.2.2.1
      · dsimp only
        exact (hr _).2.2.2.2.2.2.2.2.2.1
      · dsimp only
        exact (hr _).2.2.2.2.2.2.2.2.2.2.1
      · dsimp only
        exact (hr _).2.2.2.2.2.2.2.2.2.2.2
      · dsimp only
        rw [(hd _).1]
        exact congrArg _ hst.1
      · dsimp only
        rw [(hd _).2]
        exact congrArg _ hst.2
      · dsimp only
        rw [(hr _).1]
    · cases h

/-- What a call of `process_await_block_size` does. -/
theorem await_block_size_effect (E : Externals F PF SC VD CR) (fuel : Nat)
    (fs fs' : FrameSynchroniser F PF SC VD CR) (IQ : complex F) (r : ProcessResult)
    (h : process_await_block_size E fuel fs IQ = some (fs', r)) :
    ∃ fs1, process_decoder_symbol E fuel fs IQ = some fs1 ∧
      fs'.preamble_state = fs1.preamble_state ∧ fs'.preamble_mixers = fs1.preamble_mixers ∧
      fs'.encoded_bits = fs1.encoded_bits ∧ fs'.encoded_bytes = fs1.encoded_bytes ∧
      (r = ProcessResult.NONE →
        fs' = fs1 ∧ ¬ (nb_bytes_for_block_size ≤ fs1.encoded_bytes ∧ fs1.encoded_bits = 0)) ∧
      (r ≠ ProcessResult.NONE →
        (nb_bytes_for_block_size ≤ fs1.encoded_bytes ∧ fs1.encoded_bits = 0) ∧
        (r = ProcessResult.BLOCK_SIZE_OK ∨ r = ProcessResult.BLOCK_SIZE_ERR) ∧
        fs'.payload.length = read_uint16 fs'.decoded_buffer 0 ∧ fs'.payload.buf = none ∧
        (r = ProcessResult.BLOCK_SIZE_OK →
          fs'.state = State.WAIT_PAYLOAD ∧ fs'.decoded_block_size = fs'.payload.length ∧
          fs'.encoded_block_size = 2 * ((fs'.payload.length : Int) + 4) ∧
          5 ≤ fs'.payload.length)) := by
  unfold process_await_block_size at h
  cases h1 : process_decoder_symbol E fuel fs IQ with
  | none => simp [h1] at h
  | some fs1 =>
    refine ⟨fs1, rfl, ?_⟩
    simp only [h1] at h
    by_cases hd : nb_bytes_for_block_size ≤ fs1.encoded_bytes ∧ fs1.encoded_bits = 0
    · have hdone : (decide (fs1.encoded_bytes ≥ nb_bytes_for_block_size) &&
          decide (fs1.encoded_bits = 0)) = true := by simp [hd.1, hd.2]
      simp only [hdone, Bool.not_true, Bool.false_eq_true, if_false] at h
      split_ifs at h with hc
      · cases h
        refine ⟨rfl, rfl, rfl, rfl, (fun hr => by cases hr), fun _ => ?_⟩
        exact ⟨hd, Or.inr rfl, rfl, rfl, (fun hr => by cases hr)⟩
      · cases h
        refine ⟨rfl, rfl, rfl, rfl, (fun hr => by cases hr), fun _ => ?_⟩
        refine ⟨hd, Or.inl rfl, rfl, rfl, fun _ => ⟨rfl, rfl, ?_, ?_⟩⟩
        · show (2 : Int) * (_ + (2 + 1 + 1)) = _
          norm_num
        · have e : nb_bytes_for_block_size.tdiv 2 - 3 = 5 := by decide
          rw [e] at hc
          show 5 ≤ read_uint16 _ 0
          omega
    · have hdone : (decide (fs1.encoded_bytes ≥ nb_bytes_for_block_size) &&
          decide (fs1.encoded_bits = 0)) = false := by
        rw [Bool.and_eq_false_iff]
        by_cases h16 : nb_bytes_for_block_size ≤ fs1.encoded_bytes
        · right; simpa using fun hb => hd ⟨h16, hb⟩
        · left; simpa using h16
      simp only [hdone, Bool.not_false, if_true] at h
      cases h
      exact ⟨rfl, rfl, rfl, rfl, fun _ => ⟨rfl, hd⟩, fun hr => absurd rfl hr⟩

end Sync

namespace Sync

variable {F PF SC VD CR : Type} [LinearOrderedField F]

/-- What a call of `process_await_payload` does. -/
theorem await_payload_effect (E : Externals F PF SC VD CR) (fuel : Nat)
    (fs fs' : FrameSynchroniser F PF SC VD CR) (IQ : complex F) (r : ProcessResult)
    (h : process_await_payload E fuel fs IQ = some (fs', r)) :
    ∃ fs1, process_decoder_symbol E fuel fs IQ = some fs1 ∧
      fs'.preamble_state = fs1.preamble_state ∧ fs'.preamble_mixers = fs1.preamble_mixers ∧
      fs'.encoded_bits = fs1.encoded_bits ∧ fs'.encoded_bytes = fs1.encoded_bytes ∧
      fs'.payload.length = fs1.payload.length ∧
      fs'.decoded_block_size = fs1.decoded_block_size ∧
      fs'.encoded_block_size = fs1.encoded_block_size ∧
      (r = ProcessResult.NONE →
        fs' = fs1 ∧ ¬ (fs1.encoded_block_size ≤ fs1.encoded_bytes ∧ fs1.encoded_bits = 0)) ∧
      (r ≠ ProcessResult.NONE →
        (fs1.encoded_block_size ≤ fs1.encoded_bytes ∧ fs1.encoded_bits = 0) ∧
        (r = ProcessResult.PAYLOAD_OK ∨ r = ProcessResult.PAYLOAD_ERR) ∧
        fs'.state = State.WAIT_PREAMBLE ∧
        fs'.payload.buf = some 2 ∧
        fs'.payload.crc8_received = to_uint8 (fs'.decoded_buffer (fs'.decoded_bytes - 2)) ∧
        fs'.payload.crc8_calculated =
          to_uint8 (E.crc8.process fs'.crc8_calc fs'.decoded_buffer 2 fs'.decoded_block_size) ∧
        fs'.payload.crc8_mismatch =
          decide (fs'.payload.crc8_received ≠ fs'.payload.crc8_calculated) ∧
        fs'.payload.decoded_error = E.viterbi.get_curr_error fs'.vitdec) := by
  unfold process_await_payload at h
  cases h1 : process_decoder_symbol E fuel fs IQ with
  | none => simp [h1] at h
  | some fs1 =>
    refine ⟨fs1, rfl, ?_⟩
    simp only [h1] at h
    by_cases hd : fs1.encoded_block_size ≤ fs1.encoded_bytes ∧ fs1.encoded_bits = 0
    · have hdone : (decide (fs1.encoded_bytes ≥ fs1.encoded_block_size) &&
          decide (fs1.encoded_bits = 0)) = true := by simp [hd.1, hd.2]
      simp only [hdone, Bool.not_true, Bool.false_eq_true, if_false] at h
      have e2 : ((1 : Int) + 1) = 2 := by decide
      split_ifs at h with hc
      · cases h
        refine ⟨rfl, rfl, rfl, rfl, rfl, rfl, rfl, (fun hr => by cases hr), fun _ => ?_⟩
        exact ⟨hd, Or.inr rfl, rfl, rfl, by simp only [e2], rfl, rfl, rfl⟩
      · cases h
        refine ⟨rfl, rfl, rfl, rfl, rfl, rfl, rfl, (fun hr => by cases hr), fun _ => ?_⟩
        exact ⟨hd, Or.inl rfl, rfl, rfl, by simp only [e2], rfl, rfl, rfl⟩
    · have hdone : (decide (fs1.encoded_bytes ≥ fs1.encoded_block_size) &&
          decide (fs1.encoded_bits = 0)) = false := by
        rw [Bool.and_eq_false_iff]
        by_cases h16 : fs1.encoded_block_size ≤ fs1.encoded_bytes
        · right; simpa using fun hb => hd ⟨h16, hb⟩
        · left; simpa using h16
      simp only [hdone, Bool.not_false, if_true] at h
      cases h
      exact ⟨rfl, rfl, rfl, rfl, rfl, rfl, rfl, fun _ => ⟨rfl, hd⟩, fun hr => absurd rfl hr⟩

/-- No call of `process` changes the mixers. -/
theorem process_keeps_mixers (E : Externals F PF SC VD CR) (fuel : Nat)
    (fs fs' : FrameSynchroniser F PF SC VD CR) (IQ : complex F) (r : ProcessResult)
    (h : process E fuel fs IQ = some (fs', r)) : fs'.preamble_mixers = fs.preamble_mixers := by
  unfold process at h
  cases hs : fs.state with
  | WAIT_PREAMBLE =>
    rw [hs] at h
    simp only at h
    unfold process_await_preamble at h
    simp only at h
    cases h1 : (List.range 4).foldlM (process_await_preamble_phase E fuel IQ 4)
        ({ fs with bits_since_preamble := fs.bits_since_preamble + 4 }, 0) with
    | none => simp [h1] at h
    | some st =>
      have hst := foldlM_option_inv (process_await_preamble_phase E fuel IQ 4)
        (fun s => s.1.preamble_mixers = fs.preamble_mixers)
        (fun s i s' hP hs => (preamble_phase_frame E fuel IQ 4 s s' i hs).2.2.1.trans hP)
        _ _ st rfl h1
      obtain ⟨fs2, total⟩ := st
      simp only [h1] at h
      split_ifs at h
      · cases h
        dsimp only
        rw [(reset_decoders_frame E _).2.2.2.2.1]
        exact hst
      · cases h
        exact hst
  | WAIT_BLOCK_SIZE =>
    rw [hs] at h
    obtain ⟨fs1, h1, _, h3, _⟩ := await_block_size_effect E fuel fs fs' IQ r h
    rw [h3]
    exact (process_decoder_symbol_frame E fuel fs fs1 IQ h1).2.2.2.2.2.2.2.2.2.2.2.1
  | WAIT_PAYLOAD =>
    rw [hs] at h
    obtain ⟨fs1, h1, _, h3, _⟩ := await_payload_effect E fuel fs fs' IQ r h
    rw [h3]
    exact (process_decoder_symbol_frame E fuel fs fs1 IQ h1).2.2.2.2.2.2.2.2.2.2.2.1

/-- The calls of `process` that keep `preamble_state`. -/
theorem process_keeps_preamble_state (E : Externals F PF SC VD CR) (fuel : Nat)
    (fs fs' : FrameSynchroniser F PF SC VD CR) (IQ : complex F) (r : ProcessResult)
    (h : process E fuel fs IQ = some (fs', r))
    (hc : fs.state ≠ State.WAIT_PREAMBLE ∨ r = ProcessResult.NONE) :
    fs'.preamble_state = fs.preamble_state := by
  unfold process at h
  cases hs : fs.state with
  | WAIT_PREAMBLE =>
    rw [hs] at h
    rcases hc with hc | hc
    · exact absurd hs hc
    · subst hc
      exact preamble_none_keeps E fuel fs fs' IQ h
  | WAIT_BLOCK_SIZE =>
    rw [hs] at h
    obtain ⟨fs1, h1, h2, _⟩ := await_block_size_effect E fuel fs fs' IQ r h
    rw [h2]
    exact (process_decoder_symbol_frame E fuel fs fs1 IQ h1).2.2.1
  | WAIT_PAYLOAD =>
    rw [hs] at h
    obtain ⟨fs1, h1, h2, _⟩ := await_payload_effect E fuel fs fs' IQ r h
    rw [h2]
    exact (process_decoder_symbol_frame E fuel fs fs1 IQ h1).2.2.1

end Sync

namespace Sync

variable {F PF SC VD CR : Type} [LinearOrderedField F]

/-- The last call of a trace. -/
theorem trace_succ_inv (E : Externals F PF SC VD CR) (fuel : Nat)
    (g g' : FrameSynchroniser F PF SC VD CR) (input : Nat → complex F) (n : Nat)
    (T : List (ProcessResult × State)) (h : trace E fuel g input (n + 1) = some (g', T)) :
    ∃ g1 T1 r, trace E fuel g input n = some (g1, T1) ∧
      process E fuel g1 (input n) = some (g', r) ∧ T = T1 ++ [(r, g'.state)] := by
  rw [trace] at h
  cases h1 : trace E fuel g input n with
  | none => simp [h1] at h
  | some o =>
    obtain ⟨g1, T1⟩ := o
    simp only [h1] at h
    cases h2 : process E fuel g1 (input n) with
    | none => simp [h2] at h
    | some o2 =>
      obtain ⟨g2, r⟩ := o2
      simp only [h2, Option.some.injEq, Prod.mk.injEq] at h
      obtain ⟨e1, e2⟩ := h
      subst e1
      exact ⟨g1, T1, r, rfl, h2, e2.symm⟩

/-- The length of a trace, and the state it ends in. -/
theorem trace_shape (E : Externals F PF SC VD CR) (fuel : Nat)
    (g : FrameSynchroniser F PF SC VD CR) (input : Nat → complex F) :
    ∀ (n : Nat) (g' : FrameSynchroniser F PF SC VD CR) (T : List (ProcessResult × State)),
      trace E fuel g input n = some (g', T) →
      T.length = n ∧ (n = 0 → g' = g) ∧ ∀ k, k + 1 = n → ∃ r, T[k]? = some (r, g'.state) := by
  intro n
  induction n with
  | zero =>
    intro g' T h
    simp only [trace, Option.some.injEq, Prod.mk.injEq] at h
    obtain ⟨e1, e2⟩ := h
    subst e1 e2
    exact ⟨rfl, fun _ => rfl, fun k hk => by omega⟩
  | succ n ih =>
    intro g' T h
    obtain ⟨g1, T1, r, h1, h2, e⟩ := trace_succ_inv E fuel g g' input n T h
    obtain ⟨l1, _, _⟩ := ih g1 T1 h1
    subst e
    refine ⟨by simp [l1], fun h0 => by omega, fun k hk => ⟨r, ?_⟩⟩
    have : k = T1.length := by omega
    subst this
    simp

/-- While the synchroniser is inside a frame, `preamble_state` and the mixers stay as they
are. -/
theorem frame_keeps_phase (E : Externals F PF SC VD CR) (fuel : Nat)
    (g : FrameSynchroniser F PF SC VD CR) (input : Nat → complex F)
    (hg : g.state ≠ State.WAIT_PREAMBLE) :
    ∀ (n : Nat) (g' : FrameSynchroniser F PF SC VD CR) (T : List (ProcessResult × State)),
      trace E fuel g input n = some (g', T) →
      (∀ k x, k + 1 < n → T[k]? = some x → x.2 ≠ State.WAIT_PREAMBLE) →
      g'.preamble_state = g.preamble_state ∧ g'.preamble_mixers = g.preamble_mixers := by
  intro n
  induction n with
  | zero =>
    intro g' T h _
    obtain ⟨_, h0, _⟩ := trace_shape E fuel g input 0 g' T h
    rw [h0 rfl]
    exact ⟨rfl, rfl⟩
  | succ n ih =>
    intro g' T h hin
    obtain ⟨g1, T1, r, h1, h2, e⟩ := trace_succ_inv E fuel g g' input n T h
    obtain ⟨l1, z1, s1⟩ := trace_shape E fuel g input n g1 T1 h1
    subst e
    obtain ⟨i1, i2⟩ := ih g1 T1 h1 (fun k x hk hx => hin k x (by omega) (by
      rw [List.getElem?_append_left (by omega)]
      exact hx))
    have hs1 : g1.state ≠ State.WAIT_PREAMBLE := by
      cases n with
      | zero => rw [z1 rfl]; exact hg
      | succ m =>
        obtain ⟨r', hr'⟩ := s1 m rfl
        exact hin m (r', g1.state) (by omega) (by
          rw [List.getElem?_append_left (by omega)]
          exact hr')
    refine ⟨?_, ?_⟩
    · rw [process_keeps_preamble_state E fuel g1 g' (input n) r h2 (Or.inl hs1), i1]
    · rw [process_keeps_mixers E fuel g1 g' (input n) r h2, i2]

end Sync

open Sync in
/-- C13: the phase latch.  A `process` call made in `WAIT_BLOCK_SIZE` or `WAIT_PAYLOAD`, and
a call in `WAIT_PREAMBLE` that returns `NONE`, leaves `preamble_state` (`selected_phase`,
`phase_conflict`, `desync_bitcount`) as it was; no call changes the mixers.  Consequently,
over any run of calls that starts inside a frame (state `g.state` other than
`WAIT_PREAMBLE`) and stays inside it until the last call, `preamble_state` and the mixers
are those of the start, so every symbol of the frame is rotated by the same
`preamble_mixers[selected_phase]`.  The calls return given fuel for the demapper scan. -/
theorem phase_latch {F PF SC VD CR : Type} [LinearOrderedField F]
    (E : Externals F PF SC VD CR) (fuel : Nat) (fs g : FrameSynchroniser F PF SC VD CR)
    (IQ : complex F) (input : Nat → complex F) (n : Nat)
    (hN : E.QAM_Constellation_Size ≤ 255) (hf : E.QAM_Constellation_Size.toNat < fuel)
    (hg : g.state ≠ State.WAIT_PREAMBLE) :
    (∃ fs' r, process E fuel fs IQ = some (fs', r) ∧
      (fs.state = State.WAIT_BLOCK_SIZE ∨ fs.state = State.WAIT_PAYLOAD ∨
          r = ProcessResult.NONE → fs'.preamble_state = fs.preamble_state) ∧
      fs'.preamble_mixers = fs.preamble_mixers) ∧
    ∃ g' T, trace E fuel g input n = some (g', T) ∧
      ((∀ k x, k + 1 < n → T[k]? = some x → x.2 ≠ State.WAIT_PREAMBLE) →
        g'.preamble_state = g.preamble_state ∧ g'.preamble_mixers = g.preamble_mixers ∧
        g'.preamble_mixers g'.preamble_state.selected_phase =
          g.preamble_mixers g.preamble_state.selected_phase) := by
  constructor
  · obtain ⟨⟨fs', r⟩, h⟩ := process_some E fuel fs IQ hN hf
    refine ⟨fs', r, h, ?_, process_keeps_mixers E fuel fs fs' IQ r h⟩
    intro hc
    apply process_keeps_preamble_state E fuel fs fs' IQ r h
    rcases hc with hc | hc | hc
    · left; rw [hc]; decide
    · left; rw [hc]; decide
    · right; exact hc
  · obtain ⟨g', T, h⟩ := trace_some E fuel g input hN hf n
    refine ⟨g', T, h, fun hin => ?_⟩
    obtain ⟨i1, i2⟩ := frame_keeps_phase E fuel g input hg n g' T h hin
    exact ⟨i1, i2, by rw [i1, i2]⟩

open Sync Standin in
/-- C13 at a concrete input: the first symbol after the preamble of a frame of length 5,
and the 35 symbols of the frame before its last. -/
theorem phase_latch_witness :
    (∃ fs' r, process externals 17 (after (frame5.take 8)) (frame5.getD 8 (sample 0)) =
        some (fs', r) ∧
      ((after (frame5.take 8)).state = State.WAIT_BLOCK_SIZE ∨
          (after (frame5.take 8)).state = State.WAIT_PAYLOAD ∨
          r = ProcessResult.NONE →
        fs'.preamble_state = (after (frame5.take 8)).preamble_state) ∧
      fs'.preamble_mixers = (after (frame5.take 8)).preamble_mixers) ∧
    ∃ g' T, trace externals 17 (after (frame5.take 8))
        (fun k => frame5.getD (8 + k) (sample 0)) 35 = some (g', T) ∧
      ((∀ k x, k + 1 < 35 → T[k]? = some x → x.2 ≠ State.WAIT_PREAMBLE) →
        g'.preamble_state = (after (frame5.take 8)).preamble_state ∧
        g'.preamble_mixers = (after (frame5.take 8)).preamble_mixers ∧
        g'.preamble_mixers g'.preamble_state.selected_phase =
          (after (frame5.take 8)).preamble_mixers
            (after (frame5.take 8)).preamble_state.selected_phase) :=
  phase_latch externals 17 (after (frame5.take 8)) (after (frame5.take 8))
    (frame5.getD 8 (sample 0)) (fun k => frame5.getD (8 + k) (sample 0)) 35
    (by decide) (by decide) (by decide!)

open Sync in
/-- C12: bit packing in `process_decoder_symbol`.  For two consecutive demapped symbols
`s1`, `s2` (each below 16), the first arriving at a byte boundary (`encoded_bits == 0`):
after the first call `encoded_bits` is 4 and `encoded_bytes` is unchanged; after the second
`encoded_bits` is 0 again and `encoded_bytes` is one more; the byte put together in
`descramble_buffer` and handed to the descrambler is `(s1 << 4) | s2`, whatever the buffer
held before, and `encoded_buffer` receives what the descrambler returns for it. -/
theorem bit_packing {F PF SC VD CR : Type} [LinearOrderedField F]
    (E : Externals F PF SC VD CR) (fuel : Nat) (fs : FrameSynchroniser F PF SC VD CR)
    (IQ1 IQ2 : complex F) (s1 s2 : Nat) (hb : fs.encoded_bits = 0)
    (h1 : symbol_to_bits E fuel
      (IQ1.mul (fs.preamble_mixers fs.preamble_state.selected_phase)) = some s1)
    (h2 : symbol_to_bits E fuel
      (IQ2.mul (fs.preamble_mixers fs.preamble_state.selected_phase)) = some s2)
    (hs1 : s1 < 16) (hs2 : s2 < 16) :
    ∃ fs1 fs2, process_decoder_symbol E fuel fs IQ1 = some fs1 ∧
      process_decoder_symbol E fuel fs1 IQ2 = some fs2 ∧
      fs1.encoded_bits = 4 ∧ fs1.encoded_bytes = fs.encoded_bytes ∧
      fs2.encoded_bits = 0 ∧ fs2.encoded_bytes = fs.encoded_bytes + 1 ∧
      fs2.descramble_buffer fs.encoded_bytes = (s1 <<< 4) ||| s2 ∧
      fs2.descrambler = (E.scrambler.process fs.descrambler ((s1 <<< 4) ||| s2)).1 ∧
      fs2.encoded_buffer fs.encoded_bytes =
        to_uint8 (E.scrambler.process fs.descrambler ((s1 <<< 4) ||| s2)).2 := by
  have e1 := decoder_symbol_first E fuel fs IQ1 s1 hb h1
  refine ⟨_, _, e1, decoder_symbol_second E fuel _ IQ2 s2 rfl h2, rfl, rfl, rfl, rfl, ?_, ?_, ?_⟩
  · simp only [write, if_true]
    rw [pack_first s1 hs1, pack_second s1 s2 hs1 hs2]
  · simp only [write, if_true]
    rw [pack_first s1 hs1, pack_second s1 s2 hs1 hs2]
  · simp only [write, if_true]
    rw [pack_first s1 hs1, pack_second s1 s2 hs1 hs2]

open Sync Standin in
/-- C12 at a concrete input: the two symbols 5 and 12 of the first byte after the
preamble. -/
theorem bit_packing_witness :
    ∃ fs1 fs2, process_decoder_symbol externals 17 (after (frame5.take 8))
        (frame5.getD 8 (sample 0)) = some fs1 ∧
      process_decoder_symbol externals 17 fs1 (frame5.getD 9 (sample 0)) = some fs2 ∧
      fs1.encoded_bits = 4 ∧ fs1.encoded_bytes = (after (frame5.take 8)).encoded_bytes ∧
      fs2.encoded_bits = 0 ∧ fs2.encoded_bytes = (after (frame5.take 8)).encoded_bytes + 1 ∧
      fs2.descramble_buffer (after (frame5.take 8)).encoded_bytes = (5 <<< 4) ||| 12 ∧
      fs2.descrambler = (externals.scrambler.process (after (frame5.take 8)).descrambler
        ((5 <<< 4) ||| 12)).1 ∧
      fs2.encoded_buffer (after (frame5.take 8)).encoded_bytes =
        to_uint8 (externals.scrambler.process (after (frame5.take 8)).descrambler
          ((5 <<< 4) ||| 12)).2 :=
  bit_packing externals 17 (after (frame5.take 8)) (frame5.getD 8 (sample 0))
    (frame5.getD 9 (sample 0)) 5 12 (by decide!) (by decide!) (by decide!) (by decide)
    (by decide)

open Sync in
/-- C14: the reset at preamble detection.  Whenever `process` returns `PREAMBLE_FOUND`
(which it does in `WAIT_PREAMBLE` when some filter matches), on return `encoded_bits`,
`encoded_bytes`, `decoded_bytes`, `decoded_block_size` and `encoded_block_size` are 0, the
descrambler and the Viterbi decoder are the old ones after `reset()`, and the payload record
is `{0, NULL, 0, 0, false, -1}`, whatever the synchroniser held before the call. -/
theorem reset_at_preamble {F PF SC VD CR : Type} [LinearOrderedField F]
    (E : Externals F PF SC VD CR) (fuel : Nat) (fs : FrameSynchroniser F PF SC VD CR)
    (IQ : complex F)
    (hN : E.QAM_Constellation_Size ≤ 255) (hf : E.QAM_Constellation_Size.toNat < fuel)
    (hs : fs.state = State.WAIT_PREAMBLE) (hm : (matching_mixers E fuel fs IQ 4).Nonempty) :
    (∃ fs', process E fuel fs IQ = some (fs', ProcessResult.PREAMBLE_FOUND)) ∧
    ∀ (gs gs' : FrameSynchroniser F PF SC VD CR) (z : complex F),
      process E fuel gs z = some (gs', ProcessResult.PREAMBLE_FOUND) →
      gs'.encoded_bits = 0 ∧ gs'.encoded_bytes = 0 ∧ gs'.decoded_bytes = 0 ∧
      gs'.decoded_block_size = 0 ∧ gs'.encoded_block_size = 0 ∧
      gs'.descrambler = E.scrambler.reset gs.descrambler ∧
      gs'.vitdec = E.viterbi.reset gs.vitdec ∧
      gs'.payload = (⟨0, none, 0, 0, false, -1⟩ : Payload) := by
  constructor
  · obtain ⟨fs', r, h, hr, _⟩ := process_await_preamble_spec E fuel fs IQ hN hf
    have := hr.mpr hm
    subst this
    exact ⟨fs', by unfold process; rw [hs]; exact h⟩
  · intro gs gs' z h
    have hst := (process_step E fuel gs gs' z _ h).1
    unfold process at h
    cases hg : gs.state with
    | WAIT_PREAMBLE =>
      rw [hg] at h
      obtain ⟨r1, r2, r3, r4, r5, r6, r7, r8, _⟩ := preamble_found_reset E fuel gs gs' z h
      exact ⟨r1, r2, r3, r4, r5, r6, r7, r8⟩
    | WAIT_BLOCK_SIZE =>
      rw [hg] at hst
      rcases hst with h' | h' | h' <;> cases h'
    | WAIT_PAYLOAD =>
      rw [hg] at hst
      rcases hst with h' | h' | h' <;> cases h'

open Sync Standin in
/-- C14 at a concrete input: the last symbol of the preamble of a second frame, fed to a
synchroniser that has processed a whole frame and the first seven symbols of the next
preamble. -/
theorem reset_at_preamble_witness :
    (∃ fs', process externals 17 (after (frame5 ++ frame5.take 7)) (frame5.getD 7 (sample 0)) =
      some (fs', ProcessResult.PREAMBLE_FOUND)) ∧
    ∀ (gs gs' : FrameSynchroniser ℚ (Nat × Nat) Nat Unit Nat) (z : complex ℚ),
      process externals 17 gs z = some (gs', ProcessResult.PREAMBLE_FOUND) →
      gs'.encoded_bits = 0 ∧ gs'.encoded_bytes = 0 ∧ gs'.decoded_bytes = 0 ∧
      gs'.decoded_block_size = 0 ∧ gs'.encoded_block_size = 0 ∧
      gs'.descrambler = externals.scrambler.reset gs.descrambler ∧
      gs'.vitdec = externals.viterbi.reset gs.vitdec ∧
      gs'.payload = (⟨0, none, 0, 0, false, -1⟩ : Payload) :=
  reset_at_preamble externals 17 (after (frame5 ++ frame5.take 7)) (frame5.getD 7 (sample 0))
    (by decide) (by decide) (by decide!) (by decide!)

open Sync in
/-- C15: what each result surfaces.  When `process` returns `BLOCK_SIZE_OK` or
`BLOCK_SIZE_ERR`, `payload.length` holds the decoded length field and `payload.buf` is
`NULL`.  When it returns `PAYLOAD_OK` or `PAYLOAD_ERR`, `payload.buf` is
`&decoded_buffer[2]`, `crc8_received` is the byte at `decoded_bytes - 2`, `crc8_calculated`
the CRC of `decoded_block_size` bytes from offset 2, `crc8_mismatch` whether they differ,
and `decoded_error` the error of the Viterbi decoder.  The call returns given fuel for the
demapper scan. -/
theorem result_surfaces {F PF SC VD CR : Type} [LinearOrderedField F]
    (E : Externals F PF SC VD CR) (fuel : Nat) (fs : FrameSynchroniser F PF SC VD CR)
    (IQ : complex F)
    (hN : E.QAM_Constellation_Size ≤ 255) (hf : E.QAM_Constellation_Size.toNat < fuel) :
    ∃ fs' r, process E fuel fs IQ = some (fs', r) ∧
      (r = ProcessResult.BLOCK_SIZE_OK ∨ r = ProcessResult.BLOCK_SIZE_ERR →
        fs'.payload.length = read_uint16 fs'.decoded_buffer 0 ∧ fs'.payload.buf = none) ∧
      (r = ProcessResult.PAYLOAD_OK ∨ r = ProcessResult.PAYLOAD_ERR →
        fs'.payload.buf = some 2 ∧
        fs'.payload.crc8_received = to_uint8 (fs'.decoded_buffer (fs'.decoded_bytes - 2)) ∧
        fs'.payload.crc8_calculated =
          to_uint8 (E.crc8.process fs'.crc8_calc fs'.decoded_buffer 2 fs'.decoded_block_size) ∧
        fs'.payload.crc8_mismatch =
          decide (fs'.payload.crc8_received ≠ fs'.payload.crc8_calculated) ∧
        fs'.payload.decoded_error = E.viterbi.get_curr_error fs'.vitdec) := by
  obtain ⟨⟨fs', r⟩, h⟩ := process_some E fuel fs IQ hN hf
  refine ⟨fs', r, h, ?_, ?_⟩
  · intro hr
    have hst := (process_step E fuel fs fs' IQ r h).1
    unfold process at h
    cases hs : fs.state with
    | WAIT_PREAMBLE =>
      rw [hs] at hst
      rcases hr with hr | hr <;> subst hr <;> rcases hst with h' | h' <;> cases h'
    | WAIT_BLOCK_SIZE =>
      rw [hs] at h
      obtain ⟨fs1, _, _, _, _, _, _, k⟩ := await_block_size_effect E fuel fs fs' IQ r h
      obtain ⟨_, _, k3, k4, _⟩ := k (by rcases hr with hr | hr <;> subst hr <;> decide)
      exact ⟨k3, k4⟩
    | WAIT_PAYLOAD =>
      rw [hs] at hst
      rcases hr with hr | hr <;> subst hr <;> rcases hst with h' | h' | h' <;> cases h'
  · intro hr
    have hst := (process_step E fuel fs fs' IQ r h).1
    unfold process at h
    cases hs : fs.state with
    | WAIT_PREAMBLE =>
      rw [hs] at hst
      rcases hr with hr | hr <;> subst hr <;> rcases hst with h' | h' <;> cases h'
    | WAIT_BLOCK_SIZE =>
      rw [hs] at hst
      rcases hr with hr | hr <;> subst hr <;> rcases hst with h' | h' | h' <;> cases h'
    | WAIT_PAYLOAD =>
      rw [hs] at h
      obtain ⟨fs1, _, _, _, _, _, _, _, _, _, k⟩ := await_payload_effect E fuel fs fs' IQ r h
      obtain ⟨_, _, _, k4, k5, k6, k7, k8⟩ :=
        k (by rcases hr with hr | hr <;> subst hr <;> decide)
      exact ⟨k4, k5, k6, k7, k8⟩

open Sync Standin in
/-- C15 at a concrete input: the last symbol of a frame of length 5. -/
theorem result_surfaces_witness :
    ∃ fs' r, process externals 17 (after (frame5.take 43)) (frame5.getD 43 (sample 0)) =
        some (fs', r) ∧
      (r = ProcessResult.BLOCK_SIZE_OK ∨ r = ProcessResult.BLOCK_SIZE_ERR →
        fs'.payload.length = read_uint16 fs'.decoded_buffer 0 ∧ fs'.payload.buf = none) ∧
      (r = ProcessResult.PAYLOAD_OK ∨ r = ProcessResult.PAYLOAD_ERR →
        fs'.payload.buf = some 2 ∧
        fs'.payload.crc8_received = to_uint8 (fs'.decoded_buffer (fs'.decoded_bytes - 2)) ∧
        fs'.payload.crc8_calculated =
          to_uint8 (externals.crc8.process fs'.crc8_calc fs'.decoded_buffer 2
            fs'.decoded_block_size) ∧
        fs'.payload.crc8_mismatch =
          decide (fs'.payload.crc8_received ≠ fs'.payload.crc8_calculated) ∧
        fs'.payload.decoded_error = externals.viterbi.get_curr_error fs'.vitdec) :=
  result_surfaces externals 17 (after (frame5.take 43)) (frame5.getD 43 (sample 0))
    (by decide) (by decide)

namespace Sync

variable {F PF SC VD CR : Type} [LinearOrderedField F]

/-- While the calls of a frame in `WAIT_PAYLOAD` return `NONE`, the state, `payload.length`
and `decoded_block_size` stay as they are. -/
theorem payload_none_keeps (E : Externals F PF SC VD CR) (fuel : Nat)
    (g : FrameSynchroniser F PF SC VD CR) (input : Nat → complex F)
    (hg : g.state = State.WAIT_PAYLOAD) :
    ∀ (n : Nat) (g' : FrameSynchroniser F PF SC VD CR) (T : List (ProcessResult × State)),
      trace E fuel g input n = some (g', T) →
      (∀ k x, k < n → T[k]? = some x → x.1 = ProcessResult.NONE) →
      g'.state = State.WAIT_PAYLOAD ∧ g'.payload.length = g.payload.length ∧
      g'.decoded_block_size = g.decoded_block_size := by
  intro n
  induction n with
  | zero =>
    intro g' T h _
    obtain ⟨_, h0, _⟩ := trace_shape E fuel g input 0 g' T h
    rw [h0 rfl]
    exact ⟨hg, rfl, rfl⟩
  | succ n ih =>
    intro g' T h hin
    obtain ⟨g1, T1, r, h1, h2, e⟩ := trace_succ_inv E fuel g g' input n T h
    obtain ⟨l1, _, _⟩ := trace_shape E fuel g input n g1 T1 h1
    subst e
    obtain ⟨i1, i2, i3⟩ := ih g1 T1 h1 (fun k x hk hx => hin k x (by omega) (by
      rw [List.getElem?_append_left (by omega)]
      exact hx))
    have hr : r = ProcessResult.NONE := hin n (r, g'.state) (by omega) (by
      rw [List.getElem?_append_right (by omega)]
      simp [l1])
    subst hr
    have hst := (process_step E fuel g1 g' (input n) _ h2).2
    unfold process at h2
    rw [i1] at h2
    obtain ⟨fs1, f1, _, _, _, _, _, _, _, k1, _⟩ :=
      await_payload_effect E fuel g1 g' (input n) _ h2
    obtain ⟨e1, _⟩ := k1 rfl
    have fr := process_decoder_symbol_frame E fuel g1 fs1 (input n) f1
    rw [e1]
    exact ⟨fr.1.trans i1, by rw [fr.2.1, i2], by rw [fr.2.2.2.2.2.1, i3]⟩

end Sync

open Sync in
/-- C17: the length field.  On the call that completes the 16-byte prefix (it returns
`BLOCK_SIZE_OK` or `BLOCK_SIZE_ERR`), `payload.length` is
`decoded_buffer[0] + 256 * decoded_buffer[1]`, and on `BLOCK_SIZE_OK`
`decoded_block_size` is that length `N`.  Over the later calls of the frame, as long as the
earlier ones return `NONE`, `payload.length` and `decoded_block_size` stay `N`; so at the
call that returns `PAYLOAD_OK` or `PAYLOAD_ERR`, `payload.length == decoded_block_size == N`
and `crc8_calculated` is the CRC-8 over `N` bytes from decoded offset 2. -/
theorem length_field {F PF SC VD CR : Type} [LinearOrderedField F]
    (E : Externals F PF SC VD CR) (fuel : Nat) (fs : FrameSynchroniser F PF SC VD CR)
    (IQ : complex F) (input : Nat → complex F) (n : Nat)
    (hN : E.QAM_Constellation_Size ≤ 255) (hf : E.QAM_Constellation_Size.toNat < fuel)
    (hs : fs.state = State.WAIT_BLOCK_SIZE) (hdone : completes_prefix E fuel fs IQ = true) :
    ∃ g r, process E fuel fs IQ = some (g, r) ∧
      (r = ProcessResult.BLOCK_SIZE_OK ∨ r = ProcessResult.BLOCK_SIZE_ERR) ∧
      g.payload.length = to_uint8 (g.decoded_buffer 0) + 256 * to_uint8 (g.decoded_buffer 1) ∧
      (r = ProcessResult.BLOCK_SIZE_OK →
        g.decoded_block_size = g.payload.length ∧
        ∃ g' T, trace E fuel g input (n + 1) = some (g', T) ∧
          ((∀ k x, k < n → T[k]? = some x → x.1 = ProcessResult.NONE) →
            g'.payload.length = g.payload.length ∧
            g'.decoded_block_size = g.payload.length ∧
            ∀ x, T[n]? = some x → x.1 ≠ ProcessResult.NONE →
              (x.1 = ProcessResult.PAYLOAD_OK ∨ x.1 = ProcessResult.PAYLOAD_ERR) ∧
              g'.payload.crc8_calculated =
                to_uint8 (E.crc8.process g'.crc8_calc g'.decoded_buffer 2
                  g'.payload.length))) := by
  obtain ⟨g, r, h, hlen, _, _, hok, hr, hst, _⟩ := await_block_size_done E fuel fs IQ hs hdone
  refine ⟨g, r, h, hr, hlen, fun hro => ?_⟩
  obtain ⟨d1, _⟩ := hok hro
  refine ⟨d1, ?_⟩
  obtain ⟨g', T, ht⟩ := trace_some E fuel g input hN hf (n + 1)
  refine ⟨g', T, ht, fun hin => ?_⟩
  have hgs : g.state = State.WAIT_PAYLOAD := by rw [hst, hro]
  obtain ⟨g1, T1, r1, h1, h2, e⟩ := trace_succ_inv E fuel g g' input n T ht
  obtain ⟨l1, _, _⟩ := trace_shape E fuel g input n g1 T1 h1
  subst e
  obtain ⟨i1, i2, i3⟩ := payload_none_keeps E fuel g input hgs n g1 T1 h1
    (fun k x hk hx => hin k x hk (by
      rw [List.getElem?_append_left (by omega)]
      exact hx))
  unfold process at h2
  rw [i1] at h2
  obtain ⟨fs1, f1, _, _, _, _, k5, k6, _, _, k9⟩ :=
    await_payload_effect E fuel g1 g' (input n) r1 h2
  have fr := process_decoder_symbol_frame E fuel g1 fs1 (input n) f1
  have e5 : g'.payload.length = g.payload.length := by rw [k5, fr.2.1, i2]
  have e6 : g'.decoded_block_size = g.payload.length := by rw [k6, fr.2.2.2.2.2.1, i3, d1]
  refine ⟨e5, e6, ?_⟩
  intro x hx hne
  rw [List.getElem?_append_right (by omega)] at hx
  simp only [l1, Nat.sub_self, List.getElem?_cons_zero, Option.some.injEq] at hx
  subst hx
  obtain ⟨_, c2, _, _, _, c6, _⟩ := k9 hne
  refine ⟨c2, ?_⟩
  rw [c6, e6, e5]

open Sync Standin in
/-- C17 at a concrete input: the call that completes the prefix of a frame of length 5, and
the four calls after it. -/
theorem length_field_witness :
    ∃ g r, process externals 17 (after (frame5.take 39)) (frame5.getD 39 (sample 0)) =
        some (g, r) ∧
      (r = ProcessResult.BLOCK_SIZE_OK ∨ r = ProcessResult.BLOCK_SIZE_ERR) ∧
      g.payload.length = to_uint8 (g.decoded_buffer 0) + 256 * to_uint8 (g.decoded_buffer 1) ∧
      (r = ProcessResult.BLOCK_SIZE_OK →
        g.decoded_block_size = g.payload.length ∧
        ∃ g' T, trace externals 17 g (fun k => frame5.getD (40 + k) (sample 0)) (3 + 1) =
            some (g', T) ∧
          ((∀ k x, k < 3 → T[k]? = some x → x.1 = ProcessResult.NONE) →
            g'.payload.length = g.payload.length ∧
            g'.decoded_block_size = g.payload.length ∧
            ∀ x, T[3]? = some x → x.1 ≠ ProcessResult.NONE →
              (x.1 = ProcessResult.PAYLOAD_OK ∨ x.1 = ProcessResult.PAYLOAD_ERR) ∧
              g'.payload.crc8_calculated =
                to_uint8 (externals.crc8.process g'.crc8_calc g'.decoded_buffer 2
                  g'.payload.length))) :=
  length_field externals 17 (after (frame5.take 39)) (frame5.getD 39 (sample 0))
    (fun k => frame5.getD (40 + k) (sample 0)) 3 (by decide) (by decide) (by decide!)
    (by decide!)

namespace Sync

variable {F PF SC VD CR : Type} [LinearOrderedField F]

/-- A trace of `a + b` calls is a trace of `a` calls followed by a trace of `b` calls. -/
theorem trace_add (E : Externals F PF SC VD CR) (fuel : Nat)
    (g g1 : FrameSynchroniser F PF SC VD CR) (input : Nat → complex F) (a : Nat)
    (T1 : List (ProcessResult × State)) (h1 : trace E fuel g input a = some (g1, T1)) :
    ∀ (b : Nat) (g2 : FrameSynchroniser F PF SC VD CR) (T2 : List (ProcessResult × State)),
      trace E fuel g1 (fun k => input (a + k)) b = some (g2, T2) →
      trace E fuel g input (a + b) = some (g2, T1 ++ T2) := by
  intro b
  induction b with
  | zero =>
    intro g2 T2 h2
    simp only [trace, Option.some.injEq, Prod.mk.injEq] at h2
    obtain ⟨e1, e2⟩ := h2
    subst e1 e2
    simpa using h1
  | succ b ih =>
    intro g2 T2 h2
    obtain ⟨g3, T3, r, h3, h4, e⟩ := trace_succ_inv E fuel g1 g2 _ b T2 h2
    have := ih g3 T3 h3
    subst e
    rw [← Nat.add_assoc, trace, this]
    simp only [h4, List.append_assoc]

/-- The counters after a call of `process_decoder_symbol`. -/
theorem decoder_symbol_counts (E : Externals F PF SC VD CR) (fuel : Nat)
    (fs fs1 : FrameSynchroniser F PF SC VD CR) (IQ : complex F)
    (h : process_decoder_symbol E fuel fs IQ = some fs1) :
    (fs.encoded_bits = 0 → fs1.encoded_bits = 4 ∧ fs1.encoded_bytes = fs.encoded_bytes) ∧
    (fs.encoded_bits = 4 → fs1.encoded_bits = 0 ∧ fs1.encoded_bytes = fs.encoded_bytes + 1) := by
  cases hs : symbol_to_bits E fuel
      (IQ.mul (fs.preamble_mixers fs.preamble_state.selected_phase)) with
  | none => simp [process_decoder_symbol, hs] at h
  | some sym =>
    constructor
    · intro hb
      rw [decoder_symbol_first E fuel fs IQ sym hb hs] at h
      cases h
      exact ⟨rfl, rfl⟩
    · intro hb
      rw [decoder_symbol_second E fuel fs IQ sym hb hs] at h
      cases h
      exact ⟨rfl, rfl⟩

/-- One call of `process` inside a frame, in terms of the counters: with `limit` the number
of encoded bytes the state waits for, the call returns `NONE` unless it completes byte
number `limit`. -/
theorem frame_call (E : Externals F PF SC VD CR) (fuel : Nat)
    (g1 g2 : FrameSynchroniser F PF SC VD CR) (z : complex F) (r : ProcessResult)
    (h : process E fuel g1 z = some (g2, r))
    (hs : g1.state = State.WAIT_BLOCK_SIZE ∨ g1.state = State.WAIT_PAYLOAD) :
    (g1.encoded_bits = 0 → g2.encoded_bits = 4 ∧ g2.encoded_bytes = g1.encoded_bytes) ∧
    (g1.encoded_bits = 4 → g2.encoded_bits = 0 ∧ g2.encoded_bytes = g1.encoded_bytes + 1) ∧
    (r = ProcessResult.NONE ↔
      ¬ ((if g1.state = State.WAIT_BLOCK_SIZE then nb_bytes_for_block_size
          else g1.encoded_block_size) ≤ g2.encoded_bytes ∧ g2.encoded_bits = 0)) ∧
    (r = ProcessResult.NONE → g2.encoded_block_size = g1.encoded_block_size) ∧
    (g1.state = State.WAIT_PAYLOAD → g2.encoded_block_size = g1.encoded_block_size) := by
  have hst := (process_step E fuel g1 g2 z r h).2
  unfold process at h
  rcases hs with hs | hs
  · rw [hs] at h
    simp only at h
    obtain ⟨fs1, f1, _, _, k3, k4, k5, k6⟩ := await_block_size_effect E fuel g1 g2 z r h
    obtain ⟨c1, c2⟩ := decoder_symbol_counts E fuel g1 fs1 z f1
    have fr := process_decoder_symbol_frame E fuel g1 fs1 z f1
    rw [k3, k4, hs]
    refine ⟨c1, c2, ?_, ?_, fun hc => by cases hc⟩
    · simp only [if_true]
      constructor
      · intro hr; exact (k5 hr).2
      · intro hnd
        by_contra hne
        exact hnd (k6 hne).1
    · intro hr
      rw [(k5 hr).1]
      exact fr.2.2.2.2.2.2.1
  · rw [hs] at h
    simp only at h
    obtain ⟨fs1, f1, _, _, k3, k4, _, _, k7, k8, k9⟩ := await_payload_effect E fuel g1 g2 z r h
    obtain ⟨c1, c2⟩ := decoder_symbol_counts E fuel g1 fs1 z f1
    have fr := process_decoder_symbol_frame E fuel g1 fs1 z f1
    rw [k3, k4, hs, k7]
    refine ⟨c1, c2, ?_, fun _ => fr.2.2.2.2.2.2.1, fun _ => fr.2.2.2.2.2.2.1⟩
    have e : (if State.WAIT_PAYLOAD = State.WAIT_BLOCK_SIZE then nb_bytes_for_block_size
        else g1.encoded_block_size) = fs1.encoded_block_size := by
      rw [if_neg (by decide)]
      exact fr.2.2.2.2.2.2.1.symm
    rw [e]
    constructor
    · intro hr; exact (k8 hr).2
    · intro hnd
      by_contra hne
      exact hnd (k9 hne).1

/-- A run of calls inside a frame that all return `NONE`: from a byte boundary, as long as
fewer than `limit` bytes are complete. -/
theorem none_run (E : Externals F PF SC VD CR) (fuel : Nat)
    (g : FrameSynchroniser F PF SC VD CR) (input : Nat → complex F)
    (hN : E.QAM_Constellation_Size ≤ 255) (hf : E.QAM_Constellation_Size.toNat < fuel)
    (hs : g.state = State.WAIT_BLOCK_SIZE ∨ g.state = State.WAIT_PAYLOAD)
    (hb : g.encoded_bits = 0) :
    ∀ n : Nat, g.encoded_bytes + ((n / 2 : Nat) : Int) <
        (if g.state = State.WAIT_BLOCK_SIZE then nb_bytes_for_block_size
          else g.encoded_block_size) →
      ∃ g', trace E fuel g input n = some (g', List.replicate n (ProcessResult.NONE, g.state)) ∧
        g'.state = g.state ∧ g'.encoded_bytes = g.encoded_bytes + ((n / 2 : Nat) : Int) ∧
        g'.encoded_bits = 4 * ((n % 2 : Nat) : Int) ∧
        g'.encoded_block_size = g.encoded_block_size := by
  intro n
  induction n with
  | zero =>
    intro _
    exact ⟨g, rfl, rfl, by simp, by simp [hb], rfl⟩
  | succ n ih =>
    intro hlim
    obtain ⟨g1, t1, s1, y1, b1, l1⟩ := ih (by
      have : n / 2 ≤ (n + 1) / 2 := Nat.div_le_div_right (by omega)
      omega)
    obtain ⟨⟨g2, r⟩, h2⟩ := process_some E fuel g1 (input n) hN hf
    have hst := (process_step E fuel g1 g2 (input n) r h2).2
    obtain ⟨c1, c2, c3, c4, _⟩ := frame_call E fuel g1 g2 (input n) r h2
      (by rw [s1]; exact hs)
    rw [s1, l1] at c3
    have hr : r = ProcessResult.NONE := by
      rw [c3]
      rintro ⟨d1, d2⟩
      rcases Nat.mod_two_eq_zero_or_one n with hn | hn
      · rw [hn] at b1
        have := (c1 (by simpa using b1)).1
        omega
      · rw [hn] at b1
        obtain ⟨_, e2⟩ := c2 (by simpa using b1)
        have : (n + 1) / 2 = n / 2 + 1 := by omega
        rw [this] at hlim
        push_cast at hlim
        omega
    subst hr
    have hs2 : g2.state = g.state := by rw [hst, s1]
    refine ⟨g2, ?_, hs2, ?_, ?_, by rw [c4 rfl, l1]⟩
    · rw [trace, t1]
      simp only [h2, hs2, List.replicate_succ']
    · rcases Nat.mod_two_eq_zero_or_one n with hn | hn
      · rw [hn] at b1
        rw [(c1 (by simpa using b1)).2, y1]
        have : (n + 1) / 2 = n / 2 := by omega
        rw [this]
      · rw [hn] at b1
        rw [(c2 (by simpa using b1)).2, y1]
        have : (n + 1) / 2 = n / 2 + 1 := by omega
        rw [this]
        push_cast
        ring
    · rcases Nat.mod_two_eq_zero_or_one n with hn | hn
      · rw [hn] at b1
        rw [(c1 (by simpa using b1)).1]
        have : (n + 1) % 2 = 1 := by omega
        rw [this]
        rfl
      · rw [hn] at b1
        rw [(c2 (by simpa using b1)).1]
        have : (n + 1) % 2 = 0 := by omega
        rw [this]
        rfl

end Sync

open Sync in
/-- C19: frame timing.  Let `g` be a synchroniser as a call that returned `PREAMBLE_FOUND`
leaves it: in `WAIT_BLOCK_SIZE` with `encoded_bits == 0` and `encoded_bytes == 0`.  Of the
calls that follow, the first 31 return `NONE` and the 32nd returns `BLOCK_SIZE_OK` or
`BLOCK_SIZE_ERR`.  If the length `N` (`payload.length`) was accepted, the calls after it
return `NONE` until exactly call number `4 * (N + 4)`, which returns `PAYLOAD_OK` or
`PAYLOAD_ERR` and leaves `WAIT_PREAMBLE`; then `encoded_bits == 0` and
`encoded_bytes == encoded_block_size == 2 * (N + 4)`.  The traces list, for every call in
order, the result and the state it leaves. -/
theorem frame_timing {F PF SC VD CR : Type} [LinearOrderedField F]
    (E : Externals F PF SC VD CR) (fuel : Nat) (g : FrameSynchroniser F PF SC VD CR)
    (input : Nat → complex F)
    (hN : E.QAM_Constellation_Size ≤ 255) (hf : E.QAM_Constellation_Size.toNat < fuel)
    (hs : g.state = State.WAIT_BLOCK_SIZE) (hb : g.encoded_bits = 0)
    (hy : g.encoded_bytes = 0) :
    (∀ (fs fs' : FrameSynchroniser F PF SC VD CR) (z : complex F),
      process E fuel fs z = some (fs', ProcessResult.PREAMBLE_FOUND) →
      fs'.state = State.WAIT_BLOCK_SIZE ∧ fs'.encoded_bits = 0 ∧ fs'.encoded_bytes = 0) ∧
    ∃ g32 r32, trace E fuel g input 32 =
        some (g32, List.replicate 31 (ProcessResult.NONE, State.WAIT_BLOCK_SIZE) ++
          [(r32, g32.state)]) ∧
      (r32 = ProcessResult.BLOCK_SIZE_OK ∨ r32 = ProcessResult.BLOCK_SIZE_ERR) ∧
      (r32 = ProcessResult.BLOCK_SIZE_OK →
        ∃ gE rE, trace E fuel g input (4 * (g32.payload.length + 4)) =
            some (gE, List.replicate 31 (ProcessResult.NONE, State.WAIT_BLOCK_SIZE) ++
              [(ProcessResult.BLOCK_SIZE_OK, State.WAIT_PAYLOAD)] ++
              List.replicate (4 * (g32.payload.length + 4) - 33)
                (ProcessResult.NONE, State.WAIT_PAYLOAD) ++
              [(rE, State.WAIT_PREAMBLE)]) ∧
          (rE = ProcessResult.PAYLOAD_OK ∨ rE = ProcessResult.PAYLOAD_ERR) ∧
          gE.encoded_bits = 0 ∧ gE.encoded_bytes = gE.encoded_block_size ∧
          gE.encoded_block_size = 2 * ((g32.payload.length : Int) + 4)) := by
  constructor
  · intro fs fs' z h
    have hst := (process_step E fuel fs fs' z _ h).1
    unfold process at h
    cases hg : fs.state with
    | WAIT_PREAMBLE =>
      rw [hg] at h
      obtain ⟨r1, r2, _, _, _, _, _, _, r9⟩ := preamble_found_reset E fuel fs fs' z h
      exact ⟨r9, r1, r2⟩
    | WAIT_BLOCK_SIZE =>
      rw [hg] at hst
      rcases hst with h' | h' | h' <;> cases h'
    | WAIT_PAYLOAD =>
      rw [hg] at hst
      rcases hst with h' | h' | h' <;> cases h'
  · -- the 31 calls before the prefix is complete
    obtain ⟨g31, t31, s31, y31, b31, _⟩ := none_run E fuel g input hN hf (Or.inl hs) hb 31 (by
      rw [hs, hy, if_pos rfl]; decide)
    rw [hs] at t31 s31
    rw [hy] at y31
    have y31' : g31.encoded_bytes = 15 := by rw [y31]; decide
    have b31' : g31.encoded_bits = 4 := by rw [b31]; decide
    -- call 32
    obtain ⟨⟨g32, r32⟩, h32⟩ := process_some E fuel g31 (input 31) hN hf
    have hst32 := (process_step E fuel g31 g32 (input 31) r32 h32)
    obtain ⟨_, c2, c3, _, _⟩ := frame_call E fuel g31 g32 (input 31) r32 h32 (Or.inl s31)
    obtain ⟨e1, e2⟩ := c2 b31'
    rw [s31, if_pos rfl] at c3
    have hne : r32 ≠ ProcessResult.NONE := by
      rw [Ne, c3, not_not]
      exact ⟨by rw [e2, y31']; decide, e1⟩
    have t32 : trace E fuel g input 32 =
        some (g32, List.replicate 31 (ProcessResult.NONE, State.WAIT_BLOCK_SIZE) ++
          [(r32, g32.state)]) := by
      show trace E fuel g input (31 + 1) = _
      rw [trace, t31]
      simp only [h32]
    have h32' := h32
    unfold process at h32'
    rw [s31] at h32'
    simp only at h32'
    obtain ⟨fs1, _, _, _, _, _, _, k6⟩ := await_block_size_effect E fuel g31 g32 (input 31) r32 h32'
    obtain ⟨_, hr32, _, _, kok⟩ := k6 hne
    refine ⟨g32, r32, t32, hr32, fun hok => ?_⟩
    subst hok
    obtain ⟨s32, d32, l32, n5⟩ := kok rfl
    rw [s32] at t32
    -- the calls before the frame is complete
    have hN4 : 4 * (g32.payload.length + 4) - 33 = 2 * (2 * g32.payload.length - 9) + 1 := by
      omega
    obtain ⟨gm, tm, sm, ym, bm, lm⟩ := none_run E fuel g32 (fun k => input (32 + k)) hN hf
      (Or.inr s32) e1 (4 * (g32.payload.length + 4) - 33) (by
        rw [s32, if_neg (by decide), l32, e2, y31', hN4]
        have : (2 * (2 * g32.payload.length - 9) + 1) / 2 = 2 * g32.payload.length - 9 := by
          omega
        rw [this]
        push_cast [Nat.cast_sub (by omega : 9 ≤ 2 * g32.payload.length)]
        omega)
    rw [s32] at tm sm
    have hmod : (4 * (g32.payload.length + 4) - 33) % 2 = 1 := by omega
    have hdiv : (4 * (g32.payload.length + 4) - 33) / 2 = 2 * g32.payload.length - 9 := by omega
    rw [hmod] at bm
    rw [hdiv, e2, y31'] at ym
    have bm' : gm.encoded_bits = 4 := by rw [bm]; decide
    -- the last call
    obtain ⟨⟨gE, rE⟩, hE⟩ := process_some E fuel gm (input (32 + (4 * (g32.payload.length + 4) - 33)))
      hN hf
    have hstE := (process_step E fuel gm gE _ rE hE)
    obtain ⟨_, q2, q3, _, q5⟩ := frame_call E fuel gm gE _ rE hE (Or.inr sm)
    obtain ⟨u1, u2⟩ := q2 bm'
    rw [sm, if_neg (by decide), lm, l32] at q3
    have yE : gE.encoded_bytes = 2 * ((g32.payload.length : Int) + 4) := by
      rw [u2, ym]
      push_cast [Nat.cast_sub (by omega : 9 ≤ 2 * g32.payload.length)]
      ring
    have hneE : rE ≠ ProcessResult.NONE := by
      rw [Ne, q3, not_not]
      exact ⟨by rw [yE], u1⟩
    have hE' := hE
    unfold process at hE'
    rw [sm] at hE'
    simp only at hE'
    obtain ⟨_, _, _, _, _, _, _, _, _, _, k9⟩ := await_payload_effect E fuel gm gE _ rE hE'
    obtain ⟨_, hrE, sE, _⟩ := k9 hneE
    have lE : gE.encoded_block_size = 2 * ((g32.payload.length : Int) + 4) := by
      rw [q5 sm, lm, l32]
    refine ⟨gE, rE, ?_, hrE, u1, by rw [yE, lE], lE⟩
    have tmid := trace_add E fuel g g32 input 32 _ t32 _ gm _ tm
    have hlast : trace E fuel gm (fun k => input (32 + (4 * (g32.payload.length + 4) - 33) + k)) 1 =
        some (gE, [(rE, gE.state)]) := by
      rw [trace, trace]
      simp only [Nat.add_zero, hE, List.nil_append]
    have tall := trace_add E fuel g gm input _ _ tmid 1 gE _ hlast
    have hlen : 32 + (4 * (g32.payload.length + 4) - 33) + 1 = 4 * (g32.payload.length + 4) := by
      omega
    rw [hlen, sE] at tall
    exact tall

open Sync Standin in
/-- C19 at a concrete input: the 36 symbols after the preamble of a frame of length 5. -/
theorem frame_timing_witness :
    (∀ (fs fs' : FrameSynchroniser ℚ (Nat × Nat) Nat Unit Nat) (z : complex ℚ),
      process externals 17 fs z = some (fs', ProcessResult.PREAMBLE_FOUND) →
      fs'.state = State.WAIT_BLOCK_SIZE ∧ fs'.encoded_bits = 0 ∧ fs'.encoded_bytes = 0) ∧
    ∃ g32 r32, trace externals 17 (after (frame5.take 8))
        (fun k => frame5.getD (8 + k) (sample 0)) 32 =
        some (g32, List.replicate 31 (ProcessResult.NONE, State.WAIT_BLOCK_SIZE) ++
          [(r32, g32.state)]) ∧
      (r32 = ProcessResult.BLOCK_SIZE_OK ∨ r32 = ProcessResult.BLOCK_SIZE_ERR) ∧
      (r32 = ProcessResult.BLOCK_SIZE_OK →
        ∃ gE rE, trace externals 17 (after (frame5.take 8))
            (fun k => frame5.getD (8 + k) (sample 0)) (4 * (g32.payload.length + 4)) =
            some (gE, List.replicate 31 (ProcessResult.NONE, State.WAIT_BLOCK_SIZE) ++
              [(ProcessResult.BLOCK_SIZE_OK, State.WAIT_PAYLOAD)] ++
              List.replicate (4 * (g32.payload.length + 4) - 33)
                (ProcessResult.NONE, State.WAIT_PAYLOAD) ++
              [(rE, State.WAIT_PREAMBLE)]) ∧
          (rE = ProcessResult.PAYLOAD_OK ∨ rE = ProcessResult.PAYLOAD_ERR) ∧
          gE.encoded_bits = 0 ∧ gE.encoded_bytes = gE.encoded_block_size ∧
          gE.encoded_block_size = 2 * ((g32.payload.length : Int) + 4)) :=
  frame_timing externals 17 (after (frame5.take 8)) (fun k => frame5.getD (8 + k) (sample 0))
    (by decide) (by decide) (by decide!) (by decide!) (by decide!)

namespace Vit

theorem BFLY_metric_bound (i s : Nat) (syms : Nat → Int) (vp : vitdec_t) (D : Int)
    (hD : 2 * D ≤ 32767)
    (h0 : -D ≤ vp.BranchTable 0 i - syms (s * 2) ∧ vp.BranchTable 0 i - syms (s * 2) ≤ D)
    (h1 : -D ≤ vp.BranchTable 1 i - syms (s * 2 + 1) ∧
      vp.BranchTable 1 i - syms (s * 2 + 1) ≤ D) :
    BFLY_metric i s syms vp =
      iabs (vp.BranchTable 0 i - syms (s * 2)) + iabs (vp.BranchTable 1 i - syms (s * 2 + 1)) := by
  simp only [BFLY_metric, CODE_RATE_eq, range_two, List.foldl_cons, List.foldl_nil, asr,
    METRICSHIFT, PRECISIONSHIFT, pow_zero, Int.ediv_one, zero_add, add_zero, iabs]
  generalize vp.BranchTable 0 i - syms (s * 2) = e0 at *
  generalize vp.BranchTable 1 i - syms (s * 2 + 1) = e1 at *
  rw [to_int16_of_range (x := e0) (by omega) (by omega),
    to_int16_of_range (x := e1) (by omega) (by omega)]
  split_ifs <;> (unfold to_int16; omega)

theorem BFLY_max_bound (vp : vitdec_t)
    (h : 0 ≤ vp.soft_decision_max_error ∧ 2 * vp.soft_decision_max_error ≤ 32767) :
    BFLY_max vp = 2 * vp.soft_decision_max_error := by
  simp only [BFLY_max, CODE_RATE_eq, asr, METRICSHIFT, PRECISIONSHIFT, pow_zero, Int.ediv_one]
  rw [to_int16_of_range] <;> push_cast <;> omega

/-- The minimum that `renormalize` subtracts is one of the metrics and at most each. -/
theorem renormalize_min (x : Nat → Int) :
    (∀ k < 4, (List.range NUMSTATES).foldl (fun min i => if min > x i then x i else min) (x 0)
      ≤ x k) ∧
    ∃ m < 4, (List.range NUMSTATES).foldl (fun min i => if min > x i then x i else min) (x 0)
      = x m := by
  simp only [NUMSTATES_eq, range_four, List.foldl_cons, List.foldl_nil]
  constructor
  · intro k hk
    interval_cases k <;> split_ifs <;> omega
  · split_ifs <;>
      first
      | exact ⟨0, by omega, rfl⟩
      | exact ⟨1, by omega, rfl⟩
      | exact ⟨2, by omega, rfl⟩
      | exact ⟨3, by omega, rfl⟩

/-- `renormalize` keeps metrics that are non-negative non-negative. -/
theorem renormalize_nonneg (x : Nat → Int) (t : Int)
    (h : ∀ k < 4, 0 ≤ x k ∧ x k ≤ 32767) : ∀ k < 4, 0 ≤ renormalize x t k := by
  intro k hk
  unfold renormalize
  split_ifs
  · obtain ⟨hmin, m, hm, hmeq⟩ := renormalize_min x
    generalize (List.range NUMSTATES).foldl (fun min i => if min > x i then x i else min) (x 0)
      = mn at *
    have hm0 : 0 ≤ mn := by rw [hmeq]; exact (h m hm).1
    have e : ∀ j < 4, to_int16 (x j - mn) = x j - mn := fun j hj =>
      to_int16_of_range (by have := hmin j hj; omega) (by have := (h j hj).2; omega)
    simp only [NUMSTATES_eq, range_four, List.foldl_cons, List.foldl_nil, write]
    have := hmin k hk
    interval_cases k <;> simp <;> rw [e _ (by omega)] <;> omega
  · exact (h k hk).1

end Vit

namespace Vit

theorem iabs_bounds (e D : Int) (h : -D ≤ e ∧ e ≤ D) : 0 ≤ iabs e ∧ iabs e ≤ D := by
  unfold iabs
  split_ifs <;> omega

/-- One symbol of `update_viterbi_blk_scalar` keeps the metrics non-negative when nothing
wraps. -/
theorem update_step_nonneg (lo hi : Int) (s d : Nat) (syms : Nat → Int) (vp : vitdec_t)
    (hle : lo ≤ hi) (hstat : 2 * (hi - lo) ≤ 32767)
    (hne : vp.old_metrics ≠ vp.new_metrics)
    (htab : ∀ j < 2, ∀ i < 2, vp.BranchTable j i = lo ∨ vp.BranchTable j i = hi)
    (hme : vp.soft_decision_max_error = hi - lo)
    (hsym : ∀ k, lo ≤ syms k ∧ syms k ≤ hi)
    (hM : ∀ k < 4, 0 ≤ buf vp vp.old_metrics k)
    (hc : ∀ i < NUMSTATES / 2, ∀ c ∈ BFLY_candidates i s syms vp, c ≤ SHRT_MAX) :
    (update_step syms (vp, d) s).1.old_metrics ≠ (update_step syms (vp, d) s).1.new_metrics ∧
    (update_step syms (vp, d) s).1.BranchTable = vp.BranchTable ∧
    (update_step syms (vp, d) s).1.soft_decision_max_error = vp.soft_decision_max_error ∧
    ∀ k < 4, 0 ≤ buf (update_step syms (vp, d) s).1 (update_step syms (vp, d) s).1.old_metrics k := by
  have hmx : BFLY_max vp = 2 * (hi - lo) := by
    rw [BFLY_max_bound vp (by rw [hme]; omega), hme]
  have hmet : ∀ i < 2, BFLY_metric i s syms vp =
      iabs (vp.BranchTable 0 i - syms (s * 2)) + iabs (vp.BranchTable 1 i - syms (s * 2 + 1)) ∧
      0 ≤ BFLY_metric i s syms vp ∧ BFLY_metric i s syms vp ≤ 2 * (hi - lo) := by
    intro i hi2
    have b0 : -(hi - lo) ≤ vp.BranchTable 0 i - syms (s * 2) ∧
        vp.BranchTable 0 i - syms (s * 2) ≤ hi - lo := by
      have := hsym (s * 2)
      rcases htab 0 (by omega) i hi2 with h | h <;> rw [h] <;> omega
    have b1 : -(hi - lo) ≤ vp.BranchTable 1 i - syms (s * 2 + 1) ∧
        vp.BranchTable 1 i - syms (s * 2 + 1) ≤ hi - lo := by
      have := hsym (s * 2 + 1)
      rcases htab 1 (by omega) i hi2 with h | h <;> rw [h] <;> omega
    have e := BFLY_metric_bound i s syms vp (hi - lo) hstat b0 b1
    have a0 := iabs_bounds _ _ b0
    have a1 := iabs_bounds _ _ b1
    rw [e]
    exact ⟨rfl, by omega, by omega⟩
  obtain ⟨-, m0a, m0b⟩ := hmet 0 (by omega)
  obtain ⟨-, m1a, m1b⟩ := hmet 1 (by omega)
  have hc0 := hc 0 (by decide)
  have hc1 := hc 1 (by decide)
  simp only [BFLY_candidates, hmx, half_states, List.mem_cons, List.mem_singleton,
    List.not_mem_nil, or_false, forall_eq_or_imp, forall_eq, SHRT_MAX, Nat.zero_add,
    Nat.reduceAdd] at hc0 hc1
  generalize hcc0 : BFLY_metric 0 s syms vp = c0 at *
  generalize hcc1 : BFLY_metric 1 s syms vp = c1 at *
  have h0 := hM 0 (by omega)
  have h1 := hM 1 (by omega)
  have h2 := hM 2 (by omega)
  have h3 := hM 3 (by omega)
  obtain ⟨a1, a2, a3, a4, a5, a6, a7, a8, a9⟩ :=
    BFLY_eval 0 s d syms vp c0 (2 * (hi - lo)) (buf vp vp.old_metrics 0) (buf vp vp.old_metrics 2)
      hne hcc0 hmx rfl rfl (by omega) (by omega) (by omega) (by omega)
  generalize hv1 : BFLY 0 s syms vp d = vp1 at *
  have hne1 : vp1.old_metrics ≠ vp1.new_metrics := by rw [a1, a2]; exact hne
  have hc1' : BFLY_metric 1 s syms vp1 = c1 := by rw [BFLY_metric_congr _ _ _ _ _ a3, hcc1]
  have hmx' : BFLY_max vp1 = 2 * (hi - lo) := by rw [BFLY_max_congr _ _ a4, hmx]
  have hA1 : buf vp1 vp1.old_metrics 1 = buf vp vp.old_metrics 1 := by rw [a1, a7]
  have hB1 : buf vp1 vp1.old_metrics (1 + 2) = buf vp vp.old_metrics 3 := by rw [a1, a7]
  obtain ⟨b1, b2, b3, b4, b5, b6, b7, b8, b9⟩ :=
    BFLY_eval 1 s d syms vp1 c1 (2 * (hi - lo)) _ _ hne1 hc1' hmx' hA1 hB1
      (by omega) (by omega) (by omega) (by omega)
  generalize hv2 : BFLY 1 s syms vp1 d = vp2 at *
  have hfold : (List.range (NUMSTATES / 2)).foldl (fun vp i => BFLY i s syms vp d) vp = vp2 := by
    simp only [half_states, range_two, List.foldl_cons, List.foldl_nil, hv1, hv2]
  have n2 : vp2.new_metrics = vp.new_metrics := by rw [b2, a2]
  have o2 : vp2.old_metrics = vp.old_metrics := by rw [b1, a1]
  have hnew : ∀ k < 4, 0 ≤ buf vp2 vp2.new_metrics k ∧ buf vp2 vp2.new_metrics k ≤ 32767 := by
    intro k hk
    rw [n2, ← a2, b8, a2, a8]
    simp only [write]
    interval_cases k <;> simp <;> split_ifs <;> omega
  refine ⟨?_, ?_, ?_, ?_⟩
  · simp only [update_step, hfold]
    cases hn2 : vp2.new_metrics <;> simp only <;> rw [o2] <;> intro h <;> apply hne <;>
      rw [← h, ← n2, hn2]
  · simp only [update_step, hfold]
    cases hn2 : vp2.new_metrics <;> simp only <;> rw [b3, a3]
  · simp only [update_step, hfold]
    cases hn2 : vp2.new_metrics <;> simp only <;> rw [b4, a4]
  · intro k hk
    simp only [update_step, hfold]
    cases hn2 : vp2.new_metrics
    · simp only [buf]
      rw [hn2] at hnew
      exact renormalize_nonneg _ _ hnew k hk
    · simp only [buf]
      rw [hn2] at hnew
      exact renormalize_nonneg _ _ hnew k hk

end Vit

namespace Vit

/-- What `init_viterbi` sets up. -/
theorem init_viterbi_fields (vp : vitdec_t) (start : Int) :
    (init_viterbi vp start).old_metrics = .metrics1 ∧
    (init_viterbi vp start).new_metrics = .metrics2 ∧
    (init_viterbi vp start).BranchTable = vp.BranchTable ∧
    (init_viterbi vp start).soft_decision_max_error = vp.soft_decision_max_error ∧
    ∀ k < 4, 0 ≤ (init_viterbi vp start).metrics1 k := by
  refine ⟨rfl, rfl, rfl, rfl, ?_⟩
  intro k hk
  simp only [init_viterbi, NUMSTATES_eq, range_four, List.foldl_cons, List.foldl_nil, set_buf,
    write, INITIAL_NON_START_ERROR, INITIAL_START_ERROR]
  interval_cases k <;> simp <;> split_ifs <;> omega

/-- The decoder after `n` symbols, as one more step after `n - 1`. -/
theorem update_blk_succ (vp : vitdec_t) (syms : Nat → Int) (n : Nat) :
    update_viterbi_blk_scalar vp syms ((n + 1 : Nat) : Int) =
      (update_step syms ((List.range n).foldl (update_step syms) (vp, vp.curr_decoded_bit)) n).1 ∧
    update_viterbi_blk_scalar vp syms (n : Int) =
      ((List.range n).foldl (update_step syms) (vp, vp.curr_decoded_bit)).1 := by
  unfold update_viterbi_blk_scalar
  rw [Int.toNat_ofNat, Int.toNat_ofNat, List.range_succ, List.foldl_append]
  exact ⟨rfl, rfl⟩

/-- Without wraparound, the metrics stay non-negative over any number of symbols. -/
theorem run_nonneg (lo hi : Int) (syms : Nat → Int) (vp : vitdec_t) (nbits : Nat)
    (hle : lo ≤ hi)
    (hne : vp.old_metrics ≠ vp.new_metrics)
    (htab : ∀ j < 2, ∀ i < 2, vp.BranchTable j i = lo ∨ vp.BranchTable j i = hi)
    (hme : vp.soft_decision_max_error = hi - lo)
    (hsym : ∀ k, lo ≤ syms k ∧ syms k ≤ hi)
    (hM : ∀ k < 4, 0 ≤ buf vp vp.old_metrics k)
    (hnw : no_wraparound vp syms nbits hi lo) :
    ∀ n ≤ nbits,
      (update_viterbi_blk_scalar vp syms (n : Int)).old_metrics ≠
        (update_viterbi_blk_scalar vp syms (n : Int)).new_metrics ∧
      (update_viterbi_blk_scalar vp syms (n : Int)).BranchTable = vp.BranchTable ∧
      (update_viterbi_blk_scalar vp syms (n : Int)).soft_decision_max_error =
        vp.soft_decision_max_error ∧
      ∀ k < 4, 0 ≤ buf (update_viterbi_blk_scalar vp syms (n : Int))
        (update_viterbi_blk_scalar vp syms (n : Int)).old_metrics k := by
  obtain ⟨hstat, hdyn⟩ := hnw
  have hstat' : 2 * (hi - lo) ≤ 32767 := by
    simpa [CODE_RATE_eq, SHRT_MAX] using hstat
  intro n
  induction n with
  | zero =>
    intro _
    have e : update_viterbi_blk_scalar vp syms ((0 : Nat) : Int) = vp := rfl
    rw [e]
    exact ⟨hne, rfl, rfl, hM⟩
  | succ n ih =>
    intro hn
    obtain ⟨i1, i2, i3, i4⟩ := ih (by omega)
    have hcand := hdyn n (by omega)
    obtain ⟨e1, e2⟩ := update_blk_succ vp syms n
    rw [e1]
    rw [e2] at i1 i2 i3 i4 hcand
    generalize (List.range n).foldl (update_step syms) (vp, vp.curr_decoded_bit) = st at *
    obtain ⟨v, d⟩ := st
    simp only at i1 i2 i3 i4 hcand
    obtain ⟨s1, s2, s3, s4⟩ := update_step_nonneg lo hi n d syms v hle hstat' i1
      (by rw [i2]; exact htab) (by rw [i3]; exact hme) hsym i4 hcand
    exact ⟨s1, s2.trans i2, s3.trans i3, s4⟩

end Vit

open Vit in
/-- C18: `decoded_error` is non-negative.  Take a decoder `vp` whose branch table and
`soft_decision_max_error` are those `create_viterbi` builds for the soft levels
`soft_decision_low ≤ soft_decision_high` (the created decoder, also after use).  With all
soft inputs within `[soft_decision_low, soft_decision_high]` and no `int16` wraparound
(`no_wraparound`), after `init_viterbi(vp, starting_state)` and any number `nbits` of
symbols processed by `update_viterbi_blk_scalar`, every state metric is `≥ 0`, so
`get_error_viterbi` is non-negative for every state. -/
theorem decoded_error_nonneg (polys : Nat → Nat) (len : Nat)
    (soft_decision_high soft_decision_low : Int) (raw vp : vitdec_t) (starting_state : Int)
    (syms : Nat → Int) (nbits state : Nat)
    (hvp : vp.BranchTable =
        (create_viterbi polys len soft_decision_high soft_decision_low raw).BranchTable ∧
      vp.soft_decision_max_error =
        (create_viterbi polys len soft_decision_high soft_decision_low raw).soft_decision_max_error)
    (hle : soft_decision_low ≤ soft_decision_high)
    (hsym : ∀ k, soft_decision_low ≤ syms k ∧ syms k ≤ soft_decision_high)
    (hnw : no_wraparound (init_viterbi vp starting_state) syms nbits soft_decision_high
      soft_decision_low) :
    (∀ k < NUMSTATES,
      0 ≤ buf (update_viterbi_blk_scalar (init_viterbi vp starting_state) syms nbits)
        (update_viterbi_blk_scalar (init_viterbi vp starting_state) syms nbits).old_metrics k) ∧
    0 ≤ get_error_viterbi
      (update_viterbi_blk_scalar (init_viterbi vp starting_state) syms nbits) state := by
  obtain ⟨f1, f2, f3, f4, f5⟩ := init_viterbi_fields vp starting_state
  obtain ⟨_, _, c3, _, _, _, _, _, _, _, b00, b10, b01, b11⟩ :=
    create_viterbi_fields polys len soft_decision_high soft_decision_low raw
  have hstat : 2 * (soft_decision_high - soft_decision_low) ≤ 32767 := by
    simpa [CODE_RATE_eq, SHRT_MAX] using hnw.1
  have htab : ∀ j < 2, ∀ i < 2,
      (init_viterbi vp starting_state).BranchTable j i = soft_decision_low ∨
      (init_viterbi vp starting_state).BranchTable j i = soft_decision_high := by
    intro j hj i hi
    rw [f3, hvp.1]
    interval_cases j <;> interval_cases i
    · rw [b00]; split_ifs <;> simp
    · rw [b01]; split_ifs <;> simp
    · rw [b10]; split_ifs <;> simp
    · rw [b11]; split_ifs <;> simp
  have hme : (init_viterbi vp starting_state).soft_decision_max_error =
      soft_decision_high - soft_decision_low := by
    rw [f4, hvp.2, c3]
    exact to_int16_of_range (by omega) (by omega)
  have hM : ∀ k < 4, 0 ≤ buf (init_viterbi vp starting_state)
      (init_viterbi vp starting_state).old_metrics k := by
    intro k hk
    rw [f1]
    exact f5 k hk
  obtain ⟨_, _, _, r4⟩ := run_nonneg soft_decision_low soft_decision_high syms
    (init_viterbi vp starting_state) nbits hle (by rw [f1, f2]; decide) htab hme hsym hM hnw
    nbits (le_refl _)
  refine ⟨r4, ?_⟩
  unfold get_error_viterbi
  exact r4 _ (Nat.mod_lt _ (by decide))

open Vit in
/-- C18 at a concrete input: six noisy symbols between the soft levels -127 and 127. -/
theorem decoded_error_nonneg_witness :
    (∀ k < NUMSTATES,
      0 ≤ buf (update_viterbi_blk_scalar
          (init_viterbi (create_viterbi (fun j => if j = 0 then 7 else 5) 16 127 (-127)
            raw_example) 2)
          (fun k => if k % 3 = 0 then 100 else -50) (6 : Nat))
        (update_viterbi_blk_scalar
          (init_viterbi (create_viterbi (fun j => if j = 0 then 7 else 5) 16 127 (-127)
            raw_example) 2)
          (fun k => if k % 3 = 0 then 100 else -50) (6 : Nat)).old_metrics k) ∧
    0 ≤ get_error_viterbi
      (update_viterbi_blk_scalar
        (init_viterbi (create_viterbi (fun j => if j = 0 then 7 else 5) 16 127 (-127)
          raw_example) 2)
        (fun k => if k % 3 = 0 then 100 else -50) (6 : Nat)) 1 :=
  decoded_error_nonneg (fun j => if j = 0 then 7 else 5) 16 127 (-127) raw_example
    (create_viterbi (fun j => if j = 0 then 7 else 5) 16 127 (-127) raw_example) 2
    (fun k => if k % 3 = 0 then 100 else -50) 6 1 ⟨rfl, rfl⟩ (by decide)
    (fun k => by by_cases h : k % 3 = 0 <;> simp [h])
    (by unfold no_wraparound; decide)

namespace Vit

theorem iabs_eq_abs (x : Int) : iabs x = |x| := by
  unfold iabs
  split_ifs with h
  · exact (abs_of_pos h).symm
  · exact (abs_of_nonpos (by omega)).symm

theorem BFLY_metric_exact (i s : Nat) (syms : Nat → Int) (vp : vitdec_t)
    (h0 : -32767 ≤ vp.BranchTable 0 i - syms (s * 2) ∧ vp.BranchTable 0 i - syms (s * 2) ≤ 32767)
    (h1 : -32767 ≤ vp.BranchTable 1 i - syms (s * 2 + 1) ∧
      vp.BranchTable 1 i - syms (s * 2 + 1) ≤ 32767)
    (hs : |vp.BranchTable 0 i - syms (s * 2)| + |vp.BranchTable 1 i - syms (s * 2 + 1)| ≤ 32767) :
    BFLY_metric i s syms vp =
      |vp.BranchTable 0 i - syms (s * 2)| + |vp.BranchTable 1 i - syms (s * 2 + 1)| := by
  rw [← iabs_eq_abs, ← iabs_eq_abs] at hs ⊢
  simp only [BFLY_metric, CODE_RATE_eq, range_two, List.foldl_cons, List.foldl_nil, asr,
    METRICSHIFT, PRECISIONSHIFT, pow_zero, Int.ediv_one, zero_add, add_zero, iabs] at hs ⊢
  generalize vp.BranchTable 0 i - syms (s * 2) = e0 at *
  generalize vp.BranchTable 1 i - syms (s * 2 + 1) = e1 at *
  rw [to_int16_of_range (x := e0) (by omega) (by omega),
    to_int16_of_range (x := e1) (by omega) (by omega)]
  split_ifs at hs ⊢ <;> (unfold to_int16; omega)

theorem BFLY_max_exact (vp : vitdec_t)
    (h : -32768 ≤ 2 * vp.soft_decision_max_error ∧ 2 * vp.soft_decision_max_error ≤ 32767) :
    BFLY_max vp = 2 * vp.soft_decision_max_error := by
  simp only [BFLY_max, CODE_RATE_eq, asr, METRICSHIFT, PRECISIONSHIFT, pow_zero, Int.ediv_one]
  rw [to_int16_of_range] <;> push_cast <;> omega

theorem decision_slot (slot i d0 d1 : Nat) (hi : i < 2) (h0 : d0 ≤ 1) (h1 : d1 ≤ 1) :
    to_uint8 (slot ||| (to_uint8 (d0 ||| (d1 <<< 1)) <<< (2 * i % 8))) =
      to_uint8 (slot ||| (d0 <<< (2 * i)) ||| (d1 <<< (2 * i + 1))) := by
  interval_cases i <;> interval_cases d0 <;> interval_cases d1 <;>
    simp [to_uint8, Nat.lor_assoc]

end Vit

open Vit in
/-- C21: the butterfly `BFLY(i, s, syms, vp, d)` when no `int16` value wraps.  With
`metric = Σ_j |Branch[j][i] - sym[j]|` over the `CODE_RATE` soft values of symbol `s`,
`max = CODE_RATE * (soft_high - soft_low)`, `m0 = old[i] + metric`,
`m1 = old[i + NUMSTATES/2] + (max - metric)`, `m2 = old[i] + (max - metric)` and
`m3 = old[i + NUMSTATES/2] + metric`, all of them (and the differences and their negations)
within `COMPUTETYPE`: the butterfly computes this `metric` and `max`, writes
`new[2i] = min(m0, m1)` and `new[2i+1] = min(m2, m3)`, and ORs the decisions
`d0 = (m0 > m1)` and `d1 = (m2 > m3)` into bits `2i` and `2i+1` of decision slot `d`; on a
tie the first candidate is kept and the decision is 0.  `old` and `new` are the two
different metric buffers. -/
theorem butterfly (i s d : Nat) (syms : Nat → Int) (vp : vitdec_t)
    (soft_high soft_low metric max m0 m1 m2 m3 : Int)
    (hi : i < NUMSTATES / 2) (hne : vp.old_metrics ≠ vp.new_metrics)
    (hme : vp.soft_decision_max_error = soft_high - soft_low)
    (hmetric : metric =
      ((List.range CODE_RATE).map
        (fun j => |vp.BranchTable j i - syms (s * CODE_RATE + j)|)).sum)
    (hmax : max = CODE_RATE * (soft_high - soft_low))
    (hm0 : m0 = buf vp vp.old_metrics i + metric)
    (hm1 : m1 = buf vp vp.old_metrics (i + NUMSTATES / 2) + (max - metric))
    (hm2 : m2 = buf vp vp.old_metrics i + (max - metric))
    (hm3 : m3 = buf vp vp.old_metrics (i + NUMSTATES / 2) + metric)
    (herr : ∀ j < CODE_RATE, |vp.BranchTable j i - syms (s * CODE_RATE + j)| ≤ SHRT_MAX)
    (hfit : ∀ v ∈ [metric, max, m0, m1, m2, m3], -SHRT_MAX - 1 ≤ v ∧ v ≤ SHRT_MAX) :
    BFLY_metric i s syms vp = metric ∧ BFLY_max vp = max ∧
    buf (BFLY i s syms vp d) vp.new_metrics (2 * i) = min m0 m1 ∧
    buf (BFLY i s syms vp d) vp.new_metrics (2 * i + 1) = min m2 m3 ∧
    (BFLY i s syms vp d).decisions d 0 =
      to_uint8 (vp.decisions d 0 ||| ((if m0 > m1 then 1 else 0) <<< (2 * i)) |||
        ((if m2 > m3 then 1 else 0) <<< (2 * i + 1))) ∧
    (m0 = m1 → buf (BFLY i s syms vp d) vp.new_metrics (2 * i) = m0) ∧
    (m2 = m3 → buf (BFLY i s syms vp d) vp.new_metrics (2 * i + 1) = m2) := by
  have hi2 : i < 2 := hi
  simp only [List.mem_cons, List.mem_singleton, List.not_mem_nil, or_false, forall_eq_or_imp,
    forall_eq, SHRT_MAX] at hfit
  obtain ⟨f0, f1, f2, f3, f4, f5⟩ := hfit
  have e0 := herr 0 (by decide)
  have e1 := herr 1 (by decide)
  simp only [CODE_RATE_eq, SHRT_MAX, add_zero] at e0 e1
  simp only [CODE_RATE_eq, range_two, List.map_cons, List.map_nil, List.sum_cons, List.sum_nil,
    add_zero] at hmetric
  have hc : BFLY_metric i s syms vp = metric := by
    rw [hmetric]
    exact BFLY_metric_exact i s syms vp (abs_le.mp e0) (abs_le.mp e1) (by rw [← hmetric]; exact f0.2)
  have hmx2 : max = 2 * vp.soft_decision_max_error := by
    rw [hmax, hme, CODE_RATE_eq]
    push_cast
    ring
  have hmx : BFLY_max vp = max := by
    rw [hmx2]
    exact BFLY_max_exact vp (by rw [← hmx2]; exact f1)
  have hm1' : m1 = buf vp vp.old_metrics (i + 2) + (max - metric) := hm1
  have hm3' : m3 = buf vp vp.old_metrics (i + 2) + metric := hm3
  obtain ⟨_, _, _, _, _, _, _, a8, a9⟩ :=
    BFLY_eval i s d syms vp metric max (buf vp vp.old_metrics i) (buf vp vp.old_metrics (i + 2))
      hne hc hmx rfl rfl (by rw [← hm0]; exact f2) (by rw [← hm1']; exact f3)
      (by rw [← hm2]; exact f4) (by rw [← hm3']; exact f5)
  rw [← hm0, ← hm1', ← hm2, ← hm3'] at a8 a9
  have w1 : ∀ (b : Nat → Int) (X Y : Int), write (write b (2 * i) X) (2 * i + 1) Y (2 * i) = X := by
    intro b X Y
    simp [write]
  have w2 : ∀ (b : Nat → Int) (X Y : Int),
      write (write b (2 * i) X) (2 * i + 1) Y (2 * i + 1) = Y := by
    intro b X Y
    simp [write]
  have hidx : 2 * i / 8 = 0 := by omega
  refine ⟨hc, hmx, ?_, ?_, ?_, ?_, ?_⟩
  · rw [a8, w1]
    split_ifs with h
    · exact (min_eq_right (by omega)).symm
    · exact (min_eq_left (by omega)).symm
  · rw [a8, w2]
    split_ifs with h
    · exact (min_eq_right (by omega)).symm
    · exact (min_eq_left (by omega)).symm
  · rw [a9, hidx]
    simp only [write, if_true]
    have hd0 : dec_bits m0 m1 = if m0 > m1 then 1 else 0 := by
      unfold dec_bits
      split_ifs <;> first | rfl | omega
    have hd1 : dec_bits m2 m3 = if m2 > m3 then 1 else 0 := by
      unfold dec_bits
      split_ifs <;> first | rfl | omega
    rw [hd0, hd1]
    exact decision_slot _ i _ _ hi2 (by split_ifs <;> omega) (by split_ifs <;> omega)
  · intro h
    rw [a8, w1, if_neg (by omega)]
  · intro h
    rw [a8, w2, if_neg (by omega)]

open Vit in
/-- C21 at a concrete input: butterfly 1 of the first symbol `(100, -50)` on a decoder
created for the soft levels -127 and 127. -/
theorem butterfly_witness :
    BFLY_metric 1 0 (fun k => if k = 0 then 100 else -50)
      (create_viterbi (fun j => if j = 0 then 7 else 5) 16 127 (-127) raw_example) = 104 ∧
    BFLY_max (create_viterbi (fun j => if j = 0 then 7 else 5) 16 127 (-127) raw_example) =
      508 ∧
    buf (BFLY 1 0 (fun k => if k = 0 then 100 else -50)
      (create_viterbi (fun j => if j = 0 then 7 else 5) 16 127 (-127) raw_example) 0)
      (create_viterbi (fun j => if j = 0 then 7 else 5) 16 127 (-127) raw_example).new_metrics
      (2 * 1) = min 3104 3404 ∧
    buf (BFLY 1 0 (fun k => if k = 0 then 100 else -50)
      (create_viterbi (fun j => if j = 0 then 7 else 5) 16 127 (-127) raw_example) 0)
      (create_viterbi (fun j => if j = 0 then 7 else 5) 16 127 (-127) raw_example).new_metrics
      (2 * 1 + 1) = min 3404 3104 ∧
    (BFLY 1 0 (fun k => if k = 0 then 100 else -50)
      (create_viterbi (fun j => if j = 0 then 7 else 5) 16 127 (-127) raw_example)
      0).decisions 0 0 =
      to_uint8 ((create_viterbi (fun j => if j = 0 then 7 else 5) 16 127 (-127)
          raw_example).decisions 0 0 |||
        ((if (3104 : Int) > 3404 then 1 else 0) <<< (2 * 1)) |||
        ((if (3404 : Int) > 3104 then 1 else 0) <<< (2 * 1 + 1))) ∧
    ((3104 : Int) = 3404 →
      buf (BFLY 1 0 (fun k => if k = 0 then 100 else -50)
        (create_viterbi (fun j => if j = 0 then 7 else 5) 16 127 (-127) raw_example) 0)
        (create_viterbi (fun j => if j = 0 then 7 else 5) 16 127 (-127)
          raw_example).new_metrics (2 * 1) = 3104) ∧
    ((3404 : Int) = 3104 →
      buf (BFLY 1 0 (fun k => if k = 0 then 100 else -50)
        (create_viterbi (fun j => if j = 0 then 7 else 5) 16 127 (-127) raw_example) 0)
        (create_viterbi (fun j => if j = 0 then 7 else 5) 16 127 (-127)
          raw_example).new_metrics (2 * 1 + 1) = 3404) :=
  butterfly 1 0 0 (fun k => if k = 0 then 100 else -50)
    (create_viterbi (fun j => if j = 0 then 7 else 5) 16 127 (-127) raw_example)
    127 (-127) 104 508 3104 3404 3404 3104 (by decide) (by decide) (by decide) (by decide)
    (by decide) (by decide) (by decide) (by decide) (by decide) (by decide) (by decide)

namespace Vit

/-- The subtraction loop of `renormalize`. -/
theorem renormalize_sub (x : Nat → Int) (mn : Int) (k : Nat) (hk : k < NUMSTATES) :
    (List.range NUMSTATES).foldl (fun x i => write x i (to_int16 (x i - mn))) x k =
      to_int16 (x k - mn) := by
  have hk4 : k < 4 := hk
  simp only [NUMSTATES_eq, range_four, List.foldl_cons, List.foldl_nil, write]
  interval_cases k <;> simp

/-- What `renormalize` computes. -/
theorem renormalize_spec (x : Nat → Int) (threshold : Int) :
    (x 0 > threshold →
      ∃ m, (∀ k < NUMSTATES, m ≤ x k) ∧ (∃ k < NUMSTATES, x k = m) ∧
        ∀ k < NUMSTATES, renormalize x threshold k = to_int16 (x k - m)) ∧
    (¬ x 0 > threshold → renormalize x threshold = x) := by
  constructor
  · intro h
    obtain ⟨hmin, m, hm, hmeq⟩ := renormalize_min x
    refine ⟨_, hmin, ⟨m, hm, hmeq.symm⟩, fun k hk => ?_⟩
    unfold renormalize
    rw [if_pos h]
    exact renormalize_sub x _ k hk
  · intro h
    unfold renormalize
    rw [if_neg h]

/-- The metrics a symbol leaves are the new metrics of its butterflies after
`renormalize`. -/
theorem update_step_renormalize (syms : Nat → Int) (vp : vitdec_t) (d s : Nat) :
    buf (update_step syms (vp, d) s).1 (update_step syms (vp, d) s).1.old_metrics =
      renormalize
        (buf ((List.range (NUMSTATES / 2)).foldl (fun vp i => BFLY i s syms vp d) vp)
          ((List.range (NUMSTATES / 2)).foldl (fun vp i => BFLY i s syms vp d) vp).new_metrics)
        RENORMALIZE_THRESHOLD := by
  simp only [update_step]
  generalize (List.range (NUMSTATES / 2)).foldl (fun vp i => BFLY i s syms vp d) vp = v
  cases h : v.new_metrics <;> simp [buf]

end Vit

open Vit in
/-- C22 (as amended): the renormalization trigger.  After the butterflies of each symbol
`update_viterbi_blk_scalar` applies `renormalize` to the new state metrics with the ceiling
`RENORMALIZE_THRESHOLD = SHRT_MAX - 3000`.  `renormalize` looks at the metric of state 0
only: if `x[0]` exceeds the ceiling, the minimum `m` over all `NUMSTATES` states is
subtracted from every state metric (as `COMPUTETYPE`); otherwise the metrics are left as
they are, also when another state exceeds the ceiling. -/
theorem renormalization_trigger (syms : Nat → Int) (vp : vitdec_t) (d s : Nat)
    (x : Nat → Int) (threshold : Int) :
    RENORMALIZE_THRESHOLD = SHRT_MAX - 3000 ∧
    buf (update_step syms (vp, d) s).1 (update_step syms (vp, d) s).1.old_metrics =
      renormalize
        (buf ((List.range (NUMSTATES / 2)).foldl (fun vp i => BFLY i s syms vp d) vp)
          ((List.range (NUMSTATES / 2)).foldl (fun vp i => BFLY i s syms vp d) vp).new_metrics)
        RENORMALIZE_THRESHOLD ∧
    (x 0 > threshold →
      ∃ m, (∀ k < NUMSTATES, m ≤ x k) ∧ (∃ k < NUMSTATES, x k = m) ∧
        ∀ k < NUMSTATES, renormalize x threshold k = to_int16 (x k - m)) ∧
    (¬ x 0 > threshold → renormalize x threshold = x) :=
  ⟨rfl, update_step_renormalize syms vp d s, renormalize_spec x threshold⟩

open Vit in
/-- C22 fails on the code: a decoder created for the soft levels -250 and 250 is fed 59
symbols at the midpoint and one at `(-250, -250)`.  After the butterflies of the last symbol
the metrics of states 2 and 3 are 30000, above the ceiling 29767, and the minimum is 29500;
nothing is subtracted, because state 0 is at 29500. -/
theorem renormalization_not_triggered :
    (List.range 4).map (get_error_viterbi (update_viterbi_blk_scalar
        (create_viterbi (fun j => if j = 0 then 7 else 5) 200 250 (-250) raw_example)
        (fun k => if k < 2 * 59 then 0 else -250) (60 : Nat))) =
      [29500, 29500, 30000, 30000] ∧
    RENORMALIZE_THRESHOLD = 29767 := by
  decide!

open Vit in
/-- C23: the postcondition of `renormalize`.  On non-negative `COMPUTETYPE` metrics `x`:
when it subtracts (`x[0]` above the threshold), every entry becomes `x[i] - m` with `m` the
minimum over the states; afterwards every metric is non-negative, some metric is exactly 0,
and every pairwise difference is what it was.  When it does not subtract, `x` is
unchanged. -/
theorem renormalize_postcondition (x : Nat → Int) (threshold : Int)
    (hx : ∀ k < NUMSTATES, 0 ≤ x k ∧ x k ≤ SHRT_MAX) :
    (x 0 > threshold →
      ∃ m, (∀ k < NUMSTATES, m ≤ x k) ∧ (∃ k < NUMSTATES, x k = m) ∧
        (∀ i < NUMSTATES, renormalize x threshold i = x i - m) ∧
        (∀ i < NUMSTATES, 0 ≤ renormalize x threshold i) ∧
        (∃ i < NUMSTATES, renormalize x threshold i = 0) ∧
        ∀ i < NUMSTATES, ∀ j < NUMSTATES,
          renormalize x threshold i - renormalize x threshold j = x i - x j) ∧
    (¬ x 0 > threshold → renormalize x threshold = x) := by
  obtain ⟨h1, h2⟩ := renormalize_spec x threshold
  refine ⟨fun h => ?_, h2⟩
  obtain ⟨m, hmin, ⟨k0, hk0, hk0m⟩, hsub⟩ := h1 h
  have hm0 : 0 ≤ m := by rw [← hk0m]; exact (hx k0 hk0).1
  have e : ∀ i < NUMSTATES, renormalize x threshold i = x i - m := by
    intro i hi
    rw [hsub i hi]
    have := hmin i hi
    have := (hx i hi).2
    simp only [SHRT_MAX] at this
    exact to_int16_of_range (by omega) (by omega)
  refine ⟨m, hmin, ⟨k0, hk0, hk0m⟩, e, ?_, ⟨k0, hk0, ?_⟩, ?_⟩
  · intro i hi
    rw [e i hi]
    have := hmin i hi
    omega
  · rw [e k0 hk0, hk0m]
    omega
  · intro i hi j hj
    rw [e i hi, e j hj]
    omega

open Vit in
/-- C23 at a concrete input: four metrics above the ceiling. -/
theorem renormalize_postcondition_witness :
    ((fun k : Nat => (30000 : Int) + 17 * k) 0 > RENORMALIZE_THRESHOLD →
      ∃ m, (∀ k < NUMSTATES, m ≤ (fun k : Nat => (30000 : Int) + 17 * k) k) ∧
        (∃ k < NUMSTATES, (fun k : Nat => (30000 : Int) + 17 * k) k = m) ∧
        (∀ i < NUMSTATES,
          renormalize (fun k : Nat => (30000 : Int) + 17 * k) RENORMALIZE_THRESHOLD i =
            (fun k : Nat => (30000 : Int) + 17 * k) i - m) ∧
        (∀ i < NUMSTATES,
          0 ≤ renormalize (fun k : Nat => (30000 : Int) + 17 * k) RENORMALIZE_THRESHOLD i) ∧
        (∃ i < NUMSTATES,
          renormalize (fun k : Nat => (30000 : Int) + 17 * k) RENORMALIZE_THRESHOLD i = 0) ∧
        ∀ i < NUMSTATES, ∀ j < NUMSTATES,
          renormalize (fun k : Nat => (30000 : Int) + 17 * k) RENORMALIZE_THRESHOLD i -
            renormalize (fun k : Nat => (30000 : Int) + 17 * k) RENORMALIZE_THRESHOLD j =
            (fun k : Nat => (30000 : Int) + 17 * k) i -
              (fun k : Nat => (30000 : Int) + 17 * k) j) ∧
    (¬ (fun k : Nat => (30000 : Int) + 17 * k) 0 > RENORMALIZE_THRESHOLD →
      renormalize (fun k : Nat => (30000 : Int) + 17 * k) RENORMALIZE_THRESHOLD =
        (fun k : Nat => (30000 : Int) + 17 * k)) :=
  renormalize_postcondition (fun k : Nat => (30000 : Int) + 17 * k) RENORMALIZE_THRESHOLD
    (by decide)

namespace Vit

/-- What a butterfly leaves alone, whatever the metrics are. -/
theorem BFLY_frame (i s d : Nat) (syms : Nat → Int) (vp : vitdec_t) :
    (BFLY i s syms vp d).old_metrics = vp.old_metrics ∧
    (BFLY i s syms vp d).new_metrics = vp.new_metrics ∧
    (BFLY i s syms vp d).BranchTable = vp.BranchTable ∧
    (BFLY i s syms vp d).soft_decision_max_error = vp.soft_decision_max_error ∧
    (BFLY i s syms vp d).curr_decoded_bit = vp.curr_decoded_bit ∧
    (BFLY i s syms vp d).maximum_decoded_bits = vp.maximum_decoded_bits ∧
    (vp.old_metrics ≠ vp.new_metrics →
      buf (BFLY i s syms vp d) vp.old_metrics = buf vp vp.old_metrics) ∧
    ∀ t, t ≠ d → (BFLY i s syms vp d).decisions t = vp.decisions t := by
  simp only [BFLY]
  cases ho : vp.old_metrics <;> cases hn : vp.new_metrics <;>
    simp_all [buf, set_buf, write]

/-- What one symbol of `update_viterbi_blk_scalar` leaves alone: after the swap the
`new_metrics` buffer is the one that held the metrics before this symbol, untouched. -/
theorem update_step_frame (s d : Nat) (syms : Nat → Int) (vp : vitdec_t) :
    (update_step syms (vp, d) s).2 = d + 1 ∧
    (update_step syms (vp, d) s).1.old_metrics = vp.new_metrics ∧
    (update_step syms (vp, d) s).1.new_metrics = vp.old_metrics ∧
    (update_step syms (vp, d) s).1.curr_decoded_bit = vp.curr_decoded_bit + 1 ∧
    (update_step syms (vp, d) s).1.maximum_decoded_bits = vp.maximum_decoded_bits ∧
    (vp.old_metrics ≠ vp.new_metrics →
      buf (update_step syms (vp, d) s).1 vp.old_metrics = buf vp vp.old_metrics) ∧
    ∀ t, t ≠ d → (update_step syms (vp, d) s).1.decisions t = vp.decisions t := by
  obtain ⟨a1, a2, -, -, a5, a6, a7, a8⟩ := BFLY_frame 0 s d syms vp
  generalize hv1 : BFLY 0 s syms vp d = vp1 at *
  obtain ⟨b1, b2, -, -, b5, b6, b7, b8⟩ := BFLY_frame 1 s d syms vp1
  generalize hv2 : BFLY 1 s syms vp1 d = vp2 at *
  have hfold : (List.range (NUMSTATES / 2)).foldl (fun vp i => BFLY i s syms vp d) vp = vp2 := by
    simp only [half_states, range_two, List.foldl_cons, List.foldl_nil, hv1, hv2]
  have n2 : vp2.new_metrics = vp.new_metrics := by rw [b2, a2]
  have o2 : vp2.old_metrics = vp.old_metrics := by rw [b1, a1]
  have hold : vp.old_metrics ≠ vp.new_metrics → buf vp2 vp.old_metrics = buf vp vp.old_metrics := by
    intro hne
    rw [← a1, b7 (by rw [a1, a2]; exact hne), a1, a7 hne]
  refine ⟨rfl, ?_, ?_, ?_, ?_, ?_, ?_⟩ <;> simp only [update_step, hfold]
  · cases hn2 : vp2.new_metrics <;> simp only <;> rw [← n2, hn2]
  · cases hn2 : vp2.new_metrics <;> simp only <;> rw [o2]
  · cases hn2 : vp2.new_metrics <;> simp only <;> rw [b5, a5]
  · cases hn2 : vp2.new_metrics <;> simp only <;> rw [b6, a6]
  · intro hne
    have h := hold hne
    rw [← n2] at hne
    cases hn2 : vp2.new_metrics <;> cases ho : vp.old_metrics <;>
      simp_all [buf]
  · intro t ht
    cases hn2 : vp2.new_metrics <;> simp only <;> rw [b8 t ht, a8 t ht]

/-- The symbol loop of `update_viterbi_blk_scalar` after `n` symbols. -/
theorem run_frame (syms : Nat → Int) (vp : vitdec_t) (hne : vp.old_metrics ≠ vp.new_metrics) :
    ∀ n : Nat,
      ((List.range n).foldl (update_step syms) (vp, vp.curr_decoded_bit)).2 =
        vp.curr_decoded_bit + n ∧
      (update_viterbi_blk_scalar vp syms (n : Int)).old_metrics ≠
        (update_viterbi_blk_scalar vp syms (n : Int)).new_metrics ∧
      (update_viterbi_blk_scalar vp syms (n : Int)).curr_decoded_bit = vp.curr_decoded_bit + n ∧
      (update_viterbi_blk_scalar vp syms (n : Int)).maximum_decoded_bits =
        vp.maximum_decoded_bits ∧
      (∀ t, (t < vp.curr_decoded_bit ∨ vp.curr_decoded_bit + n ≤ t) →
        (update_viterbi_blk_scalar vp syms (n : Int)).decisions t = vp.decisions t) ∧
      buf (update_viterbi_blk_scalar vp syms ((n + 1 : Nat) : Int))
          (update_viterbi_blk_scalar vp syms ((n + 1 : Nat) : Int)).new_metrics =
        buf (update_viterbi_blk_scalar vp syms (n : Int))
          (update_viterbi_blk_scalar vp syms (n : Int)).old_metrics := by
  intro n
  induction n with
  | zero =>
    have e0 : update_viterbi_blk_scalar vp syms ((0 : Nat) : Int) = vp := rfl
    have e1 := (update_blk_succ vp syms 0).1
    simp only [List.range_zero, List.foldl_nil] at e1
    obtain ⟨-, -, s3, -, -, s6, -⟩ := update_step_frame 0 vp.curr_decoded_bit syms vp
    rw [e0]
    refine ⟨rfl, hne, rfl, rfl, fun _ _ => rfl, ?_⟩
    rw [e1, s3, s6 hne]
  | succ n ih =>
    obtain ⟨i1, i2, i3, i4, i5, -⟩ := ih
    have e1 := (update_blk_succ vp syms n).1
    have e2 := (update_blk_succ vp syms n).2
    have e3 := (update_blk_succ vp syms (n + 1)).1
    have e4 := (update_blk_succ vp syms (n + 1)).2
    generalize hst : (List.range n).foldl (update_step syms) (vp, vp.curr_decoded_bit) = st at *
    obtain ⟨vq, d⟩ := st
    simp only at i1 e1 e2
    rw [e2] at i2 i3 i4 i5
    obtain ⟨s1, s2, s3, s4, s5, s6, s7⟩ := update_step_frame n d syms vq
    rw [← e1] at s2 s3 s4 s5 s6 s7
    have hne1 : (update_viterbi_blk_scalar vp syms ((n + 1 : Nat) : Int)).old_metrics ≠
        (update_viterbi_blk_scalar vp syms ((n + 1 : Nat) : Int)).new_metrics := by
      rw [s2, s3]; exact fun h => i2 h.symm
    have hst1 : (List.range (n + 1)).foldl (update_step syms) (vp, vp.curr_decoded_bit) =
        update_step syms (vq, d) n := by
      rw [List.range_succ, List.foldl_append, hst]; rfl
    refine ⟨?_, hne1, ?_, ?_, ?_, ?_⟩
    · rw [hst1, s1, i1]; omega
    · rw [s4, i3]; omega
    · rw [s5, i4]
    · intro t ht
      rw [s7 t (by omega), i5 t (by omega)]
    · rw [hst1] at e3
      generalize hw : update_step syms (vq, d) n = w at *
      obtain ⟨vr, d2⟩ := w
      simp only at e3 e1
      obtain ⟨-, -, t3, -, -, t6, -⟩ := update_step_frame (n + 1) d2 syms vr
      rw [e3, t3, t6 (by rw [← e1]; exact hne1), ← e1]

/-- The scan of `chainback_viterbi` for the state to start from finds a state that is least
in the buffer it reads, the lowest index on ties. -/
theorem chainback_start_least (vp : vitdec_t) :
    chainback_start vp < NUMSTATES ∧
    (∀ k < NUMSTATES, buf vp vp.new_metrics (chainback_start vp) ≤ buf vp vp.new_metrics k) ∧
    ∀ k < chainback_start vp,
      buf vp vp.new_metrics (chainback_start vp) < buf vp vp.new_metrics k := by
  simp only [chainback_start, NUMSTATES_eq, Nat.add_one_sub_one,
    show List.range 3 = [0, 1, 2] from rfl, List.foldl_cons, List.foldl_nil, Nat.zero_add,
    Nat.reduceAdd]
  generalize buf vp vp.new_metrics = x
  by_cases h1 : x 1 < x 0
  · by_cases h2 : x 2 < x 1
    · by_cases h3 : x 3 < x 2
      · simp only [h1, h2, h3, if_true]
        refine ⟨by omega, fun k hk => ?_, fun k hk => ?_⟩ <;> interval_cases k <;> omega
      · simp only [h1, h2, h3, if_true, if_false]
        refine ⟨by omega, fun k hk => ?_, fun k hk => ?_⟩ <;> interval_cases k <;> omega
    · by_cases h3 : x 3 < x 1
      · simp only [h1, h2, h3, if_true, if_false]
        refine ⟨by omega, fun k hk => ?_, fun k hk => ?_⟩ <;> interval_cases k <;> omega
      · simp only [h1, h2, h3, if_true, if_false]
        refine ⟨by omega, fun k hk => ?_, fun k hk => ?_⟩ <;> interval_cases k <;> omega
  · by_cases h2 : x 2 < x 0
    · by_cases h3 : x 3 < x 2
      · simp only [h1, h2, h3, if_true, if_false]
        refine ⟨by omega, fun k hk => ?_, fun k hk => ?_⟩ <;> interval_cases k <;> omega
      · simp only [h1, h2, h3, if_true, if_false]
        refine ⟨by omega, fun k hk => ?_, fun k hk => ?_⟩ <;> interval_cases k <;> omega
    · by_cases h3 : x 3 < x 0
      · simp only [h1, h2, h3, if_true, if_false]
        refine ⟨by omega, fun k hk => ?_, fun k hk => ?_⟩ <;> interval_cases k <;> omega
      · simp only [h1, h2, h3, if_true, if_false]
        refine ⟨by omega, fun k hk => ?_, fun k hk => ?_⟩ <;> interval_cases k <;> omega

end Vit

namespace Vit

/-- Every reachable decoder keeps its two metric pointers apart, `curr_decoded_bit` within
the allocated slots, and the slots from `curr_decoded_bit` on zero. -/
theorem reachable_inv (polys : Nat → Nat) (len : Nat) (hi lo : Int) (raw vp : vitdec_t)
    (h : Reachable polys len hi lo raw vp) :
    vp.old_metrics ≠ vp.new_metrics ∧
    vp.curr_decoded_bit ≤ vp.maximum_decoded_bits ∧
    ∀ t, vp.curr_decoded_bit ≤ t → t < vp.maximum_decoded_bits → vp.decisions t = fun _ => 0 := by
  induction h with
  | create =>
    obtain ⟨c1, c2, -, c4, c5, c6, -⟩ := create_viterbi_fields polys len hi lo raw
    refine ⟨by rw [c1, c2]; decide, by rw [c5]; omega, fun t _ ht => ?_⟩
    rw [c4] at ht
    rw [c6]
    simp only [ht, if_true]
  | init vp s _ ih =>
    obtain ⟨-, i2, i3⟩ := ih
    refine ⟨by rw [(init_viterbi_fields vp s).1, (init_viterbi_fields vp s).2.1]; decide,
      Nat.zero_le _, fun t _ ht => ?_⟩
    have hm : (init_viterbi vp s).maximum_decoded_bits = vp.maximum_decoded_bits := by
      unfold init_viterbi
      cases vp.old_metrics <;> rfl
    have hd : (init_viterbi vp s).decisions t =
        if t < vp.curr_decoded_bit then fun _ => 0 else vp.decisions t := by
      unfold init_viterbi
      rfl
    rw [hm] at ht
    rw [hd]
    split_ifs with hc
    · rfl
    · exact i3 t (by omega) ht
  | update vp syms nbits _ hfit ih =>
    obtain ⟨i1, i2, i3⟩ := ih
    have hn : update_viterbi_blk_scalar vp syms nbits =
        update_viterbi_blk_scalar vp syms ((nbits.toNat : Nat) : Int) := by
      unfold update_viterbi_blk_scalar
      rw [Int.toNat_ofNat]
    obtain ⟨-, r2, r3, r4, r5, -⟩ := run_frame syms vp i1 nbits.toNat
    rw [hn]
    refine ⟨r2, by rw [r3, r4]; exact hfit, fun t h1 h2 => ?_⟩
    rw [r3] at h1
    rw [r4] at h2
    rw [r5 t (Or.inr h1)]
    exact i3 t (by omega) h2

/-- The metrics `init_viterbi` leaves in the old-state buffer. -/
theorem init_viterbi_metrics (vp : vitdec_t) (s : Int) :
    (init_viterbi vp s).curr_decoded_bit = 0 ∧
    (init_viterbi vp s).maximum_decoded_bits = vp.maximum_decoded_bits ∧
    ∀ k < NUMSTATES, buf (init_viterbi vp s) (init_viterbi vp s).old_metrics k =
      if k = (s % (NUMSTATES : Int)).toNat then INITIAL_START_ERROR
      else INITIAL_NON_START_ERROR := by
  refine ⟨rfl, rfl, fun k hk => ?_⟩
  have h1 : 0 ≤ s % (NUMSTATES : Int) := Int.emod_nonneg _ (by decide)
  have h2 : s % (NUMSTATES : Int) < 4 := Int.emod_lt_of_pos _ (by decide)
  have h3 : (s % (NUMSTATES : Int)).toNat < 4 := by omega
  simp only [init_viterbi]
  generalize (s % (NUMSTATES : Int)).toNat = q at *
  simp only [NUMSTATES_eq, range_four, List.foldl_cons, List.foldl_nil, set_buf,
    buf, write, INITIAL_START_ERROR, INITIAL_NON_START_ERROR]
  rw [NUMSTATES_eq] at hk
  interval_cases k <;> interval_cases q <;> simp

end Vit

open Vit in
/-- C28: frame initialisation.  For every decoder `vp` reachable from `create_viterbi`
through any sequence of `init_viterbi` and `update_viterbi_blk_scalar` calls that keeps
`curr_decoded_bit ≤ maximum_decoded_bits`, the decision slots of `vp` from
`curr_decoded_bit` up to `maximum_decoded_bits` are zero, and after `init_viterbi(vp, s)` the
old-state metrics are 3000 for every state except state `s mod 2^(K-1)`, whose metric is 0,
`curr_decoded_bit` is 0, and every decision slot in `[0, maximum_decoded_bits)` is zero. -/
theorem frame_initialisation (polys : Nat → Nat) (len : Nat)
    (soft_decision_high soft_decision_low : Int) (raw vp : vitdec_t) (s : Int)
    (hreach : Reachable polys len soft_decision_high soft_decision_low raw vp) :
    vp.curr_decoded_bit ≤ vp.maximum_decoded_bits ∧
    (∀ t, vp.curr_decoded_bit ≤ t → t < vp.maximum_decoded_bits → ∀ b, vp.decisions t b = 0) ∧
    (∀ k < 2 ^ (K - 1), buf (init_viterbi vp s) (init_viterbi vp s).old_metrics k =
      if k = (s % (2 ^ (K - 1) : Int)).toNat then 0 else 3000) ∧
    (init_viterbi vp s).curr_decoded_bit = 0 ∧
    (init_viterbi vp s).maximum_decoded_bits = vp.maximum_decoded_bits ∧
    ∀ t < (init_viterbi vp s).maximum_decoded_bits, ∀ b, (init_viterbi vp s).decisions t b = 0 := by
  obtain ⟨-, i2, i3⟩ := reachable_inv polys len soft_decision_high soft_decision_low raw vp hreach
  obtain ⟨-, j2, j3⟩ := reachable_inv polys len soft_decision_high soft_decision_low raw _
    (Reachable.init vp s hreach)
  obtain ⟨m1, m2, m3⟩ := init_viterbi_metrics vp s
  refine ⟨i2, fun t h1 h2 b => by rw [i3 t h1 h2], m3, m1, m2, fun t ht b => ?_⟩
  rw [j3 t (by rw [m1]; exact Nat.zero_le _) ht]

open Vit in
/-- C28 at a concrete input: a decoder that has decoded nine symbols of one frame, was
initialised again with starting state -3 and has decoded four symbols of the next frame. -/
theorem frame_initialisation_witness :
    Reachable (fun j => if j = 0 then 7 else 5) 8 127 (-127) raw_example
      (update_viterbi_blk_scalar (init_viterbi (update_viterbi_blk_scalar
        (create_viterbi (fun j => if j = 0 then 7 else 5) 8 127 (-127) raw_example)
        erased_example 9) (-3)) erased_example 4) ∧
    ((update_viterbi_blk_scalar (init_viterbi (update_viterbi_blk_scalar
        (create_viterbi (fun j => if j = 0 then 7 else 5) 8 127 (-127) raw_example)
        erased_example 9) (-3)) erased_example 4).curr_decoded_bit ≤
      (update_viterbi_blk_scalar (init_viterbi (update_viterbi_blk_scalar
        (create_viterbi (fun j => if j = 0 then 7 else 5) 8 127 (-127) raw_example)
        erased_example 9) (-3)) erased_example 4).maximum_decoded_bits ∧
    (∀ t, (update_viterbi_blk_scalar (init_viterbi (update_viterbi_blk_scalar
        (create_viterbi (fun j => if j = 0 then 7 else 5) 8 127 (-127) raw_example)
        erased_example 9) (-3)) erased_example 4).curr_decoded_bit ≤ t →
      t < (update_viterbi_blk_scalar (init_viterbi (update_viterbi_blk_scalar
        (create_viterbi (fun j => if j = 0 then 7 else 5) 8 127 (-127) raw_example)
        erased_example 9) (-3)) erased_example 4).maximum_decoded_bits →
      ∀ b, (update_viterbi_blk_scalar (init_viterbi (update_viterbi_blk_scalar
        (create_viterbi (fun j => if j = 0 then 7 else 5) 8 127 (-127) raw_example)
        erased_example 9) (-3)) erased_example 4).decisions t b = 0) ∧
    (∀ k < 2 ^ (K - 1), buf (init_viterbi (update_viterbi_blk_scalar (init_viterbi
        (update_viterbi_blk_scalar
          (create_viterbi (fun j => if j = 0 then 7 else 5) 8 127 (-127) raw_example)
          erased_example 9) (-3)) erased_example 4) 6)
        (init_viterbi (update_viterbi_blk_scalar (init_viterbi (update_viterbi_blk_scalar
          (create_viterbi (fun j => if j = 0 then 7 else 5) 8 127 (-127) raw_example)
          erased_example 9) (-3)) erased_example 4) 6).old_metrics k =
      if k = ((6 : Int) % (2 ^ (K - 1) : Int)).toNat then 0 else 3000) ∧
    (init_viterbi (update_viterbi_blk_scalar (init_viterbi (update_viterbi_blk_scalar
      (create_viterbi (fun j => if j = 0 then 7 else 5) 8 127 (-127) raw_example)
      erased_example 9) (-3)) erased_example 4) 6).curr_decoded_bit = 0 ∧
    (init_viterbi (update_viterbi_blk_scalar (init_viterbi (update_viterbi_blk_scalar
      (create_viterbi (fun j => if j = 0 then 7 else 5) 8 127 (-127) raw_example)
      erased_example 9) (-3)) erased_example 4) 6).maximum_decoded_bits =
      (update_viterbi_blk_scalar (init_viterbi (update_viterbi_blk_scalar
        (create_viterbi (fun j => if j = 0 then 7 else 5) 8 127 (-127) raw_example)
        erased_example 9) (-3)) erased_example 4).maximum_decoded_bits ∧
    ∀ t < (init_viterbi (update_viterbi_blk_scalar (init_viterbi (update_viterbi_blk_scalar
        (create_viterbi (fun j => if j = 0 then 7 else 5) 8 127 (-127) raw_example)
        erased_example 9) (-3)) erased_example 4) 6).maximum_decoded_bits,
      ∀ b, (init_viterbi (update_viterbi_blk_scalar (init_viterbi (update_viterbi_blk_scalar
        (create_viterbi (fun j => if j = 0 then 7 else 5) 8 127 (-127) raw_example)
        erased_example 9) (-3)) erased_example 4) 6).decisions t b = 0) :=
  ⟨Reachable.update _ _ _ (Reachable.init _ _ (Reachable.update _ _ _ Reachable.create
      (by decide))) (by decide!),
   frame_initialisation (fun j => if j = 0 then 7 else 5) 8 127 (-127) raw_example _ 6
    (Reachable.update _ _ _ (Reachable.init _ _ (Reachable.update _ _ _ Reachable.create
      (by decide))) (by decide!))⟩

namespace Vit

/-- The metric invariant bounds every metric. -/
theorem ceiling_bounds (M : Int) (x : Nat → Int) (hM0 : 0 ≤ M) (h : CeilingInv M x) :
    x 0 ≤ RENORMALIZE_THRESHOLD ∧
    ∀ k < 4, 0 ≤ x k ∧ x k ≤ RENORMALIZE_THRESHOLD + 2 * M := by
  obtain ⟨⟨p0, p1, p2, p3⟩, h0, h⟩ := h
  simp only [RENORMALIZE_THRESHOLD, SHRT_MAX, INITIAL_NON_START_ERROR] at *
  refine ⟨h0, fun k hk => ?_⟩
  interval_cases k <;> omega

/-- One symbol keeps the metric invariant: `y` are the new metrics the butterflies compute
from the old metrics `x` and the branch metrics `c0`, `c1`. -/
theorem ceiling_step (M c0 c1 : Int) (x y : Nat → Int) (hM0 : 0 ≤ M) (hM : 3 * M ≤ 3000)
    (hc0 : 0 ≤ c0 ∧ c0 ≤ M) (hc1 : 0 ≤ c1 ∧ c1 ≤ M)
    (h0 : y 0 = if x 0 + c0 - (x 2 + (M - c0)) > 0 then x 2 + (M - c0) else x 0 + c0)
    (h1 : y 1 = if x 0 + (M - c0) - (x 2 + c0) > 0 then x 2 + c0 else x 0 + (M - c0))
    (h2 : y 2 = if x 1 + c1 - (x 3 + (M - c1)) > 0 then x 3 + (M - c1) else x 1 + c1)
    (h3 : y 3 = if x 1 + (M - c1) - (x 3 + c1) > 0 then x 3 + c1 else x 1 + (M - c1))
    (hx : CeilingInv M x) :
    CeilingInv M (renormalize y RENORMALIZE_THRESHOLD) := by
  obtain ⟨⟨p0, p1, p2, p3⟩, hx0, hx⟩ := hx
  have hT : RENORMALIZE_THRESHOLD = 29767 := by decide
  simp only [INITIAL_NON_START_ERROR, zero_add] at hx
  rw [hT] at hx0 ⊢
  -- the new metrics
  have q0 : 0 ≤ y 0 := by rw [h0]; split_ifs <;> omega
  have q1 : 0 ≤ y 1 := by rw [h1]; split_ifs <;> omega
  have q2 : 0 ≤ y 2 := by rw [h2]; split_ifs <;> omega
  have q3 : 0 ≤ y 3 := by rw [h3]; split_ifs <;> omega
  have s01 : y 0 - y 1 ≤ M ∧ y 1 - y 0 ≤ M := by rw [h0, h1]; split_ifs <;> omega
  have s23 : y 2 - y 3 ≤ M ∧ y 3 - y 2 ≤ M := by rw [h2, h3]; split_ifs <;> omega
  have hcase : (y 0 ≤ 3000 + M ∧ y 1 ≤ 3000 + M ∧ y 2 ≤ 3000 + M ∧ y 3 ≤ 3000 + M) ∨
      (y 0 - y 2 ≤ 2 * M ∧ y 2 - y 0 ≤ 2 * M ∧ y 0 - y 3 ≤ 2 * M ∧ y 3 - y 0 ≤ 2 * M ∧
        y 1 - y 2 ≤ 2 * M ∧ y 2 - y 1 ≤ 2 * M ∧ y 1 - y 3 ≤ 2 * M ∧ y 3 - y 1 ≤ 2 * M) := by
    rcases hx with hx | ⟨a1, a2, a3, a4, -, -⟩
    · left
      rw [h0, h1, h2, h3]
      refine ⟨?_, ?_, ?_, ?_⟩ <;> split_ifs <;> omega
    · right
      rw [h0, h1, h2, h3]
      refine ⟨?_, ?_, ?_, ?_, ?_, ?_, ?_, ?_⟩ <;> split_ifs <;> omega
  have hub : y 0 ≤ 32767 ∧ y 1 ≤ 32767 ∧ y 2 ≤ 32767 ∧ y 3 ≤ 32767 := by
    rcases hx with hx | ⟨a1, a2, a3, a4, a5, a6⟩
    · omega
    · rw [h0, h1, h2, h3]
      refine ⟨?_, ?_, ?_, ?_⟩ <;> split_ifs <;> omega
  clear h0 h1 h2 h3 hx hx0 p0 p1 p2 p3 hc0 hc1
  obtain ⟨r1, r2⟩ := renormalize_spec y 29767
  by_cases hy : y 0 > 29767
  · obtain ⟨m, hmin, ⟨k0, hk0, hk0m⟩, hsub⟩ := r1 hy
    have m0 := hmin 0 (by decide)
    have m1 := hmin 1 (by decide)
    have m2 := hmin 2 (by decide)
    have m3 := hmin 3 (by decide)
    have mpos : 0 ≤ m := by
      rw [NUMSTATES_eq] at hk0
      interval_cases k0 <;> omega
    have e : ∀ k < 4, renormalize y 29767 k = y k - m := by
      intro k hk
      rw [hsub k hk]
      apply to_int16_of_range <;> interval_cases k <;> omega
    rw [CeilingInv, e 0 (by omega), e 1 (by omega), e 2 (by omega), e 3 (by omega)]
    simp only [hT, INITIAL_NON_START_ERROR, zero_add]
    have hspread : y 0 - m ≤ 2 * M := by
      rw [NUMSTATES_eq] at hk0
      rcases hcase with hc | hc
      · omega
      · interval_cases k0 <;> omega
    clear hsub e r1 r2 hmin hk0m hk0
    refine ⟨⟨by omega, by omega, by omega, by omega⟩, by omega, Or.inr ?_⟩
    rcases hcase with hc | hc
    · omega
    · exact ⟨by omega, by omega, by omega, by omega, Or.inl (by omega), Or.inl (by omega)⟩
  · rw [r2 hy, CeilingInv]
    simp only [hT, INITIAL_NON_START_ERROR, zero_add]
    refine ⟨⟨q0, q1, q2, q3⟩, by omega, Or.inr ?_⟩
    rcases hcase with hc | hc
    · exact ⟨by omega, by omega, by omega, by omega, Or.inr (by omega), Or.inr (by omega)⟩
    · exact ⟨by omega, by omega, by omega, by omega, Or.inl (by omega), Or.inl (by omega)⟩

end Vit

namespace Vit

/-- One symbol of `update_viterbi_blk_scalar` keeps the metric invariant and does not wrap
around. -/
theorem update_step_ceiling (lo hi : Int) (s d : Nat) (syms : Nat → Int) (vp : vitdec_t)
    (hle : lo ≤ hi) (hM : 3 * (2 * (hi - lo)) ≤ 3000)
    (hne : vp.old_metrics ≠ vp.new_metrics)
    (htab : ∀ j < 2, ∀ i < 2, vp.BranchTable j i = lo ∨ vp.BranchTable j i = hi)
    (hme : vp.soft_decision_max_error = hi - lo)
    (hsym : ∀ k, lo ≤ syms k ∧ syms k ≤ hi)
    (hx : CeilingInv (2 * (hi - lo)) (buf vp vp.old_metrics)) :
    (∀ i < NUMSTATES / 2, ∀ c ∈ BFLY_candidates i s syms vp, c ≤ SHRT_MAX) ∧
    CeilingInv (2 * (hi - lo))
      (buf (update_step syms (vp, d) s).1 (update_step syms (vp, d) s).1.old_metrics) := by
  have hmx : BFLY_max vp = 2 * (hi - lo) := by
    rw [BFLY_max_bound vp (by rw [hme]; omega), hme]
  have hmet : ∀ i < 2, 0 ≤ BFLY_metric i s syms vp ∧ BFLY_metric i s syms vp ≤ 2 * (hi - lo) := by
    intro i hi2
    have b0 : -(hi - lo) ≤ vp.BranchTable 0 i - syms (s * 2) ∧
        vp.BranchTable 0 i - syms (s * 2) ≤ hi - lo := by
      have := hsym (s * 2)
      rcases htab 0 (by omega) i hi2 with h | h <;> rw [h] <;> omega
    have b1 : -(hi - lo) ≤ vp.BranchTable 1 i - syms (s * 2 + 1) ∧
        vp.BranchTable 1 i - syms (s * 2 + 1) ≤ hi - lo := by
      have := hsym (s * 2 + 1)
      rcases htab 1 (by omega) i hi2 with h | h <;> rw [h] <;> omega
    have e := BFLY_metric_bound i s syms vp (hi - lo) (by omega) b0 b1
    have a0 := iabs_bounds _ _ b0
    have a1 := iabs_bounds _ _ b1
    rw [e]
    exact ⟨by omega, by omega⟩
  obtain ⟨m0a, m0b⟩ := hmet 0 (by omega)
  obtain ⟨m1a, m1b⟩ := hmet 1 (by omega)
  have hT : RENORMALIZE_THRESHOLD = 29767 := by decide
  obtain ⟨-, hb⟩ := ceiling_bounds _ _ (by omega) hx
  rw [hT] at hb
  have h0 := hb 0 (by omega)
  have h1 := hb 1 (by omega)
  have h2 := hb 2 (by omega)
  have h3 := hb 3 (by omega)
  generalize hcc0 : BFLY_metric 0 s syms vp = c0 at *
  generalize hcc1 : BFLY_metric 1 s syms vp = c1 at *
  have hcand : ∀ i < NUMSTATES / 2, ∀ c ∈ BFLY_candidates i s syms vp, c ≤ SHRT_MAX := by
    intro i hi2 c hc
    rw [half_states] at hi2
    interval_cases i <;>
      simp only [BFLY_candidates, hmx, hcc0, hcc1, half_states, List.mem_cons,
        List.mem_singleton, List.not_mem_nil, or_false, Nat.zero_add, Nat.reduceAdd] at hc <;>
      simp only [SHRT_MAX] <;> rcases hc with h | h | h | h <;> rw [h] <;> omega
  refine ⟨hcand, ?_⟩
  obtain ⟨a1, a2, a3, a4, a5, a6, a7, a8, a9⟩ :=
    BFLY_eval 0 s d syms vp c0 (2 * (hi - lo)) (buf vp vp.old_metrics 0) (buf vp vp.old_metrics 2)
      hne hcc0 hmx rfl rfl (by omega) (by omega) (by omega) (by omega)
  generalize hv1 : BFLY 0 s syms vp d = vp1 at *
  have hne1 : vp1.old_metrics ≠ vp1.new_metrics := by rw [a1, a2]; exact hne
  have hc1' : BFLY_metric 1 s syms vp1 = c1 := by rw [BFLY_metric_congr _ _ _ _ _ a3, hcc1]
  have hmx' : BFLY_max vp1 = 2 * (hi - lo) := by rw [BFLY_max_congr _ _ a4, hmx]
  have hA1 : buf vp1 vp1.old_metrics 1 = buf vp vp.old_metrics 1 := by rw [a1, a7]
  have hB1 : buf vp1 vp1.old_metrics (1 + 2) = buf vp vp.old_metrics 3 := by rw [a1, a7]
  obtain ⟨b1, b2, b3, b4, b5, b6, b7, b8, b9⟩ :=
    BFLY_eval 1 s d syms vp1 c1 (2 * (hi - lo)) _ _ hne1 hc1' hmx' hA1 hB1
      (by omega) (by omega) (by omega) (by omega)
  generalize hv2 : BFLY 1 s syms vp1 d = vp2 at *
  have hfold : (List.range (NUMSTATES / 2)).foldl (fun vp i => BFLY i s syms vp d) vp = vp2 := by
    simp only [half_states, range_two, List.foldl_cons, List.foldl_nil, hv1, hv2]
  have n2 : vp2.new_metrics = vp.new_metrics := by rw [b2, a2]
  have hy : buf vp2 vp2.new_metrics = write (write (write (write (buf vp vp.new_metrics) (2 * 0)
      (if buf vp vp.old_metrics 0 + c0 - (buf vp vp.old_metrics 2 + (2 * (hi - lo) - c0)) > 0
        then buf vp vp.old_metrics 2 + (2 * (hi - lo) - c0) else buf vp vp.old_metrics 0 + c0))
      (2 * 0 + 1)
      (if buf vp vp.old_metrics 0 + (2 * (hi - lo) - c0) - (buf vp vp.old_metrics 2 + c0) > 0
        then buf vp vp.old_metrics 2 + c0 else buf vp vp.old_metrics 0 + (2 * (hi - lo) - c0)))
      (2 * 1)
      (if buf vp vp.old_metrics 1 + c1 - (buf vp vp.old_metrics 3 + (2 * (hi - lo) - c1)) > 0
        then buf vp vp.old_metrics 3 + (2 * (hi - lo) - c1) else buf vp vp.old_metrics 1 + c1))
      (2 * 1 + 1)
      (if buf vp vp.old_metrics 1 + (2 * (hi - lo) - c1) - (buf vp vp.old_metrics 3 + c1) > 0
        then buf vp vp.old_metrics 3 + c1 else buf vp vp.old_metrics 1 + (2 * (hi - lo) - c1)) := by
    rw [n2, ← a2, b8, a2, a8]
  rw [update_step_renormalize, hfold]
  apply ceiling_step (2 * (hi - lo)) c0 c1 (buf vp vp.old_metrics) _ (by omega) hM
    ⟨m0a, m0b⟩ ⟨m1a, m1b⟩ _ _ _ _ hx
  · rw [hy]; simp [write]
  · rw [hy]; simp [write]
  · rw [hy]; simp [write]
  · rw [hy]; simp [write]

/-- Branch table and maximum error across one symbol. -/
theorem update_step_table (s d : Nat) (syms : Nat → Int) (vp : vitdec_t) :
    (update_step syms (vp, d) s).1.BranchTable = vp.BranchTable ∧
    (update_step syms (vp, d) s).1.soft_decision_max_error = vp.soft_decision_max_error := by
  obtain ⟨-, a2, a3, a4, -⟩ := BFLY_frame 0 s d syms vp
  generalize hv1 : BFLY 0 s syms vp d = vp1 at *
  obtain ⟨-, b2, b3, b4, -⟩ := BFLY_frame 1 s d syms vp1
  generalize hv2 : BFLY 1 s syms vp1 d = vp2 at *
  have hfold : (List.range (NUMSTATES / 2)).foldl (fun vp i => BFLY i s syms vp d) vp = vp2 := by
    simp only [half_states, range_two, List.foldl_cons, List.foldl_nil, hv1, hv2]
  simp only [update_step, hfold]
  constructor
  · cases hn2 : vp2.new_metrics <;> simp only <;> rw [b3, a3]
  · cases hn2 : vp2.new_metrics <;> simp only <;> rw [b4, a4]

/-- Branch table and maximum error across a block of symbols. -/
theorem run_table (syms : Nat → Int) (vp : vitdec_t) (n : Nat) :
    (update_viterbi_blk_scalar vp syms (n : Int)).BranchTable = vp.BranchTable ∧
    (update_viterbi_blk_scalar vp syms (n : Int)).soft_decision_max_error =
      vp.soft_decision_max_error := by
  induction n with
  | zero => exact ⟨rfl, rfl⟩
  | succ n ih =>
    have e1 := (update_blk_succ vp syms n).1
    have e2 := (update_blk_succ vp syms n).2
    generalize (List.range n).foldl (update_step syms) (vp, vp.curr_decoded_bit) = st at *
    obtain ⟨vq, d⟩ := st
    simp only at e1 e2
    obtain ⟨t1, t2⟩ := update_step_table n d syms vq
    rw [e1, t1, t2, ← e2]
    exact ih

/-- The metric invariant after any number of symbols, and no wraparound on the way. -/
theorem run_ceiling (lo hi : Int) (syms : Nat → Int) (vp : vitdec_t)
    (hle : lo ≤ hi) (hM : 3 * (2 * (hi - lo)) ≤ 3000)
    (hne : vp.old_metrics ≠ vp.new_metrics)
    (htab : ∀ j < 2, ∀ i < 2, vp.BranchTable j i = lo ∨ vp.BranchTable j i = hi)
    (hme : vp.soft_decision_max_error = hi - lo)
    (hsym : ∀ k, lo ≤ syms k ∧ syms k ≤ hi)
    (hx : CeilingInv (2 * (hi - lo)) (buf vp vp.old_metrics)) :
    ∀ n : Nat,
      CeilingInv (2 * (hi - lo)) (buf (update_viterbi_blk_scalar vp syms (n : Int))
        (update_viterbi_blk_scalar vp syms (n : Int)).old_metrics) ∧
      ∀ i < NUMSTATES / 2,
        ∀ c ∈ BFLY_candidates i n syms (update_viterbi_blk_scalar vp syms (n : Int)),
          c ≤ SHRT_MAX := by
  intro n
  have key : CeilingInv (2 * (hi - lo)) (buf (update_viterbi_blk_scalar vp syms (n : Int))
      (update_viterbi_blk_scalar vp syms (n : Int)).old_metrics) := by
    induction n with
    | zero => exact hx
    | succ n ih =>
      obtain ⟨r2, -⟩ := (run_frame syms vp hne n).2
      obtain ⟨t1, t2⟩ := run_table syms vp n
      have e1 := (update_blk_succ vp syms n).1
      have e2 := (update_blk_succ vp syms n).2
      generalize (List.range n).foldl (update_step syms) (vp, vp.curr_decoded_bit) = st at *
      obtain ⟨vq, d⟩ := st
      simp only at e1 e2
      rw [e2] at ih r2 t1 t2
      rw [e1]
      exact (update_step_ceiling lo hi n d syms vq hle hM r2 (by rw [t1]; exact htab)
        (by rw [t2]; exact hme) hsym ih).2
  refine ⟨key, ?_⟩
  obtain ⟨r2, -⟩ := (run_frame syms vp hne n).2
  obtain ⟨t1, t2⟩ := run_table syms vp n
  exact (update_step_ceiling lo hi n 0 syms _ hle hM r2 (by rw [t1]; exact htab)
    (by rw [t2]; exact hme) hsym key).1

/-- Every reachable decoder has the branch table and the maximum error `create_viterbi`
set. -/
theorem reachable_table (polys : Nat → Nat) (len : Nat) (hi lo : Int) (raw vp : vitdec_t)
    (h : Reachable polys len hi lo raw vp) :
    (∀ j < 2, ∀ i < 2, vp.BranchTable j i = lo ∨ vp.BranchTable j i = hi) ∧
    vp.soft_decision_max_error = to_int16 (hi - lo) := by
  induction h with
  | create =>
    obtain ⟨-, -, c3, -, -, -, -, -, -, -, c11, c12, c13, c14⟩ :=
      create_viterbi_fields polys len hi lo raw
    refine ⟨fun j hj i hi2 => ?_, c3⟩
    interval_cases j <;> interval_cases i
    · rw [c11]; split_ifs <;> simp
    · rw [c13]; split_ifs <;> simp
    · rw [c12]; split_ifs <;> simp
    · rw [c14]; split_ifs <;> simp
  | init vp s _ ih =>
    obtain ⟨-, -, i3, i4, -⟩ := init_viterbi_fields vp s
    rw [i3, i4]
    exact ih
  | update vp syms nbits _ _ ih =>
    have hn : update_viterbi_blk_scalar vp syms nbits =
        update_viterbi_blk_scalar vp syms ((nbits.toNat : Nat) : Int) := by
      unfold update_viterbi_blk_scalar
      rw [Int.toNat_ofNat]
    obtain ⟨t1, t2⟩ := run_table syms vp nbits.toNat
    rw [hn, t1, t2]
    exact ih

/-- The metrics `init_viterbi` sets satisfy the metric invariant. -/
theorem init_ceiling (M : Int) (vp : vitdec_t) (s : Int) :
    CeilingInv M (buf (init_viterbi vp s) (init_viterbi vp s).old_metrics) := by
  obtain ⟨-, -, m3⟩ := init_viterbi_metrics vp s
  have hT : RENORMALIZE_THRESHOLD = 29767 := by decide
  have e : ∀ k < 4, 0 ≤ buf (init_viterbi vp s) (init_viterbi vp s).old_metrics k ∧
      buf (init_viterbi vp s) (init_viterbi vp s).old_metrics k ≤ 3000 := by
    intro k hk
    rw [m3 k hk]
    simp only [INITIAL_START_ERROR, INITIAL_NON_START_ERROR]
    split_ifs <;> omega
  have e0 := e 0 (by omega)
  have e1 := e 1 (by omega)
  have e2 := e 2 (by omega)
  have e3 := e 3 (by omega)
  rw [CeilingInv, hT]
  simp only [INITIAL_NON_START_ERROR, zero_add]
  exact ⟨⟨e0.1, e1.1, e2.1, e3.1⟩, by omega, Or.inl ⟨e0.2, e1.2, e2.2, e3.2⟩⟩

end Vit

open Vit in
/-- C24 (as amended): the metric ceiling.  Take any decoder reachable from `create_viterbi`
for the soft levels `soft_decision_low ≤ soft_decision_high` with
`3 * CODE_RATE * (soft_decision_high - soft_decision_low) ≤ SHRT_MAX - RENORMALIZE_THRESHOLD`
(as 8-bit soft decisions are), any soft inputs within
`[soft_decision_low, soft_decision_high]` and any number `n` of symbols processed by
`update_viterbi_blk_scalar` after `init_viterbi`.  After every symbol the metric of state 0
does not exceed the ceiling `SHRT_MAX - 3000`; the metrics of the other states may exceed it,
but every state metric is non-negative and at most
`SHRT_MAX - 3000 + 2 * CODE_RATE * (soft_decision_high - soft_decision_low)`, which is below
`SHRT_MAX`; and no candidate metric of any butterfly wraps around. -/
theorem metric_ceiling (polys : Nat → Nat) (len : Nat)
    (soft_decision_high soft_decision_low : Int) (raw vp : vitdec_t) (starting_state : Int)
    (syms : Nat → Int) (n : Nat)
    (hle : soft_decision_low ≤ soft_decision_high)
    (hM : 3 * ((CODE_RATE : Int) * (soft_decision_high - soft_decision_low)) ≤
      SHRT_MAX - RENORMALIZE_THRESHOLD)
    (hreach : Reachable polys len soft_decision_high soft_decision_low raw vp)
    (hsym : ∀ k, soft_decision_low ≤ syms k ∧ syms k ≤ soft_decision_high) :
    get_error_viterbi
      (update_viterbi_blk_scalar (init_viterbi vp starting_state) syms (n : Int)) 0 ≤
      RENORMALIZE_THRESHOLD ∧
    (∀ k < NUMSTATES,
      0 ≤ get_error_viterbi
        (update_viterbi_blk_scalar (init_viterbi vp starting_state) syms (n : Int)) k ∧
      get_error_viterbi
        (update_viterbi_blk_scalar (init_viterbi vp starting_state) syms (n : Int)) k ≤
        RENORMALIZE_THRESHOLD +
          2 * ((CODE_RATE : Int) * (soft_decision_high - soft_decision_low))) ∧
    RENORMALIZE_THRESHOLD +
      2 * ((CODE_RATE : Int) * (soft_decision_high - soft_decision_low)) < SHRT_MAX ∧
    no_wraparound (init_viterbi vp starting_state) syms n soft_decision_high
      soft_decision_low := by
  have hT : RENORMALIZE_THRESHOLD = 29767 := by decide
  have hS : SHRT_MAX = 32767 := rfl
  have hC : ((CODE_RATE : Nat) : Int) = 2 := rfl
  rw [hT, hS, hC] at hM
  rw [hT, hS, hC]
  obtain ⟨htab, hme⟩ := reachable_table polys len soft_decision_high soft_decision_low raw
    _ (Reachable.init vp starting_state hreach)
  rw [to_int16_of_range (by omega) (by omega)] at hme
  obtain ⟨hne, -, -⟩ := reachable_inv polys len soft_decision_high soft_decision_low raw
    _ (Reachable.init vp starting_state hreach)
  have hrun := run_ceiling soft_decision_low soft_decision_high syms
    (init_viterbi vp starting_state) hle (by omega) hne htab hme hsym (init_ceiling _ vp _)
  obtain ⟨b0, b⟩ := ceiling_bounds _ _ (by omega) (hrun n).1
  rw [hT] at b0 b
  refine ⟨?_, fun k hk => ?_, by omega, ⟨by rw [hS, hC]; omega, fun t _ => (hrun t).2⟩⟩
  · exact b0
  · unfold get_error_viterbi
    rw [Nat.mod_eq_of_lt hk]
    exact b k hk

open Vit in
/-- C24 at a concrete input: the soft levels -127 and 127, 117 symbols at the midpoint and
one at `(-127, -127)`. -/
theorem metric_ceiling_witness :
    (-127 : Int) ≤ 127 ∧
    3 * ((CODE_RATE : Int) * (127 - (-127))) ≤ SHRT_MAX - RENORMALIZE_THRESHOLD ∧
    Reachable (fun j => if j = 0 then 7 else 5) 200 127 (-127) raw_example
      (create_viterbi (fun j => if j = 0 then 7 else 5) 200 127 (-127) raw_example) ∧
    (∀ k, (-127 : Int) ≤ (fun k => if k < 2 * 117 then (0 : Int) else -127) k ∧
      (fun k => if k < 2 * 117 then (0 : Int) else -127) k ≤ 127) ∧
    (get_error_viterbi
      (update_viterbi_blk_scalar
        (init_viterbi
          (create_viterbi (fun j => if j = 0 then 7 else 5) 200 127 (-127) raw_example) 0)
        (fun k => if k < 2 * 117 then 0 else -127) ((118 : Nat) : Int)) 0 ≤
      RENORMALIZE_THRESHOLD ∧
    (∀ k < NUMSTATES,
      0 ≤ get_error_viterbi
        (update_viterbi_blk_scalar
          (init_viterbi
            (create_viterbi (fun j => if j = 0 then 7 else 5) 200 127 (-127) raw_example) 0)
          (fun k => if k < 2 * 117 then 0 else -127) ((118 : Nat) : Int)) k ∧
      get_error_viterbi
        (update_viterbi_blk_scalar
          (init_viterbi
            (create_viterbi (fun j => if j = 0 then 7 else 5) 200 127 (-127) raw_example) 0)
          (fun k => if k < 2 * 117 then 0 else -127) ((118 : Nat) : Int)) k ≤
        RENORMALIZE_THRESHOLD + 2 * ((CODE_RATE : Int) * (127 - (-127)))) ∧
    RENORMALIZE_THRESHOLD + 2 * ((CODE_RATE : Int) * (127 - (-127))) < SHRT_MAX ∧
    no_wraparound
      (init_viterbi
        (create_viterbi (fun j => if j = 0 then 7 else 5) 200 127 (-127) raw_example) 0)
      (fun k => if k < 2 * 117 then 0 else -127) 118 127 (-127)) :=
  ⟨by decide, by decide, Reachable.create,
    fun k => by by_cases h : k < 2 * 117 <;> simp [h],
    metric_ceiling (fun j => if j = 0 then 7 else 5) 200 127 (-127) raw_example
      (create_viterbi (fun j => if j = 0 then 7 else 5) 200 127 (-127) raw_example) 0
      (fun k => if k < 2 * 117 then 0 else -127) 118 (by decide) (by decide) Reachable.create
      (fun k => by by_cases h : k < 2 * 117 <;> simp [h])⟩

open Vit in
/-- C24 does not hold as stated: a decoder created for the soft levels -127 and 127 is fed
117 symbols at the midpoint and one at `(-127, -127)`, all within the soft range.  After
the last symbol the metrics of states 2 and 3 are 29972, above the ceiling
`SHRT_MAX - 3000 = 29767`; state 0 is at 29718, below it. -/
theorem metric_ceiling_exceeded :
    (List.range 4).map (get_error_viterbi (update_viterbi_blk_scalar
        (create_viterbi (fun j => if j = 0 then 7 else 5) 200 127 (-127) raw_example)
        (fun k => if k < 2 * 117 then 0 else -127) (118 : Nat))) =
      [29718, 29718, 29972, 29972] ∧
    SHRT_MAX - 3000 < get_error_viterbi (update_viterbi_blk_scalar
        (create_viterbi (fun j => if j = 0 then 7 else 5) 200 127 (-127) raw_example)
        (fun k => if k < 2 * 117 then 0 else -127) (118 : Nat)) 2 := by
  decide!

namespace Vit

theorem back_state_lt (vp : vitdec_t) (off nbits endstate : Nat) :
    ∀ j, back_state vp off nbits endstate j < 2 ^ (K - 1)
  | 0 => Nat.mod_lt _ (by decide)
  | j + 1 => by
    have ih := back_state_lt vp off nbits endstate j
    simp only [back_state]
    generalize back_state vp off nbits endstate j = s at *
    have hb : (vp.decisions (off + (nbits - 1 - j)) 0 >>> s) &&& 1 ≤ 1 := Nat.and_le_right
    generalize (vp.decisions (off + (nbits - 1 - j)) 0 >>> s) &&& 1 = b at *
    have hs : s < 4 := ih
    interval_cases s <;> interval_cases b <;> decide

/-- The traceback loop of `chainback_viterbi` over the bits below `m`. -/
theorem chain_loop_spec (vp : vitdec_t) (nbits endstate N : Nat) :
    ∀ m, m ≤ nbits → m ≤ 8 * N → ∀ data : Nat → Nat, (∀ k < N, data k < 256) →
      ∀ k < N, ((List.range m).reverse.foldl (chainback_step vp (K - 1))
          (data, back_state vp (K - 1) nbits endstate (nbits - m))).1 k < 256 ∧
        ∀ j < 8, (((List.range m).reverse.foldl (chainback_step vp (K - 1))
          (data, back_state vp (K - 1) nbits endstate (nbits - m))).1 k).testBit j =
          ((data k).testBit j || (decide (8 * k + (7 - j) < m) &&
            decide (back_input vp (K - 1) nbits endstate (8 * k + (7 - j)) = 1))) := by
  intro m
  induction m with
  | zero =>
    intro _ _ data hd k hk
    exact ⟨hd k hk, fun j _ => by simp⟩
  | succ m ih =>
    intro hm hN data hd k hk
    rw [List.range_succ, List.reverse_append, List.reverse_singleton, List.singleton_append,
      List.foldl_cons]
    have hbit1 : back_input vp (K - 1) nbits endstate m ≤ 1 := Nat.and_le_right
    have hstep : chainback_step vp (K - 1)
        (data, back_state vp (K - 1) nbits endstate (nbits - (m + 1))) m =
        (write data (m / 8) (to_uint8 (data (m / 8) |||
          (back_input vp (K - 1) nbits endstate m <<< (7 - m % 8)))),
          back_state vp (K - 1) nbits endstate (nbits - m)) := by
      have e1 : nbits - m = (nbits - (m + 1)) + 1 := by omega
      have e2 : nbits - 1 - (nbits - (m + 1)) = m := by omega
      have e3 : nbits - 1 - m = nbits - (m + 1) := by omega
      have hin : to_uint8 ((vp.decisions (K - 1 + m) 0 >>>
          back_state vp (K - 1) nbits endstate (nbits - (m + 1))) &&& 1) =
          back_input vp (K - 1) nbits endstate m := by
        unfold back_input
        rw [e3]
        unfold to_uint8
        exact Nat.mod_eq_of_lt (lt_of_le_of_lt Nat.and_le_right (by decide))
      simp only [chainback_step, hin]
      congr 1
      rw [e1, back_state, e2]
      unfold back_input
      rw [e3]
    rw [hstep]
    have hd1 : ∀ k < N, write data (m / 8) (to_uint8 (data (m / 8) |||
          (back_input vp (K - 1) nbits endstate m <<< (7 - m % 8)))) k < 256 := by
      intro k hk
      unfold write
      split_ifs
      · exact Nat.mod_lt _ (by norm_num)
      · exact hd k hk
    obtain ⟨r1, r2⟩ := ih (by omega) (by omega) _ hd1 k hk
    refine ⟨r1, fun j hj => ?_⟩
    rw [r2 j hj]
    have h256 : ∀ x : Nat, (to_uint8 x).testBit j = x.testBit j := by
      intro x
      unfold to_uint8
      rw [show (256 : Nat) = 2 ^ 8 from rfl, Nat.testBit_mod_two_pow]
      simp [hj]
    have hbit : ∀ (c q : Nat), c ≤ 1 →
        (c <<< q).testBit j = (decide (j = q) && decide (c = 1)) := by
      intro c q hc
      interval_cases c
      · simp
      · rw [Nat.one_shiftLeft, Nat.testBit_two_pow]
        by_cases h1 : j = q
        · simp [h1]
        · have h2 : ¬ (q = j) := fun h => h1 h.symm
          simp [h1, h2]
    unfold write
    by_cases hkm : 8 * k + (7 - j) = m
    · have e1 : k = m / 8 := by omega
      have e2 : j = 7 - m % 8 := by omega
      rw [if_pos e1, h256, Nat.testBit_or, hbit _ _ hbit1, ← e1, hkm]
      simp [e2]
    · have e3 : decide (8 * k + (7 - j) < m + 1) = decide (8 * k + (7 - j) < m) := by
        apply decide_eq_decide.mpr
        omega
      rw [e3]
      by_cases e1 : k = m / 8
      · have e2 : ¬ (j = 7 - m % 8) := by omega
        rw [if_pos e1, h256, Nat.testBit_or, hbit _ _ hbit1, ← e1]
        simp [e2]
      · rw [if_neg e1]

/-- What `chainback_viterbi` leaves in the output bytes it covers. -/
theorem chainback_bits (vp : vitdec_t) (data : Nat → Nat) (nbits endstate : Nat)
    (h8 : 8 ∣ nbits) (i : Nat) (hi : i < nbits) :
    (chainback_viterbi vp data nbits endstate (i / 8)).testBit (7 - i % 8) =
      decide (back_input vp (K - 1) nbits endstate i = 1) := by
  unfold chainback_viterbi
  have hz : ∀ k < nbits / 8,
      ((List.range (nbits / 8)).foldl (fun data i => write data i 0x00) data) k = 0 :=
    fun k hk => zero_fill _ _ k hk
  generalize (List.range (nbits / 8)).foldl (fun data i => write data i 0x00) data = dz at *
  have hk : i / 8 < nbits / 8 := by omega
  have h0 : endstate % NUMSTATES = back_state vp (K - 1) nbits endstate (nbits - nbits) := by
    rw [Nat.sub_self]; rfl
  rw [h0]
  obtain ⟨_, c2⟩ := chain_loop_spec vp nbits endstate (nbits / 8) nbits (le_refl _) (by omega) dz
    (fun k hk => by rw [hz k hk]; norm_num) (i / 8) hk
  rw [c2 (7 - i % 8) (by omega), hz _ hk]
  have e : 8 * (i / 8) + (7 - (7 - i % 8)) = i := by omega
  rw [e]
  simp [hi]

end Vit

open Vit in
/-- C25: the traceback step and the output packing of
`chainback_viterbi(vp, data, nbits, endstate)`.  The traceback starts from
`curr_state = endstate mod 2^(K-1)`; going down from bit `nbits - 1`, the input of a bit is
bit number `curr_state` of the decision slot used for that bit and `curr_state` becomes
`(curr_state >> 1) | (input << (K-2))`, which stays below `2^(K-1)`.  When `nbits` is a
multiple of 8, on return bit `7 - i mod 8` of `data[i/8]` equals the input of bit `i` for
every `i < nbits`, whatever `data` held before the call. -/
theorem traceback_step_and_packing (vp : vitdec_t) (data : Nat → Nat) (nbits endstate : Nat)
    (h8 : 8 ∣ nbits) :
    back_state vp (K - 1) nbits endstate 0 = endstate % 2 ^ (K - 1) ∧
    (∀ j, back_state vp (K - 1) nbits endstate (j + 1) =
      (back_state vp (K - 1) nbits endstate j >>> 1) |||
        ((((vp.decisions (K - 1 + (nbits - 1 - j)) 0) >>>
          back_state vp (K - 1) nbits endstate j) &&& 1) <<< (K - 2))) ∧
    (∀ j, back_state vp (K - 1) nbits endstate j < 2 ^ (K - 1)) ∧
    ∀ i < nbits,
      back_input vp (K - 1) nbits endstate i =
        ((vp.decisions (K - 1 + i) 0 >>>
          back_state vp (K - 1) nbits endstate (nbits - 1 - i)) &&& 1) ∧
      back_input vp (K - 1) nbits endstate i ≤ 1 ∧
      (chainback_viterbi vp data nbits endstate (i / 8)).testBit (7 - i % 8) =
        decide (back_input vp (K - 1) nbits endstate i = 1) :=
  ⟨rfl, fun _ => rfl, back_state_lt vp (K - 1) nbits endstate,
    fun i hi => ⟨rfl, Nat.and_le_right, chainback_bits vp data nbits endstate h8 i hi⟩⟩

open Vit in
/-- C25 at a concrete input: the decoder at the end of a noise-free frame, 8 bits, an output
buffer full of ones before the call. -/
theorem traceback_step_and_packing_witness :
    8 ∣ 8 ∧
    (back_state frame_example (K - 1) 8 0 0 = 0 % 2 ^ (K - 1) ∧
    (∀ j, back_state frame_example (K - 1) 8 0 (j + 1) =
      (back_state frame_example (K - 1) 8 0 j >>> 1) |||
        ((((frame_example.decisions (K - 1 + (8 - 1 - j)) 0) >>>
          back_state frame_example (K - 1) 8 0 j) &&& 1) <<< (K - 2))) ∧
    (∀ j, back_state frame_example (K - 1) 8 0 j < 2 ^ (K - 1)) ∧
    ∀ i < 8,
      back_input frame_example (K - 1) 8 0 i =
        ((frame_example.decisions (K - 1 + i) 0 >>>
          back_state frame_example (K - 1) 8 0 (8 - 1 - i)) &&& 1) ∧
      back_input frame_example (K - 1) 8 0 i ≤ 1 ∧
      (chainback_viterbi frame_example (fun _ => 255) 8 0 (i / 8)).testBit (7 - i % 8) =
        decide (back_input frame_example (K - 1) 8 0 i = 1)) :=
  ⟨by decide, traceback_step_and_packing frame_example (fun _ => 255) 8 0 (by decide)⟩

namespace Vit

/-- The traceback loop reads the decoder only through the decision slots `d + i` of the
bits `i` it visits. -/
theorem chain_fold_congr (vp vq : vitdec_t) (d : Nat) :
    ∀ (l : List Nat) (st : (Nat → Nat) × Nat),
      (∀ i ∈ l, vp.decisions (d + i) 0 = vq.decisions (d + i) 0) →
      l.foldl (chainback_step vp d) st = l.foldl (chainback_step vq d) st
  | [], _, _ => rfl
  | i :: l, st, h => by
    have e : chainback_step vp d st i = chainback_step vq d st i := by
      simp only [chainback_step, h i (List.mem_cons_self _ _)]
    rw [List.foldl_cons, List.foldl_cons, e]
    exact chain_fold_congr vp vq d l _ (fun j hj => h j (List.mem_cons_of_mem _ hj))

end Vit

open Vit in
/-- C26, as the code has it: `chainback_viterbi` for `nbits` data bits skips the first
`K - 1` decision slots (`d += (K-1)`).  Output bit `i` is taken from decision slot
`i + (K - 1)`, for every `i` in `[0, nbits)`; the slots `0 .. K-2` and the slots from
`nbits + K - 1` on are never read: two decoders that agree on the slots
`K-1 .. nbits+K-2` give the same output. -/
theorem trellis_tail_in_traceback (vp vq : vitdec_t) (data : Nat → Nat) (nbits endstate : Nat)
    (h8 : 8 ∣ nbits)
    (hsame : ∀ i < nbits, vp.decisions (i + (K - 1)) 0 = vq.decisions (i + (K - 1)) 0) :
    chainback_viterbi vp data nbits endstate = chainback_viterbi vq data nbits endstate ∧
    ∀ i < nbits,
      (chainback_viterbi vp data nbits endstate (i / 8)).testBit (7 - i % 8) =
        decide (((vp.decisions (i + (K - 1)) 0 >>>
          back_state vp (K - 1) nbits endstate (nbits - 1 - i)) &&& 1) = 1) := by
  constructor
  · unfold chainback_viterbi
    simp only
    rw [chain_fold_congr vp vq (K - 1) _ _ (fun i hi => by
      rw [List.mem_reverse, List.mem_range] at hi
      rw [Nat.add_comm]
      exact hsame i hi)]
  · intro i hi
    rw [chainback_bits vp data nbits endstate h8 i hi, Nat.add_comm]
    rfl

open Vit in
/-- C26 at a concrete input: the decoder at the end of a noise-free frame and the same
decoder with every decision slot outside `K-1 .. nbits+K-2` overwritten. -/
theorem trellis_tail_in_traceback_witness :
    8 ∣ 8 ∧
    (∀ i < 8, frame_example.decisions (i + (K - 1)) 0 =
      ({ frame_example with decisions := fun t =>
          if K - 1 ≤ t ∧ t < 8 + (K - 1) then frame_example.decisions t else fun _ => 255 } :
        vitdec_t).decisions (i + (K - 1)) 0) ∧
    (chainback_viterbi frame_example (fun _ => 0) 8 0 =
      chainback_viterbi { frame_example with decisions := fun t =>
          if K - 1 ≤ t ∧ t < 8 + (K - 1) then frame_example.decisions t else fun _ => 255 }
        (fun _ => 0) 8 0 ∧
    ∀ i < 8,
      (chainback_viterbi frame_example (fun _ => 0) 8 0 (i / 8)).testBit (7 - i % 8) =
        decide (((frame_example.decisions (i + (K - 1)) 0 >>>
          back_state frame_example (K - 1) 8 0 (8 - 1 - i)) &&& 1) = 1)) :=
  ⟨by decide, by decide!,
    trellis_tail_in_traceback frame_example _ (fun _ => 0) 8 0 (by decide) (by decide!)⟩

open Vit in
/-- C26 does not hold as stated.  At the end of a noise-free frame of the byte `0xB2` the
traceback returns `0xB2`; the bits found in the decision slots `0 .. 7` are `00101100`, not
the output; and overwriting slot 9, one of the last `K - 1` slots, changes the output to
`0xB3`, while overwriting the slots 0 and 1 changes nothing. -/
theorem trellis_tail_slots_are_read :
    chainback_viterbi frame_example (fun _ => 0) 8 0 0 = 0xB2 ∧
    (List.range 8).map (back_input frame_example (K - 1) 8 0) = [1, 0, 1, 1, 0, 0, 1, 0] ∧
    (List.range 8).map (back_input frame_example 0 8 0) = [0, 0, 1, 0, 1, 1, 0, 0] ∧
    chainback_viterbi { frame_example with
      decisions := write frame_example.decisions 9 (fun _ => 255) } (fun _ => 0) 8 0 0 = 0xB3 ∧
    chainback_viterbi { frame_example with
      decisions := write (write frame_example.decisions 0 (fun _ => 255)) 1 (fun _ => 255) }
      (fun _ => 0) 8 0 0 = 0xB2 := by
  decide!

open Vit in
/-- C27, as the code has it: `chainback_viterbi(vp, data, nbits)` scans
`vp->new_metrics->buf`, and after a symbol of `update_viterbi_blk_scalar` the swap has made
that the buffer of the metrics before the last processed symbol.  So after `n + 1` symbols
the traceback starts from the state that was best after `n` symbols (least value of
`get_error_viterbi` on the decoder after `n` symbols, the lowest index on ties), not from a
state that is best after the last symbol as the claim and `get_error_viterbi` have it. -/
theorem unknown_end_state_start (vp : vitdec_t) (syms : Nat → Int) (n : Nat)
    (hne : vp.old_metrics ≠ vp.new_metrics) :
    (∀ data nbits, chainback_viterbi_best (update_viterbi_blk_scalar vp syms ((n + 1 : Nat) : Int))
        data nbits =
      chainback_viterbi (update_viterbi_blk_scalar vp syms ((n + 1 : Nat) : Int)) data nbits
        (chainback_start (update_viterbi_blk_scalar vp syms ((n + 1 : Nat) : Int)))) ∧
    chainback_start (update_viterbi_blk_scalar vp syms ((n + 1 : Nat) : Int)) < NUMSTATES ∧
    (∀ k < NUMSTATES,
      get_error_viterbi (update_viterbi_blk_scalar vp syms (n : Int))
          (chainback_start (update_viterbi_blk_scalar vp syms ((n + 1 : Nat) : Int))) ≤
        get_error_viterbi (update_viterbi_blk_scalar vp syms (n : Int)) k) ∧
    ∀ k < chainback_start (update_viterbi_blk_scalar vp syms ((n + 1 : Nat) : Int)),
      get_error_viterbi (update_viterbi_blk_scalar vp syms (n : Int))
          (chainback_start (update_viterbi_blk_scalar vp syms ((n + 1 : Nat) : Int))) <
        get_error_viterbi (update_viterbi_blk_scalar vp syms (n : Int)) k := by
  obtain ⟨-, -, -, -, -, hbuf⟩ := run_frame syms vp hne n
  obtain ⟨c1, c2, c3⟩ :=
    chainback_start_least (update_viterbi_blk_scalar vp syms ((n + 1 : Nat) : Int))
  rw [hbuf] at c2 c3
  refine ⟨fun _ _ => rfl, c1, fun k hk => ?_, fun k hk => ?_⟩
  · unfold get_error_viterbi
    rw [Nat.mod_eq_of_lt c1, Nat.mod_eq_of_lt hk]
    exact c2 k hk
  · unfold get_error_viterbi
    rw [Nat.mod_eq_of_lt c1, Nat.mod_eq_of_lt (lt_trans hk c1)]
    exact c3 k hk

open Vit in
/-- C27 at a concrete input: eight symbols of an unterminated frame whose last soft value is
erased.  After the eighth symbol `get_error_viterbi` reports 127, 381, 889, 635: state 0 is
the best state and state 2 the worst.  The traceback starts from state 2, the best state
after the seventh symbol (762, 762, 0, 508), and decodes the first six bits as `000000`;
started from state 0 it decodes `000001`, the bits that were sent. -/
theorem unknown_end_state_start_witness :
    (create_viterbi (fun j => if j = 0 then 7 else 5) 8 127 (-127) raw_example).old_metrics ≠
      (create_viterbi (fun j => if j = 0 then 7 else 5) 8 127 (-127) raw_example).new_metrics ∧
    ((∀ data nbits, chainback_viterbi_best (update_viterbi_blk_scalar
        (create_viterbi (fun j => if j = 0 then 7 else 5) 8 127 (-127) raw_example)
        erased_example ((7 + 1 : Nat) : Int)) data nbits =
      chainback_viterbi (update_viterbi_blk_scalar
        (create_viterbi (fun j => if j = 0 then 7 else 5) 8 127 (-127) raw_example)
        erased_example ((7 + 1 : Nat) : Int)) data nbits
        (chainback_start (update_viterbi_blk_scalar
          (create_viterbi (fun j => if j = 0 then 7 else 5) 8 127 (-127) raw_example)
          erased_example ((7 + 1 : Nat) : Int)))) ∧
    chainback_start (update_viterbi_blk_scalar
      (create_viterbi (fun j => if j = 0 then 7 else 5) 8 127 (-127) raw_example)
      erased_example ((7 + 1 : Nat) : Int)) < NUMSTATES ∧
    (∀ k < NUMSTATES,
      get_error_viterbi (update_viterbi_blk_scalar
          (create_viterbi (fun j => if j = 0 then 7 else 5) 8 127 (-127) raw_example)
          erased_example ((7 : Nat) : Int))
          (chainback_start (update_viterbi_blk_scalar
            (create_viterbi (fun j => if j = 0 then 7 else 5) 8 127 (-127) raw_example)
            erased_example ((7 + 1 : Nat) : Int))) ≤
        get_error_viterbi (update_viterbi_blk_scalar
          (create_viterbi (fun j => if j = 0 then 7 else 5) 8 127 (-127) raw_example)
          erased_example ((7 : Nat) : Int)) k) ∧
    ∀ k < chainback_start (update_viterbi_blk_scalar
        (create_viterbi (fun j => if j = 0 then 7 else 5) 8 127 (-127) raw_example)
        erased_example ((7 + 1 : Nat) : Int)),
      get_error_viterbi (update_viterbi_blk_scalar
          (create_viterbi (fun j => if j = 0 then 7 else 5) 8 127 (-127) raw_example)
          erased_example ((7 : Nat) : Int))
          (chainback_start (update_viterbi_blk_scalar
            (create_viterbi (fun j => if j = 0 then 7 else 5) 8 127 (-127) raw_example)
            erased_example ((7 + 1 : Nat) : Int))) <
        get_error_viterbi (update_viterbi_blk_scalar
          (create_viterbi (fun j => if j = 0 then 7 else 5) 8 127 (-127) raw_example)
          erased_example ((7 : Nat) : Int)) k) ∧
    (List.range 16).map erased_example =
      [-127, -127, -127, -127, -127, -127, -127, -127, -127, -127, 127, 127, 127, -127, 127, 0] ∧
    (List.range 4).map (get_error_viterbi (update_viterbi_blk_scalar
      (create_viterbi (fun j => if j = 0 then 7 else 5) 8 127 (-127) raw_example)
      erased_example 8)) = [127, 381, 889, 635] ∧
    (List.range 4).map (get_error_viterbi (update_viterbi_blk_scalar
      (create_viterbi (fun j => if j = 0 then 7 else 5) 8 127 (-127) raw_example)
      erased_example 7)) = [762, 762, 0, 508] ∧
    chainback_start (update_viterbi_blk_scalar
      (create_viterbi (fun j => if j = 0 then 7 else 5) 8 127 (-127) raw_example)
      erased_example 8) = 2 ∧
    chainback_viterbi_best (update_viterbi_blk_scalar
      (create_viterbi (fun j => if j = 0 then 7 else 5) 8 127 (-127) raw_example)
      erased_example 8) (fun _ => 0) 6 0 = 0 ∧
    chainback_viterbi (update_viterbi_blk_scalar
      (create_viterbi (fun j => if j = 0 then 7 else 5) 8 127 (-127) raw_example)
      erased_example 8) (fun _ => 0) 6 0 0 = 4 :=
  ⟨by decide,
   unknown_end_state_start
     (create_viterbi (fun j => if j = 0 then 7 else 5) 8 127 (-127) raw_example)
     erased_example 7 (by decide),
   by decide!, by decide!, by decide!, by decide!, by decide!, by decide!⟩

namespace Sync

variable {F PF SC VD CR : Type} [LinearOrderedField F]

/-- The decoder pass of the call of `process_await_block_size` that completes the prefix. -/
theorem await_block_size_pass (E : Externals F PF SC VD CR) (fuel : Nat)
    (fs fs' : FrameSynchroniser F PF SC VD CR) (IQ : complex F) (r : ProcessResult)
    (h : process_await_block_size E fuel fs IQ = some (fs', r)) (hr : r ≠ ProcessResult.NONE) :
    ∃ fs1, process_decoder_symbol E fuel fs IQ = some fs1 ∧
      fs'.decoded_bytes = fs1.decoded_bytes +
        (E.viterbi.process fs1.vitdec fs1.encoded_buffer 0 nb_bytes_for_block_size
          fs1.decoded_buffer 0 (fs1.nb_buffer - fs1.decoded_bytes) false).2.2 := by
  unfold process_await_block_size at h
  cases h1 : process_decoder_symbol E fuel fs IQ with
  | none => simp [h1] at h
  | some fs1 =>
    refine ⟨fs1, rfl, ?_⟩
    simp only [h1] at h
    split_ifs at h <;> cases h
    · exact absurd rfl hr
    · rfl
    · rfl

/-- The decoder pass of the call of `process_await_payload` that completes the frame. -/
theorem await_payload_pass (E : Externals F PF SC VD CR) (fuel : Nat)
    (fs fs' : FrameSynchroniser F PF SC VD CR) (IQ : complex F) (r : ProcessResult)
    (h : process_await_payload E fuel fs IQ = some (fs', r)) (hr : r ≠ ProcessResult.NONE) :
    ∃ fs1, process_decoder_symbol E fuel fs IQ = some fs1 ∧
      fs'.vitdec = (E.viterbi.process fs1.vitdec fs1.encoded_buffer nb_bytes_for_block_size
        (fs1.encoded_block_size - nb_bytes_for_block_size) fs1.decoded_buffer fs1.decoded_bytes
        (fs1.nb_buffer - fs1.decoded_bytes) true).1 ∧
      fs'.decoded_buffer = (E.viterbi.process fs1.vitdec fs1.encoded_buffer
        nb_bytes_for_block_size (fs1.encoded_block_size - nb_bytes_for_block_size)
        fs1.decoded_buffer fs1.decoded_bytes (fs1.nb_buffer - fs1.decoded_bytes) true).2.1 ∧
      fs'.decoded_bytes = fs1.decoded_bytes +
        (E.viterbi.process fs1.vitdec fs1.encoded_buffer nb_bytes_for_block_size
          (fs1.encoded_block_size - nb_bytes_for_block_size) fs1.decoded_buffer
          fs1.decoded_bytes (fs1.nb_buffer - fs1.decoded_bytes) true).2.2 := by
  unfold process_await_payload at h
  cases h1 : process_decoder_symbol E fuel fs IQ with
  | none => simp [h1] at h
  | some fs1 =>
    refine ⟨fs1, rfl, ?_⟩
    simp only [h1] at h
    split_ifs at h <;> cases h
    · exact absurd rfl hr
    · exact ⟨rfl, rfl, rfl⟩
    · exact ⟨rfl, rfl, rfl⟩

/-- While the calls return `NONE`, a frame in `WAIT_PAYLOAD` keeps its sizes. -/
theorem payload_none_sizes (E : Externals F PF SC VD CR) (fuel : Nat)
    (g : FrameSynchroniser F PF SC VD CR) (input : Nat → complex F)
    (hg : g.state = State.WAIT_PAYLOAD) :
    ∀ (n : Nat) (g' : FrameSynchroniser F PF SC VD CR) (T : List (ProcessResult × State)),
      trace E fuel g input n = some (g', T) →
      (∀ k x, k < n → T[k]? = some x → x.1 = ProcessResult.NONE) →
      g'.state = State.WAIT_PAYLOAD ∧ g'.decoded_bytes = g.decoded_bytes ∧
      g'.encoded_block_size = g.encoded_block_size := by
  intro n
  induction n with
  | zero =>
    intro g' T h _
    obtain ⟨_, h0, _⟩ := trace_shape E fuel g input 0 g' T h
    rw [h0 rfl]
    exact ⟨hg, rfl, rfl⟩
  | succ n ih =>
    intro g' T h hin
    obtain ⟨g1, T1, r, h1, h2, e⟩ := trace_succ_inv E fuel g g' input n T h
    obtain ⟨l1, _, _⟩ := trace_shape E fuel g input n g1 T1 h1
    subst e
    obtain ⟨i1, i2, i3⟩ := ih g1 T1 h1 (fun k x hk hx => hin k x (by omega) (by
      rw [List.getElem?_append_left (by omega)]
      exact hx))
    have hr : r = ProcessResult.NONE := hin n (r, g'.state) (by omega) (by
      rw [List.getElem?_append_right (by omega)]
      simp [l1])
    subst hr
    unfold process at h2
    rw [i1] at h2
    obtain ⟨fs1, f1, _, _, _, _, _, _, _, k1, _⟩ :=
      await_payload_effect E fuel g1 g' (input n) _ h2
    obtain ⟨e1, _⟩ := k1 rfl
    have fr := process_decoder_symbol_frame E fuel g1 fs1 (input n) f1
    rw [e1]
    exact ⟨fr.1.trans i1, by rw [fr.2.2.2.2.1, i2], by rw [fr.2.2.2.2.2.2.1, i3]⟩

/-- The call that completes a frame whose earlier calls returned `NONE`. -/
theorem payload_last_call (E : Externals F PF SC VD CR) (fuel : Nat)
    (g g' : FrameSynchroniser F PF SC VD CR) (input : Nat → complex F) (n : Nat)
    (T : List (ProcessResult × State))
    (hg : g.state = State.WAIT_PAYLOAD) (ht : trace E fuel g input (n + 1) = some (g', T))
    (hin : ∀ k x, k < n → T[k]? = some x → x.1 = ProcessResult.NONE)
    (x : ProcessResult × State) (hx : T[n]? = some x) (hne : x.1 ≠ ProcessResult.NONE) :
    ∃ g1 fs1, process_decoder_symbol E fuel g1 (input n) = some fs1 ∧
      process_await_payload E fuel g1 (input n) = some (g', x.1) ∧
      fs1.decoded_bytes = g.decoded_bytes ∧ fs1.encoded_block_size = g.encoded_block_size ∧
      fs1.decoded_block_size = g.decoded_block_size ∧ fs1.payload.length = g.payload.length := by
  obtain ⟨g1, T1, r1, h1, h2, e⟩ := trace_succ_inv E fuel g g' input n T ht
  obtain ⟨l1, _, _⟩ := trace_shape E fuel g input n g1 T1 h1
  subst e
  have hin1 : ∀ k x, k < n → T1[k]? = some x → x.1 = ProcessResult.NONE :=
    fun k x hk hx => hin k x hk (by
      rw [List.getElem?_append_left (by omega)]
      exact hx)
  obtain ⟨i1, i2, i3⟩ := payload_none_sizes E fuel g input hg n g1 T1 h1 hin1
  obtain ⟨_, j2, j3⟩ := payload_none_keeps E fuel g input hg n g1 T1 h1 hin1
  rw [List.getElem?_append_right (by omega)] at hx
  simp only [l1, Nat.sub_self, List.getElem?_cons_zero, Option.some.injEq] at hx
  subst hx
  unfold process at h2
  rw [i1] at h2
  simp only at h2
  obtain ⟨fs1, f1, _⟩ := await_payload_effect E fuel g1 g' (input n) r1 h2
  have fr := process_decoder_symbol_frame E fuel g1 fs1 (input n) f1
  exact ⟨g1, fs1, f1, h2, by rw [fr.2.2.2.2.1, i2], by rw [fr.2.2.2.2.2.2.1, i3],
    by rw [fr.2.2.2.2.2.1, j3], by rw [fr.2.1, j2]⟩

end Sync

open Sync in
/-- C29: the minimum length leaves fresh payload.  On the call that completes the 16-byte
prefix and accepts the length `N` (`BLOCK_SIZE_OK`), `N ≥ 5` and
`encoded_block_size - 16 = 2 * (N - 4) ≥ 2`, that is at least one decoded byte at rate 1/2
beyond the `16 / 2 = 8` of the prefix.  The call that completes the frame (the first later
call that does not return `NONE`) runs the second decoder pass on exactly these
`2 * (N - 4)` encoded bytes from encoded offset 16, writing at the decoded offset
`decoded_bytes` that the first pass left. -/
theorem minimum_length_fresh_payload {F PF SC VD CR : Type} [LinearOrderedField F]
    (E : Externals F PF SC VD CR) (fuel : Nat) (fs : FrameSynchroniser F PF SC VD CR)
    (IQ : complex F) (input : Nat → complex F) (n : Nat)
    (hN : E.QAM_Constellation_Size ≤ 255) (hf : E.QAM_Constellation_Size.toNat < fuel)
    (hs : fs.state = State.WAIT_BLOCK_SIZE) (hdone : completes_prefix E fuel fs IQ = true) :
    ∃ g r, process E fuel fs IQ = some (g, r) ∧
      (r = ProcessResult.BLOCK_SIZE_OK →
        5 ≤ g.payload.length ∧ g.decoded_block_size = g.payload.length ∧
        g.encoded_block_size - nb_bytes_for_block_size = 2 * ((g.payload.length : Int) - 4) ∧
        2 ≤ g.encoded_block_size - nb_bytes_for_block_size ∧
        1 ≤ (g.encoded_block_size - nb_bytes_for_block_size) / 2 ∧
        nb_bytes_for_block_size / 2 = 8 ∧
        ∃ g' T, trace E fuel g input (n + 1) = some (g', T) ∧
          ((∀ k x, k < n → T[k]? = some x → x.1 = ProcessResult.NONE) →
            ∀ x, T[n]? = some x → x.1 ≠ ProcessResult.NONE →
              ∃ g1 : FrameSynchroniser F PF SC VD CR, g1.decoded_bytes = g.decoded_bytes ∧
                g'.vitdec = (E.viterbi.process g1.vitdec g1.encoded_buffer
                  nb_bytes_for_block_size (2 * ((g.payload.length : Int) - 4))
                  g1.decoded_buffer g.decoded_bytes (g1.nb_buffer - g.decoded_bytes) true).1 ∧
                g'.decoded_buffer = (E.viterbi.process g1.vitdec g1.encoded_buffer
                  nb_bytes_for_block_size (2 * ((g.payload.length : Int) - 4))
                  g1.decoded_buffer g.decoded_bytes (g1.nb_buffer - g.decoded_bytes) true).2.1 ∧
                g'.decoded_bytes = g.decoded_bytes + (E.viterbi.process g1.vitdec
                  g1.encoded_buffer nb_bytes_for_block_size
                  (2 * ((g.payload.length : Int) - 4))
                  g1.decoded_buffer g.decoded_bytes (g1.nb_buffer - g.decoded_bytes) true).2.2)) := by
  obtain ⟨g, r, h, _, hiff, _, hok, _, hst, _⟩ := await_block_size_done E fuel fs IQ hs hdone
  refine ⟨g, r, h, fun hro => ?_⟩
  obtain ⟨d1, d2⟩ := hok hro
  obtain ⟨n5, _⟩ := hiff.mp hro
  have e16 : nb_bytes_for_block_size = 16 := rfl
  have hsz : g.encoded_block_size - nb_bytes_for_block_size =
      2 * ((g.payload.length : Int) - 4) := by rw [d2, e16]; ring
  refine ⟨by omega, d1, hsz, by rw [hsz]; omega, by rw [hsz]; omega, by decide, ?_⟩
  obtain ⟨g', T, ht⟩ := trace_some E fuel g input hN hf (n + 1)
  refine ⟨g', T, ht, fun hin x hx hne => ?_⟩
  have hgs : g.state = State.WAIT_PAYLOAD := by rw [hst, hro]
  obtain ⟨g1, fs1, f1, h2, q1, q2, _, _⟩ :=
    payload_last_call E fuel g g' input n T hgs ht hin x hx hne
  obtain ⟨fs1', f1', p1, p2, p3⟩ := await_payload_pass E fuel g1 g' (input n) x.1 h2 hne
  rw [f1] at f1'
  cases f1'
  rw [q1, q2, hsz] at p1 p2 p3
  exact ⟨fs1, q1, p1, p2, p3⟩

open Sync Standin in
/-- C29 at a concrete input: the call that completes the prefix of a frame of length 5 (the
least accepted length), and the four calls after it. -/
theorem minimum_length_fresh_payload_witness :
    ∃ g r, process externals 17 (after (frame5.take 39)) (frame5.getD 39 (sample 0)) =
        some (g, r) ∧
      (r = ProcessResult.BLOCK_SIZE_OK →
        5 ≤ g.payload.length ∧ g.decoded_block_size = g.payload.length ∧
        g.encoded_block_size - nb_bytes_for_block_size = 2 * ((g.payload.length : Int) - 4) ∧
        2 ≤ g.encoded_block_size - nb_bytes_for_block_size ∧
        1 ≤ (g.encoded_block_size - nb_bytes_for_block_size) / 2 ∧
        nb_bytes_for_block_size / 2 = 8 ∧
        ∃ g' T, trace externals 17 g (fun k => frame5.getD (40 + k) (sample 0)) (3 + 1) =
            some (g', T) ∧
          ((∀ k x, k < 3 → T[k]? = some x → x.1 = ProcessResult.NONE) →
            ∀ x, T[3]? = some x → x.1 ≠ ProcessResult.NONE →
              ∃ g1 : FrameSynchroniser ℚ (Nat × Nat) Nat Unit Nat,
                g1.decoded_bytes = g.decoded_bytes ∧
                g'.vitdec = (externals.viterbi.process g1.vitdec g1.encoded_buffer
                  nb_bytes_for_block_size (2 * ((g.payload.length : Int) - 4))
                  g1.decoded_buffer g.decoded_bytes (g1.nb_buffer - g.decoded_bytes) true).1 ∧
                g'.decoded_buffer = (externals.viterbi.process g1.vitdec g1.encoded_buffer
                  nb_bytes_for_block_size (2 * ((g.payload.length : Int) - 4))
                  g1.decoded_buffer g.decoded_bytes (g1.nb_buffer - g.decoded_bytes) true).2.1 ∧
                g'.decoded_bytes = g.decoded_bytes + (externals.viterbi.process g1.vitdec
                  g1.encoded_buffer nb_bytes_for_block_size
                  (2 * ((g.payload.length : Int) - 4))
                  g1.decoded_buffer g.decoded_bytes (g1.nb_buffer - g.decoded_bytes) true).2.2)) :=
  minimum_length_fresh_payload externals 17 (after (frame5.take 39)) (frame5.getD 39 (sample 0))
    (fun k => frame5.getD (40 + k) (sample 0)) 3 (by decide) (by decide) (by decide!)
    (by decide!)

open Sync in
/-- C30: the CRC position matches the frame layout.  Assume each decoder pass reports
`n / 2` decoded bytes for `n` encoded bytes, and that `decoded_bytes` is 0 when the prefix
completes (every call that returns `PREAMBLE_FOUND` leaves it 0 and the calls that return
`NONE` keep it).  Then the call that accepts the length `N` leaves `decoded_bytes == 8`, and
when the frame completes (the first later call that does not return `NONE`),
`decoded_bytes == N + 4`, the received CRC-8 is read from decoded offset
`decoded_bytes - 2 == 2 + N`, the byte right after the `N` payload bytes at offsets
`2 .. N + 1` that `payload.buf` and `payload.length` describe, and the computed CRC-8
covers exactly those `N` bytes. -/
theorem crc_position {F PF SC VD CR : Type} [LinearOrderedField F]
    (E : Externals F PF SC VD CR) (fuel : Nat) (fs : FrameSynchroniser F PF SC VD CR)
    (IQ : complex F) (input : Nat → complex F) (n : Nat)
    (hN : E.QAM_Constellation_Size ≤ 255) (hf : E.QAM_Constellation_Size.toNat < fuel)
    (hs : fs.state = State.WAIT_BLOCK_SIZE) (hdone : completes_prefix E fuel fs IQ = true)
    (hzero : fs.decoded_bytes = 0)
    (hhalf : ∀ vd encoded enc_offset n_encoded decoded dec_offset n_decoded terminated,
      (E.viterbi.process vd encoded enc_offset n_encoded decoded dec_offset n_decoded
        terminated).2.2 = n_encoded / 2) :
    (∀ (fs0 fs1 : FrameSynchroniser F PF SC VD CR) (z : complex F),
      process E fuel fs0 z = some (fs1, ProcessResult.PREAMBLE_FOUND) → fs1.decoded_bytes = 0) ∧
    (∀ (fs0 fs1 : FrameSynchroniser F PF SC VD CR) (z : complex F),
      fs0.state = State.WAIT_BLOCK_SIZE →
      process E fuel fs0 z = some (fs1, ProcessResult.NONE) →
      fs1.decoded_bytes = fs0.decoded_bytes) ∧
    ∃ g r, process E fuel fs IQ = some (g, r) ∧
      (r = ProcessResult.BLOCK_SIZE_OK →
        g.decoded_bytes = 8 ∧
        ∃ g' T, trace E fuel g input (n + 1) = some (g', T) ∧
          ((∀ k x, k < n → T[k]? = some x → x.1 = ProcessResult.NONE) →
            ∀ x, T[n]? = some x → x.1 ≠ ProcessResult.NONE →
              (x.1 = ProcessResult.PAYLOAD_OK ∨ x.1 = ProcessResult.PAYLOAD_ERR) ∧
              g'.decoded_bytes = (g.payload.length : Int) + 4 ∧
              g'.decoded_bytes - 2 = 2 + (g.payload.length : Int) ∧
              g'.payload.buf = some 2 ∧ g'.payload.length = g.payload.length ∧
              g'.payload.crc8_received =
                to_uint8 (g'.decoded_buffer (2 + (g.payload.length : Int))) ∧
              g'.payload.crc8_calculated =
                to_uint8 (E.crc8.process g'.crc8_calc g'.decoded_buffer 2
                  (g.payload.length : Int)))) := by
  refine ⟨?_, ?_, ?_⟩
  · intro fs0 fs1 z h
    have hst := (process_step E fuel fs0 fs1 z _ h).1
    unfold process at h
    cases hg : fs0.state with
    | WAIT_PREAMBLE =>
      rw [hg] at h
      exact (preamble_found_reset E fuel fs0 fs1 z h).2.2.1
    | WAIT_BLOCK_SIZE =>
      rw [hg] at hst
      rcases hst with h' | h' | h' <;> cases h'
    | WAIT_PAYLOAD =>
      rw [hg] at hst
      rcases hst with h' | h' | h' <;> cases h'
  · intro fs0 fs1 z hs0 h
    unfold process at h
    rw [hs0] at h
    simp only at h
    obtain ⟨fsa, fa, _, _, _, _, k5, _⟩ := await_block_size_effect E fuel fs0 fs1 z _ h
    rw [(k5 rfl).1]
    exact (process_decoder_symbol_frame E fuel fs0 fsa z fa).2.2.2.2.1
  · obtain ⟨g, r, h, _, hiff, _, hok, hr, hst, _⟩ := await_block_size_done E fuel fs IQ hs hdone
    refine ⟨g, r, h, fun hro => ?_⟩
    obtain ⟨d1, d2⟩ := hok hro
    obtain ⟨n5, _⟩ := hiff.mp hro
    have e16 : nb_bytes_for_block_size = 16 := rfl
    have hne0 : r ≠ ProcessResult.NONE := by rw [hro]; decide
    have h' := h
    unfold process at h'
    rw [hs] at h'
    simp only at h'
    obtain ⟨fsa, fa, pa⟩ := await_block_size_pass E fuel fs g IQ r h' hne0
    have g8 : g.decoded_bytes = 8 := by
      rw [pa, hhalf, (process_decoder_symbol_frame E fuel fs fsa IQ fa).2.2.2.2.1, hzero, e16]
      decide
    refine ⟨g8, ?_⟩
    obtain ⟨g', T, ht⟩ := trace_some E fuel g input hN hf (n + 1)
    refine ⟨g', T, ht, fun hin x hx hne => ?_⟩
    have hgs : g.state = State.WAIT_PAYLOAD := by rw [hst, hro]
    obtain ⟨g1, fs1, f1, h2, q1, q2, q3, q4⟩ :=
      payload_last_call E fuel g g' input n T hgs ht hin x hx hne
    obtain ⟨fs1', f1', _, _, p3⟩ := await_payload_pass E fuel g1 g' (input n) x.1 h2 hne
    rw [f1] at f1'
    cases f1'
    obtain ⟨fs1', f1', _, _, _, _, k5, k6, _, _, k9⟩ :=
      await_payload_effect E fuel g1 g' (input n) x.1 h2
    rw [f1] at f1'
    cases f1'
    obtain ⟨_, c2, _, c4, c5, c6, _⟩ := k9 hne
    have hbytes : g'.decoded_bytes = (g.payload.length : Int) + 4 := by
      rw [p3, hhalf, q1, q2, g8, d2, e16]
      omega
    have hoff : g'.decoded_bytes - 2 = 2 + (g.payload.length : Int) := by rw [hbytes]; ring
    refine ⟨c2, hbytes, hoff, c4, by rw [k5, q4], by rw [c5, hoff], ?_⟩
    rw [c6, k6, q3, d1]

open Sync Standin in
/-- C30 at a concrete input: the call that completes the prefix of a frame of length 5, and
the four calls after it, with a decoder that keeps every second encoded byte. -/
theorem crc_position_witness :
    (∀ (fs0 fs1 : FrameSynchroniser ℚ (Nat × Nat) Nat Unit Nat) (z : complex ℚ),
      process externals 17 fs0 z = some (fs1, ProcessResult.PREAMBLE_FOUND) →
      fs1.decoded_bytes = 0) ∧
    (∀ (fs0 fs1 : FrameSynchroniser ℚ (Nat × Nat) Nat Unit Nat) (z : complex ℚ),
      fs0.state = State.WAIT_BLOCK_SIZE →
      process externals 17 fs0 z = some (fs1, ProcessResult.NONE) →
      fs1.decoded_bytes = fs0.decoded_bytes) ∧
    ∃ g r, process externals 17 (after (frame5.take 39)) (frame5.getD 39 (sample 0)) =
        some (g, r) ∧
      (r = ProcessResult.BLOCK_SIZE_OK →
        g.decoded_bytes = 8 ∧
        ∃ g' T, trace externals 17 g (fun k => frame5.getD (40 + k) (sample 0)) (3 + 1) =
            some (g', T) ∧
          ((∀ k x, k < 3 → T[k]? = some x → x.1 = ProcessResult.NONE) →
            ∀ x, T[3]? = some x → x.1 ≠ ProcessResult.NONE →
              (x.1 = ProcessResult.PAYLOAD_OK ∨ x.1 = ProcessResult.PAYLOAD_ERR) ∧
              g'.decoded_bytes = (g.payload.length : Int) + 4 ∧
              g'.decoded_bytes - 2 = 2 + (g.payload.length : Int) ∧
              g'.payload.buf = some 2 ∧ g'.payload.length = g.payload.length ∧
              g'.payload.crc8_received =
                to_uint8 (g'.decoded_buffer (2 + (g.payload.length : Int))) ∧
              g'.payload.crc8_calculated =
                to_uint8 (externals.crc8.process g'.crc8_calc g'.decoded_buffer 2
                  (g.payload.length : Int)))) :=
  crc_position externals 17 (after (frame5.take 39)) (frame5.getD 39 (sample 0))
    (fun k => frame5.getD (40 + k) (sample 0)) 3 (by decide) (by decide) (by decide!)
    (by decide!) (by decide!) (fun _ _ _ _ _ _ _ _ => rfl)

namespace Vit

/-- A butterfly ORs its two decision bits into bits `2i` and `2i+1` of byte 0 of slot `d`. -/
theorem BFLY_slot (i s d : Nat) (syms : Nat → Int) (vp : vitdec_t) (hi : i < 2) :
    ∃ D, D ≤ 3 ∧ (BFLY i s syms vp d).decisions =
      write vp.decisions d (write (vp.decisions d) 0
        (to_uint8 (vp.decisions d 0 ||| (D <<< (2 * i))))) := by
  have key : ∀ d0 d1 : Nat, d0 ≤ 1 → d1 ≤ 1 → to_uint8 (d0 ||| (d1 <<< 1)) ≤ 3 := by
    intro d0 d1 h0 h1
    interval_cases d0 <;> interval_cases d1 <;> decide
  refine ⟨to_uint8
    (dec_bits (to_int16 (buf vp vp.old_metrics i + BFLY_metric i s syms vp))
        (to_int16 (buf vp vp.old_metrics (i + NUMSTATES / 2) +
          (BFLY_max vp - BFLY_metric i s syms vp))) |||
      (dec_bits (to_int16 (buf vp vp.old_metrics i + (BFLY_max vp - BFLY_metric i s syms vp)))
        (to_int16 (buf vp vp.old_metrics (i + NUMSTATES / 2) + BFLY_metric i s syms vp)) <<< 1)),
    key _ _ (dec_bits_le _ _) (dec_bits_le _ _), ?_⟩
  interval_cases i <;> cases hn : vp.new_metrics <;> simp only [BFLY, hn, set_buf] <;> rfl

/-- The decision slot a symbol writes: byte 0 of slot `d` gets four bits ORed in, nothing
else of the slot changes. -/
theorem update_step_slot (s d : Nat) (syms : Nat → Int) (vp : vitdec_t) :
    (∃ m, m < 2 ^ NUMSTATES ∧ (update_step syms (vp, d) s).1.decisions d 0 =
      to_uint8 (vp.decisions d 0 ||| m)) ∧
    ∀ b, b ≠ 0 → (update_step syms (vp, d) s).1.decisions d b = vp.decisions d b := by
  obtain ⟨D0, hD0, e0⟩ := BFLY_slot 0 s d syms vp (by decide)
  generalize hv1 : BFLY 0 s syms vp d = vp1 at *
  obtain ⟨D1, hD1, e1⟩ := BFLY_slot 1 s d syms vp1 (by decide)
  generalize hv2 : BFLY 1 s syms vp1 d = vp2 at *
  have hfold : (List.range (NUMSTATES / 2)).foldl (fun vp i => BFLY i s syms vp d) vp = vp2 := by
    simp only [half_states, range_two, List.foldl_cons, List.foldl_nil, hv1, hv2]
  have hdec : (update_step syms (vp, d) s).1.decisions = vp2.decisions := by
    simp only [update_step, hfold]
    cases vp2.new_metrics <;> rfl
  rw [hdec, e1, e0]
  constructor
  · refine ⟨D0 ||| (D1 <<< 2), ?_, ?_⟩
    · have : D0 < 4 := by omega
      have : D1 < 4 := by omega
      interval_cases D0 <;> interval_cases D1 <;> decide
    · simp only [write, if_true, Nat.mul_zero, Nat.shiftLeft_zero, Nat.mul_one, to_uint8]
      rw [show (256 : Nat) = 2 ^ 8 from rfl]
      apply Nat.eq_of_testBit_eq
      intro j
      simp only [Nat.testBit_mod_two_pow, Nat.testBit_or]
      by_cases hj : j < 8 <;> simp [hj, Bool.or_assoc]
  · intro b hb
    simp only [write, if_true, if_neg hb]

/-- The symbol loop of `update_viterbi_blk_scalar` after `n` symbols: where the decision
index stands and which slots have been written. -/
theorem run_decisions (syms : Nat → Int) (vp : vitdec_t) :
    ∀ n : Nat,
      ((List.range n).foldl (update_step syms) (vp, vp.curr_decoded_bit)).2 =
        vp.curr_decoded_bit + n ∧
      (update_viterbi_blk_scalar vp syms (n : Int)).curr_decoded_bit = vp.curr_decoded_bit + n ∧
      (update_viterbi_blk_scalar vp syms (n : Int)).maximum_decoded_bits =
        vp.maximum_decoded_bits ∧
      (∀ t, (t < vp.curr_decoded_bit ∨ vp.curr_decoded_bit + n ≤ t) →
        (update_viterbi_blk_scalar vp syms (n : Int)).decisions t = vp.decisions t) ∧
      ∀ s < n, (update_viterbi_blk_scalar vp syms (n : Int)).decisions
          (vp.curr_decoded_bit + s) =
        (update_step syms (update_viterbi_blk_scalar vp syms (s : Int),
          vp.curr_decoded_bit + s) s).1.decisions (vp.curr_decoded_bit + s) := by
  intro n
  induction n with
  | zero =>
    exact ⟨rfl, rfl, rfl, fun _ _ => rfl, fun s hs => absurd hs (Nat.not_lt_zero s)⟩
  | succ n ih =>
    obtain ⟨i1, i3, i4, i5, i6⟩ := ih
    have e1 := (update_blk_succ vp syms n).1
    have e2 := (update_blk_succ vp syms n).2
    have hst1 : (List.range (n + 1)).foldl (update_step syms) (vp, vp.curr_decoded_bit) =
        update_step syms ((List.range n).foldl (update_step syms) (vp, vp.curr_decoded_bit)) n := by
      rw [List.range_succ, List.foldl_append]; rfl
    generalize hst : (List.range n).foldl (update_step syms) (vp, vp.curr_decoded_bit) = st at *
    obtain ⟨vq, d⟩ := st
    simp only at i1 e1 e2
    subst i1
    obtain ⟨s1, -, -, s4, s5, -, s7⟩ := update_step_frame n (vp.curr_decoded_bit + n) syms vq
    rw [← e1] at s4 s5 s7
    rw [e2] at i3 i4 i5 i6
    refine ⟨?_, ?_, ?_, ?_, ?_⟩
    · rw [hst1, s1]; omega
    · rw [s4, i3]; omega
    · rw [s5, i4]
    · intro t ht
      rw [s7 t (by omega), i5 t (by omega)]
    · intro s hs
      by_cases hsn : s = n
      · subst hsn
        rw [e1, e2]
      · rw [s7 _ (by omega)]
        exact i6 s (by omega)

end Vit

open Vit in
/-- C31: the decode index.  `update_viterbi_blk_scalar(vp, syms, nbits)` with `nbits ≥ 0`
and `curr_decoded_bit = c` increases `curr_decoded_bit` by exactly `nbits` and keeps
`maximum_decoded_bits`.  Every decision slot outside `c .. c+nbits-1` is unchanged.  Slot
`c + s` is what symbol `s` made of it: the step of symbol `s`, run on the decoder after the
first `s` symbols, ORs a value below `2^NUMSTATES` (the decision bits) into byte 0 of the
slot and leaves the rest of the slot as it was.  All those slot indices are below
`maximum_decoded_bits` whenever `c + nbits ≤ maximum_decoded_bits`. -/
theorem decode_index (vp : vitdec_t) (syms : Nat → Int) (nbits : Int) (hn : 0 ≤ nbits) :
    ((update_viterbi_blk_scalar vp syms nbits).curr_decoded_bit : Int) =
      vp.curr_decoded_bit + nbits ∧
    (update_viterbi_blk_scalar vp syms nbits).maximum_decoded_bits = vp.maximum_decoded_bits ∧
    (∀ t : Nat, ((t : Int) < vp.curr_decoded_bit ∨ (vp.curr_decoded_bit : Int) + nbits ≤ t) →
      (update_viterbi_blk_scalar vp syms nbits).decisions t = vp.decisions t) ∧
    (∀ s : Nat, (s : Int) < nbits →
      (update_viterbi_blk_scalar vp syms nbits).decisions (vp.curr_decoded_bit + s) =
        (update_step syms (update_viterbi_blk_scalar vp syms (s : Int),
          vp.curr_decoded_bit + s) s).1.decisions (vp.curr_decoded_bit + s) ∧
      (∃ m, m < 2 ^ NUMSTATES ∧
        (update_viterbi_blk_scalar vp syms nbits).decisions (vp.curr_decoded_bit + s) 0 =
          to_uint8 (vp.decisions (vp.curr_decoded_bit + s) 0 ||| m)) ∧
      ∀ b, b ≠ 0 →
        (update_viterbi_blk_scalar vp syms nbits).decisions (vp.curr_decoded_bit + s) b =
          vp.decisions (vp.curr_decoded_bit + s) b) ∧
    ((vp.curr_decoded_bit : Int) + nbits ≤ vp.maximum_decoded_bits →
      ∀ s : Nat, (s : Int) < nbits →
        vp.curr_decoded_bit + s <
          (update_viterbi_blk_scalar vp syms nbits).maximum_decoded_bits) := by
  obtain ⟨n, rfl⟩ : ∃ n : Nat, nbits = n := ⟨nbits.toNat, by omega⟩
  obtain ⟨-, r2, r3, r4, r5⟩ := run_decisions syms vp n
  refine ⟨by rw [r2]; push_cast; rfl, r3, fun t ht => r4 t (by omega), fun s hs => ?_,
    fun hfit s hs => by rw [r3]; omega⟩
  have hs' : s < n := by exact_mod_cast hs
  obtain ⟨q1, -, -, q4, -⟩ := run_decisions syms vp s
  obtain ⟨⟨m, hm, e1⟩, e2⟩ := update_step_slot s (vp.curr_decoded_bit + s) syms
    (update_viterbi_blk_scalar vp syms (s : Int))
  rw [q4 _ (Or.inr (le_refl _))] at e1 e2
  refine ⟨r5 s hs', ⟨m, hm, ?_⟩, fun b hb => ?_⟩
  · rw [r5 s hs', e1]
  · rw [r5 s hs', e2 b hb]

open Vit in
/-- C31 at a concrete input: three more symbols on a decoder that has decoded four. -/
theorem decode_index_witness :
    (0 : Int) ≤ 3 ∧
    (((update_viterbi_blk_scalar (update_viterbi_blk_scalar
        (create_viterbi (fun j => if j = 0 then 7 else 5) 8 127 (-127) raw_example)
        erased_example 4) erased_example 3).curr_decoded_bit : Int) =
      (update_viterbi_blk_scalar
        (create_viterbi (fun j => if j = 0 then 7 else 5) 8 127 (-127) raw_example)
        erased_example 4).curr_decoded_bit + 3 ∧
    (update_viterbi_blk_scalar (update_viterbi_blk_scalar
        (create_viterbi (fun j => if j = 0 then 7 else 5) 8 127 (-127) raw_example)
        erased_example 4) erased_example 3).maximum_decoded_bits =
      (update_viterbi_blk_scalar
        (create_viterbi (fun j => if j = 0 then 7 else 5) 8 127 (-127) raw_example)
        erased_example 4).maximum_decoded_bits ∧
    (∀ t : Nat, ((t : Int) < (update_viterbi_blk_scalar
        (create_viterbi (fun j => if j = 0 then 7 else 5) 8 127 (-127) raw_example)
        erased_example 4).curr_decoded_bit ∨
      ((update_viterbi_blk_scalar
        (create_viterbi (fun j => if j = 0 then 7 else 5) 8 127 (-127) raw_example)
        erased_example 4).curr_decoded_bit : Int) + 3 ≤ t) →
      (update_viterbi_blk_scalar (update_viterbi_blk_scalar
        (create_viterbi (fun j => if j = 0 then 7 else 5) 8 127 (-127) raw_example)
        erased_example 4) erased_example 3).decisions t =
      (update_viterbi_blk_scalar
        (create_viterbi (fun j => if j = 0 then 7 else 5) 8 127 (-127) raw_example)
        erased_example 4).decisions t) ∧
    (∀ s : Nat, (s : Int) < 3 →
      (update_viterbi_blk_scalar (update_viterbi_blk_scalar
        (create_viterbi (fun j => if j = 0 then 7 else 5) 8 127 (-127) raw_example)
        erased_example 4) erased_example 3).decisions ((update_viterbi_blk_scalar
          (create_viterbi (fun j => if j = 0 then 7 else 5) 8 127 (-127) raw_example)
          erased_example 4).curr_decoded_bit + s) =
        (update_step erased_example (update_viterbi_blk_scalar (update_viterbi_blk_scalar
          (create_viterbi (fun j => if j = 0 then 7 else 5) 8 127 (-127) raw_example)
          erased_example 4) erased_example (s : Int),
          (update_viterbi_blk_scalar
            (create_viterbi (fun j => if j = 0 then 7 else 5) 8 127 (-127) raw_example)
            erased_example 4).curr_decoded_bit + s) s).1.decisions ((update_viterbi_blk_scalar
              (create_viterbi (fun j => if j = 0 then 7 else 5) 8 127 (-127) raw_example)
              erased_example 4).curr_decoded_bit + s) ∧
      (∃ m, m < 2 ^ NUMSTATES ∧
        (update_viterbi_blk_scalar (update_viterbi_blk_scalar
          (create_viterbi (fun j => if j = 0 then 7 else 5) 8 127 (-127) raw_example)
          erased_example 4) erased_example 3).decisions ((update_viterbi_blk_scalar
            (create_viterbi (fun j => if j = 0 then 7 else 5) 8 127 (-127) raw_example)
            erased_example 4).curr_decoded_bit + s) 0 =
          to_uint8 ((update_viterbi_blk_scalar
            (create_viterbi (fun j => if j = 0 then 7 else 5) 8 127 (-127) raw_example)
            erased_example 4).decisions ((update_viterbi_blk_scalar
              (create_viterbi (fun j => if j = 0 then 7 else 5) 8 127 (-127) raw_example)
              erased_example 4).curr_decoded_bit + s) 0 ||| m)) ∧
      ∀ b, b ≠ 0 →
        (update_viterbi_blk_scalar (update_viterbi_blk_scalar
          (create_viterbi (fun j => if j = 0 then 7 else 5) 8 127 (-127) raw_example)
          erased_example 4) erased_example 3).decisions ((update_viterbi_blk_scalar
            (create_viterbi (fun j => if j = 0 then 7 else 5) 8 127 (-127) raw_example)
            erased_example 4).curr_decoded_bit + s) b =
          (update_viterbi_blk_scalar
            (create_viterbi (fun j => if j = 0 then 7 else 5) 8 127 (-127) raw_example)
            erased_example 4).decisions ((update_viterbi_blk_scalar
              (create_viterbi (fun j => if j = 0 then 7 else 5) 8 127 (-127) raw_example)
              erased_example 4).curr_decoded_bit + s) b) ∧
    (((update_viterbi_blk_scalar
        (create_viterbi (fun j => if j = 0 then 7 else 5) 8 127 (-127) raw_example)
        erased_example 4).curr_decoded_bit : Int) + 3 ≤
      (update_viterbi_blk_scalar
        (create_viterbi (fun j => if j = 0 then 7 else 5) 8 127 (-127) raw_example)
        erased_example 4).maximum_decoded_bits →
      ∀ s : Nat, (s : Int) < 3 →
        (update_viterbi_blk_scalar
          (create_viterbi (fun j => if j = 0 then 7 else 5) 8 127 (-127) raw_example)
          erased_example 4).curr_decoded_bit + s <
          (update_viterbi_blk_scalar (update_viterbi_blk_scalar
            (create_viterbi (fun j => if j = 0 then 7 else 5) 8 127 (-127) raw_example)
            erased_example 4) erased_example 3).maximum_decoded_bits)) :=
  ⟨by decide, decode_index (update_viterbi_blk_scalar
    (create_viterbi (fun j => if j = 0 then 7 else 5) 8 127 (-127) raw_example)
    erased_example 4) erased_example 3 (by decide)⟩

namespace Sync

variable {F PF SC VD CR : Type} [LinearOrderedField F]

/-- One phase of `process_await_preamble` writes none of the byte buffers. -/
theorem preamble_phase_buffers (E : Externals F PF SC VD CR) (fuel : Nat) (IQ : complex F)
    (bps : Int) (st st' : FrameSynchroniser F PF SC VD CR × Int) (i : Nat)
    (h : process_await_preamble_phase E fuel IQ bps st i = some st') :
    st'.1.descramble_buffer = st.1.descramble_buffer ∧
    st'.1.encoded_buffer = st.1.encoded_buffer := by
  unfold process_await_preamble_phase at h
  cases hs : symbol_to_bits E fuel (IQ.mul (st.1.preamble_mixers (i : Int))) with
  | none => simp [hs] at h
  | some sym =>
    simp only [hs] at h
    split_ifs at h <;> cases h <;> simp

omit [LinearOrderedField F] in
/-- `reset_decoders` writes neither `descramble_buffer` nor `encoded_buffer`. -/
theorem reset_decoders_buffers (E : Externals F PF SC VD CR)
    (fs : FrameSynchroniser F PF SC VD CR) :
    (reset_decoders E fs).descramble_buffer = fs.descramble_buffer ∧
    (reset_decoders E fs).encoded_buffer = fs.encoded_buffer := by
  unfold reset_decoders
  obtain ⟨b, hb⟩ := reset_fold_frame (List.range fs.decoded_bytes.toNat) fs
  simp [hb]

/-- A call of `process_await_preamble` writes neither `descramble_buffer` nor
`encoded_buffer` and keeps `nb_buffer`. -/
theorem await_preamble_buffers (E : Externals F PF SC VD CR) (fuel : Nat)
    (fs fs' : FrameSynchroniser F PF SC VD CR) (IQ : complex F) (r : ProcessResult)
    (h : process_await_preamble E fuel fs IQ = some (fs', r)) :
    fs'.descramble_buffer = fs.descramble_buffer ∧ fs'.encoded_buffer = fs.encoded_buffer ∧
    fs'.nb_buffer = fs.nb_buffer := by
  unfold process_await_preamble at h
  simp only at h
  cases h1 : (List.range 4).foldlM (process_await_preamble_phase E fuel IQ 4)
      ({ fs with bits_since_preamble := fs.bits_since_preamble + 4 }, 0) with
  | none => simp [h1] at h
  | some st =>
    have hst := foldlM_option_inv (process_await_preamble_phase E fuel IQ 4)
      (fun s => s.1.descramble_buffer = fs.descramble_buffer ∧
        s.1.encoded_buffer = fs.encoded_buffer ∧ s.1.nb_buffer = fs.nb_buffer)
      (fun s i s' hP hs => by
        obtain ⟨k1, k2⟩ := preamble_phase_buffers E fuel IQ 4 s s' i hs
        have k3 := (preamble_phase_frame E fuel IQ 4 s s' i hs).2.2.2.1
        exact ⟨k1.trans hP.1, k2.trans hP.2.1, k3.trans hP.2.2⟩)
      _ _ st ⟨rfl, rfl, rfl⟩ h1
    obtain ⟨fs2, total⟩ := st
    simp only [h1] at h
    split_ifs at h
    · cases h
      dsimp only
      rw [(reset_decoders_buffers E _).1, (reset_decoders_buffers E _).2,
        (reset_decoders_frame E _).2.2.2.2.2.1]
      exact hst
    · cases h
      exact hst

/-- The writes of `process_decoder_symbol` go to index `encoded_bytes` of
`descramble_buffer` and `encoded_buffer`. -/
theorem decoder_symbol_writes (E : Externals F PF SC VD CR) (fuel : Nat)
    (fs fs1 : FrameSynchroniser F PF SC VD CR) (IQ : complex F)
    (h : process_decoder_symbol E fuel fs IQ = some fs1) :
    ∀ k, k ≠ fs.encoded_bytes →
      fs1.descramble_buffer k = fs.descramble_buffer k ∧
      fs1.encoded_buffer k = fs.encoded_buffer k := by
  intro k hk
  unfold process_decoder_symbol at h
  cases hs : symbol_to_bits E fuel
      (IQ.mul (fs.preamble_mixers fs.preamble_state.selected_phase)) with
  | none => simp [hs] at h
  | some sym =>
    simp only [hs] at h
    split_ifs at h <;> cases h <;> simp [write, hk]

/-- After its symbol, a call of `process_await_block_size` or `process_await_payload` writes
neither `descramble_buffer` nor `encoded_buffer`, and it keeps `nb_buffer`. -/
theorem await_buffers (E : Externals F PF SC VD CR) (fuel : Nat)
    (fs fs' : FrameSynchroniser F PF SC VD CR) (IQ : complex F) (r : ProcessResult)
    (h : process_await_block_size E fuel fs IQ = some (fs', r) ∨
      process_await_payload E fuel fs IQ = some (fs', r)) :
    ∃ fs1, process_decoder_symbol E fuel fs IQ = some fs1 ∧
      fs'.descramble_buffer = fs1.descramble_buffer ∧
      fs'.encoded_buffer = fs1.encoded_buffer ∧ fs'.nb_buffer = fs.nb_buffer := by
  rcases h with h | h
  · unfold process_await_block_size at h
    cases h1 : process_decoder_symbol E fuel fs IQ with
    | none => simp [h1] at h
    | some fs1 =>
      have hnb := (process_decoder_symbol_frame E fuel fs fs1 IQ h1).2.2.2.1
      refine ⟨fs1, rfl, ?_⟩
      simp only [h1] at h
      split_ifs at h <;> cases h <;> exact ⟨rfl, rfl, hnb⟩
  · unfold process_await_payload at h
    cases h1 : process_decoder_symbol E fuel fs IQ with
    | none => simp [h1] at h
    | some fs1 =>
      have hnb := (process_decoder_symbol_frame E fuel fs fs1 IQ h1).2.2.2.1
      refine ⟨fs1, rfl, ?_⟩
      simp only [h1] at h
      split_ifs at h <;> cases h <;> exact ⟨rfl, rfl, hnb⟩

/-- A call of `process` writes `descramble_buffer` and `encoded_buffer` at index
`encoded_bytes` only, not at all in `WAIT_PREAMBLE`, and keeps `nb_buffer`. -/
theorem process_writes (E : Externals F PF SC VD CR) (fuel : Nat)
    (fs fs' : FrameSynchroniser F PF SC VD CR) (IQ : complex F) (r : ProcessResult)
    (h : process E fuel fs IQ = some (fs', r)) :
    fs'.nb_buffer = fs.nb_buffer ∧
    (fs.state = State.WAIT_PREAMBLE →
      fs'.descramble_buffer = fs.descramble_buffer ∧ fs'.encoded_buffer = fs.encoded_buffer) ∧
    ∀ k, k ≠ fs.encoded_bytes →
      fs'.descramble_buffer k = fs.descramble_buffer k ∧
      fs'.encoded_buffer k = fs.encoded_buffer k := by
  unfold process at h
  cases hs : fs.state with
  | WAIT_PREAMBLE =>
    rw [hs] at h
    obtain ⟨a1, a2, a3⟩ := await_preamble_buffers E fuel fs fs' IQ r h
    exact ⟨a3, fun _ => ⟨a1, a2⟩, fun k _ => by rw [a1, a2]; exact ⟨rfl, rfl⟩⟩
  | WAIT_BLOCK_SIZE =>
    rw [hs] at h
    obtain ⟨fs1, h1, a1, a2, a3⟩ := await_buffers E fuel fs fs' IQ r (Or.inl h)
    refine ⟨a3, (fun hc => by cases hc), fun k hk => ?_⟩
    rw [a1, a2]
    exact decoder_symbol_writes E fuel fs fs1 IQ h1 k hk
  | WAIT_PAYLOAD =>
    rw [hs] at h
    obtain ⟨fs1, h1, a1, a2, a3⟩ := await_buffers E fuel fs fs' IQ r (Or.inr h)
    refine ⟨a3, (fun hc => by cases hc), fun k hk => ?_⟩
    rw [a1, a2]
    exact decoder_symbol_writes E fuel fs fs1 IQ h1 k hk

/-- A call of `process` keeps the bounds of `encoded_bytes`: below 16 in `WAIT_BLOCK_SIZE`,
below `encoded_block_size ≤ nb_buffer` in `WAIT_PAYLOAD`, at a nibble boundary. -/
theorem process_bounds (E : Externals F PF SC VD CR) (fuel : Nat)
    (fs fs' : FrameSynchroniser F PF SC VD CR) (IQ : complex F) (r : ProcessResult)
    (h : process E fuel fs IQ = some (fs', r)) (hB : 0 ≤ fs.nb_buffer)
    (h1 : fs.state = State.WAIT_BLOCK_SIZE →
      (fs.encoded_bits = 0 ∨ fs.encoded_bits = 4) ∧ 0 ≤ fs.encoded_bytes ∧
        fs.encoded_bytes < 16)
    (h2 : fs.state = State.WAIT_PAYLOAD →
      (fs.encoded_bits = 0 ∨ fs.encoded_bits = 4) ∧ 0 ≤ fs.encoded_bytes ∧
        fs.encoded_bytes < fs.encoded_block_size ∧ fs.encoded_block_size ≤ fs.nb_buffer) :
    (fs'.state = State.WAIT_BLOCK_SIZE →
      (fs'.encoded_bits = 0 ∨ fs'.encoded_bits = 4) ∧ 0 ≤ fs'.encoded_bytes ∧
        fs'.encoded_bytes < 16) ∧
    (fs'.state = State.WAIT_PAYLOAD →
      (fs'.encoded_bits = 0 ∨ fs'.encoded_bits = 4) ∧ 0 ≤ fs'.encoded_bytes ∧
        fs'.encoded_bytes < fs'.encoded_block_size ∧
        fs'.encoded_block_size ≤ fs'.nb_buffer) := by
  obtain ⟨hall, hnext⟩ := process_step E fuel fs fs' IQ r h
  have hnb := (process_writes E fuel fs fs' IQ r h).1
  have e16 : nb_bytes_for_block_size = 16 := rfl
  cases hs : fs.state with
  | WAIT_PREAMBLE =>
    rw [hs] at hall hnext
    rcases hall with hr | hr
    · subst hr
      constructor <;> intro hc <;> rw [hnext] at hc <;> cases hc
    · subst hr
      unfold process at h
      rw [hs] at h
      obtain ⟨r1, r2, -, -, -, -, -, -, r9⟩ := preamble_found_reset E fuel fs fs' IQ h
      constructor
      · intro _
        exact ⟨Or.inl r1, by rw [r2], by rw [r2]; decide⟩
      · intro hc
        rw [r9] at hc
        cases hc
  | WAIT_BLOCK_SIZE =>
    obtain ⟨hb, hy0, hy1⟩ := h1 hs
    obtain ⟨c1, c2, c3, -, -⟩ := frame_call E fuel fs fs' IQ r h (Or.inl hs)
    rw [hs, if_pos rfl, e16] at c3
    rw [hs] at hall hnext
    have hbits : (fs'.encoded_bits = 0 ∨ fs'.encoded_bits = 4) ∧ 0 ≤ fs'.encoded_bytes ∧
        fs'.encoded_bytes ≤ 16 ∧ (fs'.encoded_bits = 4 → fs'.encoded_bytes < 16) := by
      rcases hb with hb | hb
      · obtain ⟨x1, x2⟩ := c1 hb
        exact ⟨Or.inr x1, by omega, by omega, fun _ => by omega⟩
      · obtain ⟨x1, x2⟩ := c2 hb
        exact ⟨Or.inl x1, by omega, by omega, fun hc => by omega⟩
    rcases hall with hr | hr | hr
    · subst hr
      have hn := c3.mp rfl
      constructor
      · intro _
        refine ⟨hbits.1, hbits.2.1, ?_⟩
        by_contra hc
        apply hn
        rcases hbits.1 with hz | hz
        · exact ⟨by omega, hz⟩
        · have := hbits.2.2.2 hz
          omega
      · intro hc
        rw [hnext] at hc
        cases hc
    · subst hr
      have hne : ProcessResult.BLOCK_SIZE_OK ≠ ProcessResult.NONE := by decide
      have hd : 16 ≤ fs'.encoded_bytes ∧ fs'.encoded_bits = 0 := by
        by_contra hc
        exact hne (c3.mpr hc)
      have h' := h
      unfold process at h'
      rw [hs] at h'
      simp only at h'
      obtain ⟨fs1, f1, -, -, k3, k4, -, k6⟩ :=
        await_block_size_effect E fuel fs fs' IQ _ h'
      obtain ⟨kd, -, -, -, kok⟩ := k6 hne
      obtain ⟨-, -, l32, n5⟩ := kok rfl
      have hdone : completes_prefix E fuel fs IQ = true := by
        simp only [ completes_prefix, f1, ge_iff_le, kd.1, kd.2, decide_True, Bool.and_self]
      obtain ⟨g, r', hg, -, hiff, -⟩ := await_block_size_done E fuel fs IQ hs hdone
      rw [h] at hg
      cases hg
      obtain ⟨-, hmax⟩ := hiff.mp rfl
      constructor
      · intro hc
        rw [hnext] at hc
        cases hc
      · intro _
        have hdiv : fs.nb_buffer.tdiv 2 = fs.nb_buffer / 2 :=
          Int.tdiv_eq_ediv hB (by decide)
        rw [hdiv] at hmax
        refine ⟨hbits.1, hbits.2.1, by rw [l32]; omega, ?_⟩
        rw [l32, hnb]
        omega
    · subst hr
      constructor <;> intro hc <;> rw [hnext] at hc <;> cases hc
  | WAIT_PAYLOAD =>
    obtain ⟨hb, hy0, hy1, hy2⟩ := h2 hs
    obtain ⟨c1, c2, c3, -, c5⟩ := frame_call E fuel fs fs' IQ r h (Or.inr hs)
    rw [hs, if_neg (by decide)] at c3
    rw [hs] at hall hnext
    have hebs := c5 hs
    have hbits : (fs'.encoded_bits = 0 ∨ fs'.encoded_bits = 4) ∧ 0 ≤ fs'.encoded_bytes ∧
        (fs'.encoded_bits = 4 → fs'.encoded_bytes < fs.encoded_block_size) := by
      rcases hb with hb | hb
      · obtain ⟨x1, x2⟩ := c1 hb
        exact ⟨Or.inr x1, by omega, fun _ => by omega⟩
      · obtain ⟨x1, x2⟩ := c2 hb
        exact ⟨Or.inl x1, by omega, fun hc => by omega⟩
    rcases hall with hr | hr | hr
    · subst hr
      have hn := c3.mp rfl
      constructor
      · intro hc
        rw [hnext] at hc
        cases hc
      · intro _
        refine ⟨hbits.1, hbits.2.1, ?_, by rw [hebs, hnb]; exact hy2⟩
        rw [hebs]
        by_contra hc
        apply hn
        rcases hbits.1 with hz | hz
        · exact ⟨by omega, hz⟩
        · have := hbits.2.2 hz
          omega
    · subst hr
      constructor <;> intro hc <;> rw [hnext] at hc <;> cases hc
    · subst hr
      constructor <;> intro hc <;> rw [hnext] at hc <;> cases hc

/-- The bounds of `encoded_bytes` along any sequence of calls. -/
theorem trace_bounds (E : Externals F PF SC VD CR) (fuel : Nat)
    (fs : FrameSynchroniser F PF SC VD CR) (input : Nat → complex F)
    (h0 : fs.state = State.WAIT_PREAMBLE) (hB : 0 ≤ fs.nb_buffer) :
    ∀ (n : Nat) (fs' : FrameSynchroniser F PF SC VD CR) (T : List (ProcessResult × State)),
      trace E fuel fs input n = some (fs', T) →
      fs'.nb_buffer = fs.nb_buffer ∧
      (fs'.state = State.WAIT_BLOCK_SIZE →
        (fs'.encoded_bits = 0 ∨ fs'.encoded_bits = 4) ∧ 0 ≤ fs'.encoded_bytes ∧
          fs'.encoded_bytes < 16) ∧
      (fs'.state = State.WAIT_PAYLOAD →
        (fs'.encoded_bits = 0 ∨ fs'.encoded_bits = 4) ∧ 0 ≤ fs'.encoded_bytes ∧
          fs'.encoded_bytes < fs'.encoded_block_size ∧
          fs'.encoded_block_size ≤ fs'.nb_buffer) := by
  intro n
  induction n with
  | zero =>
    intro fs' T h
    obtain ⟨-, e, -⟩ := trace_shape E fuel fs input 0 fs' T h
    rw [e rfl]
    refine ⟨rfl, ?_, ?_⟩ <;> intro hc <;> rw [h0] at hc <;> cases hc
  | succ n ih =>
    intro fs' T h
    obtain ⟨g1, T1, r, t1, t2, -⟩ := trace_succ_inv E fuel fs fs' input n T h
    obtain ⟨i1, i2, i3⟩ := ih g1 T1 t1
    obtain ⟨b1, b2⟩ := process_bounds E fuel g1 fs' (input n) r t2 (by rw [i1]; exact hB) i2 i3
    exact ⟨((process_writes E fuel g1 fs' (input n) r t2).1).trans i1, b1, b2⟩

end Sync

open Sync in
/-- C32: the buffer bounds of the synchroniser.  For every `FrameSynchroniser` constructed
with `nb_buffer ≥ 16` and every input sequence (with fuel for the demapper scan over at
most 255 points, so that every call returns), after any number `n` of calls `nb_buffer` is
what the constructor set, `0 ≤ encoded_bytes < 16` while in `WAIT_BLOCK_SIZE` and
`0 ≤ encoded_bytes < encoded_block_size ≤ nb_buffer` while in `WAIT_PAYLOAD`.  The next
call writes neither `descramble_buffer` nor `encoded_buffer` when made in `WAIT_PREAMBLE`;
otherwise it writes them at index `encoded_bytes` only, and `0 ≤ encoded_bytes < nb_buffer`
there. -/
theorem buffer_bounds {F PF SC VD CR : Type} [LinearOrderedField F]
    (E : Externals F PF SC VD CR) (fuel : Nat) (_preamble _scrambler_code _crc8_poly : Nat)
    (_buffer_size : Int) (raw : FrameSynchroniser F PF SC VD CR) (input : Nat → complex F)
    (n : Nat)
    (hN : E.QAM_Constellation_Size ≤ 255) (hf : E.QAM_Constellation_Size.toNat < fuel)
    (hB : 16 ≤ _buffer_size) :
    ∃ fs T, trace E fuel
        (FrameSynchroniser.create E _preamble _scrambler_code _crc8_poly _buffer_size raw)
        input n = some (fs, T) ∧
      fs.nb_buffer = _buffer_size ∧
      (fs.state = State.WAIT_BLOCK_SIZE →
        0 ≤ fs.encoded_bytes ∧ fs.encoded_bytes < 16 ∧ fs.encoded_bytes ≤ 16) ∧
      (fs.state = State.WAIT_PAYLOAD →
        0 ≤ fs.encoded_bytes ∧ fs.encoded_bytes < fs.encoded_block_size ∧
        fs.encoded_bytes ≤ fs.encoded_block_size ∧ fs.encoded_block_size ≤ fs.nb_buffer) ∧
      ∃ fs' r, process E fuel fs (input n) = some (fs', r) ∧
        (fs.state = State.WAIT_PREAMBLE →
          fs'.descramble_buffer = fs.descramble_buffer ∧
          fs'.encoded_buffer = fs.encoded_buffer) ∧
        (fs.state ≠ State.WAIT_PREAMBLE →
          0 ≤ fs.encoded_bytes ∧ fs.encoded_bytes < fs.nb_buffer) ∧
        ∀ k, k ≠ fs.encoded_bytes →
          fs'.descramble_buffer k = fs.descramble_buffer k ∧
          fs'.encoded_buffer k = fs.encoded_buffer k := by
  obtain ⟨fs, T, ht⟩ := trace_some E fuel
    (FrameSynchroniser.create E _preamble _scrambler_code _crc8_poly _buffer_size raw)
    input hN hf n
  have hnb0 : (FrameSynchroniser.create E _preamble _scrambler_code _crc8_poly _buffer_size
      raw).nb_buffer = _buffer_size := rfl
  obtain ⟨i1, i2, i3⟩ := trace_bounds E fuel
    (FrameSynchroniser.create E _preamble _scrambler_code _crc8_poly _buffer_size raw)
    input rfl (by rw [hnb0]; omega) n fs T ht
  rw [hnb0] at i1
  obtain ⟨⟨fs', r⟩, hp⟩ := process_some E fuel fs (input n) hN hf
  obtain ⟨-, w2, w3⟩ := process_writes E fuel fs fs' (input n) r hp
  refine ⟨fs, T, ht, i1, fun hs => ?_, fun hs => ?_, fs', r, hp, w2, fun hs => ?_, w3⟩
  · obtain ⟨-, a, b⟩ := i2 hs
    exact ⟨a, b, by omega⟩
  · obtain ⟨-, a, b, c⟩ := i3 hs
    exact ⟨a, b, by omega, c⟩
  · cases hst : fs.state with
    | WAIT_PREAMBLE => exact absurd hst hs
    | WAIT_BLOCK_SIZE =>
      obtain ⟨-, a, b⟩ := i2 hst
      exact ⟨a, by omega⟩
    | WAIT_PAYLOAD =>
      obtain ⟨-, a, b, c⟩ := i3 hst
      exact ⟨a, by omega⟩

open Sync Standin in
/-- C32 at a concrete input: a synchroniser with a buffer of 1024 bytes after the first 20
samples of a frame of length 5, and the call for the next sample. -/
theorem buffer_bounds_witness :
    (16 : Int) ≤ 1024 ∧
    (∃ fs T, trace externals 17
        (FrameSynchroniser.create externals 0xF9AFCD6D 0x8559 0xD5 1024 raw)
        (fun k => frame5.getD k (sample 0)) 20 = some (fs, T) ∧
      fs.nb_buffer = 1024 ∧
      (fs.state = State.WAIT_BLOCK_SIZE →
        0 ≤ fs.encoded_bytes ∧ fs.encoded_bytes < 16 ∧ fs.encoded_bytes ≤ 16) ∧
      (fs.state = State.WAIT_PAYLOAD →
        0 ≤ fs.encoded_bytes ∧ fs.encoded_bytes < fs.encoded_block_size ∧
        fs.encoded_bytes ≤ fs.encoded_block_size ∧ fs.encoded_block_size ≤ fs.nb_buffer) ∧
      ∃ fs' r, process externals 17 fs (frame5.getD 20 (sample 0)) = some (fs', r) ∧
        (fs.state = State.WAIT_PREAMBLE →
          fs'.descramble_buffer = fs.descramble_buffer ∧
          fs'.encoded_buffer = fs.encoded_buffer) ∧
        (fs.state ≠ State.WAIT_PREAMBLE →
          0 ≤ fs.encoded_bytes ∧ fs.encoded_bytes < fs.nb_buffer) ∧
        ∀ k, k ≠ fs.encoded_bytes →
          fs'.descramble_buffer k = fs.descramble_buffer k ∧
          fs'.encoded_buffer k = fs.encoded_buffer k) :=
  ⟨by decide, buffer_bounds externals 17 0xF9AFCD6D 0x8559 0xD5 1024 raw
    (fun k => frame5.getD k (sample 0)) 20 (by decide) (by decide) (by decide)⟩

namespace Vit

/-- One symbol of `update_viterbi_blk_scalar` under the metric invariant: every value the
butterflies and `renormalize` compute is the exact integer, within `COMPUTETYPE`. -/
theorem update_step_exact (lo hi : Int) (s d : Nat) (syms : Nat → Int) (vp : vitdec_t)
    (hle : lo ≤ hi) (hM : 3 * (2 * (hi - lo)) ≤ 3000)
    (hne : vp.old_metrics ≠ vp.new_metrics)
    (htab : ∀ j < 2, ∀ i < 2, vp.BranchTable j i = lo ∨ vp.BranchTable j i = hi)
    (hme : vp.soft_decision_max_error = hi - lo)
    (hsym : ∀ k, lo ≤ syms k ∧ syms k ≤ hi)
    (hx : CeilingInv (2 * (hi - lo)) (buf vp vp.old_metrics)) :
    (∀ i < 2, ∀ j < 2, -(hi - lo) ≤ vp.BranchTable j i - syms (s * 2 + j) ∧
      vp.BranchTable j i - syms (s * 2 + j) ≤ hi - lo) ∧
    (∀ i < 2, BFLY_metric i s syms vp =
        |vp.BranchTable 0 i - syms (s * 2)| + |vp.BranchTable 1 i - syms (s * 2 + 1)| ∧
      0 ≤ BFLY_metric i s syms vp ∧ BFLY_metric i s syms vp ≤ 2 * (hi - lo)) ∧
    BFLY_max vp = 2 * (hi - lo) ∧
    (∀ i < NUMSTATES / 2, ∀ c ∈ BFLY_candidates i s syms vp, 0 ≤ c ∧ c ≤ 32767) ∧
    (∀ k < 4,
      0 ≤ buf ((List.range (NUMSTATES / 2)).foldl (fun vp i => BFLY i s syms vp d) vp)
        ((List.range (NUMSTATES / 2)).foldl (fun vp i => BFLY i s syms vp d) vp).new_metrics k ∧
      buf ((List.range (NUMSTATES / 2)).foldl (fun vp i => BFLY i s syms vp d) vp)
        ((List.range (NUMSTATES / 2)).foldl (fun vp i => BFLY i s syms vp d) vp).new_metrics k ≤
        32767) ∧
    ∃ m, 0 ≤ m ∧ ∀ k < 4,
      m ≤ buf ((List.range (NUMSTATES / 2)).foldl (fun vp i => BFLY i s syms vp d) vp)
        ((List.range (NUMSTATES / 2)).foldl (fun vp i => BFLY i s syms vp d) vp).new_metrics k ∧
      buf (update_step syms (vp, d) s).1 (update_step syms (vp, d) s).1.old_metrics k =
        buf ((List.range (NUMSTATES / 2)).foldl (fun vp i => BFLY i s syms vp d) vp)
          ((List.range (NUMSTATES / 2)).foldl (fun vp i => BFLY i s syms vp d) vp).new_metrics k -
          m := by
  have hmx : BFLY_max vp = 2 * (hi - lo) := by
    rw [BFLY_max_bound vp (by rw [hme]; omega), hme]
  have herr : ∀ i < 2, ∀ j < 2, -(hi - lo) ≤ vp.BranchTable j i - syms (s * 2 + j) ∧
      vp.BranchTable j i - syms (s * 2 + j) ≤ hi - lo := by
    intro i hi2 j hj
    have := hsym (s * 2 + j)
    rcases htab j hj i hi2 with h | h <;> rw [h] <;> omega
  have hmet : ∀ i < 2, BFLY_metric i s syms vp =
        |vp.BranchTable 0 i - syms (s * 2)| + |vp.BranchTable 1 i - syms (s * 2 + 1)| ∧
      0 ≤ BFLY_metric i s syms vp ∧ BFLY_metric i s syms vp ≤ 2 * (hi - lo) := by
    intro i hi2
    have b0 := herr i hi2 0 (by omega)
    have b1 := herr i hi2 1 (by omega)
    rw [Nat.add_zero] at b0
    have e := BFLY_metric_bound i s syms vp (hi - lo) (by omega) b0 b1
    have a0 := iabs_bounds _ _ b0
    have a1 := iabs_bounds _ _ b1
    rw [e, iabs_eq_abs, iabs_eq_abs] at *
    exact ⟨rfl, by omega, by omega⟩
  obtain ⟨-, m0a, m0b⟩ := hmet 0 (by omega)
  obtain ⟨-, m1a, m1b⟩ := hmet 1 (by omega)
  refine ⟨herr, hmet, hmx, ?_⟩
  clear hmet herr
  have hT : RENORMALIZE_THRESHOLD = 29767 := by decide
  obtain ⟨-, hb⟩ := ceiling_bounds _ _ (by omega) hx
  rw [hT] at hb
  have h0 := hb 0 (by omega)
  have h1 := hb 1 (by omega)
  have h2 := hb 2 (by omega)
  have h3 := hb 3 (by omega)
  generalize hcc0 : BFLY_metric 0 s syms vp = c0 at *
  generalize hcc1 : BFLY_metric 1 s syms vp = c1 at *
  have hcand : ∀ i < NUMSTATES / 2, ∀ c ∈ BFLY_candidates i s syms vp, 0 ≤ c ∧ c ≤ 32767 := by
    intro i hi2 c hc
    rw [half_states] at hi2
    interval_cases i <;>
      simp only [BFLY_candidates, hmx, hcc0, hcc1, half_states, List.mem_cons,
        List.mem_singleton, List.not_mem_nil, or_false, Nat.zero_add, Nat.reduceAdd] at hc <;>
      rcases hc with h | h | h | h <;> rw [h] <;> omega
  refine ⟨hcand, ?_⟩
  obtain ⟨a1, a2, a3, a4, a5, a6, a7, a8, a9⟩ :=
    BFLY_eval 0 s d syms vp c0 (2 * (hi - lo)) (buf vp vp.old_metrics 0) (buf vp vp.old_metrics 2)
      hne hcc0 hmx rfl rfl (by omega) (by omega) (by omega) (by omega)
  generalize hv1 : BFLY 0 s syms vp d = vp1 at *
  have hne1 : vp1.old_metrics ≠ vp1.new_metrics := by rw [a1, a2]; exact hne
  have hc1' : BFLY_metric 1 s syms vp1 = c1 := by rw [BFLY_metric_congr _ _ _ _ _ a3, hcc1]
  have hmx' : BFLY_max vp1 = 2 * (hi - lo) := by rw [BFLY_max_congr _ _ a4, hmx]
  have hA1 : buf vp1 vp1.old_metrics 1 = buf vp vp.old_metrics 1 := by rw [a1, a7]
  have hB1 : buf vp1 vp1.old_metrics (1 + 2) = buf vp vp.old_metrics 3 := by rw [a1, a7]
  obtain ⟨b1, b2, b3, b4, b5, b6, b7, b8, b9⟩ :=
    BFLY_eval 1 s d syms vp1 c1 (2 * (hi - lo)) _ _ hne1 hc1' hmx' hA1 hB1
      (by omega) (by omega) (by omega) (by omega)
  generalize hv2 : BFLY 1 s syms vp1 d = vp2 at *
  have hfold : (List.range (NUMSTATES / 2)).foldl (fun vp i => BFLY i s syms vp d) vp = vp2 := by
    simp only [half_states, range_two, List.foldl_cons, List.foldl_nil, hv1, hv2]
  have n2 : vp2.new_metrics = vp.new_metrics := by rw [b2, a2]
  have hnew : ∀ k < 4, 0 ≤ buf vp2 vp2.new_metrics k ∧ buf vp2 vp2.new_metrics k ≤ 32767 := by
    intro k hk
    rw [n2, ← a2, b8, a2, a8]
    simp only [write]
    interval_cases k <;> simp <;> split_ifs <;> omega
  rw [update_step_renormalize, hfold]
  refine ⟨hnew, ?_⟩
  obtain ⟨r1, r2⟩ := renormalize_spec (buf vp2 vp2.new_metrics) RENORMALIZE_THRESHOLD
  by_cases hy : buf vp2 vp2.new_metrics 0 > RENORMALIZE_THRESHOLD
  · obtain ⟨m, hmin, ⟨k0, hk0, hk0m⟩, hsub⟩ := r1 hy
    have mpos : 0 ≤ m := by rw [← hk0m]; exact (hnew k0 hk0).1
    refine ⟨m, mpos, fun k hk => ⟨hmin k hk, ?_⟩⟩
    rw [hsub k hk]
    have := hnew k hk
    have := hmin k hk
    exact to_int16_of_range (by omega) (by omega)
  · refine ⟨0, le_refl _, fun k hk => ⟨(hnew k hk).1, ?_⟩⟩
    rw [r2 hy, sub_zero]

end Vit

open Vit in
/-- C33: no `int16` wraparound.  For soft levels with
`0 ≤ soft_decision_high - soft_decision_low ≤ 255`, every soft input within
`[soft_decision_low, soft_decision_high]`, any decoder reachable from `create_viterbi` and
any number `n` of symbols processed by `update_viterbi_blk_scalar` after `init_viterbi`:
every stored state metric is within `0 .. SHRT_MAX`, and in the butterflies of the next
symbol every error `Branch[j][i] - sym[j]` and its absolute value, the branch metric (which
is the exact sum of the absolute errors), `max` (exactly
`CODE_RATE * (soft_decision_high - soft_decision_low)`), the four candidate metrics
`m0 .. m3` and the new state metrics are within `COMPUTETYPE`; the subtraction of
`renormalize` is the exact difference `x[i] - m` with `0 ≤ m ≤ x[i]`.  So no `int16`
arithmetic of `BFLY` and `renormalize` wraps. -/
theorem no_int16_wraparound (polys : Nat → Nat) (len : Nat)
    (soft_decision_high soft_decision_low : Int) (raw vp : vitdec_t) (starting_state : Int)
    (syms : Nat → Int) (n : Nat)
    (hlo : 0 ≤ soft_decision_high - soft_decision_low)
    (hhi : soft_decision_high - soft_decision_low ≤ 255)
    (hreach : Reachable polys len soft_decision_high soft_decision_low raw vp)
    (hsym : ∀ k, soft_decision_low ≤ syms k ∧ syms k ≤ soft_decision_high) :
    (∀ k < NUMSTATES,
      0 ≤ get_error_viterbi
        (update_viterbi_blk_scalar (init_viterbi vp starting_state) syms (n : Int)) k ∧
      get_error_viterbi
        (update_viterbi_blk_scalar (init_viterbi vp starting_state) syms (n : Int)) k ≤
        SHRT_MAX) ∧
    (∀ i < NUMSTATES / 2, ∀ j < CODE_RATE,
      |(update_viterbi_blk_scalar (init_viterbi vp starting_state) syms (n : Int)).BranchTable
        j i - syms (n * CODE_RATE + j)| ≤ soft_decision_high - soft_decision_low) ∧
    (∀ i < NUMSTATES / 2,
      BFLY_metric i n syms
          (update_viterbi_blk_scalar (init_viterbi vp starting_state) syms (n : Int)) =
        ((List.range CODE_RATE).map (fun j =>
          |(update_viterbi_blk_scalar (init_viterbi vp starting_state) syms
            (n : Int)).BranchTable j i - syms (n * CODE_RATE + j)|)).sum ∧
      0 ≤ BFLY_metric i n syms
          (update_viterbi_blk_scalar (init_viterbi vp starting_state) syms (n : Int)) ∧
      BFLY_metric i n syms
          (update_viterbi_blk_scalar (init_viterbi vp starting_state) syms (n : Int)) ≤
        BFLY_max (update_viterbi_blk_scalar (init_viterbi vp starting_state) syms (n : Int))) ∧
    BFLY_max (update_viterbi_blk_scalar (init_viterbi vp starting_state) syms (n : Int)) =
      CODE_RATE * (soft_decision_high - soft_decision_low) ∧
    (CODE_RATE : Int) * (soft_decision_high - soft_decision_low) ≤ SHRT_MAX ∧
    (∀ i < NUMSTATES / 2,
      ∀ c ∈ BFLY_candidates i n syms
          (update_viterbi_blk_scalar (init_viterbi vp starting_state) syms (n : Int)),
        0 ≤ c ∧ c ≤ SHRT_MAX) ∧
    ∃ x : Nat → Int, ∃ m : Int,
      x = buf ((List.range (NUMSTATES / 2)).foldl (fun v i => BFLY i n syms v
          (update_viterbi_blk_scalar (init_viterbi vp starting_state) syms
            (n : Int)).curr_decoded_bit)
          (update_viterbi_blk_scalar (init_viterbi vp starting_state) syms (n : Int)))
        ((List.range (NUMSTATES / 2)).foldl (fun v i => BFLY i n syms v
          (update_viterbi_blk_scalar (init_viterbi vp starting_state) syms
            (n : Int)).curr_decoded_bit)
          (update_viterbi_blk_scalar (init_viterbi vp starting_state) syms
            (n : Int))).new_metrics ∧
      0 ≤ m ∧
      ∀ k < NUMSTATES, 0 ≤ x k ∧ x k ≤ SHRT_MAX ∧ m ≤ x k ∧
        get_error_viterbi (update_viterbi_blk_scalar (init_viterbi vp starting_state) syms
          ((n + 1 : Nat) : Int)) k = x k - m := by
  have hS : SHRT_MAX = 32767 := rfl
  have hC : ((CODE_RATE : Nat) : Int) = 2 := rfl
  have hle : soft_decision_low ≤ soft_decision_high := by omega
  obtain ⟨htab, hme⟩ := reachable_table polys len soft_decision_high soft_decision_low raw
    _ (Reachable.init vp starting_state hreach)
  rw [to_int16_of_range (by omega) (by omega)] at hme
  obtain ⟨hne, -, -⟩ := reachable_inv polys len soft_decision_high soft_decision_low raw
    _ (Reachable.init vp starting_state hreach)
  have hrun := run_ceiling soft_decision_low soft_decision_high syms
    (init_viterbi vp starting_state) hle (by omega) hne htab hme hsym (init_ceiling _ vp _)
  obtain ⟨r2, -⟩ := (run_frame syms (init_viterbi vp starting_state) hne n).2
  obtain ⟨t1, t2⟩ := run_table syms (init_viterbi vp starting_state) n
  obtain ⟨q1, q3, -⟩ := run_decisions syms (init_viterbi vp starting_state) n
  have e1 := (update_blk_succ (init_viterbi vp starting_state) syms n).1
  have e2 := (update_blk_succ (init_viterbi vp starting_state) syms n).2
  obtain ⟨-, b⟩ := ceiling_bounds _ _ (by omega) (hrun n).1
  generalize hst : (List.range n).foldl (update_step syms)
    (init_viterbi vp starting_state, (init_viterbi vp starting_state).curr_decoded_bit) = st at *
  obtain ⟨vq, d⟩ := st
  simp only at e1 e2 q1
  have hr := (hrun n).1
  rw [e2] at r2 t1 t2 q3 b hr
  rw [e1, e2]
  clear e1 e2 hrun
  have hd : d = vq.curr_decoded_bit := by rw [q1, q3]
  subst hd
  obtain ⟨x1, x2, x3, x4, x5, m, x6, x7⟩ := update_step_exact soft_decision_low
    soft_decision_high n vq.curr_decoded_bit syms vq hle (by omega) r2 (by rw [t1]; exact htab)
    (by rw [t2]; exact hme) hsym hr
  have hT : RENORMALIZE_THRESHOLD = 29767 := by decide
  rw [hT] at b
  rw [hS, hC, CODE_RATE_eq, half_states, NUMSTATES_eq]
  refine ⟨fun k hk => ?_, fun i hi j hj => ?_, fun i hi => ?_, x3, by omega, x4, _, m, rfl, x6,
    fun k hk => ?_⟩
  · unfold get_error_viterbi
    rw [NUMSTATES_eq, Nat.mod_eq_of_lt hk]
    have := b k hk
    omega
  · exact abs_le.mpr (x1 i hi j hj)
  · obtain ⟨y1, y2, y3⟩ := x2 i hi
    refine ⟨?_, y2, by rw [x3]; exact y3⟩
    rw [y1]
    simp [range_two]
  · obtain ⟨z1, z2⟩ := x5 k hk
    obtain ⟨z3, z4⟩ := x7 k hk
    refine ⟨z1, z2, z3, ?_⟩
    unfold get_error_viterbi
    rw [NUMSTATES_eq, Nat.mod_eq_of_lt hk]
    exact z4

open Vit in
/-- C33 at a concrete input: the soft levels -127 and 127 and 118 symbols at the midpoint,
after which the next symbol takes the metric of state 0 above the ceiling. -/
theorem no_int16_wraparound_witness :
    (0 : Int) ≤ 127 - (-127) ∧ (127 : Int) - (-127) ≤ 255 ∧
    Reachable (fun j => if j = 0 then 7 else 5) 200 127 (-127) raw_example
      (create_viterbi (fun j => if j = 0 then 7 else 5) 200 127 (-127) raw_example) ∧
    (∀ k : Nat, (-127 : Int) ≤ (fun _ => (0 : Int)) k ∧ (fun _ => (0 : Int)) k ≤ 127) ∧
    ((∀ k < NUMSTATES,
      0 ≤ get_error_viterbi
        (update_viterbi_blk_scalar (init_viterbi
          (create_viterbi (fun j => if j = 0 then 7 else 5) 200 127 (-127) raw_example) 0) (fun _
              => 0) ((118 : Nat) : Int)) k ∧
      get_error_viterbi
        (update_viterbi_blk_scalar (init_viterbi
          (create_viterbi (fun j => if j = 0 then 7 else 5) 200 127 (-127) raw_example) 0) (fun _
              => 0) ((118 : Nat) : Int)) k ≤
        SHRT_MAX) ∧
    (∀ i < NUMSTATES / 2, ∀ j < CODE_RATE,
      |(update_viterbi_blk_scalar (init_viterbi
          (create_viterbi (fun j => if j = 0 then 7 else 5) 200 127 (-127) raw_example) 0) (fun _
              => 0) ((118 : Nat) : Int)).BranchTable
        j i - (fun _ => 0) (118 * CODE_RATE + j)| ≤ 127 - (-127)) ∧
    (∀ i < NUMSTATES / 2,
      BFLY_metric i 118 (fun _ => 0)
          (update_viterbi_blk_scalar (init_viterbi
          (create_viterbi (fun j => if j = 0 then 7 else 5) 200 127 (-127) raw_example) 0) (fun _
              => 0) ((118 : Nat) : Int)) =
        ((List.range CODE_RATE).map (fun j =>
          |(update_viterbi_blk_scalar (init_viterbi
          (create_viterbi (fun j => if j = 0 then 7 else 5) 200 127 (-127) raw_example) 0) (fun _
              => 0)
            ((118 : Nat) : Int)).BranchTable j i - (fun _ => 0) (118 * CODE_RATE + j)|)).sum ∧
      0 ≤ BFLY_metric i 118 (fun _ => 0)
          (update_viterbi_blk_scalar (init_viterbi
          (create_viterbi (fun j => if j = 0 then 7 else 5) 200 127 (-127) raw_example) 0) (fun _
              => 0) ((118 : Nat) : Int)) ∧
      BFLY_metric i 118 (fun _ => 0)
          (update_viterbi_blk_scalar (init_viterbi
          (create_viterbi (fun j => if j = 0 then 7 else 5) 200 127 (-127) raw_example) 0) (fun _
              => 0) ((118 : Nat) : Int)) ≤
        BFLY_max (update_viterbi_blk_scalar (init_viterbi
          (create_viterbi (fun j => if j = 0 then 7 else 5) 200 127 (-127) raw_example) 0) (fun _
              => 0) ((118 : Nat) : Int))) ∧
    BFLY_max (update_viterbi_blk_scalar (init_viterbi
          (create_viterbi (fun j => if j = 0 then 7 else 5) 200 127 (-127) raw_example) 0) (fun _
              => 0) ((118 : Nat) : Int)) =
      CODE_RATE * (127 - (-127)) ∧
    (CODE_RATE : Int) * (127 - (-127)) ≤ SHRT_MAX ∧
    (∀ i < NUMSTATES / 2,
      ∀ c ∈ BFLY_candidates i 118 (fun _ => 0)
          (update_viterbi_blk_scalar (init_viterbi
          (create_viterbi (fun j => if j = 0 then 7 else 5) 200 127 (-127) raw_example) 0) (fun _
              => 0) ((118 : Nat) : Int)),
        0 ≤ c ∧ c ≤ SHRT_MAX) ∧
    ∃ x : Nat → Int, ∃ m : Int,
      x = buf ((List.range (NUMSTATES / 2)).foldl (fun v i => BFLY i 118 (fun _ => 0) v
          (update_viterbi_blk_scalar (init_viterbi
          (create_viterbi (fun j => if j = 0 then 7 else 5) 200 127 (-127) raw_example) 0) (fun _
              => 0)
            ((118 : Nat) : Int)).curr_decoded_bit)
          (update_viterbi_blk_scalar (init_viterbi
          (create_viterbi (fun j => if j = 0 then 7 else 5) 200 127 (-127) raw_example) 0) (fun _
              => 0) ((118 : Nat) : Int)))
        ((List.range (NUMSTATES / 2)).foldl (fun v i => BFLY i 118 (fun _ => 0) v
          (update_viterbi_blk_scalar (init_viterbi
          (create_viterbi (fun j => if j = 0 then 7 else 5) 200 127 (-127) raw_example) 0) (fun _
              => 0)
            ((118 : Nat) : Int)).curr_decoded_bit)
          (update_viterbi_blk_scalar (init_viterbi
          (create_viterbi (fun j => if j = 0 then 7 else 5) 200 127 (-127) raw_example) 0) (fun _
              => 0)
            ((118 : Nat) : Int))).new_metrics ∧
      0 ≤ m ∧
      ∀ k < NUMSTATES, 0 ≤ x k ∧ x k ≤ SHRT_MAX ∧ m ≤ x k ∧
        get_error_viterbi (update_viterbi_blk_scalar (init_viterbi
          (create_viterbi (fun j => if j = 0 then 7 else 5) 200 127 (-127) raw_example) 0) (fun _
              => 0)
          ((118 + 1 : Nat) : Int)) k = x k - m) :=
  ⟨by decide, by decide, Reachable.create, fun _ => by simp,
    no_int16_wraparound (fun j => if j = 0 then 7 else 5) 200 127 (-127) raw_example
      (create_viterbi (fun j => if j = 0 then 7 else 5) 200 127 (-127) raw_example) 0
      (fun _ => 0) 118 (by decide) (by decide) Reachable.create (fun _ => by simp)⟩

section ScanVisits

variable {F : Type} [LinearOrderedField F]

/-- The record does not change what the scan returns. -/
theorem nearest_scan_visits_fst (N : Int) (err : Nat → F) :
    ∀ (fuel i best : Nat) (min_err : Option F) (visited : List Nat),
      (nearest_scan_visits N err fuel i best min_err visited).map Prod.fst =
        nearest_scan N err fuel i best min_err := by
  intro fuel
  induction fuel with
  | zero => intro i best min_err visited; rfl
  | succ fuel ih =>
    intro i best min_err visited
    unfold nearest_scan_visits nearest_scan
    split_ifs
    · exact ih _ _ _ _
    · exact ih _ _ _ _
    · rfl

/-- Over at most 255 points the scan visits the indices from `i` up to `n - 1`, each once
and in order. -/
theorem nearest_scan_visits_range (N : Int) (err : Nat → F) (n : Nat) (hN : N = n)
    (hn : n ≤ 255) :
    ∀ (fuel i best : Nat) (min_err : Option F) (visited : List Nat), i ≤ n → n - i < fuel →
      ∃ r, nearest_scan_visits N err fuel i best min_err visited =
        some (r, visited ++ List.range' i (n - i)) := by
  intro fuel
  induction fuel with
  | zero => intro i best min_err visited _ h; omega
  | succ fuel ih =>
    intro i best min_err visited hi hf
    unfold nearest_scan_visits
    by_cases hlt : (i : Int) < N
    · have hin : i < n := by rw [hN] at hlt; exact_mod_cast hlt
      have hu : to_uint8 (i + 1) = i + 1 := by unfold to_uint8; omega
      have hr : visited ++ List.range' i (n - i) =
          (visited ++ [i]) ++ List.range' (i + 1) (n - (i + 1)) := by
        have e : n - i = (n - (i + 1)) + 1 := by omega
        rw [e, List.range'_succ, List.append_assoc]
        rfl
      rw [if_pos hlt, hu, hr]
      split_ifs
      · exact ih _ _ _ _ (by omega) (by omega)
      · exact ih _ _ _ _ (by omega) (by omega)
    · have hin : i = n := by
        rw [hN] at hlt
        have : ¬ (i < n) := by exact_mod_cast hlt
        omega
      rw [if_neg hlt, hin, Nat.sub_self]
      exact ⟨best, by simp⟩

end ScanVisits

open Constellation in
/-- C34: termination of the demapper scan.  For a constellation of side `L ≥ 1`,
`N = L * L`, and the scan of `SquareConstellation::GetNearestSymbol`, whose 8-bit counter is
compared against `N`, terminates if and only if `N ≤ 255`, that is `L ≤ 15`.  When it
terminates (given fuel for `N + 1` loop tests) it has visited the indices `0 .. N-1`, each
exactly once and in order, and returns an index below `N`.  For `L ≥ 16` every value of the
8-bit counter is below `N`, so the counter wraps modulo 256 before it reaches `N`, and the
scan returns for no amount of fuel. -/
theorem demapper_scan_termination {F : Type} [LinearOrderedField F] (sqrtf : F → F) (L : Int)
    (raw : Nat → complex F) (x : complex F) (hL : 1 ≤ L) :
    (SquareConstellation.create sqrtf L raw).N = L * L ∧
    ((∃ fuel r, GetNearestSymbol sqrtf (SquareConstellation.create sqrtf L raw) x fuel = some r) ↔
      (SquareConstellation.create sqrtf L raw).N ≤ 255) ∧
    ((SquareConstellation.create sqrtf L raw).N ≤ 255 ↔ L ≤ 15) ∧
    ((SquareConstellation.create sqrtf L raw).N ≤ 255 →
      ∀ fuel, (SquareConstellation.create sqrtf L raw).N.toNat < fuel →
        ∃ r, GetNearestSymbol sqrtf (SquareConstellation.create sqrtf L raw) x fuel = some r ∧
          GetNearestSymbol_visits sqrtf (SquareConstellation.create sqrtf L raw) x fuel =
            some (r, List.range (SquareConstellation.create sqrtf L raw).N.toNat) ∧
          (r : Int) < (SquareConstellation.create sqrtf L raw).N) ∧
    (16 ≤ L →
      (∀ i : Nat, (to_uint8 i : Int) < (SquareConstellation.create sqrtf L raw).N) ∧
      ∀ fuel, GetNearestSymbol sqrtf (SquareConstellation.create sqrtf L raw) x fuel = none) := by
  have hNe : (SquareConstellation.create sqrtf L raw).N = L * L := create_N sqrtf L raw
  rw [hNe]
  have hsq : L * L ≤ 255 ↔ L ≤ 15 := by
    constructor
    · intro h
      nlinarith
    · intro h
      nlinarith
  have hpos : 0 < L * L := by nlinarith
  have hdiv : 256 ≤ L * L → ∀ fuel,
      GetNearestSymbol sqrtf (SquareConstellation.create sqrtf L raw) x fuel = none := by
    intro h fuel
    unfold GetNearestSymbol
    rw [hNe]
    exact nearest_scan_diverges _ _ h fuel 0 0 none (by decide)
  have hterm : L * L ≤ 255 → ∀ fuel, (L * L).toNat < fuel →
      ∃ r, GetNearestSymbol sqrtf (SquareConstellation.create sqrtf L raw) x fuel = some r ∧
        GetNearestSymbol_visits sqrtf (SquareConstellation.create sqrtf L raw) x fuel =
          some (r, List.range (L * L).toNat) ∧
        (r : Int) < L * L := by
    intro h fuel hf
    unfold GetNearestSymbol GetNearestSymbol_visits
    rw [hNe]
    obtain ⟨r, h1, h2⟩ := nearest_scan_spec (L * L)
      (fun i => (((SquareConstellation.create sqrtf L raw).C i).sub x).abs sqrtf) fuel h hf
    obtain ⟨r', h3⟩ := nearest_scan_visits_range (L * L)
      (fun i => (((SquareConstellation.create sqrtf L raw).C i).sub x).abs sqrtf) (L * L).toNat
      (by omega) (by omega) fuel 0 0 none [] (Nat.zero_le _) (by omega)
    have h4 := nearest_scan_visits_fst (L * L)
      (fun i => (((SquareConstellation.create sqrtf L raw).C i).sub x).abs sqrtf) fuel 0 0 none []
    rw [h3, h1] at h4
    simp only [Option.map_some', Option.some.injEq] at h4
    subst h4
    refine ⟨r', h1, ?_, ?_⟩
    · rw [h3, List.nil_append, Nat.sub_zero, List.range_eq_range']
    · rcases h2 with ⟨h0, _⟩ | ⟨hr, _⟩
      · omega
      · omega
  refine ⟨rfl, ⟨?_, ?_⟩, hsq, hterm, ?_⟩
  · rintro ⟨fuel, r, h⟩
    by_contra hc
    rw [hdiv (by omega) fuel] at h
    cases h
  · intro h
    obtain ⟨r, h1, _⟩ := hterm h ((L * L).toNat + 1) (by omega)
    exact ⟨_, r, h1⟩
  · intro h
    have h256 : 256 ≤ L * L := by nlinarith
    refine ⟨fun i => ?_, hdiv h256⟩
    have : to_uint8 i < 256 := Nat.mod_lt _ (by norm_num)
    omega

open Constellation in
/-- C34 at concrete inputs: the constellations of side 4 (16 points, the scan terminates)
and of side 16 (256 points, the scan does not) over the rationals. -/
theorem demapper_scan_termination_witness :
    ((1 : Int) ≤ 4 ∧
    ((SquareConstellation.create (fun x : ℚ => x) 4 (fun _ => ⟨0, 0⟩)).N = 4 * 4 ∧
    ((∃ fuel r, GetNearestSymbol (fun x : ℚ => x)
        (SquareConstellation.create (fun x : ℚ => x) 4 (fun _ => ⟨0, 0⟩)) ⟨1 / 2, 1 / 3⟩ fuel = some r) ↔
      (SquareConstellation.create (fun x : ℚ => x) 4 (fun _ => ⟨0, 0⟩)).N ≤ 255) ∧
    ((SquareConstellation.create (fun x : ℚ => x) 4 (fun _ => ⟨0, 0⟩)).N ≤ 255 ↔ (4 : Int) ≤ 15) ∧
    ((SquareConstellation.create (fun x : ℚ => x) 4 (fun _ => ⟨0, 0⟩)).N ≤ 255 →
      ∀ fuel, (SquareConstellation.create (fun x : ℚ => x) 4 (fun _ => ⟨0, 0⟩)).N.toNat < fuel →
        ∃ r, GetNearestSymbol (fun x : ℚ => x)
            (SquareConstellation.create (fun x : ℚ => x) 4 (fun _ => ⟨0, 0⟩)) ⟨1 / 2, 1 / 3⟩ fuel = some r ∧
          GetNearestSymbol_visits (fun x : ℚ => x)
            (SquareConstellation.create (fun x : ℚ => x) 4 (fun _ => ⟨0, 0⟩)) ⟨1 / 2, 1 / 3⟩ fuel =
            some (r, List.range
              (SquareConstellation.create (fun x : ℚ => x) 4 (fun _ => ⟨0, 0⟩)).N.toNat) ∧
          (r : Int) < (SquareConstellation.create (fun x : ℚ => x) 4 (fun _ => ⟨0, 0⟩)).N) ∧
    ((16 : Int) ≤ 4 →
      (∀ i : Nat, (to_uint8 i : Int) <
        (SquareConstellation.create (fun x : ℚ => x) 4 (fun _ => ⟨0, 0⟩)).N) ∧
      ∀ fuel, GetNearestSymbol (fun x : ℚ => x)
        (SquareConstellation.create (fun x : ℚ => x) 4 (fun _ => ⟨0, 0⟩)) ⟨1 / 2, 1 / 3⟩ fuel = none))) ∧
    ((1 : Int) ≤ 16 ∧
    ((SquareConstellation.create (fun x : ℚ => x) 16 (fun _ => ⟨0, 0⟩)).N = 16 * 16 ∧
    ((∃ fuel r, GetNearestSymbol (fun x : ℚ => x)
        (SquareConstellation.create (fun x : ℚ => x) 16 (fun _ => ⟨0, 0⟩)) ⟨1 / 2, 1 / 3⟩ fuel = some r) ↔
      (SquareConstellation.create (fun x : ℚ => x) 16 (fun _ => ⟨0, 0⟩)).N ≤ 255) ∧
    ((SquareConstellation.create (fun x : ℚ => x) 16 (fun _ => ⟨0, 0⟩)).N ≤ 255 ↔ (16 : Int) ≤ 15) ∧
    ((SquareConstellation.create (fun x : ℚ => x) 16 (fun _ => ⟨0, 0⟩)).N ≤ 255 →
      ∀ fuel, (SquareConstellation.create (fun x : ℚ => x) 16 (fun _ => ⟨0, 0⟩)).N.toNat < fuel →
        ∃ r, GetNearestSymbol (fun x : ℚ => x)
            (SquareConstellation.create (fun x : ℚ => x) 16 (fun _ => ⟨0, 0⟩)) ⟨1 / 2, 1 / 3⟩ fuel = some r ∧
          GetNearestSymbol_visits (fun x : ℚ => x)
            (SquareConstellation.create (fun x : ℚ => x) 16 (fun _ => ⟨0, 0⟩)) ⟨1 / 2, 1 / 3⟩ fuel =
            some (r, List.range
              (SquareConstellation.create (fun x : ℚ => x) 16 (fun _ => ⟨0, 0⟩)).N.toNat) ∧
          (r : Int) < (SquareConstellation.create (fun x : ℚ => x) 16 (fun _ => ⟨0, 0⟩)).N) ∧
    ((16 : Int) ≤ 16 →
      (∀ i : Nat, (to_uint8 i : Int) <
        (SquareConstellation.create (fun x : ℚ => x) 16 (fun _ => ⟨0, 0⟩)).N) ∧
      ∀ fuel, GetNearestSymbol (fun x : ℚ => x)
        (SquareConstellation.create (fun x : ℚ => x) 16 (fun _ => ⟨0, 0⟩)) ⟨1 / 2, 1 / 3⟩ fuel = none))) :=
  ⟨⟨by decide,
      demapper_scan_termination (fun x : ℚ => x) 4 (fun _ => ⟨0, 0⟩) ⟨1 / 2, 1 / 3⟩
        (by decide)⟩,
    ⟨by decide,
      demapper_scan_termination (fun x : ℚ => x) 16 (fun _ => ⟨0, 0⟩) ⟨1 / 2, 1 / 3⟩
        (by decide)⟩⟩

namespace Vit

/-- A path stays among the `NUMSTATES` states. -/
theorem path_state_lt (p0 : Nat) (bits : Nat → Nat) (hp : p0 < 4) :
    ∀ k, (∀ j < k, bits j ≤ 1) → path_state p0 bits k < 4
  | 0, _ => hp
  | k + 1, h => by
    have hb := h k (by omega)
    have e : (2 : Nat) ^ (K - 1) = 4 := rfl
    simp only [path_state, e]
    omega

/-- The state after `k` steps depends on the first `k` bits only. -/
theorem path_state_congr (p0 : Nat) (b b' : Nat → Nat) :
    ∀ k, (∀ j < k, b j = b' j) → path_state p0 b k = path_state p0 b' k
  | 0, _ => rfl
  | k + 1, h => by
    simp only [path_state]
    rw [path_state_congr p0 b b' k (fun j hj => h j (by omega)), h k (by omega)]

/-- The cost of `t` steps depends on the first `t` bits only. -/
theorem path_cost_congr (init : Nat → Int) (cost : Nat → Nat → Nat → Int) (p0 : Nat)
    (b b' : Nat → Nat) (t : Nat) (h : ∀ j < t, b j = b' j) :
    path_cost init cost p0 b t = path_cost init cost p0 b' t := by
  unfold path_cost
  congr 2
  apply List.map_congr_left
  intro k hk
  rw [List.mem_range] at hk
  rw [path_state_congr p0 b b' k (fun j hj => h j (by omega)), h k hk]

/-- One more step of a path. -/
theorem path_cost_succ (init : Nat → Int) (cost : Nat → Nat → Nat → Int) (p0 : Nat)
    (b : Nat → Nat) (t : Nat) :
    path_cost init cost p0 b (t + 1) =
      path_cost init cost p0 b t + cost t (path_state p0 b t) (b t) := by
  unfold path_cost
  rw [List.range_succ, List.map_append, List.sum_append]
  simp only [List.map_cons, List.map_nil, List.sum_cons, List.sum_nil, add_zero]
  ring

/-- One symbol without wraparound and without renormalization: every new state metric is
the smaller of the two sums (predecessor metric + step cost). -/
theorem update_step_min (s : Nat) (syms : Nat → Int) (vp : vitdec_t)
    (hne : vp.old_metrics ≠ vp.new_metrics)
    (hfit : ∀ i < NUMSTATES / 2, ∀ c ∈ BFLY_candidates i s syms vp,
      -SHRT_MAX - 1 ≤ c ∧ c ≤ SHRT_MAX)
    (hnr : ¬ (buf (butterflies s syms vp) (butterflies s syms vp).new_metrics 0 >
      RENORMALIZE_THRESHOLD)) :
    ∀ n < 4,
      buf (update_step syms (vp, vp.curr_decoded_bit) s).1
          (update_step syms (vp, vp.curr_decoded_bit) s).1.old_metrics n =
        min
          (buf vp vp.old_metrics (n / 2) +
            step_cost (fun i => BFLY_metric i s syms vp) (BFLY_max vp) (n / 2) (n % 2))
          (buf vp vp.old_metrics (n / 2 + 2) +
            step_cost (fun i => BFLY_metric i s syms vp) (BFLY_max vp) (n / 2 + 2) (n % 2)) := by
  have hc0 := hfit 0 (by decide)
  have hc1 := hfit 1 (by decide)
  simp only [BFLY_candidates, half_states, List.mem_cons, List.mem_singleton,
    List.not_mem_nil, or_false, forall_eq_or_imp, forall_eq, SHRT_MAX, Nat.zero_add,
    Nat.reduceAdd] at hc0 hc1
  generalize hcc0 : BFLY_metric 0 s syms vp = c0 at *
  generalize hcc1 : BFLY_metric 1 s syms vp = c1 at *
  generalize hmx : BFLY_max vp = mx at *
  obtain ⟨f0, f1, f2, f3⟩ := hc0
  obtain ⟨g0, g1, g2, g3⟩ := hc1
  obtain ⟨a1, a2, a3, a4, a5, a6, a7, a8, a9⟩ :=
    BFLY_eval 0 s vp.curr_decoded_bit syms vp c0 mx (buf vp vp.old_metrics 0)
      (buf vp vp.old_metrics 2) hne hcc0 hmx rfl rfl (by omega) (by omega) (by omega) (by omega)
  generalize hv1 : BFLY 0 s syms vp vp.curr_decoded_bit = vp1 at *
  have hne1 : vp1.old_metrics ≠ vp1.new_metrics := by rw [a1, a2]; exact hne
  have hc1' : BFLY_metric 1 s syms vp1 = c1 := by rw [BFLY_metric_congr _ _ _ _ _ a3, hcc1]
  have hmx' : BFLY_max vp1 = mx := by rw [BFLY_max_congr _ _ a4, hmx]
  have hA1 : buf vp1 vp1.old_metrics 1 = buf vp vp.old_metrics 1 := by rw [a1, a7]
  have hB1 : buf vp1 vp1.old_metrics (1 + 2) = buf vp vp.old_metrics 3 := by rw [a1, a7]
  obtain ⟨b1, b2, b3, b4, b5, b6, b7, b8, b9⟩ :=
    BFLY_eval 1 s vp.curr_decoded_bit syms vp1 c1 mx _ _ hne1 hc1' hmx' hA1 hB1
      (by omega) (by omega) (by omega) (by omega)
  generalize hv2 : BFLY 1 s syms vp1 vp.curr_decoded_bit = vp2 at *
  have hfold : (List.range (NUMSTATES / 2)).foldl
      (fun v i => BFLY i s syms v vp.curr_decoded_bit) vp = vp2 := by
    simp only [half_states, range_two, List.foldl_cons, List.foldl_nil, hv1, hv2]
  have hbf : butterflies s syms vp = vp2 := hfold
  rw [hbf] at hnr
  have n2 : vp2.new_metrics = vp.new_metrics := by rw [b2, a2]
  have hy : buf vp2 vp2.new_metrics = write (write (write (write (buf vp vp.new_metrics) (2 * 0)
      (if buf vp vp.old_metrics 0 + c0 - (buf vp vp.old_metrics 2 + (mx - c0)) > 0
        then buf vp vp.old_metrics 2 + (mx - c0) else buf vp vp.old_metrics 0 + c0))
      (2 * 0 + 1)
      (if buf vp vp.old_metrics 0 + (mx - c0) - (buf vp vp.old_metrics 2 + c0) > 0
        then buf vp vp.old_metrics 2 + c0 else buf vp vp.old_metrics 0 + (mx - c0)))
      (2 * 1)
      (if buf vp vp.old_metrics 1 + c1 - (buf vp vp.old_metrics 3 + (mx - c1)) > 0
        then buf vp vp.old_metrics 3 + (mx - c1) else buf vp vp.old_metrics 1 + c1))
      (2 * 1 + 1)
      (if buf vp vp.old_metrics 1 + (mx - c1) - (buf vp vp.old_metrics 3 + c1) > 0
        then buf vp vp.old_metrics 3 + c1 else buf vp vp.old_metrics 1 + (mx - c1)) := by
    rw [n2, ← a2, b8, a2, a8]
  rw [update_step_renormalize, hfold, (renormalize_spec _ _).2 hnr, hy]
  have e2 : (2 : Nat) ^ (K - 2) = 2 := rfl
  intro n hn
  interval_cases n
  · simp only [write, step_cost, e2, hcc0, hcc1]
    simp
    split_ifs with h
    · exact (min_eq_right (by omega)).symm
    · exact (min_eq_left (by omega)).symm
  · simp only [write, step_cost, e2, hcc0, hcc1]
    simp
    split_ifs with h
    · exact (min_eq_right (by omega)).symm
    · exact (min_eq_left (by omega)).symm
  · simp only [write, step_cost, e2, hcc0, hcc1]
    simp
    split_ifs with h
    · exact (min_eq_right (by omega)).symm
    · exact (min_eq_left (by omega)).symm
  · simp only [write, step_cost, e2, hcc0, hcc1]
    simp
    split_ifs with h
    · exact (min_eq_right (by omega)).symm
    · exact (min_eq_left (by omega)).symm

end Vit

namespace Vit

/-- The path metrics after `t` symbols without wraparound and without renormalization are
the least path costs. -/
theorem run_path_min (syms : Nat → Int) (vp : vitdec_t)
    (hne : vp.old_metrics ≠ vp.new_metrics) :
    ∀ t : Nat, candidates_fit vp syms t → no_renormalization vp syms t →
      ∀ n < 4,
        (∀ p0 bits, p0 < 4 → (∀ k < t, bits k ≤ 1) → path_state p0 bits t = n →
          buf (update_viterbi_blk_scalar vp syms (t : Int))
              (update_viterbi_blk_scalar vp syms (t : Int)).old_metrics n ≤
            path_cost (buf vp vp.old_metrics)
              (fun k => step_cost
                (fun i => BFLY_metric i k syms (update_viterbi_blk_scalar vp syms (k : Int)))
                (BFLY_max (update_viterbi_blk_scalar vp syms (k : Int)))) p0 bits t) ∧
        ∃ p0 bits, p0 < 4 ∧ (∀ k < t, bits k ≤ 1) ∧ path_state p0 bits t = n ∧
          buf (update_viterbi_blk_scalar vp syms (t : Int))
              (update_viterbi_blk_scalar vp syms (t : Int)).old_metrics n =
            path_cost (buf vp vp.old_metrics)
              (fun k => step_cost
                (fun i => BFLY_metric i k syms (update_viterbi_blk_scalar vp syms (k : Int)))
                (BFLY_max (update_viterbi_blk_scalar vp syms (k : Int)))) p0 bits t := by
  intro t
  induction t with
  | zero =>
    intro _ _ n hn
    have e0 : update_viterbi_blk_scalar vp syms ((0 : Nat) : Int) = vp := rfl
    rw [e0]
    constructor
    · intro p0 bits _ _ hp
      simp only [path_state] at hp
      subst hp
      simp [path_cost]
    · exact ⟨n, fun _ => 0, hn, fun _ _ => Nat.zero_le _, rfl, by simp [path_cost]⟩
  | succ t ih =>
    intro hfit hnr n hn
    have ih' := ih (fun k hk => hfit k (by omega)) (fun k hk => hnr k (by omega))
    have hfit_t := hfit t (by omega)
    have hnr_t := hnr t (by omega)
    obtain ⟨r2, -⟩ := (run_frame syms vp hne t).2
    obtain ⟨q1, q3, -⟩ := run_decisions syms vp t
    have e1 := (update_blk_succ vp syms t).1
    have e2 := (update_blk_succ vp syms t).2
    generalize hst : (List.range t).foldl (update_step syms) (vp, vp.curr_decoded_bit) = st at *
    obtain ⟨vq, d⟩ := st
    simp only at e1 e2 q1
    have hd : d = vq.curr_decoded_bit := by rw [q1, ← e2, q3]
    subst hd
    subst e2
    have hstep := update_step_min t syms _ r2 hfit_t hnr_t n hn
    rw [← e1] at hstep
    have e4 : (2 : Nat) ^ (K - 1) = 4 := rfl
    constructor
    · intro p0 bits hp0 hb hp
      have hlt := path_state_lt p0 bits hp0 t (fun j hj => hb j (by omega))
      have hbt := hb t (by omega)
      obtain ⟨lo, -⟩ := ih' (path_state p0 bits t) hlt
      have hlo := lo p0 bits hp0 (fun k hk => hb k (by omega)) rfl
      rw [path_cost_succ, hstep]
      simp only [path_state, e4] at hp
      have hcase : path_state p0 bits t = n / 2 ∨ path_state p0 bits t = n / 2 + 2 := by omega
      have hbit : bits t = n % 2 := by omega
      rw [hbit]
      rcases hcase with hc | hc
      · rw [hc] at hlo ⊢
        exact le_trans (min_le_left _ _) (by linarith)
      · rw [hc] at hlo ⊢
        exact le_trans (min_le_right _ _) (by linarith)
    · have hmin : ∃ p, (p = n / 2 ∨ p = n / 2 + 2) ∧
          buf (update_viterbi_blk_scalar vp syms ((t + 1 : Nat) : Int))
            (update_viterbi_blk_scalar vp syms ((t + 1 : Nat) : Int)).old_metrics n =
          buf (update_viterbi_blk_scalar vp syms (t : Int))
              (update_viterbi_blk_scalar vp syms (t : Int)).old_metrics p +
            step_cost
              (fun i => BFLY_metric i t syms (update_viterbi_blk_scalar vp syms (t : Int)))
              (BFLY_max (update_viterbi_blk_scalar vp syms (t : Int))) p (n % 2) := by
        rw [hstep]
        rcases min_choice
          (buf (update_viterbi_blk_scalar vp syms (t : Int))
              (update_viterbi_blk_scalar vp syms (t : Int)).old_metrics (n / 2) +
            step_cost
              (fun i => BFLY_metric i t syms (update_viterbi_blk_scalar vp syms (t : Int)))
              (BFLY_max (update_viterbi_blk_scalar vp syms (t : Int))) (n / 2) (n % 2))
          (buf (update_viterbi_blk_scalar vp syms (t : Int))
              (update_viterbi_blk_scalar vp syms (t : Int)).old_metrics (n / 2 + 2) +
            step_cost
              (fun i => BFLY_metric i t syms (update_viterbi_blk_scalar vp syms (t : Int)))
              (BFLY_max (update_viterbi_blk_scalar vp syms (t : Int))) (n / 2 + 2) (n % 2))
          with h | h
        · exact ⟨n / 2, Or.inl rfl, h⟩
        · exact ⟨n / 2 + 2, Or.inr rfl, h⟩
      obtain ⟨p, hp, hpe⟩ := hmin
      have hp4 : p < 4 := by omega
      obtain ⟨-, p0, bits, hp0, hb, hps, hcost⟩ := ih' p hp4
      have hcongr : ∀ j < t, (fun k => if k = t then n % 2 else bits k) j = bits j := by
        intro j hj
        simp only
        rw [if_neg (by omega)]
      refine ⟨p0, fun k => if k = t then n % 2 else bits k, hp0, ?_, ?_, ?_⟩
      · intro k hk
        simp only
        split_ifs
        · omega
        · exact hb k (by omega)
      · simp only [path_state, e4, if_true]
        rw [path_state_congr p0 _ bits t hcongr, hps]
        omega
      · rw [path_cost_succ, path_cost_congr _ _ p0 _ bits t hcongr,
          path_state_congr p0 _ bits t hcongr, hps, ← hcost, hpe]
        simp only [if_true]

/-- Within the soft range, the two costs of a butterfly add up to `max`: the cost
`max - metric` is the distance from the complemented branch symbols. -/
theorem complement_cost (lo hi : Int) (i k : Nat) (syms : Nat → Int) (vp : vitdec_t)
    (hle : lo ≤ hi) (hstat : 2 * (hi - lo) ≤ 32767)
    (htab : ∀ j < 2, vp.BranchTable j i = lo ∨ vp.BranchTable j i = hi)
    (hme : vp.soft_decision_max_error = hi - lo)
    (hsym : ∀ j < 2, lo ≤ syms (k * 2 + j) ∧ syms (k * 2 + j) ≤ hi) :
    BFLY_max vp - BFLY_metric i k syms vp =
      |complement lo hi (vp.BranchTable 0 i) - syms (k * 2)| +
      |complement lo hi (vp.BranchTable 1 i) - syms (k * 2 + 1)| := by
  have hmx : BFLY_max vp = 2 * (hi - lo) := by
    rw [BFLY_max_bound vp (by rw [hme]; omega), hme]
  have s0 := hsym 0 (by omega)
  have s1 := hsym 1 (by omega)
  rw [Nat.add_zero] at s0
  have b0 : -(hi - lo) ≤ vp.BranchTable 0 i - syms (k * 2) ∧
      vp.BranchTable 0 i - syms (k * 2) ≤ hi - lo := by
    rcases htab 0 (by omega) with h | h <;> rw [h] <;> omega
  have b1 : -(hi - lo) ≤ vp.BranchTable 1 i - syms (k * 2 + 1) ∧
      vp.BranchTable 1 i - syms (k * 2 + 1) ≤ hi - lo := by
    rcases htab 1 (by omega) with h | h <;> rw [h] <;> omega
  rw [hmx, BFLY_metric_bound i k syms vp (hi - lo) hstat b0 b1, ← iabs_eq_abs, ← iabs_eq_abs]
  have key : ∀ B s : Int, (B = lo ∨ B = hi) → lo ≤ s → s ≤ hi →
      iabs (B - s) + iabs (complement lo hi B - s) = hi - lo := by
    intro B s hB h1 h2
    unfold complement iabs
    rcases hB with h | h <;> subst h <;> split_ifs <;> omega
  have k0 := key _ _ (htab 0 (by omega)) s0.1 s0.2
  have k1 := key _ _ (htab 1 (by omega)) s1.1 s1.2
  omega

end Vit

open Vit in
/-- C35: Viterbi optimality of the path metrics.  Let `update_viterbi_blk_scalar` process
`t` symbols after `init_viterbi`, with no `int16` wraparound (every candidate metric fits
`COMPUTETYPE`) and no renormalization subtraction.  Then for every state `n`,
`old_metrics[n]` is the minimum over all length-`t` trellis paths ending in `n` of the
initial metric of the path's first state plus the sum of its branch costs: it is at most the
cost of every such path, and some such path has exactly that cost.  A path is a first state
`p0` and bits `bits k ≤ 1`; a step from state `p` to `((2p) mod 2^(K-1)) + b` at symbol `k`
costs `metric_i` if `(p < 2^(K-2)) == (b == 0)` and `max - metric_i` otherwise, with
`i = p mod 2^(K-2)` and `metric_i`, `max` the values `BFLY` computes at that symbol.
And whenever the branch table holds the soft levels `lo ≤ hi`, `soft_decision_max_error`
is `hi - lo`, `CODE_RATE * (hi - lo)` fits `COMPUTETYPE` and the soft inputs are within
`[lo, hi]`, the cost `max - metric_i` equals the sum over `j` of
`|complement(Branch[j][i]) - sym[j]|`, where `complement` swaps `lo` and `hi`. -/
theorem path_metric_optimality (vp : vitdec_t) (starting_state : Int) (syms : Nat → Int)
    (t : Nat)
    (hfit : candidates_fit (init_viterbi vp starting_state) syms t)
    (hnr : no_renormalization (init_viterbi vp starting_state) syms t) :
    (∀ n < 2 ^ (K - 1),
      (∀ p0 bits, p0 < 2 ^ (K - 1) → (∀ k < t, bits k ≤ 1) → path_state p0 bits t = n →
        buf (update_viterbi_blk_scalar (init_viterbi vp starting_state) syms (t : Int))
            (update_viterbi_blk_scalar (init_viterbi vp starting_state) syms
              (t : Int)).old_metrics n ≤
          path_cost
            (buf (init_viterbi vp starting_state) (init_viterbi vp starting_state).old_metrics)
            (fun k => step_cost
              (fun i => BFLY_metric i k syms
                (update_viterbi_blk_scalar (init_viterbi vp starting_state) syms (k : Int)))
              (BFLY_max
                (update_viterbi_blk_scalar (init_viterbi vp starting_state) syms (k : Int))))
            p0 bits t) ∧
      ∃ p0 bits, p0 < 2 ^ (K - 1) ∧ (∀ k < t, bits k ≤ 1) ∧ path_state p0 bits t = n ∧
        buf (update_viterbi_blk_scalar (init_viterbi vp starting_state) syms (t : Int))
            (update_viterbi_blk_scalar (init_viterbi vp starting_state) syms
              (t : Int)).old_metrics n =
          path_cost
            (buf (init_viterbi vp starting_state) (init_viterbi vp starting_state).old_metrics)
            (fun k => step_cost
              (fun i => BFLY_metric i k syms
                (update_viterbi_blk_scalar (init_viterbi vp starting_state) syms (k : Int)))
              (BFLY_max
                (update_viterbi_blk_scalar (init_viterbi vp starting_state) syms (k : Int))))
            p0 bits t) ∧
    ∀ lo hi : Int, lo ≤ hi → (CODE_RATE : Int) * (hi - lo) ≤ SHRT_MAX →
      (∀ j < CODE_RATE, ∀ i < NUMSTATES / 2,
        vp.BranchTable j i = lo ∨ vp.BranchTable j i = hi) →
      vp.soft_decision_max_error = hi - lo →
      (∀ k, lo ≤ syms k ∧ syms k ≤ hi) →
      ∀ k : Nat, ∀ i < NUMSTATES / 2,
        BFLY_max (update_viterbi_blk_scalar (init_viterbi vp starting_state) syms (k : Int)) -
          BFLY_metric i k syms
            (update_viterbi_blk_scalar (init_viterbi vp starting_state) syms (k : Int)) =
        ((List.range CODE_RATE).map (fun j =>
          |complement lo hi
              ((update_viterbi_blk_scalar (init_viterbi vp starting_state) syms
                (k : Int)).BranchTable j i) -
            syms (k * CODE_RATE + j)|)).sum := by
  obtain ⟨f1, f2, f3, f4, -⟩ := init_viterbi_fields vp starting_state
  have hne : (init_viterbi vp starting_state).old_metrics ≠
      (init_viterbi vp starting_state).new_metrics := by rw [f1, f2]; decide
  refine ⟨run_path_min syms (init_viterbi vp starting_state) hne t hfit hnr, ?_⟩
  intro lo hi hle hstat htab hme hsym k i hi2
  obtain ⟨t1, t2⟩ := run_table syms (init_viterbi vp starting_state) k
  have hS : SHRT_MAX = 32767 := rfl
  have hC : ((CODE_RATE : Nat) : Int) = 2 := rfl
  rw [hS, hC] at hstat
  rw [CODE_RATE_eq] at htab ⊢
  rw [half_states] at htab hi2
  have e := complement_cost lo hi i k syms
    (update_viterbi_blk_scalar (init_viterbi vp starting_state) syms (k : Int)) hle hstat
    (fun j hj => by rw [t1, f3]; exact htab j hj i hi2) (by rw [t2, f4]; exact hme)
    (fun j _ => hsym _)
  rw [e]
  simp [range_two]

open Vit in
/-- C35 at a concrete input: six symbols of an unterminated noise-free frame at the soft
levels -127 and 127, for which the cost `max - metric_i` is the distance from the
complemented branch symbols. -/
theorem path_metric_optimality_witness :
    candidates_fit (init_viterbi
      (create_viterbi (fun j => if j = 0 then 7 else 5) 8 127 (-127) raw_example) 0)
          erased_example 6 ∧
    no_renormalization (init_viterbi
      (create_viterbi (fun j => if j = 0 then 7 else 5) 8 127 (-127) raw_example) 0)
          erased_example 6 ∧
    ((∀ n < 2 ^ (K - 1),
      (∀ p0 bits, p0 < 2 ^ (K - 1) → (∀ k < 6, bits k ≤ 1) → path_state p0 bits 6 = n →
        buf (update_viterbi_blk_scalar (init_viterbi
          (create_viterbi (fun j => if j = 0 then 7 else 5) 8 127 (-127) raw_example) 0)
              erased_example ((6 : Nat) : Int))
            (update_viterbi_blk_scalar (init_viterbi
          (create_viterbi (fun j => if j = 0 then 7 else 5) 8 127 (-127) raw_example) 0)
              erased_example
              ((6 : Nat) : Int)).old_metrics n ≤
          path_cost
            (buf (init_viterbi
          (create_viterbi (fun j => if j = 0 then 7 else 5) 8 127 (-127) raw_example) 0)
              (init_viterbi
          (create_viterbi (fun j => if j = 0 then 7 else 5) 8 127 (-127) raw_example)
              0).old_metrics)
            (fun k => step_cost
              (fun i => BFLY_metric i k erased_example
                (update_viterbi_blk_scalar (init_viterbi
          (create_viterbi (fun j => if j = 0 then 7 else 5) 8 127 (-127) raw_example) 0)
              erased_example (k : Int)))
              (BFLY_max
                (update_viterbi_blk_scalar (init_viterbi
          (create_viterbi (fun j => if j = 0 then 7 else 5) 8 127 (-127) raw_example) 0)
              erased_example (k : Int))))
            p0 bits 6) ∧
      ∃ p0 bits, p0 < 2 ^ (K - 1) ∧ (∀ k < 6, bits k ≤ 1) ∧ path_state p0 bits 6 = n ∧
        buf (update_viterbi_blk_scalar (init_viterbi
          (create_viterbi (fun j => if j = 0 then 7 else 5) 8 127 (-127) raw_example) 0)
              erased_example ((6 : Nat) : Int))
            (update_viterbi_blk_scalar (init_viterbi
          (create_viterbi (fun j => if j = 0 then 7 else 5) 8 127 (-127) raw_example) 0)
              erased_example
              ((6 : Nat) : Int)).old_metrics n =
          path_cost
            (buf (init_viterbi
          (create_viterbi (fun j => if j = 0 then 7 else 5) 8 127 (-127) raw_example) 0)
              (init_viterbi
          (create_viterbi (fun j => if j = 0 then 7 else 5) 8 127 (-127) raw_example)
              0).old_metrics)
            (fun k => step_cost
              (fun i => BFLY_metric i k erased_example
                (update_viterbi_blk_scalar (init_viterbi
          (create_viterbi (fun j => if j = 0 then 7 else 5) 8 127 (-127) raw_example) 0)
              erased_example (k : Int)))
              (BFLY_max
                (update_viterbi_blk_scalar (init_viterbi
          (create_viterbi (fun j => if j = 0 then 7 else 5) 8 127 (-127) raw_example) 0)
              erased_example (k : Int))))
            p0 bits 6) ∧
    ∀ lo hi : Int, lo ≤ hi → (CODE_RATE : Int) * (hi - lo) ≤ SHRT_MAX →
      (∀ j < CODE_RATE, ∀ i < NUMSTATES / 2,
        (create_viterbi (fun j => if j = 0 then 7 else 5) 8 127 (-127) raw_example).BranchTable j
            i = lo ∨ (create_viterbi (fun j => if j = 0 then 7 else 5) 8 127 (-127)
                raw_example).BranchTable j i = hi) →
      (create_viterbi (fun j => if j = 0 then 7 else 5) 8 127 (-127)
        raw_example).soft_decision_max_error = hi - lo →
      (∀ k, lo ≤ erased_example k ∧ erased_example k ≤ hi) →
      ∀ k : Nat, ∀ i < NUMSTATES / 2,
        BFLY_max (update_viterbi_blk_scalar (init_viterbi
          (create_viterbi (fun j => if j = 0 then 7 else 5) 8 127 (-127) raw_example) 0)
              erased_example (k : Int)) -
          BFLY_metric i k erased_example
            (update_viterbi_blk_scalar (init_viterbi
          (create_viterbi (fun j => if j = 0 then 7 else 5) 8 127 (-127) raw_example) 0)
              erased_example (k : Int)) =
        ((List.range CODE_RATE).map (fun j =>
          |complement lo hi
              ((update_viterbi_blk_scalar (init_viterbi
          (create_viterbi (fun j => if j = 0 then 7 else 5) 8 127 (-127) raw_example) 0)
              erased_example
                (k : Int)).BranchTable j i) -
            erased_example (k * CODE_RATE + j)|)).sum) ∧
    (∀ k : Nat, ∀ i < NUMSTATES / 2,
        BFLY_max (update_viterbi_blk_scalar (init_viterbi
          (create_viterbi (fun j => if j = 0 then 7 else 5) 8 127 (-127) raw_example) 0)
              erased_example (k : Int)) -
          BFLY_metric i k erased_example
            (update_viterbi_blk_scalar (init_viterbi
          (create_viterbi (fun j => if j = 0 then 7 else 5) 8 127 (-127) raw_example) 0)
              erased_example (k : Int)) =
        ((List.range CODE_RATE).map (fun j =>
          |complement (-127) 127
              ((update_viterbi_blk_scalar (init_viterbi
          (create_viterbi (fun j => if j = 0 then 7 else 5) 8 127 (-127) raw_example) 0)
              erased_example
                (k : Int)).BranchTable j i) -
            erased_example (k * CODE_RATE + j)|)).sum) :=
  ⟨by unfold candidates_fit; decide!, by unfold no_renormalization; decide!,
    path_metric_optimality
      (create_viterbi (fun j => if j = 0 then 7 else 5) 8 127 (-127) raw_example) 0
      erased_example 6 (by unfold candidates_fit; decide!)
      (by unfold no_renormalization; decide!),
    (path_metric_optimality
      (create_viterbi (fun j => if j = 0 then 7 else 5) 8 127 (-127) raw_example) 0
      erased_example 6 (by unfold candidates_fit; decide!)
      (by unfold no_renormalization; decide!)).2 (-127) 127 (by decide) (by decide)
      (by decide) (by decide)
      (fun k => by
        unfold erased_example soft_symbols soft_symbol
        split_ifs <;> decide)⟩

/-! ## Construction with buffer size 0 -/

namespace Sync

variable {F PF SC VD CR : Type} [LinearOrderedField F]

/-- The store of `process_decoder_symbol`: the slot `descramble_buffer[encoded_bytes]`
(cleared first at a byte boundary) receives the nibble of the demapped symbol. -/
theorem decoder_symbol_store (E : Externals F PF SC VD CR) (fuel : Nat)
    (fs fs1 : FrameSynchroniser F PF SC VD CR) (IQ : complex F)
    (h : process_decoder_symbol E fuel fs IQ = some fs1) :
    ∃ sym, symbol_to_bits E fuel
        (IQ.mul (fs.preamble_mixers fs.preamble_state.selected_phase)) = some sym ∧
      fs1.descramble_buffer fs.encoded_bytes =
        to_uint8 ((if fs.encoded_bits = 0 then 0 else fs.descramble_buffer fs.encoded_bytes) |||
          (sym <<< (4 - fs.encoded_bits).toNat)) := by
  unfold process_decoder_symbol at h
  cases hs : symbol_to_bits E fuel
      (IQ.mul (fs.preamble_mixers fs.preamble_state.selected_phase)) with
  | none => simp [hs] at h
  | some sym =>
    refine ⟨sym, rfl, ?_⟩
    simp only [hs] at h
    split_ifs at h <;> cases h <;> simp [write, *]

/-- A synchroniser whose `nb_buffer` is 0 accepts no block size: started in `WAIT_PREAMBLE`,
it never enters `WAIT_PAYLOAD` and returns `NONE`, `PREAMBLE_FOUND` or `BLOCK_SIZE_ERR`. -/
theorem trace_zero_buffer (E : Externals F PF SC VD CR) (fuel : Nat)
    (fs : FrameSynchroniser F PF SC VD CR) (input : Nat → complex F)
    (h0 : fs.state = State.WAIT_PREAMBLE) (hB : fs.nb_buffer = 0) :
    ∀ (n : Nat) (fs' : FrameSynchroniser F PF SC VD CR) (T : List (ProcessResult × State)),
      trace E fuel fs input n = some (fs', T) →
      fs'.state ≠ State.WAIT_PAYLOAD ∧
      ∀ e ∈ T, e.1 = ProcessResult.NONE ∨ e.1 = ProcessResult.PREAMBLE_FOUND ∨
        e.1 = ProcessResult.BLOCK_SIZE_ERR := by
  have hstate : ∀ (n : Nat) (fs' : FrameSynchroniser F PF SC VD CR)
      (T : List (ProcessResult × State)), trace E fuel fs input n = some (fs', T) →
      fs'.state ≠ State.WAIT_PAYLOAD := by
    intro n fs' T h hs
    obtain ⟨i1, -, i3⟩ := trace_bounds E fuel fs input h0 (by omega) n fs' T h
    obtain ⟨-, a, b, c⟩ := i3 hs
    omega
  intro n
  induction n with
  | zero =>
    intro fs' T h
    refine ⟨hstate 0 fs' T h, ?_⟩
    simp only [trace, Option.some.injEq, Prod.mk.injEq] at h
    obtain ⟨-, rfl⟩ := h
    intro e he
    cases he
  | succ n ih =>
    intro fs' T h
    refine ⟨hstate (n + 1) fs' T h, ?_⟩
    obtain ⟨g1, T1, r, t1, t2, e⟩ := trace_succ_inv E fuel fs fs' input n T h
    obtain ⟨s1, r1⟩ := ih g1 T1 t1
    have s2 := hstate (n + 1) fs' T h
    obtain ⟨hall, hnext⟩ := process_step E fuel g1 fs' (input n) r t2
    subst e
    intro x hx
    rcases List.mem_append.mp hx with hx | hx
    · exact r1 x hx
    · simp only [List.mem_singleton] at hx
      subst hx
      cases hs : g1.state with
      | WAIT_PREAMBLE =>
        rw [hs] at hall
        rcases hall with h | h
        · exact Or.inl h
        · exact Or.inr (Or.inl h)
      | WAIT_BLOCK_SIZE =>
        rw [hs] at hall
        rcases hall with h | h | h
        · exact Or.inl h
        · rw [h] at hnext
          exact absurd hnext s2
        · exact Or.inr (Or.inr h)
      | WAIT_PAYLOAD => exact absurd hs s1

end Sync

open Sync in
/-- C16 (as amended): constructing a `FrameSynchroniser` with buffer size 0 does not fail.
The constructor checks none of its arguments: it yields a synchroniser in `WAIT_PREAMBLE`
with `nb_buffer == 0`, whose three buffers have no element.  That synchroniser is of no use
for decoding.  After any number `n` of calls of `process` (given fuel for the demapper scan):
`nb_buffer` is still 0, the state is not `WAIT_PAYLOAD`, and every result so far is `NONE`,
`PREAMBLE_FOUND` or `BLOCK_SIZE_ERR`.  The next call, made in `WAIT_PREAMBLE`, returns
`NONE` or `PREAMBLE_FOUND` and writes neither `descramble_buffer` nor `encoded_buffer`;
made in `WAIT_BLOCK_SIZE`, it returns `NONE` or `BLOCK_SIZE_ERR` and stores the nibble of
its symbol in `descramble_buffer[encoded_bytes]` (and writes the two buffers nowhere else),
where `0 ≤ encoded_bytes` is not below `nb_buffer`: the store is outside the buffer. -/
theorem zero_buffer_construction {F PF SC VD CR : Type} [LinearOrderedField F]
    (E : Externals F PF SC VD CR) (fuel : Nat) (_preamble _scrambler_code _crc8_poly : Nat)
    (raw : FrameSynchroniser F PF SC VD CR) (input : Nat → complex F) (n : Nat)
    (hN : E.QAM_Constellation_Size ≤ 255) (hf : E.QAM_Constellation_Size.toNat < fuel) :
    (FrameSynchroniser.create E _preamble _scrambler_code _crc8_poly 0 raw).state =
      State.WAIT_PREAMBLE ∧
    (FrameSynchroniser.create E _preamble _scrambler_code _crc8_poly 0 raw).nb_buffer = 0 ∧
    ∃ fs T, trace E fuel (FrameSynchroniser.create E _preamble _scrambler_code _crc8_poly 0 raw)
        input n = some (fs, T) ∧
      fs.nb_buffer = 0 ∧ fs.state ≠ State.WAIT_PAYLOAD ∧
      (∀ e ∈ T, e.1 = ProcessResult.NONE ∨ e.1 = ProcessResult.PREAMBLE_FOUND ∨
        e.1 = ProcessResult.BLOCK_SIZE_ERR) ∧
      ∃ fs' r, process E fuel fs (input n) = some (fs', r) ∧
        (fs.state = State.WAIT_PREAMBLE →
          (r = ProcessResult.NONE ∨ r = ProcessResult.PREAMBLE_FOUND) ∧
          fs'.descramble_buffer = fs.descramble_buffer ∧
          fs'.encoded_buffer = fs.encoded_buffer) ∧
        (fs.state = State.WAIT_BLOCK_SIZE →
          (r = ProcessResult.NONE ∨ r = ProcessResult.BLOCK_SIZE_ERR) ∧
          0 ≤ fs.encoded_bytes ∧ ¬ fs.encoded_bytes < fs.nb_buffer ∧
          (∃ sym, symbol_to_bits E fuel
              ((input n).mul (fs.preamble_mixers fs.preamble_state.selected_phase)) =
              some sym ∧
            fs'.descramble_buffer fs.encoded_bytes =
              to_uint8 ((if fs.encoded_bits = 0 then 0
                  else fs.descramble_buffer fs.encoded_bytes) |||
                (sym <<< (4 - fs.encoded_bits).toNat))) ∧
          ∀ k, k ≠ fs.encoded_bytes →
            fs'.descramble_buffer k = fs.descramble_buffer k ∧
            fs'.encoded_buffer k = fs.encoded_buffer k) := by
  refine ⟨rfl, rfl, ?_⟩
  obtain ⟨fs2, T2, ht2⟩ := trace_some E fuel
    (FrameSynchroniser.create E _preamble _scrambler_code _crc8_poly 0 raw) input hN hf (n + 1)
  obtain ⟨fs, T, r, ht, hp, hT⟩ := trace_succ_inv E fuel _ fs2 input n T2 ht2
  obtain ⟨i1, i2, -⟩ := trace_bounds E fuel
    (FrameSynchroniser.create E _preamble _scrambler_code _crc8_poly 0 raw) input rfl
    (le_of_eq rfl) n fs T ht
  have hnb : fs.nb_buffer = 0 := i1
  obtain ⟨z1, z2⟩ := trace_zero_buffer E fuel
    (FrameSynchroniser.create E _preamble _scrambler_code _crc8_poly 0 raw) input rfl rfl n fs T ht
  obtain ⟨y1, y2⟩ := trace_zero_buffer E fuel
    (FrameSynchroniser.create E _preamble _scrambler_code _crc8_poly 0 raw) input rfl rfl
    (n + 1) fs2 T2 ht2
  have hr := y2 (r, fs2.state) (by rw [hT]; simp)
  obtain ⟨hall, -⟩ := process_step E fuel fs fs2 (input n) r hp
  obtain ⟨-, w2, w3⟩ := process_writes E fuel fs fs2 (input n) r hp
  refine ⟨fs, T, ht, hnb, z1, z2, fs2, r, hp, fun hs => ?_, fun hs => ?_⟩
  · rw [hs] at hall
    exact ⟨hall, w2 hs⟩
  · rw [hs] at hall
    obtain ⟨-, a, -⟩ := i2 hs
    refine ⟨?_, a, by rw [hnb]; omega, ?_, w3⟩
    · rcases hall with h | h | h
      · exact Or.inl h
      · rcases hr with h' | h' | h' <;> rw [h] at h' <;> cases h'
      · exact Or.inr h
    · have hp2 := hp
      unfold process at hp2
      rw [hs] at hp2
      obtain ⟨fs1, h1, a1, -, -⟩ := await_buffers E fuel fs fs2 (input n) r (Or.inl hp2)
      obtain ⟨sym, e1, e2⟩ := decoder_symbol_store E fuel fs fs1 (input n) h1
      exact ⟨sym, e1, by rw [a1]; exact e2⟩

open Sync Standin in
/-- C16 (as amended) at a concrete input: the stand-in synchroniser constructed with buffer
size 0, after the eight symbols of a preamble, and the call for the ninth sample of a frame.
That call is made in `WAIT_BLOCK_SIZE` and stores `0x50` in `descramble_buffer[0]`; the
whole frame, which a synchroniser with a buffer decodes, ends in `BLOCK_SIZE_ERR`. -/
theorem zero_buffer_construction_witness :
    ((FrameSynchroniser.create externals 0xF9AFCD6D 0x8559 0xD5 0 raw).state =
      State.WAIT_PREAMBLE ∧
    (FrameSynchroniser.create externals 0xF9AFCD6D 0x8559 0xD5 0 raw).nb_buffer = 0 ∧
    ∃ fs T, trace externals 17 (FrameSynchroniser.create externals 0xF9AFCD6D 0x8559 0xD5 0 raw)
        (fun k => frame5.getD k (sample 0)) 8 = some (fs, T) ∧
      fs.nb_buffer = 0 ∧ fs.state ≠ State.WAIT_PAYLOAD ∧
      (∀ e ∈ T, e.1 = ProcessResult.NONE ∨ e.1 = ProcessResult.PREAMBLE_FOUND ∨
        e.1 = ProcessResult.BLOCK_SIZE_ERR) ∧
      ∃ fs' r, process externals 17 fs (frame5.getD 8 (sample 0)) = some (fs', r) ∧
        (fs.state = State.WAIT_PREAMBLE →
          (r = ProcessResult.NONE ∨ r = ProcessResult.PREAMBLE_FOUND) ∧
          fs'.descramble_buffer = fs.descramble_buffer ∧
          fs'.encoded_buffer = fs.encoded_buffer) ∧
        (fs.state = State.WAIT_BLOCK_SIZE →
          (r = ProcessResult.NONE ∨ r = ProcessResult.BLOCK_SIZE_ERR) ∧
          0 ≤ fs.encoded_bytes ∧ ¬ fs.encoded_bytes < fs.nb_buffer ∧
          (∃ sym, symbol_to_bits externals 17
              ((frame5.getD 8 (sample 0)).mul
                (fs.preamble_mixers fs.preamble_state.selected_phase)) = some sym ∧
            fs'.descramble_buffer fs.encoded_bytes =
              to_uint8 ((if fs.encoded_bits = 0 then 0
                  else fs.descramble_buffer fs.encoded_bytes) |||
                (sym <<< (4 - fs.encoded_bits).toNat))) ∧
          ∀ k, k ≠ fs.encoded_bytes →
            fs'.descramble_buffer k = fs.descramble_buffer k ∧
            fs'.encoded_buffer k = fs.encoded_buffer k)) ∧
    (run externals 17 (FrameSynchroniser.create externals 0xF9AFCD6D 0x8559 0xD5 0 raw)
        (frame5.take 8)).map
        (fun o => (o.1.state, o.1.nb_buffer, o.1.encoded_bits, o.1.encoded_bytes,
          o.1.descramble_buffer 0)) =
      some (State.WAIT_BLOCK_SIZE, 0, 0, 0, 170) ∧
    (run externals 17 (FrameSynchroniser.create externals 0xF9AFCD6D 0x8559 0xD5 0 raw)
        (frame5.take 9)).map
        (fun o => (o.1.state, o.1.nb_buffer, o.1.encoded_bits, o.1.encoded_bytes,
          o.1.descramble_buffer 0)) =
      some (State.WAIT_BLOCK_SIZE, 0, 4, 0, 0x50) ∧
    (run externals 17 (FrameSynchroniser.create externals 0xF9AFCD6D 0x8559 0xD5 0 raw)
        frame5).map (fun o => events o.2) =
      some [ProcessResult.PREAMBLE_FOUND, ProcessResult.BLOCK_SIZE_ERR] ∧
    (run externals 17 (FrameSynchroniser.create externals 0xF9AFCD6D 0x8559 0xD5 1024 raw)
        frame5).map (fun o => events o.2) =
      some [ProcessResult.PREAMBLE_FOUND, ProcessResult.BLOCK_SIZE_OK,
        ProcessResult.PAYLOAD_OK] :=
  ⟨zero_buffer_construction externals 17 0xF9AFCD6D 0x8559 0xD5 raw
      (fun k => frame5.getD k (sample 0)) 8 (by decide) (by decide),
    by decide!, by decide!, by decide!, by decide!⟩

open Sync Standin in
/-- C16 fails on the code: the constructor called with buffer size 0 does not fail.  It
yields a synchroniser (in `WAIT_PREAMBLE`, `nb_buffer == 0`) that takes calls: fed the eight
symbols of the preamble it returns `NONE` seven times and then `PREAMBLE_FOUND`, and is in
`WAIT_BLOCK_SIZE`. -/
theorem zero_buffer_construction_succeeds :
    (FrameSynchroniser.create externals 0xF9AFCD6D 0x8559 0xD5 0 raw).state =
      State.WAIT_PREAMBLE ∧
    (run externals 17 (FrameSynchroniser.create externals 0xF9AFCD6D 0x8559 0xD5 0 raw)
        (frame5.take 8)).map (fun o => (o.2.map Prod.fst, o.1.state, o.1.nb_buffer)) =
      some ([ProcessResult.NONE, ProcessResult.NONE, ProcessResult.NONE, ProcessResult.NONE,
        ProcessResult.NONE, ProcessResult.NONE, ProcessResult.NONE,
        ProcessResult.PREAMBLE_FOUND], State.WAIT_BLOCK_SIZE, 0) := by
  decide!
